import Mathlib

/-!
# GK20A GPU memory management: mapped-buffer registry and mapping engine

A shallow embedding of `drivers/gpu/nvgpu/gk20a/mm_gk20a.c`.

* Machine integers are natural numbers; `u64`/`u32` wrap-around is written
  out with `% 2^64` / `% 2^32` where the source can overflow.
* A pointer to a `mapped_buffer_node` is modelled by the node's value; the
  red-black tree `vm->mapped_buffers` is the uncoloured binary tree of those
  values.
* Calls into other files of the kernel appear as parameters (`Gk20a`) or as
  definitions whose doc comment says what they are modelled from.
-/

namespace Gk20aMm

/-! ## Error codes and machine words -/

def EINVAL : Int := 22
def ENOMEM : Int := 12
def ENOSYS : Int := 38
def EBUSY : Int := 16

def U32 : Nat := 2 ^ 32
def U64 : Nat := 2 ^ 64

/-- The value a `u64` expression keeps after wrap-around. -/
def u64 (x : Nat) : Nat := x % U64

/-- The value a `u32` expression keeps after truncation. -/
def u32 (x : Nat) : Nat := x % U32

/-- The value of a `u64` bit pattern read as `s64` (two's complement). -/
def s64 (x : Nat) : Int := if x % U64 < 2 ^ 63 then (x % U64 : Nat) else ((x % U64 : Nat) : Int) - 2 ^ 64

/-! ## Data model -/

/-- The part of `struct vm_reserved_va_node` a mapped buffer reaches through
its `va_node` pointer: the reservation's start and its `sparse` flag (both are
written once, before the reservation is linked). -/
structure VaNodeRef where
  vaddr_start : Nat
  sparse : Bool
deriving DecidableEq, Repr

/-- The fields of `struct mapped_buffer_node` (the rb-tree and list linkage is
carried by the containers). `dmabuf` is the identity of the backing buffer,
`ref` the value of `ref.refcount`. -/
structure MappedBuffer where
  dmabuf : Nat
  addr : Nat
  size : Nat
  pgsz_idx : Nat
  ctag_offset : Nat
  ctag_lines : Nat
  flags : Nat
  kind : Nat
  va_allocated : Bool
  user_mapped : Nat
  own_mem_ref : Bool
  ref : Nat
  va_node : Option VaNodeRef
deriving DecidableEq, Repr

/-- The tree under `struct rb_root`: `nil` is a NULL `rb_node` pointer. -/
inductive RbNode where
  | nil : RbNode
  | node (rb_left : RbNode) (entry : MappedBuffer) (rb_right : RbNode) : RbNode
deriving DecidableEq, Repr

namespace RbNode

/-- In-order sequence of the entries, what `rb_first`/`rb_next` enumerate. -/
def toList : RbNode → List MappedBuffer
  | nil => []
  | node l e r => toList l ++ e :: toList r

/-- The addresses of the entries, in order. -/
def addrs (t : RbNode) : List Nat := t.toList.map MappedBuffer.addr

/-- Search-tree ordering on `addr`: the in-order addresses strictly increase. -/
def Ordered (t : RbNode) : Prop := t.addrs.Pairwise (fun a b => a < b)

instance (t : RbNode) : Decidable t.Ordered := by
  unfold Ordered; infer_instance

end RbNode

/-! ## The registry: `insert_mapped_buffer`, `find_mapped_buffer_*` -/

/-- The descent loop of `insert_mapped_buffer` followed by `rb_link_node`:
walks left when `cmp_with->addr > mapped_buffer->addr`, right when the
addresses differ, and gives `none` (the `return -EINVAL`) when they are equal;
at a NULL link the new node is attached as a leaf. -/
def rb_link_descend : RbNode → MappedBuffer → Option RbNode
  | .nil, mb => some (.node .nil mb .nil)
  | .node l cmp_with r, mb =>
    if cmp_with.addr > mb.addr then
      (rb_link_descend l mb).map (fun l' => .node l' cmp_with r)
    else if cmp_with.addr ≠ mb.addr then
      (rb_link_descend r mb).map (fun r' => .node l cmp_with r')
    else none

/-- Modelled from the spec: `rb_insert_color` of the kernel rbtree library is
not in the source files. The registry is "an ordered index keyed by VA
(balanced tree)": rebalancing recolours and rotates, it keeps the set and the
in-order sequence of entries. The embedding's tree carries no colours, so the
rebalancing step leaves it as it is; every statement about the registry is over
all ordered trees, whatever their shape. -/
def rb_insert_color (root : RbNode) : RbNode := root

/-- `insert_mapped_buffer(root, mapped_buffer)`: the error code and the tree
afterwards. -/
def insert_mapped_buffer (root : RbNode) (mapped_buffer : MappedBuffer) : Int × RbNode :=
  match rb_link_descend root mapped_buffer with
  | none => (-EINVAL, root)
  | some t => (0, rb_insert_color t)

/-- `find_mapped_buffer_locked(root, addr)`: exact-match descent. -/
def find_mapped_buffer_locked : RbNode → Nat → Option MappedBuffer
  | .nil, _ => none
  | .node l mapped_buffer r, addr =>
    if mapped_buffer.addr > addr then find_mapped_buffer_locked l addr
    else if mapped_buffer.addr ≠ addr then find_mapped_buffer_locked r addr
    else some mapped_buffer

/-- `find_mapped_buffer_reverse_locked(root, dmabuf, kind)`: the first entry in
`rb_first`/`rb_next` order with this buffer and kind. -/
def find_mapped_buffer_reverse_locked (root : RbNode) (dmabuf : Nat) (kind : Nat) :
    Option MappedBuffer :=
  root.toList.find? (fun mapped_buffer => mapped_buffer.dmabuf = dmabuf ∧ kind = mapped_buffer.kind)

/-- `find_mapped_buffer_range_locked(root, addr)`: containment descent; the sum
`m->addr + m->size` is a `u64` sum. -/
def find_mapped_buffer_range_locked : RbNode → Nat → Option MappedBuffer
  | .nil, _ => none
  | .node l m r, addr =>
    if m.addr ≤ addr ∧ u64 (m.addr + m.size) > addr then some m
    else if m.addr > addr then find_mapped_buffer_range_locked l addr
    else find_mapped_buffer_range_locked r addr

/-! ## Header constants and per-chip tables -/

/-- Constants, macros and per-chip tables that the mapping code reads from
headers and files outside `mm_gk20a.c` (`mm_gk20a.h`, `uapi/linux/nvgpu.h`,
`hw_gmmu_gk20a.h`, `kind_gk20a.h`, the platform code). They are parameters of
the embedding; every statement holds for all their values unless it says
otherwise. -/
structure Gk20a where
  NV_GMMU_VA_RANGE : Nat
  NVGPU_AS_MAP_BUFFER_FLAGS_FIXED_OFFSET : Nat
  NVGPU_MAP_BUFFER_FLAGS_CACHEABLE_TRUE : Nat
  NVGPU_GPU_FLAGS_SUPPORT_UNMAPPED_PTE : Nat
  NVGPU_AS_ALLOC_SPACE_FLAGS_FIXED_OFFSET : Nat
  NVGPU_AS_ALLOC_SPACE_FLAGS_SPARSE : Nat
  gmmu_pte_kind_invalid_v : Nat
  gmmu_pte_kind_pitch_v : Nat
  gk20a_kind_is_supported : Nat → Bool
  gk20a_kind_is_compressible : Nat → Bool
  gk20a_get_uncompressed_kind : Nat → Nat
  compression_page_size : Nat
  tegra_platform_is_silicon : Bool

/-- Modelled from the spec: the macro `NV_GMMU_VA_IS_UPPER` of `mm_gk20a.h` is
not in the source files. For a fixed offset the page size is "derived from
which half of the aperture the offset falls in"; the aperture is
`1 << NV_GMMU_VA_RANGE` bytes. -/
def NV_GMMU_VA_IS_UPPER (g : Gk20a) (x : Nat) : Bool :=
  decide (x ≥ 2 ^ (g.NV_GMMU_VA_RANGE - 1))

def gmmu_page_size_small : Nat := 0
def gmmu_page_size_big : Nat := 1
def gmmu_nr_page_sizes : Nat := 2

/-- Halving loop behind `ilog2`: the number of times `x` can be halved before
it drops below 2, at most `fuel` times. -/
def ilog2_loop : Nat → Nat → Nat
  | 0, _ => 0
  | fuel + 1, x => if x ≥ 2 then ilog2_loop fuel (x / 2) + 1 else 0

/-- `ilog2` of the kernel on a 64-bit value: the index of the highest set bit
(0 for the values 0 and 1). -/
def ilog2 (x : Nat) : Nat := ilog2_loop 64 x

/-- `~x` on a `u64`. -/
def not64 (x : Nat) : Nat := (U64 - 1) ^^^ (x % U64)

/-- `__ffs(x)`: index of the lowest set bit (the kernel leaves `__ffs(0)`
undefined; here it is 0). -/
def __ffs (x : Nat) : Nat :=
  if x = 0 then 0 else (List.range 64).findIdx (fun i => x.testBit i)

/-- `DIV_ROUND_UP_ULL(n, d)`. -/
def DIV_ROUND_UP_ULL (n d : Nat) : Nat := u64 (n + d - 1) / d

/-! ## The VA allocator (`struct gk20a_allocator`) -/

def ENOENT : Int := 2

/-- Modelled from the spec: `struct gk20a_allocator` and its `alloc`/`free`
operations live in `gk20a_allocator.c`, which is not among the source files.
It hands out runs of units inside `[base, limit)`; `runs` are the live
allocations `(start, length)` in ascending order of `start`. -/
structure Gk20aAllocator where
  base : Nat
  limit : Nat
  runs : List (Nat × Nat)
deriving DecidableEq, Repr

namespace Gk20aAllocator

/-- Modelled from the spec: first fit. Walks the live runs from `cur` upward
and returns "the lowest available run of free units of the requested length". -/
def first_fit (len limit : Nat) : Nat → List (Nat × Nat) → Option Nat
  | cur, [] => if cur + len ≤ limit then some cur else none
  | cur, r :: rest =>
    if cur + len ≤ r.1 then some cur else first_fit len limit (max cur (r.1 + r.2)) rest

/-- No unit of `[start, start+len)` belongs to a live run. -/
def run_free (start len : Nat) (runs : List (Nat × Nat)) : Bool :=
  runs.all (fun r => decide (start + len ≤ r.1 ∨ r.1 + r.2 ≤ start))

/-- Records a new live run, keeping `runs` in ascending order of start. -/
def insert_run (x : Nat × Nat) : List (Nat × Nat) → List (Nat × Nat)
  | [] => [x]
  | r :: rs => if x.1 ≤ r.1 then x :: r :: rs else r :: insert_run x rs

/-- Modelled from the spec: `allocator->alloc(allocator, &addr, len, 1)`.
"`alloc` returns the lowest available run of free units of the requested
length (first-fit) or fails with OutOfSpace." The start is an in/out argument:
the callers pass 0 to let the allocator choose and a non-zero start to ask for
the run beginning exactly there (the fixed-offset form of
`gk20a_vm_alloc_space`), which fails when a unit of it is taken or outside
`[base, limit)`. A request for zero units fails. Result: error code, the
start written back, the allocator afterwards. -/
def alloc (a : Gk20aAllocator) (addr len : Nat) : Int × Nat × Gk20aAllocator :=
  if len = 0 then (-EINVAL, addr, a)
  else if addr = 0 then
    match first_fit len a.limit a.base a.runs with
    | some s => (0, s, { a with runs := insert_run (s, len) a.runs })
    | none => (-ENOMEM, addr, a)
  else if a.base ≤ addr ∧ addr + len ≤ a.limit ∧ run_free addr len a.runs = true then
    (0, addr, { a with runs := insert_run (addr, len) a.runs })
  else (-ENOMEM, addr, a)

/-- Modelled from the spec: `allocator->free(allocator, addr, len, 1)`.
"`free` of a never-allocated or partially-overlapping run fails with
NotFound": only a live run with exactly this start and length is released. -/
def free (a : Gk20aAllocator) (addr len : Nat) : Int × Gk20aAllocator :=
  if (addr, len) ∈ a.runs then (0, { a with runs := a.runs.erase (addr, len) })
  else (-ENOENT, a)

/-- Modelled from the spec: `gk20a_allocator_init(allocator, name, start, len)`:
an allocator over `[start, start+len)` with nothing allocated. -/
def init (start len : Nat) : Gk20aAllocator := { base := start, limit := start + len, runs := [] }

/-- Unit `u` is currently allocated. -/
def allocated (a : Gk20aAllocator) (u : Nat) : Prop := ∃ r ∈ a.runs, r.1 ≤ u ∧ u < r.1 + r.2

/-- Well-formed allocator state: live runs are non-empty, inside
`[base, limit)`, in ascending order and pairwise disjoint. -/
def WF (a : Gk20aAllocator) : Prop :=
  (∀ r ∈ a.runs, 0 < r.2 ∧ a.base ≤ r.1 ∧ r.1 + r.2 ≤ a.limit) ∧
    a.runs.Pairwise (fun r r' => r.1 + r.2 ≤ r'.1)

instance (a : Gk20aAllocator) : Decidable a.WF := by
  unfold WF; infer_instance

end Gk20aAllocator

/-! ## Address space, reservations, buffers -/

/-- An entry of a reservation's `va_buffers_list`: the linked
`mapped_buffer_node`, identified by its `addr`, with the `size` the overlap
check reads through the pointer (neither field changes while the node lives,
and a node leaves the list before it is freed). -/
structure VaBuffer where
  addr : Nat
  size : Nat
deriving DecidableEq, Repr

/-- The fields of `struct vm_reserved_va_node`. -/
structure VmReservedVaNode where
  vaddr_start : Nat
  size : Nat
  pgsz_idx : Nat
  sparse : Bool
  va_buffers_list : List VaBuffer
deriving DecidableEq, Repr

/-- The fields of `struct vm_gk20a` the mapping code uses. The arrays
`gmmu_page_sizes[]` and `vma[]` have `gmmu_nr_page_sizes = 2` elements. -/
structure VmGk20a where
  va_start : Nat
  va_limit : Nat
  big_pages : Bool
  big_page_size : Nat
  enable_ctag : Bool
  page_size_small : Nat
  page_size_big : Nat
  vma_small : Gk20aAllocator
  vma_big : Gk20aAllocator
  mapped_buffers : RbNode
  num_user_mapped_buffers : Int
  reserved_va_list : List VmReservedVaNode
deriving DecidableEq, Repr

/-- `vm->gmmu_page_sizes[i]`. -/
def VmGk20a.gmmu_page_sizes (vm : VmGk20a) (i : Nat) : Nat :=
  if i = gmmu_page_size_small then vm.page_size_small else vm.page_size_big

/-- `vm->vma[i]`. -/
def VmGk20a.vma (vm : VmGk20a) (i : Nat) : Gk20aAllocator :=
  if i = gmmu_page_size_small then vm.vma_small else vm.vma_big

/-- Stores into `vm->vma[i]`. -/
def VmGk20a.set_vma (vm : VmGk20a) (i : Nat) (a : Gk20aAllocator) : VmGk20a :=
  if i = gmmu_page_size_small then { vm with vma_small := a } else { vm with vma_big := a }

/-- `struct gk20a_comptags`. -/
structure Gk20aComptags where
  offset : Nat
  lines : Nat
deriving DecidableEq, Repr

/-- The fields of `struct gk20a_dmabuf_priv` used here; `attached` says that
`attach`/`sgt` hold a live attachment. -/
structure Gk20aDmabufPriv where
  comptags : Gk20aComptags
  pin_count : Int
  attached : Bool
deriving DecidableEq, Repr

/-- What the code reads of a `struct dma_buf` and of the head of its scatter
list: identity, `size`, `sg_dma_address(sgt->sgl)`, `sg_phys(sgt->sgl)`. -/
structure DmaBuf where
  id : Nat
  size : Nat
  sg_dma_address : Nat
  sg_phys : Nat
deriving DecidableEq, Repr

/-- Effects on hardware and on other subsystems, in the order they happen. -/
inductive HwEvent where
  | cbc_clear (first last : Nat)
  | update_ptes (pgsz_idx : Nat) (has_sgt : Bool) (buffer_offset first_vaddr last_vaddr : Nat)
      (kind_v ctag_offset : Nat) (cacheable unmapped_pte : Bool) (rw_flag : Nat)
      (sparse : Bool) (complete : Bool)
  | l2_flush (invalidate : Bool)
  | tlb_invalidate
  | dma_buf_put (dmabuf : Nat)
  | udelay (usecs : Nat) (times : Nat)
deriving DecidableEq, Repr

/-- The state the mapping engine works on: one address space, the per-buffer
driver data (`dma_buf_get_drvdata`), the device's comptag allocator
(`g->gr.comp_tags`) and the trace of hardware effects. -/
structure MmState where
  vm : VmGk20a
  priv : Nat → Option Gk20aDmabufPriv
  comp_tags : Gk20aAllocator
  log : List HwEvent

/-- What one call takes from its surroundings. Outcomes of calls that can fail
for lack of memory or in other drivers: `dma_buf_attach`,
`dma_buf_map_attachment`, the page-table allocations inside
`update_gmmu_ptes_locked`, `kzalloc` of a tracking node; and
`refcount_reads i`, the value the `i`-th `atomic_read` of a mapping's reference
count returns while `gk20a_vm_unmap_user` waits without the lock. -/
structure Env where
  attach_ok : Bool
  map_attachment_ok : Bool
  pte_alloc_ok : Bool
  kzalloc_ok : Bool
  refcount_reads : Nat → Int

/-! ## Tree updates through a node pointer -/

namespace RbNode

/-- Appends `r` below the right-most link of `l`: the in-order sequence of the
result is that of `l` followed by that of `r`. -/
def join : RbNode → RbNode → RbNode
  | nil, r => r
  | node l e m, r => node l e (join m r)

/-- A store through a `mapped_buffer_node` pointer: the node with address
`addr` gets the fields `f` computes, the tree structure stays. -/
def modify (addr : Nat) (f : MappedBuffer → MappedBuffer) : RbNode → RbNode
  | nil => nil
  | node l e r =>
    node (modify addr f l) (if e.addr = addr then f e else e) (modify addr f r)

end RbNode

/-- Modelled from the spec: `rb_erase` of the kernel rbtree library is not in
the source files. "`remove(mapping)`: erases from both indices": the node is
unlinked and the other entries keep their order. The node is identified by its
`addr`, the key of the tree. -/
def rb_erase (mapped_buffer : MappedBuffer) : RbNode → RbNode
  | .nil => .nil
  | .node l e r =>
    if e.addr = mapped_buffer.addr then RbNode.join (rb_erase mapped_buffer l) (rb_erase mapped_buffer r)
    else .node (rb_erase mapped_buffer l) e (rb_erase mapped_buffer r)

/-! ## VA allocation wrappers -/

/-- The test `flags & mask`. -/
def flag_set (flags mask : Nat) : Bool := decide (flags &&& mask ≠ 0)

/-- The test of `addr_to_reservation`: `addr` lies in the reservation. -/
def reservation_contains (addr : Nat) (va_node : VmReservedVaNode) : Bool :=
  decide (addr ≥ va_node.vaddr_start ∧ addr < u64 (va_node.vaddr_start + va_node.size))

/-- `addr_to_reservation(vm, addr)`: the first reservation of
`vm->reserved_va_list` that contains `addr`. -/
def addr_to_reservation (vm : VmGk20a) (addr : Nat) : Option VmReservedVaNode :=
  vm.reserved_va_list.find? (reservation_contains addr)

/-- A store through the pointer `addr_to_reservation(vm, addr)` returned: the
first reservation containing `addr` gets the fields `f` computes. -/
def update_reservation : List VmReservedVaNode → Nat → (VmReservedVaNode → VmReservedVaNode) →
    List VmReservedVaNode
  | [], _, _ => []
  | n :: rest, addr, f =>
    if reservation_contains addr n then f n :: rest else n :: update_reservation rest addr f

/-- `gk20a_vm_alloc_va(vm, size, gmmu_pgsz_idx)`: the offset (0 on failure)
and the address space afterwards. -/
def gk20a_vm_alloc_va (vm : VmGk20a) (size gmmu_pgsz_idx : Nat) : Nat × VmGk20a :=
  let gmmu_page_size := vm.gmmu_page_sizes gmmu_pgsz_idx
  if gmmu_pgsz_idx ≥ gmmu_nr_page_sizes then (0, vm)
  else if gmmu_pgsz_idx = gmmu_page_size_big ∧ vm.big_pages = false then (0, vm)
  else
    let size := u64 (size + u64 (gmmu_page_size + U64 - 1)) &&& not64 (u64 (gmmu_page_size + U64 - 1))
    let num_pages := u32 (size >>> ilog2 (vm.gmmu_page_sizes gmmu_pgsz_idx))
    let r := (vm.vma gmmu_pgsz_idx).alloc 0 num_pages
    if r.1 ≠ 0 then (0, vm.set_vma gmmu_pgsz_idx r.2.2)
    else (u64 (r.2.1 <<< ilog2 (vm.gmmu_page_sizes gmmu_pgsz_idx)), vm.set_vma gmmu_pgsz_idx r.2.2)

/-- `gk20a_vm_free_va(vm, offset, size, pgsz_idx)`. -/
def gk20a_vm_free_va (vm : VmGk20a) (offset size pgsz_idx : Nat) : Int × VmGk20a :=
  let page_size := u32 (vm.gmmu_page_sizes pgsz_idx)
  let page_shift := ilog2 page_size
  let start_page_nr := u32 (offset >>> page_shift)
  let num_pages := u32 (u64 (size + page_size + U64 - 1) >>> page_shift)
  let r := (vm.vma pgsz_idx).free start_page_nr num_pages
  (r.1, vm.set_vma pgsz_idx r.2)

/-! ## Buffer attributes, page size, kind -/

/-- `struct buffer_attrs` (without the scatter table pointer). -/
structure BufferAttrs where
  size : Nat
  align : Nat
  ctag_offset : Nat
  ctag_lines : Nat
  pgsz_idx : Int
  kind_v : Nat
  uc_kind_v : Nat
deriving DecidableEq, Repr

/-- `bfr.align = 1 << __ffs(buf_addr)`: the shift is done on the `int` 1 and
the result converted to `u64` (sign-extended). A shift count of 32 or more is
undefined in C; the embedding keeps the low 32 bits of the product, 0. -/
def bfr_align (buf_addr : Nat) : Nat :=
  let v := (2 ^ __ffs buf_addr) % U32
  if v < 2 ^ 31 then v else v + (U64 - U32)

/-- `gmmu_select_page_size(vm, bfr)`: the new value of `bfr->pgsz_idx`; the
loop runs `i = 1, 0`. -/
def gmmu_select_page_size (vm : VmGk20a) (bfr : BufferAttrs) : Int :=
  if u32 (vm.gmmu_page_sizes 1 + U32 - 1) &&& bfr.align = 0 then 1
  else if u32 (vm.gmmu_page_sizes 0 + U32 - 1) &&& bfr.align = 0 then 0
  else bfr.pgsz_idx

/-- `setup_buffer_kind_and_compression(vm, flags, bfr, pgsz_idx)`: the error
code and the attributes afterwards. -/
def setup_buffer_kind_and_compression (g : Gk20a) (vm : VmGk20a) (bfr : BufferAttrs)
    (pgsz_idx : Nat) : Int × BufferAttrs :=
  let ctag_granularity := g.compression_page_size
  let bfr := if bfr.kind_v = g.gmmu_pte_kind_invalid_v then
      { bfr with kind_v := g.gmmu_pte_kind_pitch_v } else bfr
  if g.gk20a_kind_is_supported bfr.kind_v = false then (-EINVAL, bfr)
  else
    let bfr := { bfr with uc_kind_v := g.gmmu_pte_kind_invalid_v }
    let kind_compressible := g.gk20a_kind_is_compressible bfr.kind_v
    let bfr := if kind_compressible then
      { bfr with uc_kind_v := g.gk20a_get_uncompressed_kind bfr.kind_v } else bfr
    if kind_compressible ∧ bfr.uc_kind_v = g.gmmu_pte_kind_invalid_v then (-EINVAL, bfr)
    else
      let fallback : Bool := kind_compressible && decide (vm.gmmu_page_sizes pgsz_idx ≠ vm.big_page_size)
      let bfr := if fallback then { bfr with kind_v := bfr.uc_kind_v } else bfr
      let kind_compressible := if fallback then false else kind_compressible
      if kind_compressible then
        (0, { bfr with ctag_lines := u32 (DIV_ROUND_UP_ULL bfr.size ctag_granularity) })
      else (0, { bfr with ctag_lines := 0 })

/-- The loop of `validate_fixed_buffer` over the reservation's buffer list:
`true` when some linked buffer overlaps `[map_offset, map_offset+map_size)`.
`begin` and `end` are `s64`, the test is `end - begin > 0` on the 64-bit
difference. -/
def fixed_buffer_collides (map_offset map_size : Nat) : List VaBuffer → Bool
  | [] => false
  | buffer :: rest =>
    let begin_ := max buffer.addr map_offset
    let end_ := min (u64 (buffer.addr + buffer.size)) (u64 (map_offset + map_size))
    if s64 (end_ + U64 - begin_) > 0 then true else fixed_buffer_collides map_offset map_size rest

/-- `validate_fixed_buffer(vm, bfr, map_offset, map_size)`. -/
def validate_fixed_buffer (vm : VmGk20a) (bfr : BufferAttrs) (map_offset map_size : Nat) : Int :=
  let map_end := u64 (map_offset + map_size)
  if map_end ≤ map_offset then -EINVAL
  else if map_offset &&& u32 (vm.gmmu_page_sizes bfr.pgsz_idx.toNat + U32 - 1) ≠ 0 then -EINVAL
  else
    match addr_to_reservation vm map_offset with
    | none => -EINVAL
    | some va_node =>
      if map_end > u64 (va_node.vaddr_start + va_node.size) then -EINVAL
      else if fixed_buffer_collides map_offset map_size va_node.va_buffers_list then -EINVAL
      else 0

/-! ## Pinning and compression tags -/

/-- Stores into the driver data of buffer `id`. -/
def MmState.set_priv (s : MmState) (id : Nat) (p : Gk20aDmabufPriv) : MmState :=
  { s with priv := fun i => if i = id then some p else s.priv i }

/-- Appends an effect to the trace. -/
def MmState.emit (s : MmState) (e : HwEvent) : MmState := { s with log := s.log ++ [e] }

/-- `gk20a_mm_pin(dev, dmabuf)`: `true` when a scatter table is returned,
`false` for an `ERR_PTR`. -/
def gk20a_mm_pin (s : MmState) (env : Env) (dmabuf : Nat) : Bool × MmState :=
  match s.priv dmabuf with
  | none => (false, s)
  | some priv =>
    if priv.pin_count = 0 then
      if env.attach_ok = false then (false, s)
      else if env.map_attachment_ok = false then (false, s.set_priv dmabuf { priv with attached := false })
      else (true, s.set_priv dmabuf { priv with attached := true, pin_count := priv.pin_count + 1 })
    else (true, s.set_priv dmabuf { priv with pin_count := priv.pin_count + 1 })

/-- `gk20a_mm_unpin(dev, dmabuf, sgt)`. -/
def gk20a_mm_unpin (s : MmState) (dmabuf : Nat) : MmState :=
  match s.priv dmabuf with
  | none => s
  | some priv =>
    let pin_count := priv.pin_count - 1
    if pin_count = 0 then s.set_priv dmabuf { priv with pin_count := pin_count, attached := false }
    else s.set_priv dmabuf { priv with pin_count := pin_count }

/-- `gk20a_get_comptags(dev, dmabuf, comptags)`. -/
def gk20a_get_comptags (s : MmState) (dmabuf : Nat) : Gk20aComptags :=
  match s.priv dmabuf with
  | none => { offset := 0, lines := 0 }
  | some priv => priv.comptags

/-- `gk20a_alloc_comptags(dev, dmabuf, allocator, lines)` on the device's
comptag allocator. -/
def gk20a_alloc_comptags (s : MmState) (dmabuf : Nat) (lines : Nat) : Int × MmState :=
  match s.priv dmabuf with
  | none => (-ENOSYS, s)
  | some priv =>
    if lines = 0 then (-EINVAL, s)
    else
      let r := s.comp_tags.alloc 0 lines
      let s := { s with comp_tags := r.2.2 }
      if r.1 = 0 then
        (r.1, s.set_priv dmabuf { priv with comptags := { lines := lines, offset := r.2.1 } })
      else (r.1, s)

/-! ## Page-table update, map and unmap of a range -/

/-- `update_gmmu_ptes_locked` as the mapping engine sees it: the alignment
check on `buffer_offset`, then the walk over `[gpu_va, gpu_end)`, which is
recorded in the trace and fails with `-ENOMEM` when a page-table allocation
fails (`env.pte_alloc_ok = false`). -/
def update_gmmu_ptes_locked (s : MmState) (env : Env) (pgsz_idx : Nat) (has_sgt : Bool)
    (buffer_offset gpu_va gpu_end kind_v ctag_offset : Nat) (cacheable unmapped_pte : Bool)
    (rw_flag : Nat) (sparse : Bool) : Int × MmState :=
  let page_size := u32 (s.vm.gmmu_page_sizes pgsz_idx)
  if buffer_offset &&& u32 (page_size + U32 - 1) ≠ 0 then (-EINVAL, s)
  else
    let s := s.emit (.update_ptes pgsz_idx has_sgt buffer_offset gpu_va gpu_end kind_v ctag_offset
      cacheable unmapped_pte rw_flag sparse env.pte_alloc_ok)
    (if env.pte_alloc_ok then 0 else -ENOMEM, s)

/-- `gk20a_locked_gmmu_map(...)`: the mapped offset (0 on failure) and the
state afterwards. `has_sgt` says whether `sgt` is non-NULL. -/
def gk20a_locked_gmmu_map (g : Gk20a) (s : MmState) (env : Env) (map_offset : Nat)
    (has_sgt : Bool) (buffer_offset size pgsz_idx kind_v ctag_offset flags rw_flag : Nat)
    (clear_ctags sparse : Bool) : Nat × MmState :=
  let ctag_granularity := g.compression_page_size
  let s := if clear_ctags ∧ ctag_offset ≠ 0 then
      let ctag_lines := u32 (DIV_ROUND_UP_ULL size ctag_granularity)
      s.emit (.cbc_clear ctag_offset (u32 (ctag_offset + ctag_lines + U32 - 1)))
    else s
  let a := if map_offset = 0 then gk20a_vm_alloc_va s.vm size pgsz_idx else (map_offset, s.vm)
  let allocated : Bool := decide (map_offset = 0)
  let s := { s with vm := a.2 }
  let map_offset := a.1
  if map_offset = 0 then (0, s)
  else
    let r := update_gmmu_ptes_locked s env pgsz_idx has_sgt buffer_offset map_offset
      (u64 (map_offset + size)) kind_v ctag_offset
      (flag_set flags g.NVGPU_MAP_BUFFER_FLAGS_CACHEABLE_TRUE)
      (flag_set flags g.NVGPU_GPU_FLAGS_SUPPORT_UNMAPPED_PTE) rw_flag sparse
    if r.1 ≠ 0 then
      if allocated then (0, { r.2 with vm := (gk20a_vm_free_va r.2.vm map_offset size pgsz_idx).2 })
      else (0, r.2)
    else (map_offset, r.2.emit .tlb_invalidate)

def gk20a_mem_flag_none : Nat := 0

/-- `gk20a_locked_gmmu_unmap(vm, vaddr, size, pgsz_idx, va_allocated, rw_flag,
sparse)`. -/
def gk20a_locked_gmmu_unmap (s : MmState) (env : Env) (vaddr size pgsz_idx : Nat)
    (va_allocated : Bool) (rw_flag : Nat) (sparse : Bool) : MmState :=
  let f := if va_allocated then gk20a_vm_free_va s.vm vaddr size pgsz_idx else (0, s.vm)
  let s := { s with vm := f.2 }
  if va_allocated ∧ f.1 ≠ 0 then s
  else
    let r := update_gmmu_ptes_locked s env pgsz_idx false 0 vaddr (u64 (vaddr + size)) 0 0
      false false rw_flag sparse
    (r.2.emit (.l2_flush true)).emit .tlb_invalidate

/-! ## The mapping engine -/

/-- Stores into `s.vm`. -/
def MmState.with_vm (s : MmState) (vm : VmGk20a) : MmState := { s with vm := vm }

/-- `gk20a_vm_map_duplicate_locked(...)`: the address of the reused mapping (0
when there is none) and the state afterwards. -/
def gk20a_vm_map_duplicate_locked (g : Gk20a) (s : MmState) (dmabuf offset_align flags kind : Nat)
    (user_mapped : Bool) : Nat × MmState :=
  match find_mapped_buffer_reverse_locked s.vm.mapped_buffers dmabuf kind with
  | none => (0, s)
  | some mapped_buffer =>
    if mapped_buffer.flags ≠ flags then (0, s)
    else if flag_set flags g.NVGPU_AS_MAP_BUFFER_FLAGS_FIXED_OFFSET ∧
        mapped_buffer.addr ≠ offset_align then (0, s)
    else
      let num := if user_mapped ∧ mapped_buffer.user_mapped = 0
        then s.vm.num_user_mapped_buffers + 1 else s.vm.num_user_mapped_buffers
      let s := if user_mapped ∧ mapped_buffer.own_mem_ref
        then s.emit (.dma_buf_put mapped_buffer.dmabuf) else s
      let upd : MappedBuffer → MappedBuffer := fun m =>
        if user_mapped then
          { m with user_mapped := u32 (m.user_mapped + 1), own_mem_ref := true, ref := m.ref + 1 }
        else { m with ref := m.ref + 1 }
      (mapped_buffer.addr,
        s.with_vm { s.vm with
          num_user_mapped_buffers := num,
          mapped_buffers := s.vm.mapped_buffers.modify mapped_buffer.addr upd })

/-- The `clean_up:` path of `gk20a_vm_map`; `inserted` is false on every jump
to it. `pinned` says that `bfr.sgt` is not an `ERR_PTR`. -/
def gk20a_vm_map_clean_up (s : MmState) (dmabuf : DmaBuf) (va_allocated : Bool)
    (map_offset : Nat) (bfr : BufferAttrs) (pinned : Bool) : Nat × MmState :=
  let s := if va_allocated then
      s.with_vm (gk20a_vm_free_va s.vm map_offset bfr.size bfr.pgsz_idx.toNat).2 else s
  let s := if pinned then gk20a_mm_unpin s dmabuf.id else s
  (0, s)

/-- The tracking node `gk20a_vm_map` fills in after the page tables are
written (`mapped_buffer->... = ...`, `kref_init`); `va_node` is set for a
fixed-offset mapping from `addr_to_reservation(vm, map_offset)`. -/
def new_mapped_buffer (vm : VmGk20a) (dmabuf : DmaBuf) (flags kind : Nat) (user_mapped : Bool)
    (mapping_size : Nat) (bfr : BufferAttrs) (va_allocated : Bool) (map_offset : Nat) :
    MappedBuffer :=
  { dmabuf := dmabuf.id
    addr := map_offset
    size := mapping_size
    pgsz_idx := bfr.pgsz_idx.toNat
    ctag_offset := bfr.ctag_offset
    ctag_lines := bfr.ctag_lines
    flags := flags
    kind := kind
    va_allocated := va_allocated
    user_mapped := if user_mapped then 1 else 0
    own_mem_ref := user_mapped
    ref := 1
    va_node := if va_allocated then none
      else (addr_to_reservation vm map_offset).map
        (fun n => { vaddr_start := n.vaddr_start, sparse := n.sparse }) }

/-- `gk20a_vm_map`, last part ("keep track of the buffer for unmapping" to the
final `return map_offset`): allocation of the tracking node, insertion in the
registry, the user-mapped counter and the link into the reservation. -/
def gk20a_vm_map_track (s : MmState) (env : Env) (dmabuf : DmaBuf) (flags kind : Nat)
    (user_mapped : Bool) (mapping_size : Nat) (bfr : BufferAttrs) (va_allocated : Bool)
    (map_offset : Nat) : Nat × MmState :=
  if env.kzalloc_ok = false then gk20a_vm_map_clean_up s dmabuf va_allocated map_offset bfr true
  else
    let mapped_buffer := new_mapped_buffer s.vm dmabuf flags kind user_mapped mapping_size bfr
      va_allocated map_offset
    let i := insert_mapped_buffer s.vm.mapped_buffers mapped_buffer
    if i.1 ≠ 0 then gk20a_vm_map_clean_up s dmabuf va_allocated map_offset bfr true
    else
      let num := if user_mapped then s.vm.num_user_mapped_buffers + 1
        else s.vm.num_user_mapped_buffers
      let reserved := if va_allocated then s.vm.reserved_va_list
        else update_reservation s.vm.reserved_va_list map_offset (fun n =>
          { n with va_buffers_list :=
              n.va_buffers_list ++ [{ addr := map_offset, size := mapping_size }] })
      (map_offset, s.with_vm { s.vm with
        mapped_buffers := i.2,
        num_user_mapped_buffers := num,
        reserved_va_list := reserved })

/-- The compression-tag step of `gk20a_vm_map` ("bar1 and pmu vm don't need
ctag" to "store the comptag info"): the attributes, whether the tags must be
cleared, and the state afterwards. -/
def gk20a_vm_map_comptags (s : MmState) (dmabuf : DmaBuf) (bfr : BufferAttrs) :
    BufferAttrs × Bool × MmState :=
  let bfr := if s.vm.enable_ctag = false then { bfr with ctag_lines := 0 } else bfr
  let comptags := gk20a_get_comptags s dmabuf.id
  if bfr.ctag_lines ≠ 0 ∧ comptags.lines = 0 then
    let c := gk20a_alloc_comptags s dmabuf.id bfr.ctag_lines
    if c.1 ≠ 0 then
      ({ bfr with ctag_lines := 0, kind_v := bfr.uc_kind_v, ctag_offset := comptags.offset },
        false, c.2)
    else ({ bfr with ctag_offset := (gk20a_get_comptags c.2 dmabuf.id).offset }, true, c.2)
  else ({ bfr with ctag_offset := comptags.offset }, false, s)

/-- `gk20a_vm_map`, third part: compression tags, the page-table update
through `g->ops.mm.gmmu_map`, then the tracking part. -/
def gk20a_vm_map_ptes (g : Gk20a) (s : MmState) (env : Env) (dmabuf : DmaBuf) (flags kind : Nat)
    (user_mapped : Bool) (rw_flag buffer_offset mapping_size : Nat) (bfr : BufferAttrs)
    (va_allocated : Bool) (map_offset : Nat) : Nat × MmState :=
  let c := gk20a_vm_map_comptags s dmabuf bfr
  let bfr := c.1
  let m := gk20a_locked_gmmu_map g c.2.2 env map_offset true buffer_offset mapping_size
    bfr.pgsz_idx.toNat bfr.kind_v bfr.ctag_offset flags rw_flag c.2.1 false
  if m.1 = 0 then gk20a_vm_map_clean_up m.2 dmabuf va_allocated m.1 bfr true
  else gk20a_vm_map_track m.2 env dmabuf flags kind user_mapped mapping_size bfr va_allocated m.1

/-- The page-size class `gk20a_vm_map` gives the buffer: by the half of the
aperture for a fixed offset, else by alignment when big pages are enabled,
else small; `-1` when none fits. -/
def gk20a_vm_map_pgsz (g : Gk20a) (vm : VmGk20a) (bfr : BufferAttrs) (offset_align flags : Nat) :
    Int :=
  if flag_set flags g.NVGPU_AS_MAP_BUFFER_FLAGS_FIXED_OFFSET then
    (if NV_GMMU_VA_IS_UPPER g offset_align then (gmmu_page_size_big : Int)
      else (gmmu_page_size_small : Int))
  else if vm.big_pages = true then gmmu_select_page_size vm bfr
  else (gmmu_page_size_small : Int)

/-- The attributes `gk20a_vm_map` starts from once the buffer is pinned. -/
def gk20a_vm_map_attrs (g : Gk20a) (vm : VmGk20a) (dmabuf : DmaBuf) (offset_align flags kind : Nat) :
    BufferAttrs :=
  let buf_addr := if dmabuf.sg_dma_address = 0 then dmabuf.sg_phys else dmabuf.sg_dma_address
  let bfr : BufferAttrs :=
    { size := dmabuf.size, align := bfr_align buf_addr, ctag_offset := 0, ctag_lines := 0,
      pgsz_idx := -1, kind_v := kind % 256, uc_kind_v := 0 }
  { bfr with pgsz_idx := gk20a_vm_map_pgsz g vm bfr offset_align flags }

/-- `gk20a_vm_map`, second part (after the pin): buffer attributes, page size,
fixed-offset validation, kind and compression setup, then the rest. -/
def gk20a_vm_map_pinned (g : Gk20a) (s : MmState) (env : Env) (dmabuf : DmaBuf)
    (offset_align flags kind : Nat) (user_mapped : Bool) (rw_flag buffer_offset mapping_size : Nat) :
    Nat × MmState :=
  let bfr := gk20a_vm_map_attrs g s.vm dmabuf offset_align flags kind
  let mapping_size := if mapping_size ≠ 0 then mapping_size else bfr.size
  let fixed := flag_set flags g.NVGPU_AS_MAP_BUFFER_FLAGS_FIXED_OFFSET
  if bfr.pgsz_idx = -1 then gk20a_vm_map_clean_up s dmabuf false 0 bfr true
  else if bfr.pgsz_idx < gmmu_page_size_small ∨ bfr.pgsz_idx > gmmu_page_size_big then
    gk20a_vm_map_clean_up s dmabuf false 0 bfr true
  else if fixed ∧ validate_fixed_buffer s.vm bfr offset_align mapping_size ≠ 0 then
    gk20a_vm_map_clean_up s dmabuf false 0 bfr true
  else
    let map_offset := if fixed then offset_align else 0
    let va_allocated : Bool := !fixed
    let k := setup_buffer_kind_and_compression g s.vm bfr bfr.pgsz_idx.toNat
    if k.1 ≠ 0 then gk20a_vm_map_clean_up s dmabuf va_allocated map_offset k.2 true
    else
      gk20a_vm_map_ptes g s env dmabuf flags kind user_mapped rw_flag buffer_offset mapping_size
        k.2 va_allocated map_offset

/-- `gk20a_vm_map(vm, dmabuf, offset_align, flags, kind, sgt, user_mapped,
rw_flag, buffer_offset, mapping_size)`: the GPU virtual address (0 on failure)
and the state afterwards. `kind` is the 32-bit pattern of the `int` argument.
First part: the duplicate check and the pin. -/
def gk20a_vm_map (g : Gk20a) (s : MmState) (env : Env) (dmabuf : DmaBuf)
    (offset_align flags kind : Nat) (user_mapped : Bool) (rw_flag buffer_offset mapping_size : Nat) :
    Nat × MmState :=
  let d := gk20a_vm_map_duplicate_locked g s dmabuf.id offset_align flags kind user_mapped
  if d.1 ≠ 0 then d
  else
    let pin := gk20a_mm_pin d.2 env dmabuf.id
    if pin.1 = false then
      gk20a_vm_map_clean_up pin.2 dmabuf false 0
        { size := 0, align := 0, ctag_offset := 0, ctag_lines := 0, pgsz_idx := 0, kind_v := 0,
          uc_kind_v := 0 } false
    else
      gk20a_vm_map_pinned g pin.2 env dmabuf offset_align flags kind user_mapped rw_flag
        buffer_offset mapping_size

/-- `gk20a_vm_unmap_locked(mapped_buffer)`. -/
def gk20a_vm_unmap_locked (s : MmState) (env : Env) (mapped_buffer : MappedBuffer) : MmState :=
  let sparse := match mapped_buffer.va_node with
    | some va_node => va_node.sparse
    | none => false
  let s := gk20a_locked_gmmu_unmap s env mapped_buffer.addr mapped_buffer.size
    mapped_buffer.pgsz_idx mapped_buffer.va_allocated gk20a_mem_flag_none sparse
  let s := gk20a_mm_unpin s mapped_buffer.dmabuf
  let s := s.with_vm { s.vm with
    mapped_buffers := rb_erase mapped_buffer s.vm.mapped_buffers,
    reserved_va_list := s.vm.reserved_va_list.map (fun n =>
      { n with va_buffers_list := n.va_buffers_list.filter (fun b => b.addr ≠ mapped_buffer.addr) }) }
  let s := if mapped_buffer.user_mapped ≠ 0 then
      s.with_vm { s.vm with num_user_mapped_buffers := s.vm.num_user_mapped_buffers - 1 } else s
  if mapped_buffer.own_mem_ref then s.emit (.dma_buf_put mapped_buffer.dmabuf) else s

/-- `kref_put(&mapped_buffer->ref, gk20a_vm_unmap_locked_kref)`, where
`mapped_buffer` holds the node's current fields: the count drops by one, and at
zero the mapping is torn down. -/
def kref_put (s : MmState) (env : Env) (mapped_buffer : MappedBuffer) : MmState :=
  let mapped_buffer := { mapped_buffer with ref := mapped_buffer.ref - 1 }
  if mapped_buffer.ref = 0 then gk20a_vm_unmap_locked s env mapped_buffer
  else s.with_vm { s.vm with
    mapped_buffers := s.vm.mapped_buffers.modify mapped_buffer.addr (fun _ => mapped_buffer) }

/-- `gk20a_vm_unmap(vm, offset)`. -/
def gk20a_vm_unmap (s : MmState) (env : Env) (offset : Nat) : MmState :=
  match find_mapped_buffer_locked s.vm.mapped_buffers offset with
  | none => s
  | some mapped_buffer => kref_put s env mapped_buffer

/-- The wait loop of `gk20a_vm_unmap_user`: `reads i` is the value the `i`-th
`atomic_read(&mapped_buffer->ref.refcount)` returns; the result is the value
of `retries` when the loop ends. -/
def sync_unmap_wait (reads : Nat → Int) : Nat → Nat → Nat
  | 0, _ => 0
  | retries + 1, i => if reads i = 1 then retries + 1 else sync_unmap_wait reads retries (i + 1)

/-- The number of `udelay(50)` calls of the wait in `gk20a_vm_unmap_user`: the
retry budget is 1000 on silicon and 1000000 otherwise. -/
def sync_unmap_delays (g : Gk20a) (env : Env) : Nat :=
  let retries := if g.tegra_platform_is_silicon then 1000 else 1000000
  retries - sync_unmap_wait env.refcount_reads retries 0

/-- `gk20a_vm_unmap_user(vm, offset)`. The error messages of the function are
not part of the state; the wait of the fixed-offset path leaves the number of
its `udelay(50)` calls in the trace. -/
def gk20a_vm_unmap_user (g : Gk20a) (s : MmState) (env : Env) (offset : Nat) : MmState :=
  match find_mapped_buffer_locked s.vm.mapped_buffers offset with
  | none => s
  | some mapped_buffer =>
    let s := if flag_set mapped_buffer.flags g.NVGPU_AS_MAP_BUFFER_FLAGS_FIXED_OFFSET then
        s.emit (.udelay 50 (sync_unmap_delays g env))
      else s
    let mapped_buffer := { mapped_buffer with user_mapped := u32 (mapped_buffer.user_mapped + U32 - 1) }
    let s := if mapped_buffer.user_mapped = 0 then
        s.with_vm { s.vm with num_user_mapped_buffers := s.vm.num_user_mapped_buffers - 1 } else s
    kref_put s env mapped_buffer

/-- `gk20a_vm_unmap_buffer(vm, offset)`: the return value and the state. -/
def gk20a_vm_unmap_buffer (g : Gk20a) (s : MmState) (env : Env) (offset : Nat) : Int × MmState :=
  (0, gk20a_vm_unmap_user g s env offset)

/-- The loop "determine pagesz idx" of `gk20a_vm_alloc_space` and
`gk20a_vm_free_space`: the index at which it stops. -/
def determine_pgsz_idx (vm : VmGk20a) (page_size : Nat) : Nat :=
  if vm.gmmu_page_sizes gmmu_page_size_small = page_size then gmmu_page_size_small
  else if vm.gmmu_page_sizes gmmu_page_size_big = page_size then gmmu_page_size_big
  else gmmu_nr_page_sizes

/-- `struct nvgpu_as_alloc_space_args` / `struct nvgpu_as_free_space_args`. -/
structure SpaceArgs where
  pages : Nat
  page_size : Nat
  flags : Nat
  offset : Nat
deriving DecidableEq, Repr

/-- `gk20a_vm_alloc_space(as_share, args)`: the return value, `args->o_a.offset`
afterwards, and the state. -/
def gk20a_vm_alloc_space (g : Gk20a) (s : MmState) (env : Env) (args : SpaceArgs) :
    Int × Nat × MmState :=
  let vm := s.vm
  let pgsz_idx := determine_pgsz_idx vm args.page_size
  if pgsz_idx ≥ gmmu_nr_page_sizes then (-EINVAL, args.offset, s)
  else if env.kzalloc_ok = false then (-ENOMEM, args.offset, s)
  else if flag_set args.flags g.NVGPU_AS_ALLOC_SPACE_FLAGS_SPARSE ∧ pgsz_idx ≠ gmmu_page_size_big then
    (-ENOSYS, args.offset, s)
  else
    let start_page_nr := if flag_set args.flags g.NVGPU_AS_ALLOC_SPACE_FLAGS_FIXED_OFFSET
      then u32 (args.offset >>> ilog2 (vm.gmmu_page_sizes pgsz_idx)) else 0
    let r := (vm.vma pgsz_idx).alloc start_page_nr args.pages
    let s := s.with_vm (vm.set_vma pgsz_idx r.2.2)
    if r.1 ≠ 0 then (r.1, args.offset, s)
    else
      let start_page_nr := r.2.1
      let vaddr_start := u64 (start_page_nr <<< ilog2 (vm.gmmu_page_sizes pgsz_idx))
      let va_node : VmReservedVaNode :=
        { vaddr_start := vaddr_start, size := args.page_size * args.pages, pgsz_idx := pgsz_idx,
          sparse := false, va_buffers_list := [] }
      if flag_set args.flags g.NVGPU_AS_ALLOC_SPACE_FLAGS_SPARSE then
        let m := gk20a_locked_gmmu_map g s env vaddr_start false 0 va_node.size pgsz_idx 0 0
          args.flags gk20a_mem_flag_none false true
        if m.1 = 0 then
          (r.1, args.offset,
            m.2.with_vm (m.2.vm.set_vma pgsz_idx ((m.2.vm.vma pgsz_idx).free start_page_nr args.pages).2))
        else
          (r.1, vaddr_start, m.2.with_vm { m.2.vm with
            reserved_va_list := m.2.vm.reserved_va_list ++ [{ va_node with sparse := true }] })
      else
        (r.1, vaddr_start, s.with_vm { s.vm with
          reserved_va_list := s.vm.reserved_va_list ++ [va_node] })

/-- The loop of `gk20a_vm_free_space` over the reservation's buffer list:
each linked buffer is unlinked and loses one reference. The buffer behind a
list entry is the registry node with that address. -/
def put_va_buffers (s : MmState) (env : Env) : List VaBuffer → MmState
  | [] => s
  | buffer :: rest =>
    match find_mapped_buffer_locked s.vm.mapped_buffers buffer.addr with
    | none => put_va_buffers s env rest
    | some mapped_buffer => put_va_buffers (kref_put s env mapped_buffer) env rest

/-- `gk20a_vm_free_space(as_share, args)`: the return value and the state.
The reservation found by `addr_to_reservation` is taken off
`vm->reserved_va_list` (with its buffer list, which the loop has emptied)
after its buffers were put. -/
def gk20a_vm_free_space (s : MmState) (env : Env) (args : SpaceArgs) : Int × MmState :=
  let vm := s.vm
  let pgsz_idx := determine_pgsz_idx vm args.page_size
  if pgsz_idx ≥ gmmu_nr_page_sizes then (-EINVAL, s)
  else
    let start_page_nr := u32 (args.offset >>> ilog2 (vm.gmmu_page_sizes pgsz_idx))
    let r := (vm.vma pgsz_idx).free start_page_nr args.pages
    let s := s.with_vm (vm.set_vma pgsz_idx r.2)
    if r.1 ≠ 0 then (r.1, s)
    else
      match addr_to_reservation s.vm args.offset with
      | none => (r.1, s)
      | some va_node =>
        let s := put_va_buffers s env va_node.va_buffers_list
        let s := s.with_vm { s.vm with
          reserved_va_list := s.vm.reserved_va_list.eraseP (reservation_contains args.offset) }
        let s := if va_node.sparse then
            gk20a_locked_gmmu_unmap s env va_node.vaddr_start va_node.size va_node.pgsz_idx true
              gk20a_mem_flag_none true
          else s
        (r.1, s)

/-- `gk20a_init_vm(mm, vm, big_page_size, low_hole, aperture_size, big_pages,
name)` when no allocation fails: the address space it sets up.
`enable_ctag` is the field's value before the call (the function leaves it). -/
def gk20a_init_vm (enable_ctag : Bool) (big_page_size low_hole aperture_size : Nat)
    (big_pages : Bool) : VmGk20a :=
  let page_small := 4096
  let small_vma_size := if big_pages then 16 <<< 30 else aperture_size
  let large_vma_size := u64 (aperture_size + U64 - small_vma_size)
  let num_small_pages := u32 (small_vma_size >>> ilog2 page_small)
  let low_hole_pages := u32 (low_hole >>> ilog2 page_small)
  { va_start := low_hole
    va_limit := aperture_size
    big_pages := big_pages
    big_page_size := big_page_size
    enable_ctag := enable_ctag
    page_size_small := page_small
    page_size_big := big_page_size
    vma_small := Gk20aAllocator.init low_hole_pages (u32 (num_small_pages + U32 - low_hole_pages))
    vma_big := if big_pages then
        Gk20aAllocator.init (u32 (small_vma_size >>> ilog2 big_page_size))
          (u32 (large_vma_size >>> ilog2 big_page_size))
      else Gk20aAllocator.init 0 0
    mapped_buffers := .nil
    num_user_mapped_buffers := 0
    reserved_va_list := [] }

/-! ## Well-formed address spaces and reachable states -/

/-- The half-open ranges `[a, a+n)` and `[b, b+m)` have a common address. -/
def ranges_overlap (a n b m : Nat) : Prop := max a b < min (a + n) (b + m)

instance (a n b m : Nat) : Decidable (ranges_overlap a n b m) := by
  unfold ranges_overlap; infer_instance


/-- The run of allocator units a VA-allocated mapping holds: start and length
as `gk20a_vm_free_va` computes them from the entry's `addr` and `size`. -/
def buffer_run (vm : VmGk20a) (e : MappedBuffer) : Nat × Nat :=
  let page_size := u32 (vm.gmmu_page_sizes e.pgsz_idx)
  (u32 (e.addr >>> ilog2 page_size), u32 (u64 (e.size + page_size + U64 - 1) >>> ilog2 page_size))

/-- The run of allocator units a reservation holds, in pages of its class. -/
def reservation_run (vm : VmGk20a) (r : VmReservedVaNode) : Nat × Nat :=
  (r.vaddr_start / vm.gmmu_page_sizes r.pgsz_idx, r.size / vm.gmmu_page_sizes r.pgsz_idx)

/-- The runs of allocator `i` that are held by a live owner: the VA-allocated
mappings of page-size class `i`, then the reservations of that class. -/
def va_claims (vm : VmGk20a) (i : Nat) : List (Nat × Nat) :=
  ((vm.mapped_buffers.toList.filter (fun e => e.va_allocated && decide (e.pgsz_idx = i))).map
    (buffer_run vm)) ++
  ((vm.reserved_va_list.filter (fun r => decide (r.pgsz_idx = i))).map (reservation_run vm))

/-- An allocator the address space can use: well formed, at most `2^32` units,
and never handing out unit 0 (its range starts above 0 or is empty). -/
def Gk20aAllocator.Usable (a : Gk20aAllocator) : Prop :=
  a.WF ∧ a.limit ≤ U32 ∧ (0 < a.base ∨ a.limit ≤ a.base)

/-- The fields of an entry that place it in the address space; reference
and user-mapping counts are not among them. -/
def MappedBuffer.core (e : MappedBuffer) : Nat × Nat × Nat × Bool :=
  (e.addr, e.size, e.pgsz_idx, e.va_allocated)

/-- Shape of a well-formed address space, apart from the allocator contents.
Page sizes are powers of two below `2^31` and the aperture has fewer than
`2^32` pages; the registry is ordered; the runs held by VA-allocated mappings
and by reservations are pairwise different, each owner starts on the first
byte of its run and covers no byte outside it; a mapping is fixed-offset
exactly when it is linked in a reservation's buffer list; the buffers linked in
a reservation lie inside it and do not overlap. -/
structure VmShape (vm : VmGk20a) : Prop where
  pages : ∀ i, ∃ k, k < 31 ∧ vm.gmmu_page_sizes i = 2 ^ k
  aperture : ∀ i, vm.va_limit + vm.gmmu_page_sizes i ≤ U32 * vm.gmmu_page_sizes i
  ordered : vm.mapped_buffers.Ordered
  claims_nodup : ∀ i, (va_claims vm i).Nodup
  buf_geom : ∀ e ∈ vm.mapped_buffers.toList, e.pgsz_idx ≤ 1 ∧ (e.va_allocated = true →
    e.addr = (buffer_run vm e).1 * vm.gmmu_page_sizes e.pgsz_idx ∧
    e.size ≤ (buffer_run vm e).2 * vm.gmmu_page_sizes e.pgsz_idx)
  res_geom : ∀ r ∈ vm.reserved_va_list, r.pgsz_idx ≤ 1 ∧
    r.vaddr_start = (reservation_run vm r).1 * vm.gmmu_page_sizes r.pgsz_idx ∧
    r.size = (reservation_run vm r).2 * vm.gmmu_page_sizes r.pgsz_idx
  fixed_linked : ∀ e ∈ vm.mapped_buffers.toList, e.va_allocated = false →
    ∃ r ∈ vm.reserved_va_list, ({ addr := e.addr, size := e.size } : VaBuffer) ∈ r.va_buffers_list
  lists_live : ∀ r ∈ vm.reserved_va_list, ∀ b ∈ r.va_buffers_list,
    ∃ e ∈ vm.mapped_buffers.toList, e.va_allocated = false ∧ e.addr = b.addr ∧ e.size = b.size
  lists : ∀ r ∈ vm.reserved_va_list,
    r.va_buffers_list.Pairwise (fun b b' => ¬ ranges_overlap b.addr b.size b'.addr b'.size) ∧
    ∀ b ∈ r.va_buffers_list, r.vaddr_start ≤ b.addr ∧ b.addr + b.size ≤ r.vaddr_start + r.size

/-- Well-formed address space: what `gk20a_init_vm` establishes and the
mapping calls rely on. The shape is that of `VmShape`; the two allocators are
usable, the bytes of the small-page allocator lie below those of the big-page
one, and every run held by a mapping or a reservation is live in its
allocator. -/
structure VmInv (vm : VmGk20a) extends VmShape vm : Prop where
  usable : ∀ i, (vm.vma i).Usable
  apart : vm.vma_small.limit * vm.page_size_small ≤ vm.vma_big.base * vm.page_size_big ∨
    vm.vma_big.limit ≤ vm.vma_big.base
  claims_live : ∀ i, ∀ c ∈ va_claims vm i, c ∈ (vm.vma i).runs

/-- The two address spaces have the same page sizes and aperture. -/
def SameConfig (vm vm' : VmGk20a) : Prop :=
  vm'.page_size_small = vm.page_size_small ∧ vm'.page_size_big = vm.page_size_big ∧
    vm'.va_limit = vm.va_limit

/-- Any two distinct entries of the mapped-buffer registry have disjoint
ranges `[addr, addr+size)`. -/
def NoOverlap (vm : VmGk20a) : Prop :=
  ∀ e ∈ vm.mapped_buffers.toList, ∀ e' ∈ vm.mapped_buffers.toList, e ≠ e' →
    ¬ ranges_overlap e.addr e.size e'.addr e'.size

/-- The size a map request covers: `mapping_size`, or the buffer's size when
`mapping_size` is 0. -/
def effective_size (dmabuf : DmaBuf) (mapping_size : Nat) : Nat :=
  if mapping_size ≠ 0 then mapping_size else dmabuf.size

/-- A `gk20a_vm_free_space` call that releases a reservation made by
`gk20a_vm_alloc_space`: offset, page size and page count are the
reservation's, and no buffer linked in it has a reference besides the one the
call drops. -/
def ReleasesReservation (s : MmState) (args : SpaceArgs) : Prop :=
  ∃ r, addr_to_reservation s.vm args.offset = some r ∧ args.offset = r.vaddr_start ∧
    determine_pgsz_idx s.vm args.page_size = r.pgsz_idx ∧
    args.page_size * args.pages = r.size ∧ args.pages < U32 ∧
    ∀ b ∈ r.va_buffers_list, ∀ e ∈ s.vm.mapped_buffers.toList, e.addr = b.addr → e.ref = 1

/-- One call of the mapping interface, with any arguments and any outcome of
the surroundings. A map request is not larger than the aperture; a
`gk20a_vm_free_space` call returns an error or releases a reservation
(`ReleasesReservation`). -/
inductive MmStep (g : Gk20a) : MmState → MmState → Prop where
  | map (s : MmState) (env : Env) (dmabuf : DmaBuf) (offset_align flags kind : Nat)
      (user_mapped : Bool) (rw_flag buffer_offset mapping_size : Nat)
      (hsize : effective_size dmabuf mapping_size ≤ s.vm.va_limit) :
      MmStep g s (gk20a_vm_map g s env dmabuf offset_align flags kind user_mapped rw_flag
        buffer_offset mapping_size).2
  | unmap (s : MmState) (env : Env) (offset : Nat) : MmStep g s (gk20a_vm_unmap s env offset)
  | unmap_user (s : MmState) (env : Env) (offset : Nat) :
      MmStep g s (gk20a_vm_unmap_user g s env offset)
  | alloc_space (s : MmState) (env : Env) (args : SpaceArgs) (hpages : args.pages < U32) :
      MmStep g s (gk20a_vm_alloc_space g s env args).2.2
  | free_space (s : MmState) (env : Env) (args : SpaceArgs)
      (h : (gk20a_vm_free_space s env args).1 ≠ 0 ∨ ReleasesReservation s args) :
      MmStep g s (gk20a_vm_free_space s env args).2

/-- The states the calls of `MmStep` lead to from `s0`. -/
inductive MmReachable (g : Gk20a) (s0 : MmState) : MmState → Prop where
  | init : MmReachable g s0 s0
  | step (s s' : MmState) (h : MmReachable g s0 s) (hs : MmStep g s s') : MmReachable g s0 s'

/-! ## Sample data -/

/-- A kernel mapping record at `addr` of `size` bytes, count 1. -/
def sample_buffer (dmabuf addr size : Nat) : MappedBuffer :=
  { dmabuf := dmabuf, addr := addr, size := size, pgsz_idx := 0, ctag_offset := 0,
    ctag_lines := 0, flags := 0, kind := 0, va_allocated := true, user_mapped := 0,
    own_mem_ref := false, ref := 1, va_node := none }

/-- A three-entry registry at `0x1000`, `0x3000`, `0x8000`. -/
def sample_tree : RbNode :=
  .node (.node .nil (sample_buffer 1 0x1000 0x1000) .nil) (sample_buffer 2 0x3000 0x2000)
    (.node .nil (sample_buffer 3 0x8000 0x1000) .nil)

/-- An address space with 4 KiB and 64 KiB pages, one reservation of two big
pages at 16 GiB, and one buffer linked in its first half. -/
def sample_vm : VmGk20a :=
  { va_start := 0x4000000
    va_limit := 0x800000000
    big_pages := true
    big_page_size := 0x10000
    enable_ctag := true
    page_size_small := 0x1000
    page_size_big := 0x10000
    vma_small := { base := 0x4000, limit := 0x400000, runs := [] }
    vma_big := { base := 0x40000, limit := 0x80000, runs := [(0x40000, 2)] }
    mapped_buffers := .node .nil
      { sample_buffer 1 0x400000000 0x10000 with
        pgsz_idx := 1, flags := 1, va_allocated := false,
        va_node := some { vaddr_start := 0x400000000, sparse := false } } .nil
    num_user_mapped_buffers := 0
    reserved_va_list := [{ vaddr_start := 0x400000000, size := 0x20000, pgsz_idx := 1,
                           sparse := false,
                           va_buffers_list := [{ addr := 0x400000000, size := 0x10000 }] }] }

/-- Attributes of a buffer in the big page-size class. -/
def sample_bfr : BufferAttrs :=
  { size := 0x10000, align := 0x10000, ctag_offset := 0, ctag_lines := 0, pgsz_idx := 1,
    kind_v := 0, uc_kind_v := 0 }

/-- Header constants with the values they have on gk20a, every kind
supported, and one compressible kind (219) whose uncompressed counterpart
is 254. -/
def sample_g : Gk20a :=
  { NV_GMMU_VA_RANGE := 35
    NVGPU_AS_MAP_BUFFER_FLAGS_FIXED_OFFSET := 1
    NVGPU_MAP_BUFFER_FLAGS_CACHEABLE_TRUE := 4
    NVGPU_GPU_FLAGS_SUPPORT_UNMAPPED_PTE := 32
    NVGPU_AS_ALLOC_SPACE_FLAGS_FIXED_OFFSET := 1
    NVGPU_AS_ALLOC_SPACE_FLAGS_SPARSE := 2
    gmmu_pte_kind_invalid_v := 255
    gmmu_pte_kind_pitch_v := 0
    gk20a_kind_is_supported := fun _ => true
    gk20a_kind_is_compressible := fun k => k == 219
    gk20a_get_uncompressed_kind := fun k => if k == 219 then 254 else k
    compression_page_size := 131072
    tegra_platform_is_silicon := true }

/-- Surroundings in which nothing fails and the reference count reads 1. -/
def sample_env : Env :=
  { attach_ok := true
    map_attachment_ok := true
    pte_alloc_ok := true
    kzalloc_ok := true
    refcount_reads := fun _ => 1 }

/-- A fresh address space as `gk20a_vm_alloc_share` makes it for 64 KiB big
pages (low hole `big_page_size << 10`, aperture `1 << 35`), with driver data
present for every buffer and nothing pinned. -/
def sample_state : MmState :=
  { vm := gk20a_init_vm true 0x10000 (0x10000 <<< 10) (1 <<< 35) true
    priv := fun _ => some { comptags := { offset := 0, lines := 0 }, pin_count := 0,
                            attached := false }
    comp_tags := Gk20aAllocator.init 1 1000
    log := [] }

/-- A 128 KiB buffer, a 64 KiB buffer, and a 64 KiB buffer that is only
4 KiB-aligned. -/
def sample_buf_a : DmaBuf := { id := 1, size := 0x20000, sg_dma_address := 0x100000, sg_phys := 0 }
def sample_buf_b : DmaBuf := { id := 2, size := 0x10000, sg_dma_address := 0x200000, sg_phys := 0 }
def sample_buf_c : DmaBuf := { id := 3, size := 0x10000, sg_dma_address := 0x301000, sg_phys := 0 }

/-- The sample address space after one kernel mapping of `sample_buf_c`
(it lands at `0x4000000`), and after mapping it a second time. -/
def sample_mapped_once : MmState :=
  (gk20a_vm_map sample_g sample_state sample_env sample_buf_c 0 0 0 false 0 0 0).2
def sample_mapped_twice : MmState :=
  (gk20a_vm_map sample_g sample_mapped_once sample_env sample_buf_c 0 0 0 false 0 0 0).2

/-- The registry entry of `sample_buf_c` in `sample_mapped_once`. -/
def sample_entry_c : MappedBuffer :=
  { sample_buffer 3 0x4000000 0x10000 with ref := 1 }

/-- The sample address space after one user-space mapping of `sample_buf_c`. -/
def sample_user_mapped : MmState :=
  (gk20a_vm_map sample_g sample_state sample_env sample_buf_c 0 0 0 true 0 0 0).2

/-- `gk20a_vm_find_buffer(vm, gpu_va, &dmabuf, &offset)`: the return value and,
on success, what is stored in `*dmabuf` and `*offset`. -/
def gk20a_vm_find_buffer (vm : VmGk20a) (gpu_va : Nat) : Int × Option (Nat × Nat) :=
  match find_mapped_buffer_range_locked vm.mapped_buffers gpu_va with
  | none => (-EINVAL, none)
  | some mapped_buffer => (0, some (mapped_buffer.dmabuf, u64 (gpu_va + U64 - mapped_buffer.addr)))

/-- Entry `m` covers address `a`. -/
def MappedBuffer.covers (m : MappedBuffer) (a : Nat) : Prop := m.addr ≤ a ∧ a < m.addr + m.size

/-- The entries have non-empty ranges whose end `addr + size` is below `2^64`
(the `u64` sum does not wrap) and that are pairwise disjoint. -/
def RbNode.RangesApart (t : RbNode) : Prop :=
  (∀ e ∈ t.toList, 0 < e.size ∧ e.addr + e.size < U64) ∧
  ∀ e ∈ t.toList, ∀ e' ∈ t.toList, e ≠ e' → ¬ ranges_overlap e.addr e.size e'.addr e'.size

instance (m : MappedBuffer) (a : Nat) : Decidable (m.covers a) := by
  unfold MappedBuffer.covers; infer_instance

instance (t : RbNode) : Decidable t.RangesApart := by
  unfold RbNode.RangesApart; infer_instance

/-- The sample address space with the three-entry sample registry. -/
def sample_vm_tree : VmGk20a := { sample_vm with mapped_buffers := sample_tree }

/-- A 64 KiB buffer whose address is only 2 KiB-aligned, and the same buffer
at a 4 KiB-aligned address. -/
def sample_buf_d : DmaBuf := { id := 4, size := 0x10000, sg_dma_address := 0x100800, sg_phys := 0 }
def sample_buf_e : DmaBuf := { id := 4, size := 0x10000, sg_dma_address := 0x101000, sg_phys := 0 }

/-- Surroundings in which only the `kzalloc` of the tracking node fails. -/
def sample_env_no_kzalloc : Env := { sample_env with kzalloc_ok := false }

/-! ## Hardware sync: cache flush, cache invalidate, TLB invalidate -/

/-- The field accessors of `hw_flush_gk20a.h` and `hw_fb_gk20a.h` the polling
loops use (the headers are not among the source files). -/
structure SyncRegs where
  flush_fb_flush_outstanding_v : Nat → Nat
  flush_fb_flush_outstanding_true_v : Nat
  flush_fb_flush_pending_v : Nat → Nat
  flush_fb_flush_pending_busy_v : Nat
  flush_l2_system_invalidate_outstanding_v : Nat → Nat
  flush_l2_system_invalidate_outstanding_true_v : Nat
  flush_l2_system_invalidate_pending_v : Nat → Nat
  flush_l2_system_invalidate_pending_busy_v : Nat
  flush_l2_flush_dirty_outstanding_v : Nat → Nat
  flush_l2_flush_dirty_outstanding_true_v : Nat
  flush_l2_flush_dirty_pending_v : Nat → Nat
  flush_l2_flush_dirty_pending_busy_v : Nat
  fb_mmu_ctrl_pri_fifo_space_v : Nat → Nat
  fb_mmu_ctrl_pri_fifo_empty_v : Nat → Nat
  fb_mmu_ctrl_pri_fifo_empty_false_f : Nat

/-- The `do { data = gk20a_readl(..); if (busy) { retry--; udelay(..); } else
break; } while (retry >= 0 || !tegra_platform_is_silicon());` loop that
`gk20a_mm_fb_flush`, `gk20a_mm_l2_invalidate_locked`, `gk20a_mm_l2_flush` and
`gk20a_mm_tlb_invalidate` each contain. `reads i` is the value the `i`-th
`gk20a_readl` of the call returns, `i` the number of reads done so far, `fuel`
bounds the reads the evaluation follows: `none` means the loop is still
polling after `fuel` reads; otherwise the result is `retry` at the exit and the
number of reads done. `retry` is an `s32`; it stays within `[-1, budget]` on
silicon and is not looked at otherwise. -/
def poll_status (silicon : Bool) (busy : Nat → Bool) (reads : Nat → Nat) :
    Nat → Int → Nat → Option (Int × Nat)
  | 0, _, _ => none
  | fuel + 1, retry, i =>
    if busy (reads i) then
      if retry - 1 ≥ 0 ∨ silicon = false then poll_status silicon busy reads fuel (retry - 1) (i + 1)
      else some (retry - 1, i + 1)
    else some (retry, i + 1)

/-- The busy test of `gk20a_mm_fb_flush`. -/
def fb_flush_busy (r : SyncRegs) (data : Nat) : Bool :=
  decide (r.flush_fb_flush_outstanding_v data = r.flush_fb_flush_outstanding_true_v ∨
    r.flush_fb_flush_pending_v data = r.flush_fb_flush_pending_busy_v)

/-- The busy test of `gk20a_mm_l2_invalidate_locked`. -/
def l2_invalidate_busy (r : SyncRegs) (data : Nat) : Bool :=
  decide (r.flush_l2_system_invalidate_outstanding_v data =
      r.flush_l2_system_invalidate_outstanding_true_v ∨
    r.flush_l2_system_invalidate_pending_v data = r.flush_l2_system_invalidate_pending_busy_v)

/-- The busy test of `gk20a_mm_l2_flush`. -/
def l2_flush_busy (r : SyncRegs) (data : Nat) : Bool :=
  decide (r.flush_l2_flush_dirty_outstanding_v data = r.flush_l2_flush_dirty_outstanding_true_v ∨
    r.flush_l2_flush_dirty_pending_v data = r.flush_l2_flush_dirty_pending_busy_v)

/-- `gk20a_mm_fb_flush(g)`: the return value and the number of status reads;
`none` while the loop is still polling after `fuel` reads. -/
def gk20a_mm_fb_flush (g : Gk20a) (r : SyncRegs) (reads : Nat → Nat) (fuel : Nat) :
    Option (Int × Nat) :=
  match poll_status g.tegra_platform_is_silicon (fb_flush_busy r) reads fuel 100 0 with
  | none => none
  | some (retry, n) => some (if g.tegra_platform_is_silicon ∧ retry < 0 then -EBUSY else 0, n)

/-- `gk20a_mm_l2_invalidate_locked(g)`: the number of status reads. -/
def gk20a_mm_l2_invalidate_locked (g : Gk20a) (r : SyncRegs) (reads : Nat → Nat) (fuel : Nat) :
    Option Nat :=
  (poll_status g.tegra_platform_is_silicon (l2_invalidate_busy r) reads fuel 200 0).map Prod.snd

/-- `gk20a_mm_l2_flush(g, invalidate)`, with `power_on` the value of
`g->power_on`: the number of status reads of its own loop and of the loop of
`gk20a_mm_l2_invalidate_locked` (0 when that is not called). -/
def gk20a_mm_l2_flush (g : Gk20a) (r : SyncRegs) (power_on invalidate : Bool) (reads : Nat → Nat)
    (fuel : Nat) : Option (Nat × Nat) :=
  if power_on = false then some (0, 0)
  else
    match poll_status g.tegra_platform_is_silicon (l2_flush_busy r) reads fuel 200 0 with
    | none => none
    | some (_, n) =>
      if invalidate then
        (gk20a_mm_l2_invalidate_locked g r (fun i => reads (n + i)) fuel).map (fun m => (n, m))
      else some (n, 0)

/-- `gk20a_mm_tlb_invalidate(vm)`, with `power_on` the value of `g->power_on`:
the number of status reads of the first loop (wait for fifo space) and of the
second (wait for the invalidate), which share one `retry` counter; the second
is not entered when the first used up the budget on silicon. -/
def gk20a_mm_tlb_invalidate (g : Gk20a) (r : SyncRegs) (power_on : Bool) (reads : Nat → Nat)
    (fuel : Nat) : Option (Nat × Nat) :=
  if power_on = false then some (0, 0)
  else
    match poll_status g.tegra_platform_is_silicon
        (fun data => decide (r.fb_mmu_ctrl_pri_fifo_space_v data = 0)) reads fuel 2000 0 with
    | none => none
    | some (retry, n) =>
      if g.tegra_platform_is_silicon ∧ retry < 0 then some (n, 0)
      else
        (poll_status g.tegra_platform_is_silicon
          (fun data => decide (r.fb_mmu_ctrl_pri_fifo_empty_v data =
            r.fb_mmu_ctrl_pri_fifo_empty_false_f))
          (fun i => reads (n + i)) fuel retry 0).map (fun p => (n, p.2))

/-- `gk20a_init_mm_setup_hw(g)`: the return value. `init_bar2_mm_hw_setup` is
`none` when the op is not set and the op's return value otherwise; the two
`gk20a_mm_fb_flush` calls of `if (gk20a_mm_fb_flush(g) || gk20a_mm_fb_flush(g))`
read the status register one after the other, the second only when the first
returned 0. -/
def gk20a_init_mm_setup_hw (g : Gk20a) (r : SyncRegs) (init_bar2_mm_hw_setup : Option Int)
    (reads : Nat → Nat) (fuel : Nat) : Option Int :=
  if init_bar2_mm_hw_setup.isSome ∧ init_bar2_mm_hw_setup ≠ some 0 then init_bar2_mm_hw_setup
  else
    match gk20a_mm_fb_flush g r reads fuel with
    | none => none
    | some (ret1, n) =>
      if ret1 ≠ 0 then some (-EBUSY)
      else
        match gk20a_mm_fb_flush g r (fun i => reads (n + i)) fuel with
        | none => none
        | some (ret2, _) => if ret2 ≠ 0 then some (-EBUSY) else some 0

/-- Sample decoders: `pending` in bit 0 and `outstanding` in bit 1 of the
flush registers, fifo `empty` in bit 15 and fifo `space` in bits 16..23 of
`fb_mmu_ctrl`. -/
def sample_regs : SyncRegs :=
  { flush_fb_flush_outstanding_v := fun d => (d >>> 1) &&& 1
    flush_fb_flush_outstanding_true_v := 1
    flush_fb_flush_pending_v := fun d => d &&& 1
    flush_fb_flush_pending_busy_v := 1
    flush_l2_system_invalidate_outstanding_v := fun d => (d >>> 1) &&& 1
    flush_l2_system_invalidate_outstanding_true_v := 1
    flush_l2_system_invalidate_pending_v := fun d => d &&& 1
    flush_l2_system_invalidate_pending_busy_v := 1
    flush_l2_flush_dirty_outstanding_v := fun d => (d >>> 1) &&& 1
    flush_l2_flush_dirty_outstanding_true_v := 1
    flush_l2_flush_dirty_pending_v := fun d => d &&& 1
    flush_l2_flush_dirty_pending_busy_v := 1
    fb_mmu_ctrl_pri_fifo_space_v := fun d => (d >>> 16) &&& 0xff
    fb_mmu_ctrl_pri_fifo_empty_v := fun d => (d >>> 15) &&& 1
    fb_mmu_ctrl_pri_fifo_empty_false_f := 0 }

/-- The sample constants on a simulated (non-silicon) backend. -/
def sample_g_sim : Gk20a := { sample_g with tegra_platform_is_silicon := false }

/-- Status reads that report busy (`pending`) `n` times and idle afterwards. -/
def sample_reads_busy (n : Nat) : Nat → Nat := fun i => if i < n then 1 else 0

/-! ## Page tables -/

/-- The field accessors of `hw_gmmu_gk20a.h`, the `enum gk20a_mem_rw_flag`
values of `mm_gk20a.h` and the kernel and platform facts the page-table code
uses (none of them is among the source files). -/
structure GmmuHw where
  gmmu_pde_aperture_big_video_memory_f : Nat
  gmmu_pde_aperture_big_invalid_f : Nat
  gmmu_pde_address_big_sys_f : Nat → Nat
  gmmu_pde_address_shift_v : Nat
  gmmu_pde_size_full_f : Nat
  gmmu_pde_aperture_small_video_memory_f : Nat
  gmmu_pde_aperture_small_invalid_f : Nat
  gmmu_pde_vol_small_true_f : Nat
  gmmu_pde_vol_small_false_f : Nat
  gmmu_pde_address_small_sys_f : Nat → Nat
  gmmu_pde_vol_big_true_f : Nat
  gmmu_pde_vol_big_false_f : Nat
  gmmu_pte_valid_true_f : Nat
  gmmu_pte_valid_false_f : Nat
  gmmu_pte_address_sys_f : Nat → Nat
  gmmu_pte_address_shift_v : Nat
  gmmu_pte_aperture_video_memory_f : Nat
  gmmu_pte_kind_f : Nat → Nat
  gmmu_pte_comptagline_f : Nat → Nat
  gmmu_pte_read_only_true_f : Nat
  gmmu_pte_write_disable_true_f : Nat
  gmmu_pte_read_disable_true_f : Nat
  gmmu_pte_vol_true_f : Nat
  gk20a_mem_flag_read_only : Nat
  gk20a_mem_flag_write_only : Nat
  device_is_iommuable : Bool
  DMA_ERROR_CODE : Nat
  PAGE_SHIFT : Nat
  tegra_platform_is_linsim : Bool

/-- The function a level's `update_entry` points to. -/
inductive UpdateEntry where
  | update_gmmu_pde_locked
  | update_gmmu_pte_locked
deriving DecidableEq, Repr

/-- `struct gk20a_mmu_level`; `update_entry = none` is the NULL of the
terminating element. -/
structure Gk20aMmuLevel where
  hi_bit : Nat → Nat
  lo_bit : Nat → Nat
  update_entry : Option UpdateEntry
  entry_size : Nat

/-- `gk20a_mm_levels_64k`. -/
def gk20a_mm_levels_64k (g : Gk20a) : List Gk20aMmuLevel :=
  [{ hi_bit := fun _ => g.NV_GMMU_VA_RANGE - 1, lo_bit := fun _ => 26,
     update_entry := some .update_gmmu_pde_locked, entry_size := 8 },
   { hi_bit := fun _ => 25, lo_bit := fun i => if i = 0 then 12 else 16,
     update_entry := some .update_gmmu_pte_locked, entry_size := 8 },
   { hi_bit := fun _ => 0, lo_bit := fun _ => 0, update_entry := none, entry_size := 0 }]

/-- `gk20a_mm_levels_128k`. -/
def gk20a_mm_levels_128k (g : Gk20a) : List Gk20aMmuLevel :=
  [{ hi_bit := fun _ => g.NV_GMMU_VA_RANGE - 1, lo_bit := fun _ => 27,
     update_entry := some .update_gmmu_pde_locked, entry_size := 8 },
   { hi_bit := fun _ => 26, lo_bit := fun i => if i = 0 then 12 else 17,
     update_entry := some .update_gmmu_pte_locked, entry_size := 8 },
   { hi_bit := fun _ => 0, lo_bit := fun _ => 0, update_entry := none, entry_size := 0 }]

/-- `gk20a_mm_get_mmu_levels(g, big_page_size)`. -/
def gk20a_mm_get_mmu_levels (g : Gk20a) (big_page_size : Nat) : List Gk20aMmuLevel :=
  if big_page_size = 65536 then gk20a_mm_levels_64k g else gk20a_mm_levels_128k g

/-- `vm->mmu_levels[lvl]`. -/
def mmu_level (levels : List Gk20aMmuLevel) (lvl : Nat) : Gk20aMmuLevel :=
  levels.getD lvl { hi_bit := fun _ => 0, lo_bit := fun _ => 0, update_entry := none,
                    entry_size := 0 }

/-- A pointer to a `struct gk20a_mm_entry` of an address space: the indices
that lead to it from `vm->pdb` (`[]` is `&vm->pdb`, `[i]` is
`vm->pdb.entries + i`). -/
abbrev EntryPtr := List Nat

/-- The head of an entry's scatter list: `sg_dma_address(entry->sgt->sgl)` and
`sg_phys(entry->sgt->sgl)`. -/
structure ScatterHead where
  sg_dma_address : Nat
  sg_phys : Nat
deriving DecidableEq, Repr

/-- The page-table tree of an address space: for every entry its `size`
(0: no table behind it), its `pgsz`, the length of its `entries` array
(`has_entries` is `entries != NULL`), its scatter list head, and the memory
behind `cpu_va` as the two 32-bit words of each 8-byte slot. -/
structure PageTables where
  size : EntryPtr → Nat
  pgsz : EntryPtr → Nat
  has_entries : EntryPtr → Bool
  num_entries : EntryPtr → Nat
  sgl : EntryPtr → ScatterHead
  mem : EntryPtr → Nat → Nat × Nat

/-- What the page-table code takes from its surroundings: whether the
`vzalloc` of an `entries` array, the allocation of a table and
`map_gmmu_pages` succeed for an entry, and where a new table lies. -/
structure PtEnv where
  vzalloc_ok : EntryPtr → Bool
  alloc_pages_ok : EntryPtr → Bool
  map_pages_ok : EntryPtr → Bool
  new_sgl : EntryPtr → ScatterHead

/-- `gk20a_mm_get_physical_addr_bits(g)`. -/
def gk20a_mm_get_physical_addr_bits : Nat := 34

/-- `gk20a_mm_smmu_vaddr_translate(g, iova)`. -/
def gk20a_mm_smmu_vaddr_translate (hw : GmmuHw) (iova : Nat) : Nat :=
  if hw.device_is_iommuable = false then iova
  else iova ||| u64 (1 <<< gk20a_mm_get_physical_addr_bits)

/-- `gk20a_mm_iova_addr(g, sgl)`. -/
def gk20a_mm_iova_addr (hw : GmmuHw) (sgl : ScatterHead) : Nat :=
  if hw.device_is_iommuable = false then sgl.sg_phys
  else if sgl.sg_dma_address = 0 then sgl.sg_phys
  else if sgl.sg_dma_address = hw.DMA_ERROR_CODE then 0
  else gk20a_mm_smmu_vaddr_translate hw sgl.sg_dma_address

/-- `big_valid_pde0_bits(pte_addr)`. -/
def big_valid_pde0_bits (hw : GmmuHw) (pte_addr : Nat) : Nat :=
  u32 (hw.gmmu_pde_aperture_big_video_memory_f |||
    hw.gmmu_pde_address_big_sys_f (u32 (pte_addr >>> hw.gmmu_pde_address_shift_v)))

/-- `small_valid_pde1_bits(pte_addr)`. -/
def small_valid_pde1_bits (hw : GmmuHw) (pte_addr : Nat) : Nat :=
  u32 (hw.gmmu_pde_aperture_small_video_memory_f ||| hw.gmmu_pde_vol_small_true_f |||
    hw.gmmu_pde_address_small_sys_f (u32 (pte_addr >>> hw.gmmu_pde_address_shift_v)))

/-- `gk20a_mem_wr32(ptr, 0, w0); gk20a_mem_wr32(ptr, 1, w1)` on slot `i` of the
memory of `entry`. -/
def PageTables.write (pt : PageTables) (entry : EntryPtr) (i : Nat) (w0 w1 : Nat) : PageTables :=
  { pt with mem := fun e j => if e = entry ∧ j = i then (u32 w0, u32 w1) else pt.mem e j }

/-- `update_gmmu_pde_locked(vm, pte, i, gmmu_pgsz_idx, iova, kind_v, ctag,
cacheable, unmapped_pte, rw_flag, sparse)`: the return value, the tables and
`*ctag` afterwards. The words go to `pde_from_index(vm, i)`, slot `i` of the
memory of `vm->pdb`. -/
def update_gmmu_pde_locked (hw : GmmuHw) (pt : PageTables) (_pte : EntryPtr)
    (i _gmmu_pgsz_idx _iova _kind_v ctag : Nat) (_cacheable _unmapped_pte : Bool)
    (_rw_flag : Nat) (_sparse : Bool) : Int × PageTables × Nat :=
  let entry : EntryPtr := [i]
  let small_valid : Bool := decide (pt.size entry ≠ 0) && decide (pt.pgsz entry = gmmu_page_size_small)
  let big_valid : Bool := decide (pt.size entry ≠ 0) && decide (pt.pgsz entry = gmmu_page_size_big)
  let pte_addr_small := if small_valid then gk20a_mm_iova_addr hw (pt.sgl entry) else 0
  let pte_addr_big := if big_valid then gk20a_mm_iova_addr hw (pt.sgl entry) else 0
  let pde_v0 := u32 hw.gmmu_pde_size_full_f |||
    (if big_valid then big_valid_pde0_bits hw pte_addr_big
      else u32 hw.gmmu_pde_aperture_big_invalid_f)
  let pde_v1 := (if small_valid then small_valid_pde1_bits hw pte_addr_small
      else u32 (hw.gmmu_pde_aperture_small_invalid_f ||| hw.gmmu_pde_vol_small_false_f)) |||
    (if big_valid then u32 hw.gmmu_pde_vol_big_true_f else u32 hw.gmmu_pde_vol_big_false_f)
  (0, pt.write [] i pde_v0 pde_v1, ctag)

/-- `update_gmmu_pte_locked(vm, pte, i, gmmu_pgsz_idx, iova, kind_v, ctag,
cacheable, unmapped_pte, rw_flag, sparse)`: the return value, the tables and
`*ctag` afterwards. `page_size` is `vm->gmmu_page_sizes[gmmu_pgsz_idx]`. -/
def update_gmmu_pte_locked (g : Gk20a) (hw : GmmuHw) (page_size : Nat) (pt : PageTables)
    (pte : EntryPtr) (i _gmmu_pgsz_idx iova kind_v ctag : Nat) (cacheable unmapped_pte : Bool)
    (rw_flag : Nat) (sparse : Bool) : Int × PageTables × Nat :=
  let ctag_granularity := u32 g.compression_page_size
  let page_size := u32 page_size
  if iova ≠ 0 then
    let w0 := if unmapped_pte then
        hw.gmmu_pte_valid_false_f |||
          hw.gmmu_pte_address_sys_f (u32 (iova >>> hw.gmmu_pte_address_shift_v))
      else
        hw.gmmu_pte_valid_true_f |||
          hw.gmmu_pte_address_sys_f (u32 (iova >>> hw.gmmu_pte_address_shift_v))
    let w1 := hw.gmmu_pte_aperture_video_memory_f ||| hw.gmmu_pte_kind_f kind_v |||
      hw.gmmu_pte_comptagline_f (ctag / ctag_granularity)
    let w0 := if rw_flag = hw.gk20a_mem_flag_read_only then w0 ||| hw.gmmu_pte_read_only_true_f
      else w0
    let w1 := if rw_flag = hw.gk20a_mem_flag_read_only then w1 ||| hw.gmmu_pte_write_disable_true_f
      else if rw_flag = hw.gk20a_mem_flag_write_only then w1 ||| hw.gmmu_pte_read_disable_true_f
      else w1
    let w1 := if unmapped_pte = false then
        (if cacheable = false then w1 ||| hw.gmmu_pte_vol_true_f
          else (if cacheable = false then w1 ||| hw.gmmu_pte_write_disable_true_f else w1))
      else w1
    let ctag := if ctag ≠ 0 then u32 (ctag + page_size) else ctag
    (0, pt.write pte i w0 w1, ctag)
  else if sparse then
    (0, pt.write pte i hw.gmmu_pte_valid_false_f hw.gmmu_pte_vol_true_f, ctag)
  else (0, pt.write pte i 0 0, ctag)

/-- `alloc_gmmu_pages(vm, order, entry)` (and `alloc_gmmu_phys_pages` on
linsim): `entry->size` is stored before the allocation is tried, except on
linsim; a new table is zeroed. -/
def alloc_gmmu_pages (hw : GmmuHw) (env : PtEnv) (pt : PageTables) (order : Nat)
    (entry : EntryPtr) : Int × PageTables :=
  let len := u32 (u32 (1 <<< order) * 2 ^ hw.PAGE_SHIFT)
  let sized : PageTables := { pt with size := fun e => if e = entry then len else pt.size e }
  let filled : PageTables := { sized with
    sgl := fun e => if e = entry then env.new_sgl entry else pt.sgl e,
    mem := fun e j => if e = entry then (0, 0) else pt.mem e j }
  if hw.tegra_platform_is_linsim then
    if env.alloc_pages_ok entry then (0, filled) else (-ENOMEM, pt)
  else if env.alloc_pages_ok entry then (0, filled) else (-ENOMEM, sized)

/-- `gk20a_zalloc_gmmu_page_table(vm, pgsz_idx, l, entry)`. -/
def gk20a_zalloc_gmmu_page_table (hw : GmmuHw) (env : PtEnv) (pt : PageTables) (pgsz_idx : Nat)
    (l : Gk20aMmuLevel) (entry : EntryPtr) : Int × PageTables :=
  let order : Int := (l.hi_bit pgsz_idx : Int) - l.lo_bit pgsz_idx + 1 + ilog2 l.entry_size -
    hw.PAGE_SHIFT
  let order := max 0 order
  let a := alloc_gmmu_pages hw env pt order.toNat entry
  if a.1 ≠ 0 then a
  else (a.1, { a.2 with pgsz := fun e => if e = entry then pgsz_idx else a.2.pgsz e })

/-- One call of a level's `update_entry`, as the walk records it. -/
structure EntryCall where
  fn : UpdateEntry
  pte : EntryPtr
  i : Nat
  iova : Nat
  ctag : Nat
deriving DecidableEq, Repr

/-- The index `update_gmmu_level_locked` starts from at a level:
`(gpu_va & ((1ULL << (hi_bit + 1)) - 1ULL)) >> lo_bit`, stored in a `u32`. -/
def pde_index (l : Gk20aMmuLevel) (pgsz_idx gpu_va : Nat) : Nat :=
  u32 ((gpu_va &&& u64 (u64 (1 <<< (l.hi_bit pgsz_idx + 1)) + U64 - 1)) >>> l.lo_bit pgsz_idx)

/-- The end of the cell of `gpu_va` at a level, cut at `gpu_end`:
`min((gpu_va + pde_size) & ~(pde_size-1), gpu_end)`. -/
def level_next (l : Gk20aMmuLevel) (pgsz_idx gpu_va gpu_end : Nat) : Nat :=
  let pde_size := u64 (1 <<< l.lo_bit pgsz_idx)
  min (u64 (gpu_va + pde_size) &&& not64 (u64 (pde_size + U64 - 1))) gpu_end

/-- The block "Allocate next level" of `update_gmmu_level_locked`: the
`entries` array of `pte` and the table behind `pte->entries + pde_i`, each
allocated when missing; nothing when the next level has no `update_entry`. -/
def alloc_next_level (hw : GmmuHw) (env : PtEnv) (l next_l : Gk20aMmuLevel) (pt : PageTables)
    (pte : EntryPtr) (pde_i pgsz_idx : Nat) : Int × PageTables :=
  if next_l.update_entry.isSome = false then (0, pt)
  else
    let grown : PageTables :=
      if pt.has_entries pte = false then
        { pt with
          has_entries := fun e => if e = pte then env.vzalloc_ok pte else pt.has_entries e,
          num_entries := fun e => if e = pte then
            (if env.vzalloc_ok pte then 1 <<< (l.hi_bit pgsz_idx - l.lo_bit pgsz_idx) else 0)
            else pt.num_entries e,
          pgsz := fun e => if e = pte then pgsz_idx else pt.pgsz e }
      else pt
    if grown.has_entries pte = false then (-ENOMEM, grown)
    else if grown.size (pte ++ [pde_i]) = 0 then
      gk20a_zalloc_gmmu_page_table hw env grown pgsz_idx next_l (pte ++ [pde_i])
    else (0, grown)

/-- The call `l->update_entry(vm, pte, pde_i, pgsz_idx, iova, kind_v, ctag,
cacheable, unmapped_pte, rw_flag, sparse)`. -/
def call_update_entry (g : Gk20a) (hw : GmmuHw) (page_size : Nat) (fn : UpdateEntry)
    (pt : PageTables) (pte : EntryPtr) (pde_i pgsz_idx iova kind_v ctag : Nat)
    (cacheable unmapped_pte : Bool) (rw_flag : Nat) (sparse : Bool) : Int × PageTables × Nat :=
  match fn with
  | .update_gmmu_pde_locked =>
    update_gmmu_pde_locked hw pt pte pde_i pgsz_idx iova kind_v ctag cacheable unmapped_pte
      rw_flag sparse
  | .update_gmmu_pte_locked =>
    update_gmmu_pte_locked g hw page_size pt pte pde_i pgsz_idx iova kind_v ctag cacheable
      unmapped_pte rw_flag sparse

/-- The `while (gpu_va < gpu_end)` loop of `update_gmmu_level_locked` at level
`lvl`, entered with the current `pde_i`, `iova` and `gpu_va`; the recursive
call for the next level runs the same loop one level down, from the index
`pde_index` gives. `fuel` bounds the nesting of loop iterations the evaluation
follows (`none`: more is needed; also when the level has no `update_entry`,
where the code would call through NULL). Result: the return value, the
tables, `*ctag`, and the `update_entry` calls made so far, in order. -/
def update_gmmu_level_loop (g : Gk20a) (hw : GmmuHw) (env : PtEnv) (levels : List Gk20aMmuLevel)
    (page_size pgsz_idx kind_v : Nat) (cacheable unmapped_pte : Bool) (rw_flag : Nat)
    (sparse : Bool) (gpu_end : Nat) :
    Nat → Nat → PageTables → EntryPtr → Nat → Nat → Nat → Nat → List EntryCall →
      Option (Int × PageTables × Nat × List EntryCall)
  | 0, _, _, _, _, _, _, _, _ => none
  | fuel + 1, lvl, pt, pte, pde_i, iova, gpu_va, ctag, calls =>
    if ¬ gpu_va < gpu_end then some (0, pt, ctag, calls)
    else
      let l := mmu_level levels lvl
      let next_l := mmu_level levels (lvl + 1)
      let next := level_next l pgsz_idx gpu_va gpu_end
      let a := alloc_next_level hw env l next_l pt pte pde_i pgsz_idx
      if a.1 ≠ 0 then some (a.1, a.2, ctag, calls)
      else
        match l.update_entry with
        | none => none
        | some fn =>
          let u := call_update_entry g hw page_size fn a.2 pte pde_i pgsz_idx iova kind_v ctag
            cacheable unmapped_pte rw_flag sparse
          let calls := calls ++ [{ fn := fn, pte := pte, i := pde_i, iova := iova, ctag := ctag }]
          if u.1 ≠ 0 then some (u.1, u.2.1, u.2.2, calls)
          else
            let down : Option (Int × PageTables × Nat × List EntryCall) :=
              if next_l.update_entry.isSome then
                if env.map_pages_ok (pte ++ [pde_i]) = false then
                  some (-ENOMEM, u.2.1, u.2.2, calls)
                else
                  update_gmmu_level_loop g hw env levels page_size pgsz_idx kind_v cacheable
                    unmapped_pte rw_flag sparse next fuel (lvl + 1) u.2.1 (pte ++ [pde_i])
                    (pde_index next_l pgsz_idx gpu_va) iova gpu_va u.2.2 calls
              else some (0, u.2.1, u.2.2, calls)
            match down with
            | none => none
            | some d =>
              if d.1 ≠ 0 then some d
              else
                update_gmmu_level_loop g hw env levels page_size pgsz_idx kind_v cacheable
                  unmapped_pte rw_flag sparse gpu_end fuel lvl d.2.1 pte (u32 (pde_i + 1))
                  (if iova ≠ 0 then u64 (iova + (next - gpu_va)) else iova) next d.2.2.1 d.2.2.2

/-- `update_gmmu_level_locked(vm, pte, pgsz_idx, iova, gpu_va, gpu_end, kind_v,
ctag, cacheable, unmapped_pte, rw_flag, sparse, lvl)`. -/
def update_gmmu_level_locked (g : Gk20a) (hw : GmmuHw) (env : PtEnv) (levels : List Gk20aMmuLevel)
    (page_size : Nat) (fuel : Nat) (pt : PageTables) (pte : EntryPtr)
    (pgsz_idx iova gpu_va gpu_end kind_v ctag : Nat) (cacheable unmapped_pte : Bool)
    (rw_flag : Nat) (sparse : Bool) (lvl : Nat) :
    Option (Int × PageTables × Nat × List EntryCall) :=
  update_gmmu_level_loop g hw env levels page_size pgsz_idx kind_v cacheable unmapped_pte rw_flag
    sparse gpu_end fuel lvl pt pte (pde_index (mmu_level levels lvl) pgsz_idx gpu_va) iova gpu_va
    ctag []

/-- `update_gmmu_ptes_locked(vm, pgsz_idx, sgt, buffer_offset, gpu_va, gpu_end,
kind_v, ctag_offset, cacheable, unmapped_pte, rw_flag, sparse)` on the page
tables: the return value, the tables, and the `update_entry` calls made.
`sgt` is `none` for a NULL scatter table. -/
def update_gmmu_ptes_locked_tables (g : Gk20a) (hw : GmmuHw) (env : PtEnv)
    (levels : List Gk20aMmuLevel) (page_size : Nat) (fuel : Nat) (pt : PageTables)
    (pgsz_idx : Nat) (sgt : Option ScatterHead) (buffer_offset gpu_va gpu_end kind_v
    ctag_offset : Nat) (cacheable unmapped_pte : Bool) (rw_flag : Nat) (sparse : Bool) :
    Option (Int × PageTables × List EntryCall) :=
  let ctag := u32 (ctag_offset * g.compression_page_size)
  if buffer_offset &&& u32 (u32 page_size + U32 - 1) ≠ 0 then some (-EINVAL, pt, [])
  else
    let iova := match sgt with
      | some sgl => u64 (gk20a_mm_iova_addr hw sgl + buffer_offset)
      | none => 0
    if env.map_pages_ok [] = false then some (-ENOMEM, pt, [])
    else
      (update_gmmu_level_locked g hw env levels page_size fuel pt [] pgsz_idx iova gpu_va gpu_end
        kind_v ctag cacheable unmapped_pte rw_flag sparse 0).map (fun r => (r.1, r.2.1, r.2.2.2))

/-- Sample field encodings (one bit or bit field per name, not the chip's
header values), 4 KiB kernel pages, an IOMMU, and surroundings in which every
allocation succeeds. -/
def sample_hw : GmmuHw :=
  { gmmu_pde_aperture_big_video_memory_f := 1
    gmmu_pde_aperture_big_invalid_f := 0
    gmmu_pde_address_big_sys_f := fun v => (v &&& 0xfffffff) <<< 4
    gmmu_pde_address_shift_v := 12
    gmmu_pde_size_full_f := 0
    gmmu_pde_aperture_small_video_memory_f := 1
    gmmu_pde_aperture_small_invalid_f := 0
    gmmu_pde_vol_small_true_f := 4
    gmmu_pde_vol_small_false_f := 0
    gmmu_pde_address_small_sys_f := fun v => (v &&& 0xfffffff) <<< 4
    gmmu_pde_vol_big_true_f := 8
    gmmu_pde_vol_big_false_f := 0
    gmmu_pte_valid_true_f := 1
    gmmu_pte_valid_false_f := 0
    gmmu_pte_address_sys_f := fun v => (v &&& 0xfffffff) <<< 4
    gmmu_pte_address_shift_v := 12
    gmmu_pte_aperture_video_memory_f := 0
    gmmu_pte_kind_f := fun v => (v &&& 0xff) <<< 4
    gmmu_pte_comptagline_f := fun v => (v &&& 0x1ffff) <<< 12
    gmmu_pte_read_only_true_f := 4
    gmmu_pte_write_disable_true_f := 0x80000000
    gmmu_pte_read_disable_true_f := 0x40000000
    gmmu_pte_vol_true_f := 1
    gk20a_mem_flag_read_only := 1
    gk20a_mem_flag_write_only := 2
    device_is_iommuable := true
    DMA_ERROR_CODE := 0xffffffffffffffff
    PAGE_SHIFT := 12
    tegra_platform_is_linsim := false }

/-- Surroundings in which every page-table allocation succeeds; the table of
entry `[i]` lies at `0x80000000 + i * 0x10000`. -/
def sample_pt_env : PtEnv :=
  { vzalloc_ok := fun _ => true
    alloc_pages_ok := fun _ => true
    map_pages_ok := fun _ => true
    new_sgl := fun e => { sg_dma_address := 0x80000000 + e.headD 0 * 0x10000, sg_phys := 0 } }

/-- Page tables with nothing allocated below `vm->pdb`. -/
def sample_pt : PageTables :=
  { size := fun e => if e = [] then 4096 else 0
    pgsz := fun _ => 0
    has_entries := fun _ => false
    num_entries := fun _ => 0
    sgl := fun _ => { sg_dma_address := 0x70000000, sg_phys := 0 }
    mem := fun _ _ => (0, 0) }

/-- The leaf updates among the recorded calls: table, index and `iova` of each
`update_gmmu_pte_locked` call, in order. -/
def leaf_calls (calls : List EntryCall) : List (EntryPtr × Nat × Nat) :=
  calls.filterMap (fun c =>
    if c.fn = UpdateEntry.update_gmmu_pte_locked then some (c.pte, c.i, c.iova) else none)

/-- A request for a sparse reservation of two big pages anywhere, the state
after `gk20a_vm_alloc_space` served it in the fresh sample address space (the
reservation lies at `0x400000000`), and the request that frees it again. -/
def sample_sparse_alloc_args : SpaceArgs := { pages := 2, page_size := 0x10000, flags := 2, offset := 0 }
def sample_sparse_reserved : MmState :=
  (gk20a_vm_alloc_space sample_g sample_state sample_env sample_sparse_alloc_args).2.2
def sample_sparse_free_args : SpaceArgs :=
  { pages := 2, page_size := 0x10000, flags := 0, offset := 0x400000000 }

/-- One call on a buffer's pin interface: `gk20a_mm_pin` with the outcomes of
`dma_buf_attach` and `dma_buf_map_attachment`, or `gk20a_mm_unpin`. -/
inductive PinCall where
  | pin (attach_ok map_attachment_ok : Bool)
  | unpin
deriving DecidableEq, Repr

/-- Makes the calls in order on buffer `dmabuf`: the state afterwards and the
number of pins that returned a scatter table. -/
def run_pin_calls (env : Env) (dmabuf : Nat) : MmState → List PinCall → MmState × Nat
  | s, [] => (s, 0)
  | s, .pin a m :: rest =>
    let p := gk20a_mm_pin s { env with attach_ok := a, map_attachment_ok := m } dmabuf
    let r := run_pin_calls env dmabuf p.2 rest
    (r.1, if p.1 then r.2 + 1 else r.2)
  | s, .unpin :: rest => run_pin_calls env dmabuf (gk20a_mm_unpin s dmabuf) rest

/-- The fresh sample state with a comptag allocator that has no lines left, and
attributes of a compressible buffer (kind 219, uncompressed 254) that needs one
tag line. -/
def sample_state_no_tags : MmState := { sample_state with comp_tags := Gk20aAllocator.init 1 0 }
def sample_bfr_tags : BufferAttrs := { sample_bfr with ctag_lines := 1, kind_v := 219, uc_kind_v := 254 }

/-- Surroundings in which the reference count never reads 1. -/
def sample_env_busy : Env := { sample_env with refcount_reads := fun _ => 2 }

/-- The sample address space with its fixed-offset mapping at `0x400000000`
user-mapped once. -/
def sample_vm_fixed_user : MmState :=
  { sample_state with vm := { sample_vm with
      mapped_buffers := sample_vm.mapped_buffers.modify 0x400000000 (fun m => { m with user_mapped := 1 }),
      num_user_mapped_buffers := 1 } }

/-! ## Snapshot of the user-mapped buffers -/

/-- The `kref_get` calls of the loop of `gk20a_vm_get_buffers`: every node the
walk from `rb_first` along `rb_next` visits with `user_mapped` set gains one
reference; the tree structure stays. -/
def RbNode.get_user_mapped : RbNode → RbNode
  | .nil => .nil
  | .node l e r =>
    .node (get_user_mapped l) (if e.user_mapped ≠ 0 then { e with ref := e.ref + 1 } else e)
      (get_user_mapped r)

/-- `gk20a_vm_get_buffers(vm, &mapped_buffers, &num_buffers)`: the return
value, `*mapped_buffers` (each pointer is given by the `addr` of its node, in
the order the loop stored them), `*num_buffers` and the state; `none` when
`BUG_ON(i != vm->num_user_mapped_buffers)` fires. `nvgpu_alloc_ok` says
whether the allocation of the list succeeds. -/
def gk20a_vm_get_buffers (s : MmState) (nvgpu_alloc_ok : Bool) :
    Option (Int × List Nat × Int × MmState) :=
  if nvgpu_alloc_ok = false then some (-ENOMEM, [], 0, s)
  else
    let buffer_list := (s.vm.mapped_buffers.toList.filter (fun m => m.user_mapped ≠ 0)).map
      MappedBuffer.addr
    let s' := s.with_vm { s.vm with mapped_buffers := s.vm.mapped_buffers.get_user_mapped }
    if (buffer_list.length : Int) ≠ s.vm.num_user_mapped_buffers then none
    else some (0, buffer_list, s.vm.num_user_mapped_buffers, s')

/-- `gk20a_vm_put_buffers(vm, mapped_buffers, num_buffers)`: one `kref_put`
per list entry, in order. The node behind a list entry is the registry node
with that address. -/
def gk20a_vm_put_buffers (s : MmState) (env : Env) : List Nat → MmState
  | [] => s
  | a :: rest =>
    match find_mapped_buffer_locked s.vm.mapped_buffers a with
    | none => gk20a_vm_put_buffers s env rest
    | some mapped_buffer => gk20a_vm_put_buffers (kref_put s env mapped_buffer) env rest

/-- The value of `*ctag` when the recorded call returns: `update_gmmu_pde_locked`
leaves it, `update_gmmu_pte_locked` adds the page size when `iova` and `*ctag`
are non-zero. -/
def EntryCall.ctag_after (page_size : Nat) (c : EntryCall) : Nat :=
  match c.fn with
  | .update_gmmu_pde_locked => c.ctag
  | .update_gmmu_pte_locked =>
    if c.iova ≠ 0 then (if c.ctag ≠ 0 then u32 (c.ctag + u32 page_size) else c.ctag) else c.ctag

/-- The recorded calls pass `*ctag` along: the first call sees `c`, every later
call sees what the call before it left, and `c'` is what the last call left. -/
def CtagChain (page_size : Nat) : Nat → List EntryCall → Nat → Prop
  | c, [], c' => c' = c
  | c, x :: xs, c' => x.ctag = c ∧ CtagChain page_size (x.ctag_after page_size) xs c'

/-- The `*ctag` arguments of the leaf updates among the recorded calls, in
order. -/
def leaf_ctags (calls : List EntryCall) : List Nat :=
  calls.filterMap (fun c =>
    if c.fn = UpdateEntry.update_gmmu_pte_locked then some c.ctag else none)

/-- The fixed-offset mapping of the sample address space: 64 KiB at
`0x400000000` in the big page-size class, linked in a reservation that is not
sparse. -/
def sample_entry_fixed : MappedBuffer :=
  { sample_buffer 1 0x400000000 0x10000 with pgsz_idx := 1, flags := 1, va_allocated := false, va_node := some { vaddr_start := 0x400000000, sparse := false } }

/-- The sample address space as a state. -/
def sample_vm_state : MmState := { sample_state with vm := sample_vm }

/-! ## Scenario A: fixed-offset mappings in a reservation -/

/-- The request of Scenario A: two big pages, not sparse, no fixed offset. -/
def scenario_a_args : SpaceArgs := { pages := 2, page_size := 0x10000, flags := 0, offset := 0 }

/-- The fresh sample address space after the reservation of Scenario A (the
region is at `0x400000000`), and after the first fixed-offset mapping, of
`sample_buf_a` over the whole region. -/
def scenario_a_reserved : MmState :=
  (gk20a_vm_alloc_space sample_g sample_state sample_env scenario_a_args).2.2
def scenario_a_mapped : MmState :=
  (gk20a_vm_map sample_g scenario_a_reserved sample_env sample_buf_a 0x400000000 1 0 true 0 0
    0x20000).2

/-! ## A trace that ends with overlapping mappings -/

/-- On the sample address space after the reservation of Scenario A:
`sample_buf_b` is mapped twice at the fixed offset `0x400010000` (the second
half of the region; the second call finds the first mapping and takes a second
reference), the reservation is released with `gk20a_vm_free_space`, and
`sample_buf_a` (two big pages) is mapped without fixed offset. -/
def overlap_trace_mapped : MmState :=
  (gk20a_vm_map sample_g
    (gk20a_vm_map sample_g scenario_a_reserved sample_env sample_buf_b 0x400010000 1 0 false 0 0
      0).2 sample_env sample_buf_b 0x400010000 1 0 false 0 0 0).2
def overlap_trace_freed : MmState :=
  (gk20a_vm_free_space overlap_trace_mapped sample_env
    { pages := 2, page_size := 0x10000, flags := 0, offset := 0x400000000 }).2
def overlap_trace_end : MmState :=
  (gk20a_vm_map sample_g overlap_trace_freed sample_env sample_buf_a 0 0 0 false 0 0 0).2

/-- A 192 KiB buffer. -/
def sample_buf_f : DmaBuf := { id := 6, size := 0x30000, sg_dma_address := 0x400000, sg_phys := 0 }

/-- The sample address space after `sample_buf_b` and then `sample_buf_a` were
mapped without a fixed offset, and `gk20a_vm_free_space` was called with the
offset and page count of the second mapping. -/
def unreserved_trace_freed : MmState :=
  (gk20a_vm_free_space
    (gk20a_vm_map sample_g
      (gk20a_vm_map sample_g sample_state sample_env sample_buf_b 0 0 0 false 0 0 0).2
      sample_env sample_buf_a 0 0 0 false 0 0 0).2
    sample_env { pages := 2, page_size := 0x10000, flags := 0, offset := 0x400010000 }).2

/-- Then the first mapping is unmapped and `sample_buf_f` is mapped without a
fixed offset. -/
def unreserved_trace_end : MmState :=
  (gk20a_vm_map sample_g (gk20a_vm_unmap unreserved_trace_freed sample_env 0x400000000)
    sample_env sample_buf_f 0 0 0 false 0 0 0).2

/-- The sample address space after `sample_buf_b` was mapped with a mapping
size of `2^48 + 0x10000` bytes. -/
def oversize_trace_mapped : MmState :=
  (gk20a_vm_map sample_g sample_state sample_env sample_buf_b 0 0 0 false 0 0
    (2 ^ 48 + 0x10000)).2

/-- Then `sample_buf_a` is mapped without a fixed offset. -/
def oversize_trace_end : MmState :=
  (gk20a_vm_map sample_g oversize_trace_mapped sample_env sample_buf_a 0 0 0 false 0 0 0).2

/-- A reservation of two big pages: what `gk20a_vm_alloc_space` is asked for
and what `gk20a_vm_free_space` is asked to release. -/
def disjoint_trace_args (offset : Nat) : SpaceArgs :=
  { pages := 2, page_size := 0x10000, flags := 0, offset := offset }

/-- Step 1: the fresh sample address space with two big pages reserved at
`0x400000000`. -/
def disjoint_trace_1 : MmState :=
  (gk20a_vm_alloc_space sample_g sample_state sample_env (disjoint_trace_args 0)).2.2

/-- Step 2: `sample_buf_b` mapped at the fixed offset `0x400010000`. -/
def disjoint_trace_2 : MmState :=
  (gk20a_vm_map sample_g disjoint_trace_1 sample_env sample_buf_b 0x400010000 1 0 true 0 0 0).2

/-- Step 3: `sample_buf_a` mapped without a fixed offset (at `0x400020000`). -/
def disjoint_trace_3 : MmState :=
  (gk20a_vm_map sample_g disjoint_trace_2 sample_env sample_buf_a 0 0 0 true 0 0 0).2

/-- Step 4: `sample_buf_f` mapped without a fixed offset (at `0x400040000`). -/
def disjoint_trace_4 : MmState :=
  (gk20a_vm_map sample_g disjoint_trace_3 sample_env sample_buf_f 0 0 0 false 0 0 0).2

/-- Step 5: the mapping of `sample_buf_a` unmapped by the user. -/
def disjoint_trace_5 : MmState := gk20a_vm_unmap_user sample_g disjoint_trace_4 sample_env 0x400020000

/-- Step 6: the reservation released; its linked buffer goes with it. -/
def disjoint_trace_6 : MmState :=
  (gk20a_vm_free_space disjoint_trace_5 sample_env (disjoint_trace_args 0x400000000)).2

/-- Step 7: `sample_buf_a` mapped again (now at `0x400000000`). -/
def disjoint_trace_7 : MmState :=
  (gk20a_vm_map sample_g disjoint_trace_6 sample_env sample_buf_a 0 0 0 false 0 0 0).2

/-- Step 8: `sample_buf_b` mapped without a fixed offset (at `0x400020000`). -/
def disjoint_trace_8 : MmState :=
  (gk20a_vm_map sample_g disjoint_trace_7 sample_env sample_buf_b 0 0 0 false 0 0 0).2

/-- Step 9: a release of the run of the mapping at `0x400040000` with a wrong
page count: the call returns an error. -/
def disjoint_trace_9 : MmState :=
  (gk20a_vm_free_space disjoint_trace_8 sample_env (disjoint_trace_args 0x400040000)).2

/-- Step 10: the mapping of `sample_buf_f` unmapped. -/
def disjoint_trace_10 : MmState := gk20a_vm_unmap disjoint_trace_9 sample_env 0x400040000

/-- Step 11: `sample_buf_c` mapped without a fixed offset. -/
def disjoint_trace_11 : MmState :=
  (gk20a_vm_map sample_g disjoint_trace_10 sample_env sample_buf_c 0 0 0 false 0 0 0).2

/-- The reference count reads 2 three times and 1 from then on. -/
def sample_env_settles : Env := { sample_env with refcount_reads := fun i => if i < 3 then 2 else 1 }

/-- The entry `gk20a_vm_map` makes for `sample_buf_a` without a fixed offset in
the fresh sample address space: two big pages at `0x400000000`, VA-allocated,
no owning reservation. -/
def stale_trace_entry : MappedBuffer :=
  { sample_buffer 1 0x400000000 0x20000 with pgsz_idx := 1 }

/-- The sample address space after `sample_buf_a` was mapped without a fixed
offset. -/
def stale_trace_mapped : MmState :=
  (gk20a_vm_map sample_g sample_state sample_env sample_buf_a 0 0 0 false 0 0 0).2

/-- Then `gk20a_vm_free_space` is called with the offset, page size and page
count of that mapping: the run goes back to the allocator, the entry stays. -/
def stale_trace_freed : MmState :=
  (gk20a_vm_free_space stale_trace_mapped sample_env
    { pages := 2, page_size := 0x10000, flags := 0, offset := 0x400000000 }).2

/-! # Properties -/


theorem RbNode.ordered_node (l r : RbNode) (e : MappedBuffer) :
    (RbNode.node l e r).Ordered ↔
      l.Ordered ∧ r.Ordered ∧ (∀ x ∈ l.toList, x.addr < e.addr) ∧
        (∀ y ∈ r.toList, e.addr < y.addr) := by
  simp only [RbNode.Ordered, RbNode.addrs, RbNode.toList, List.map_append, List.map_cons,
    List.pairwise_append, List.pairwise_cons, List.mem_map, List.mem_cons]
  constructor
  · rintro ⟨hl, ⟨her, hr⟩, hlr⟩
    refine ⟨hl, hr, ?_, ?_⟩
    · intro x hx
      exact hlr _ ⟨x, hx, rfl⟩ _ (Or.inl rfl)
    · intro y hy
      exact her _ ⟨y, hy, rfl⟩
  · rintro ⟨hl, hr, hle, her⟩
    refine ⟨hl, ⟨?_, hr⟩, ?_⟩
    · rintro a ⟨y, hy, rfl⟩
      exact her y hy
    · rintro a ⟨x, hx, rfl⟩ b (rfl | ⟨y, hy, rfl⟩)
      · exact hle x hx
      · exact lt_trans (hle x hx) (her y hy)

theorem rb_link_descend_none (t : RbNode) (mb : MappedBuffer) (h : t.Ordered) :
    rb_link_descend t mb = none ↔ ∃ e ∈ t.toList, e.addr = mb.addr := by
  induction t with
  | nil => simp [rb_link_descend, RbNode.toList]
  | node l c r ihl ihr =>
    obtain ⟨hl, hr, hlc, hcr⟩ := (RbNode.ordered_node l r c).1 h
    simp only [rb_link_descend, RbNode.toList, List.mem_append, List.mem_cons]
    by_cases h1 : c.addr > mb.addr
    · simp only [h1, if_true, Option.map_eq_none', ihl hl]
      constructor
      · rintro ⟨e, he, hea⟩
        exact ⟨e, Or.inl he, hea⟩
      · rintro ⟨e, he | rfl | he, hea⟩
        · exact ⟨e, he, hea⟩
        · omega
        · have := hcr e he
          omega
    · by_cases h2 : c.addr = mb.addr
      · rw [if_neg h1, if_neg (not_not.2 h2)]
        simp only [true_iff]
        exact ⟨c, Or.inr (Or.inl rfl), h2⟩
      · simp only [h1, if_false, ne_eq, h2, not_false_eq_true, if_true, Option.map_eq_none',
          ihr hr]
        constructor
        · rintro ⟨e, he, hea⟩
          exact ⟨e, Or.inr (Or.inr he), hea⟩
        · rintro ⟨e, he | rfl | he, hea⟩
          · have := hlc e he
            omega
          · exact absurd hea h2
          · exact ⟨e, he, hea⟩

theorem rb_link_descend_some (t t' : RbNode) (mb : MappedBuffer) (h : t.Ordered)
    (hs : rb_link_descend t mb = some t') :
    t'.toList.Perm (mb :: t.toList) ∧ t'.Ordered := by
  induction t generalizing t' with
  | nil =>
    simp only [rb_link_descend, Option.some.injEq] at hs
    subst hs
    simp [RbNode.toList, RbNode.Ordered, RbNode.addrs]
  | node l c r ihl ihr =>
    obtain ⟨hl, hr, hlc, hcr⟩ := (RbNode.ordered_node l r c).1 h
    simp only [rb_link_descend] at hs
    by_cases h1 : c.addr > mb.addr
    · simp only [h1, if_true, Option.map_eq_some'] at hs
      obtain ⟨l', hl', rfl⟩ := hs
      obtain ⟨hp, ho⟩ := ihl l' hl hl'
      refine ⟨?_, ?_⟩
      · simp only [RbNode.toList]
        exact (hp.append_right _).trans (by simp)
      · rw [RbNode.ordered_node]
        refine ⟨ho, hr, ?_, hcr⟩
        intro x hx
        rcases List.mem_cons.1 (hp.subset hx) with rfl | hx
        · exact h1
        · exact hlc x hx
    · by_cases h2 : c.addr = mb.addr
      · rw [if_neg h1, if_neg (not_not.2 h2)] at hs
        exact absurd hs (by simp)
      · simp only [h1, if_false, ne_eq, h2, not_false_eq_true, if_true,
          Option.map_eq_some'] at hs
        obtain ⟨r', hr', rfl⟩ := hs
        obtain ⟨hp, ho⟩ := ihr r' hr hr'
        refine ⟨?_, ?_⟩
        · simp only [RbNode.toList]
          have : (c :: r'.toList).Perm (mb :: c :: r.toList) :=
            ((List.Perm.cons c hp).trans (List.Perm.swap mb c r.toList))
          exact (List.Perm.append_left _ this).trans List.perm_middle
        · rw [RbNode.ordered_node]
          refine ⟨hl, ho, hlc, ?_⟩
          intro y hy
          rcases List.mem_cons.1 (hp.subset hy) with rfl | hy
          · omega
          · exact hcr y hy

theorem find_mapped_buffer_locked_some (t : RbNode) (a : Nat) (e : MappedBuffer)
    (h : find_mapped_buffer_locked t a = some e) : e ∈ t.toList ∧ e.addr = a := by
  induction t with
  | nil => simp [find_mapped_buffer_locked] at h
  | node l c r ihl ihr =>
    simp only [find_mapped_buffer_locked] at h
    simp only [RbNode.toList, List.mem_append, List.mem_cons]
    by_cases h1 : c.addr > a
    · simp only [h1, if_true] at h
      exact ⟨Or.inl (ihl h).1, (ihl h).2⟩
    · by_cases h2 : c.addr = a
      · rw [if_neg h1, if_neg (not_not.2 h2)] at h
        simp only [Option.some.injEq] at h
        subst h
        exact ⟨Or.inr (Or.inl rfl), h2⟩
      · simp only [h1, if_false, ne_eq, h2, not_false_eq_true, if_true] at h
        exact ⟨Or.inr (Or.inr (ihr h).1), (ihr h).2⟩

theorem find_mapped_buffer_locked_mem (t : RbNode) (e : MappedBuffer) (h : t.Ordered)
    (he : e ∈ t.toList) : find_mapped_buffer_locked t e.addr = some e := by
  induction t with
  | nil => simp [RbNode.toList] at he
  | node l c r ihl ihr =>
    obtain ⟨hl, hr, hlc, hcr⟩ := (RbNode.ordered_node l r c).1 h
    simp only [RbNode.toList, List.mem_append, List.mem_cons] at he
    simp only [find_mapped_buffer_locked]
    rcases he with he | rfl | he
    · have := hlc e he
      simp [this, ihl hl he]
    · simp
    · have := hcr e he
      have h1 : ¬ c.addr > e.addr := by omega
      have h2 : c.addr ≠ e.addr := by omega
      simp [h1, h2, ihr hr he]

theorem find_mapped_buffer_locked_none (t : RbNode) (a : Nat)
    (h : ∀ e ∈ t.toList, e.addr ≠ a) : find_mapped_buffer_locked t a = none := by
  cases hf : find_mapped_buffer_locked t a with
  | none => rfl
  | some e =>
    obtain ⟨hm, ha⟩ := find_mapped_buffer_locked_some t a e hf
    exact absurd ha (h e hm)


/-! ## Registry insertion and lookup -/

/-- C9: on a registry ordered by address, `insert_mapped_buffer` returns
`-EINVAL` exactly when an entry with the same `addr` is present and then
leaves the tree as it was; otherwise it returns 0, the entries afterwards are
the previous ones plus the new one, and the tree is still ordered with
pairwise distinct addresses. -/
theorem insert_mapped_buffer_spec (root : RbNode) (mapped_buffer : MappedBuffer)
    (h : root.Ordered) :
    ((insert_mapped_buffer root mapped_buffer).1 = -EINVAL ↔
      ∃ e ∈ root.toList, e.addr = mapped_buffer.addr) ∧
    ((insert_mapped_buffer root mapped_buffer).1 = -EINVAL →
      (insert_mapped_buffer root mapped_buffer).2 = root) ∧
    ((insert_mapped_buffer root mapped_buffer).1 ≠ -EINVAL →
      (insert_mapped_buffer root mapped_buffer).1 = 0 ∧
      (insert_mapped_buffer root mapped_buffer).2.toList.Perm (mapped_buffer :: root.toList) ∧
      (insert_mapped_buffer root mapped_buffer).2.Ordered) := by
  have hE : (-EINVAL : Int) ≠ 0 := by unfold EINVAL; omega
  unfold insert_mapped_buffer
  cases hd : rb_link_descend root mapped_buffer with
  | none =>
    refine ⟨?_, fun _ => rfl, fun hne => absurd rfl hne⟩
    simp only [true_iff]
    exact (rb_link_descend_none root mapped_buffer h).1 hd
  | some t =>
    have hno : ¬ ∃ e ∈ root.toList, e.addr = mapped_buffer.addr := by
      intro hex
      have := (rb_link_descend_none root mapped_buffer h).2 hex
      rw [hd] at this
      exact absurd this (by simp)
    refine ⟨?_, fun h0 => absurd h0.symm hE, fun _ => ?_⟩
    · constructor
      · intro h0
        exact absurd h0.symm hE
      · intro hex
        exact absurd hex hno
    · exact ⟨rfl, rb_link_descend_some root t mapped_buffer h hd⟩

/-- C9 at a sample registry: inserting a buffer at the free address `0x5000`. -/
theorem insert_mapped_buffer_spec_witness :
    sample_tree.Ordered ∧
    (insert_mapped_buffer sample_tree (sample_buffer 4 0x5000 0x1000)).1 = 0 ∧
    (insert_mapped_buffer sample_tree (sample_buffer 2 0x3000 0x100)).1 = -EINVAL :=
  ⟨by decide,
    ((insert_mapped_buffer_spec sample_tree (sample_buffer 4 0x5000 0x1000) (by decide)).2.2
      (by decide)).1,
    (insert_mapped_buffer_spec sample_tree (sample_buffer 2 0x3000 0x100) (by decide)).1.2
      ⟨sample_buffer 2 0x3000 0x2000, by decide, rfl⟩⟩

/-- C10: on every registry with the search-tree ordering on `addr`,
`find_mapped_buffer_locked` returns the entry whose `addr` equals the address
asked for when there is one, and nothing when no entry starts exactly there,
also when the address lies strictly inside a mapping's range. -/
theorem find_mapped_buffer_locked_spec (root : RbNode) (a : Nat) (h : root.Ordered) :
    (∀ e ∈ root.toList, e.addr = a → find_mapped_buffer_locked root a = some e) ∧
    ((∀ e ∈ root.toList, e.addr ≠ a) → find_mapped_buffer_locked root a = none) ∧
    (∀ e ∈ root.toList, e.addr < a → a < e.addr + e.size →
      (∀ e' ∈ root.toList, e'.addr ≠ a) → find_mapped_buffer_locked root a = none) := by
  refine ⟨?_, find_mapped_buffer_locked_none root a, fun _ _ _ _ hno =>
    find_mapped_buffer_locked_none root a hno⟩
  intro e he hea
  subst hea
  exact find_mapped_buffer_locked_mem root e h he

/-- C10 at a sample registry: `0x3000` is found, `0x3800` (inside the same
mapping) is not. -/
theorem find_mapped_buffer_locked_spec_witness :
    sample_tree.Ordered ∧
    find_mapped_buffer_locked sample_tree 0x3000 = some (sample_buffer 2 0x3000 0x2000) ∧
    find_mapped_buffer_locked sample_tree 0x3800 = none :=
  ⟨by decide,
    (find_mapped_buffer_locked_spec sample_tree 0x3000 (by decide)).1
      (sample_buffer 2 0x3000 0x2000) (by decide) rfl,
    (find_mapped_buffer_locked_spec sample_tree 0x3800 (by decide)).2.1 (by decide)⟩

/-! ## Fixed-offset validation -/



theorem u32_mask (k : Nat) (hk : k < 32) : u32 (2 ^ k + U32 - 1) = 2 ^ k - 1 := by
  have h1 : 0 < 2 ^ k := Nat.two_pow_pos k
  have h2 : 2 ^ k < 2 ^ 32 := Nat.pow_lt_pow_right (by norm_num) hk
  unfold u32 U32
  have : 2 ^ k + 2 ^ 32 - 1 = (2 ^ k - 1) + 2 ^ 32 := by omega
  rw [this, Nat.add_mod_right, Nat.mod_eq_of_lt (by omega)]

theorem and_mask_eq_mod (x k : Nat) (hk : k < 32) : x &&& u32 (2 ^ k + U32 - 1) = x % 2 ^ k := by
  rw [u32_mask k hk, Nat.and_pow_two_sub_one_eq_mod]

theorem s64_diff_pos (e b : Nat) (he : e < 2 ^ 63) (hb : b < 2 ^ 63) :
    s64 (e + U64 - b) > 0 ↔ b < e := by
  unfold s64 U64
  by_cases h : b ≤ e
  · have h1 : (e + 2 ^ 64 - b) % 2 ^ 64 = e - b := by
      have : e + 2 ^ 64 - b = (e - b) + 2 ^ 64 := by omega
      rw [this, Nat.add_mod_right, Nat.mod_eq_of_lt (by omega)]
    rw [h1, if_pos (by omega)]
    omega
  · have h1 : (e + 2 ^ 64 - b) % 2 ^ 64 = e + 2 ^ 64 - b := Nat.mod_eq_of_lt (by omega)
    rw [h1, if_neg (by omega)]
    constructor
    · intro h2
      have : ((e + 2 ^ 64 - b : Nat) : Int) < 2 ^ 64 := by
        have : e + 2 ^ 64 - b < 2 ^ 64 := by omega
        exact_mod_cast this
      omega
    · intro h2; omega

theorem fixed_buffer_collides_iff (mo ms : Nat) (l : List VaBuffer)
    (hm : mo + ms < 2 ^ 63) (hl : ∀ b ∈ l, b.addr + b.size < 2 ^ 63) :
    fixed_buffer_collides mo ms l = true ↔ ∃ b ∈ l, ranges_overlap mo ms b.addr b.size := by
  induction l with
  | nil => simp [fixed_buffer_collides]
  | cons b rest ih =>
    have hb := hl b (List.mem_cons_self _ _)
    have ih' := ih (fun b' hb' => hl b' (List.mem_cons_of_mem _ hb'))
    have e1 : u64 (b.addr + b.size) = b.addr + b.size := Nat.mod_eq_of_lt (by unfold U64; omega)
    have e2 : u64 (mo + ms) = mo + ms := Nat.mod_eq_of_lt (by unfold U64; omega)
    simp only [fixed_buffer_collides, e1, e2, List.mem_cons, exists_eq_or_imp]
    have key := s64_diff_pos (min (b.addr + b.size) (mo + ms)) (max b.addr mo)
      (by omega) (by omega)
    by_cases hc : s64 (min (b.addr + b.size) (mo + ms) + U64 - max b.addr mo) > 0
    · rw [if_pos hc]
      simp only [true_iff]
      left
      have := key.1 hc
      unfold ranges_overlap
      omega
    · rw [if_neg hc, ih']
      constructor
      · intro h; exact Or.inr h
      · rintro (h | h)
        · exfalso; apply hc; apply key.2
          unfold ranges_overlap at h
          omega
        · exact h

theorem addr_to_reservation_some (vm : VmGk20a) (a : Nat) (r : VmReservedVaNode)
    (h : addr_to_reservation vm a = some r) :
    r ∈ vm.reserved_va_list ∧ reservation_contains a r = true := by
  unfold addr_to_reservation at h
  exact ⟨List.mem_of_find?_eq_some h, List.find?_some h⟩

theorem reservation_contains_iff (a : Nat) (r : VmReservedVaNode)
    (h : r.vaddr_start + r.size < U64) :
    reservation_contains a r = true ↔ r.vaddr_start ≤ a ∧ a < r.vaddr_start + r.size := by
  unfold reservation_contains
  rw [show u64 (r.vaddr_start + r.size) = r.vaddr_start + r.size from Nat.mod_eq_of_lt h]
  simp

theorem find?_unique {α : Type} (p : α → Bool) (R : α → α → Prop) (l : List α) (x : α)
    (hR : l.Pairwise R) (hx : x ∈ l) (hp : p x = true)
    (hex : ∀ a b, R a b → ¬ (p a = true ∧ p b = true)) :
    l.find? p = some x := by
  induction l with
  | nil => simp at hx
  | cons y rest ih =>
    rw [List.pairwise_cons] at hR
    rcases List.mem_cons.1 hx with rfl | hx'
    · simp [List.find?, hp]
    · have hy : p y = false := by
        by_contra hy
        exact hex y x (hR.1 x hx') ⟨by simpa using hy, hp⟩
      simp only [List.find?, hy]
      exact ih hR.2 hx'



theorem validate_fixed_buffer_cases (vm : VmGk20a) (bfr : BufferAttrs) (mo ms : Nat) :
    validate_fixed_buffer vm bfr mo ms = 0 ∨ validate_fixed_buffer vm bfr mo ms = -EINVAL := by
  unfold validate_fixed_buffer
  simp only []
  split_ifs <;> first | (right; rfl) | skip
  split
  · right; rfl
  · split_ifs <;> first | (right; rfl) | (left; rfl)

theorem validate_fixed_buffer_zero (vm : VmGk20a) (bfr : BufferAttrs) (mo ms : Nat) :
    validate_fixed_buffer vm bfr mo ms = 0 ↔
      (¬ u64 (mo + ms) ≤ mo) ∧
      mo &&& u32 (vm.gmmu_page_sizes bfr.pgsz_idx.toNat + U32 - 1) = 0 ∧
      ∃ va_node, addr_to_reservation vm mo = some va_node ∧
        ¬ u64 (mo + ms) > u64 (va_node.vaddr_start + va_node.size) ∧
        fixed_buffer_collides mo ms va_node.va_buffers_list = false := by
  have hE : (-EINVAL : Int) ≠ 0 := by unfold EINVAL; omega
  unfold validate_fixed_buffer
  simp only []
  by_cases h1 : u64 (mo + ms) ≤ mo
  · simp [h1, hE]
  · by_cases h2 : mo &&& u32 (vm.gmmu_page_sizes bfr.pgsz_idx.toNat + U32 - 1) = 0
    · rw [if_neg h1, if_neg (not_not.2 h2)]
      cases h3 : addr_to_reservation vm mo with
      | none => simp [hE]
      | some r =>
        by_cases h4 : u64 (mo + ms) > u64 (r.vaddr_start + r.size)
        · simp [h1, h2, h4, hE]
        · cases h5 : fixed_buffer_collides mo ms r.va_buffers_list
          · simp [h1, h2, h4, h5]
            omega
          · simp [h1, h2, h4, h5, hE]
    · rw [if_neg h1, if_pos h2]
      simp [h1, h2, hE]


/-- C4: `validate_fixed_buffer` returns 0 exactly when the end
`map_offset + map_size` does not wrap and `map_size > 0`, the offset is a
multiple of the page size of the buffer's class, a reservation contains the
offset, the end is at most that reservation's end, and the range meets no
buffer of that reservation's list; in every other case it returns `-EINVAL`.
A request at a region's start that is larger than the region fails, and so
does one that overlaps a linked buffer. The address space is well formed:
reservations end below `2^63`, do not overlap one another, and hold their
linked buffers. -/
theorem validate_fixed_buffer_spec (vm : VmGk20a) (bfr : BufferAttrs) (map_offset map_size k : Nat)
    (hoff : map_offset < U64) (hsz : map_size < U64)
    (hpage : vm.gmmu_page_sizes bfr.pgsz_idx.toNat = 2 ^ k) (hk : k < 32)
    (hres : ∀ r ∈ vm.reserved_va_list, r.vaddr_start + r.size < 2 ^ 63 ∧
      ∀ b ∈ r.va_buffers_list, b.addr + b.size ≤ r.vaddr_start + r.size)
    (hdisj : vm.reserved_va_list.Pairwise (fun r r' =>
      r.vaddr_start + r.size ≤ r'.vaddr_start ∨ r'.vaddr_start + r'.size ≤ r.vaddr_start)) :
    (validate_fixed_buffer vm bfr map_offset map_size = 0 ↔
      (map_offset + map_size < U64 ∧ 0 < map_size) ∧ map_offset % 2 ^ k = 0 ∧
      ∃ va_node ∈ vm.reserved_va_list,
        (va_node.vaddr_start ≤ map_offset ∧ map_offset < va_node.vaddr_start + va_node.size) ∧
        map_offset + map_size ≤ va_node.vaddr_start + va_node.size ∧
        ∀ b ∈ va_node.va_buffers_list, ¬ ranges_overlap map_offset map_size b.addr b.size) ∧
    (validate_fixed_buffer vm bfr map_offset map_size = 0 ∨
      validate_fixed_buffer vm bfr map_offset map_size = -EINVAL) ∧
    (∀ va_node ∈ vm.reserved_va_list, 0 < va_node.size → map_offset = va_node.vaddr_start →
      map_size > va_node.size → validate_fixed_buffer vm bfr map_offset map_size = -EINVAL) ∧
    (∀ va_node ∈ vm.reserved_va_list,
      (va_node.vaddr_start ≤ map_offset ∧ map_offset < va_node.vaddr_start + va_node.size) →
      (∃ b ∈ va_node.va_buffers_list, ranges_overlap map_offset map_size b.addr b.size) →
      validate_fixed_buffer vm bfr map_offset map_size = -EINVAL) := by
  have hU : (2 : Nat) ^ 63 < U64 := by unfold U64; norm_num
  -- the reservation found is the only one that contains the offset
  have huniq : ∀ r ∈ vm.reserved_va_list,
      (r.vaddr_start ≤ map_offset ∧ map_offset < r.vaddr_start + r.size) →
      addr_to_reservation vm map_offset = some r := by
    intro r hr hc
    refine find?_unique _ _ _ r hdisj hr
      ((reservation_contains_iff _ _ (by have := (hres r hr).1; omega)).2 hc) ?_
    intro a b hab ⟨ha, hb⟩
    simp only [reservation_contains, decide_eq_true_eq] at ha hb
    have ha' := Nat.mod_le (a.vaddr_start + a.size) U64
    have hb' := Nat.mod_le (b.vaddr_start + b.size) U64
    unfold u64 at ha hb
    omega
  have hiff : validate_fixed_buffer vm bfr map_offset map_size = 0 ↔
      (map_offset + map_size < U64 ∧ 0 < map_size) ∧ map_offset % 2 ^ k = 0 ∧
      ∃ va_node ∈ vm.reserved_va_list,
        (va_node.vaddr_start ≤ map_offset ∧ map_offset < va_node.vaddr_start + va_node.size) ∧
        map_offset + map_size ≤ va_node.vaddr_start + va_node.size ∧
        ∀ b ∈ va_node.va_buffers_list, ¬ ranges_overlap map_offset map_size b.addr b.size := by
    rw [validate_fixed_buffer_zero, hpage, and_mask_eq_mod _ _ hk]
    constructor
    · rintro ⟨h1, h2, r, h3, h4, h5⟩
      obtain ⟨hr, hc⟩ := addr_to_reservation_some vm map_offset r h3
      obtain ⟨hb1, hb2⟩ := hres r hr
      rw [reservation_contains_iff _ _ (by omega)] at hc
      rw [show u64 (r.vaddr_start + r.size) = r.vaddr_start + r.size from
        Nat.mod_eq_of_lt (by omega)] at h4
      -- no wrap: otherwise the wrapped end would not exceed the offset
      have hnw : map_offset + map_size < U64 := by
        by_contra hw
        apply h1
        unfold u64
        have : (map_offset + map_size) % U64 = map_offset + map_size - U64 := by
          rw [Nat.mod_eq_sub_mod (by omega), Nat.mod_eq_of_lt (by omega)]
        omega
      rw [show u64 (map_offset + map_size) = map_offset + map_size from
        Nat.mod_eq_of_lt hnw] at h1 h4
      refine ⟨⟨hnw, by omega⟩, h2, r, hr, hc, by omega, ?_⟩
      intro b hb hov
      have := (fixed_buffer_collides_iff map_offset map_size r.va_buffers_list (by omega)
        (fun b' hb' => by have := hb2 b' hb'; omega)).2 ⟨b, hb, hov⟩
      rw [h5] at this
      exact absurd this (by simp)
    · rintro ⟨⟨hnw, hpos⟩, h2, r, hr, hc, hfit, hno⟩
      obtain ⟨hb1, hb2⟩ := hres r hr
      have e1 : u64 (map_offset + map_size) = map_offset + map_size := Nat.mod_eq_of_lt hnw
      have e2 : u64 (r.vaddr_start + r.size) = r.vaddr_start + r.size :=
        Nat.mod_eq_of_lt (by omega)
      refine ⟨by rw [e1]; omega, h2, r, huniq r hr hc, by rw [e1, e2]; omega, ?_⟩
      cases h5 : fixed_buffer_collides map_offset map_size r.va_buffers_list
      · rfl
      · obtain ⟨b, hb, hov⟩ := (fixed_buffer_collides_iff map_offset map_size r.va_buffers_list
          (by omega) (fun b' hb' => by have := hb2 b' hb'; omega)).1 h5
        exact absurd hov (hno b hb)
  have hcases := validate_fixed_buffer_cases vm bfr map_offset map_size
  have hne : ∀ {P : Prop}, (validate_fixed_buffer vm bfr map_offset map_size = 0 → P → False) →
      P → validate_fixed_buffer vm bfr map_offset map_size = -EINVAL := by
    intro P h hp
    rcases hcases with h0 | h0
    · exact absurd hp (h h0)
    · exact h0
  refine ⟨hiff, hcases, ?_, ?_⟩
  · intro r hr hpos hstart hbig
    refine hne (P := True) (fun h0 _ => ?_) trivial
    obtain ⟨_, _, r', hr', hc', hfit', _⟩ := hiff.1 h0
    have h1 := huniq r' hr' hc'
    have hrs := (hres r hr).1
    have h2 := huniq r hr (by omega)
    rw [h1] at h2
    have h3 : r' = r := Option.some.inj h2
    subst h3
    omega
  · intro r hr hc hov
    refine hne (P := True) (fun h0 _ => ?_) trivial
    obtain ⟨_, _, r', hr', hc', _, hno'⟩ := hiff.1 h0
    have h1 := huniq r' hr' hc'
    have h2 := huniq r hr hc
    rw [h1] at h2
    have h3 : r' = r := Option.some.inj h2
    subst h3
    obtain ⟨b, hb, hb'⟩ := hov
    exact hno' b hb hb'


/-- C4 at a sample address space: the free second half of the reservation is
accepted, a range over the linked buffer is refused. -/
theorem validate_fixed_buffer_spec_witness :
    sample_vm.gmmu_page_sizes sample_bfr.pgsz_idx.toNat = 2 ^ 16 ∧
    validate_fixed_buffer sample_vm sample_bfr 0x400010000 0x10000 = 0 ∧
    validate_fixed_buffer sample_vm sample_bfr 0x400000000 0x20000 = -EINVAL :=
  ⟨by decide,
    (validate_fixed_buffer_spec sample_vm sample_bfr 0x400010000 0x10000 16 (by decide)
      (by decide) (by decide) (by decide) (by decide) (by decide)).1.2 (by decide),
    (validate_fixed_buffer_spec sample_vm sample_bfr 0x400000000 0x20000 16 (by decide)
      (by decide) (by decide) (by decide) (by decide) (by decide)).2.2.2 _
      (List.mem_singleton.2 rfl) (by decide) (by decide)⟩

/-! ## Unmapping -/


/-! ### Frame facts: which calls leave the address space alone -/

@[simp] theorem MmState.emit_vm (s : MmState) (e : HwEvent) : (s.emit e).vm = s.vm := rfl
@[simp] theorem MmState.emit_priv (s : MmState) (e : HwEvent) : (s.emit e).priv = s.priv := rfl
@[simp] theorem MmState.emit_log (s : MmState) (e : HwEvent) : (s.emit e).log = s.log ++ [e] := rfl
@[simp] theorem MmState.with_vm_vm (s : MmState) (vm : VmGk20a) : (s.with_vm vm).vm = vm := rfl
@[simp] theorem MmState.with_vm_priv (s : MmState) (vm : VmGk20a) : (s.with_vm vm).priv = s.priv := rfl
@[simp] theorem MmState.with_vm_log (s : MmState) (vm : VmGk20a) : (s.with_vm vm).log = s.log := rfl
@[simp] theorem MmState.set_priv_vm (s : MmState) (i : Nat) (p : Gk20aDmabufPriv) :
    (s.set_priv i p).vm = s.vm := rfl
@[simp] theorem MmState.set_priv_log (s : MmState) (i : Nat) (p : Gk20aDmabufPriv) :
    (s.set_priv i p).log = s.log := rfl

@[simp] theorem VmGk20a.set_vma_mapped_buffers (vm : VmGk20a) (i : Nat) (a : Gk20aAllocator) :
    (vm.set_vma i a).mapped_buffers = vm.mapped_buffers := by
  unfold VmGk20a.set_vma; split <;> rfl

@[simp] theorem VmGk20a.set_vma_reserved (vm : VmGk20a) (i : Nat) (a : Gk20aAllocator) :
    (vm.set_vma i a).reserved_va_list = vm.reserved_va_list := by
  unfold VmGk20a.set_vma; split <;> rfl

@[simp] theorem VmGk20a.set_vma_num (vm : VmGk20a) (i : Nat) (a : Gk20aAllocator) :
    (vm.set_vma i a).num_user_mapped_buffers = vm.num_user_mapped_buffers := by
  unfold VmGk20a.set_vma; split <;> rfl

@[simp] theorem VmGk20a.set_vma_page_sizes (vm : VmGk20a) (i j : Nat) (a : Gk20aAllocator) :
    (vm.set_vma i a).gmmu_page_sizes j = vm.gmmu_page_sizes j := by
  unfold VmGk20a.set_vma VmGk20a.gmmu_page_sizes
  by_cases h : i = gmmu_page_size_small <;> simp [h]

@[simp] theorem gk20a_mm_unpin_vm (s : MmState) (d : Nat) : (gk20a_mm_unpin s d).vm = s.vm := by
  unfold gk20a_mm_unpin
  split
  · rfl
  · simp only []; split <;> rfl

@[simp] theorem gk20a_mm_unpin_log (s : MmState) (d : Nat) : (gk20a_mm_unpin s d).log = s.log := by
  unfold gk20a_mm_unpin
  split
  · rfl
  · simp only []; split <;> rfl

@[simp] theorem gk20a_mm_pin_vm (s : MmState) (env : Env) (d : Nat) :
    (gk20a_mm_pin s env d).2.vm = s.vm := by
  unfold gk20a_mm_pin
  split
  · rfl
  · split_ifs <;> rfl

@[simp] theorem gk20a_mm_pin_log (s : MmState) (env : Env) (d : Nat) :
    (gk20a_mm_pin s env d).2.log = s.log := by
  unfold gk20a_mm_pin
  split
  · rfl
  · split_ifs <;> rfl

@[simp] theorem gk20a_vm_free_va_mapped_buffers (vm : VmGk20a) (o sz i : Nat) :
    (gk20a_vm_free_va vm o sz i).2.mapped_buffers = vm.mapped_buffers := by
  simp [gk20a_vm_free_va]

@[simp] theorem gk20a_vm_free_va_reserved (vm : VmGk20a) (o sz i : Nat) :
    (gk20a_vm_free_va vm o sz i).2.reserved_va_list = vm.reserved_va_list := by
  simp [gk20a_vm_free_va]

@[simp] theorem gk20a_vm_free_va_num (vm : VmGk20a) (o sz i : Nat) :
    (gk20a_vm_free_va vm o sz i).2.num_user_mapped_buffers = vm.num_user_mapped_buffers := by
  simp [gk20a_vm_free_va]

@[simp] theorem update_gmmu_ptes_locked_vm (s : MmState) (env : Env) (i : Nat) (hs : Bool)
    (bo va ve kv co : Nat) (c u : Bool) (rw : Nat) (sp : Bool) :
    (update_gmmu_ptes_locked s env i hs bo va ve kv co c u rw sp).2.vm = s.vm := by
  unfold update_gmmu_ptes_locked
  simp only []
  split_ifs <;> rfl

theorem gk20a_locked_gmmu_unmap_vm (s : MmState) (env : Env) (va sz i : Nat) (al : Bool)
    (rw : Nat) (sp : Bool) :
    (gk20a_locked_gmmu_unmap s env va sz i al rw sp).vm =
      if al then (gk20a_vm_free_va s.vm va sz i).2 else s.vm := by
  unfold gk20a_locked_gmmu_unmap
  cases al <;> simp
  split_ifs <;> simp

/-! ### The tree under erase and modify -/

theorem RbNode.toList_join (l r : RbNode) : (RbNode.join l r).toList = l.toList ++ r.toList := by
  induction l with
  | nil => simp [RbNode.join, RbNode.toList]
  | node a e b _ ihb => simp [RbNode.join, RbNode.toList, ihb]

theorem rb_erase_toList (mb : MappedBuffer) (t : RbNode) :
    (rb_erase mb t).toList = t.toList.filter (fun e => decide (e.addr ≠ mb.addr)) := by
  induction t with
  | nil => simp [rb_erase, RbNode.toList]
  | node l e r ihl ihr =>
    simp only [rb_erase]
    by_cases h : e.addr = mb.addr
    · simp [h, RbNode.toList_join, RbNode.toList, ihl, ihr, List.filter_cons]
    · simp [h, RbNode.toList, ihl, ihr, List.filter_cons]

theorem RbNode.modify_toList (a : Nat) (f : MappedBuffer → MappedBuffer) (t : RbNode) :
    (RbNode.modify a f t).toList = t.toList.map (fun e => if e.addr = a then f e else e) := by
  induction t with
  | nil => simp [RbNode.modify, RbNode.toList]
  | node l e r ihl ihr => simp [RbNode.modify, RbNode.toList, ihl, ihr]

theorem find_mapped_buffer_locked_modify (t : RbNode) (a b : Nat) (f : MappedBuffer → MappedBuffer)
    (hf : ∀ e, e.addr = a → (f e).addr = a) :
    find_mapped_buffer_locked (RbNode.modify a f t) b =
      (find_mapped_buffer_locked t b).map (fun e => if e.addr = a then f e else e) := by
  induction t with
  | nil => simp [RbNode.modify, find_mapped_buffer_locked]
  | node l e r ihl ihr =>
    have hk : (if e.addr = a then f e else e).addr = e.addr := by
      by_cases h : e.addr = a
      · rw [if_pos h, hf e h, h]
      · rw [if_neg h]
    simp only [RbNode.modify, find_mapped_buffer_locked, hk]
    split_ifs <;> simp_all

theorem find_mapped_buffer_locked_erase (mb : MappedBuffer) (t : RbNode) :
    find_mapped_buffer_locked (rb_erase mb t) mb.addr = none := by
  apply find_mapped_buffer_locked_none
  intro e he
  rw [rb_erase_toList] at he
  simpa using (List.mem_filter.1 he).2

theorem rb_erase_congr (mb mb' : MappedBuffer) (h : mb.addr = mb'.addr) (t : RbNode) :
    rb_erase mb t = rb_erase mb' t := by
  induction t with
  | nil => rfl
  | node l e r ihl ihr => simp only [rb_erase, ihl, ihr, h]

theorem gk20a_vm_unmap_locked_mapped_buffers (s : MmState) (env : Env) (mb : MappedBuffer) :
    (gk20a_vm_unmap_locked s env mb).vm.mapped_buffers = rb_erase mb s.vm.mapped_buffers := by
  unfold gk20a_vm_unmap_locked
  simp only []
  split_ifs <;> simp [gk20a_locked_gmmu_unmap_vm] <;> split_ifs <;> simp

theorem kref_put_mapped_buffers (s : MmState) (env : Env) (mb : MappedBuffer) :
    (kref_put s env mb).vm.mapped_buffers =
      if mb.ref - 1 = 0 then rb_erase mb s.vm.mapped_buffers
      else s.vm.mapped_buffers.modify mb.addr (fun _ => { mb with ref := mb.ref - 1 }) := by
  unfold kref_put
  simp only []
  split_ifs
  · rw [gk20a_vm_unmap_locked_mapped_buffers]
    exact rb_erase_congr { mb with ref := mb.ref - 1 } mb rfl _
  · rfl


theorem gk20a_vm_unmap_some (s : MmState) (env : Env) (v : Nat) (e : MappedBuffer)
    (hfind : find_mapped_buffer_locked s.vm.mapped_buffers v = some e) :
    gk20a_vm_unmap s env v = kref_put s env e := by
  unfold gk20a_vm_unmap
  rw [hfind]

theorem gk20a_vm_unmap_none (s : MmState) (env : Env) (v : Nat)
    (hfind : find_mapped_buffer_locked s.vm.mapped_buffers v = none) :
    gk20a_vm_unmap s env v = s := by
  unfold gk20a_vm_unmap
  rw [hfind]

theorem kref_put_find_keep (s : MmState) (env : Env) (e : MappedBuffer) (hne : e.ref - 1 ≠ 0)
    (hfind : find_mapped_buffer_locked s.vm.mapped_buffers e.addr = some e) :
    find_mapped_buffer_locked (kref_put s env e).vm.mapped_buffers e.addr =
      some { e with ref := e.ref - 1 } := by
  rw [kref_put_mapped_buffers, if_neg hne,
    find_mapped_buffer_locked_modify s.vm.mapped_buffers e.addr e.addr
      (fun _ => { e with ref := e.ref - 1 }) (fun _ _ => rfl), hfind]
  simp

theorem kref_put_find_last (s : MmState) (env : Env) (e : MappedBuffer) (h1 : e.ref - 1 = 0) :
    find_mapped_buffer_locked (kref_put s env e).vm.mapped_buffers e.addr = none := by
  rw [kref_put_mapped_buffers, if_pos h1]
  exact find_mapped_buffer_locked_erase e _

/-- C3: with one registry entry at `v` whose reference count is 2 (the same
buffer, kind and flags mapped twice), one `gk20a_vm_unmap(v)` leaves the entry
in the registry with count 1, and a second `gk20a_vm_unmap(v)` removes it. -/
theorem gk20a_vm_unmap_twice (s : MmState) (env env' : Env) (v : Nat) (e : MappedBuffer)
    (hfind : find_mapped_buffer_locked s.vm.mapped_buffers v = some e) (href : e.ref = 2) :
    find_mapped_buffer_locked (gk20a_vm_unmap s env v).vm.mapped_buffers v =
      some { e with ref := 1 } ∧
    find_mapped_buffer_locked
      (gk20a_vm_unmap (gk20a_vm_unmap s env v) env' v).vm.mapped_buffers v = none := by
  have hea : e.addr = v := (find_mapped_buffer_locked_some _ _ _ hfind).2
  subst hea
  have h1 : find_mapped_buffer_locked (gk20a_vm_unmap s env e.addr).vm.mapped_buffers e.addr =
      some { e with ref := 1 } := by
    rw [gk20a_vm_unmap_some s env e.addr e hfind,
      kref_put_find_keep s env e (by rw [href]; decide) hfind, href]
  refine ⟨h1, ?_⟩
  rw [gk20a_vm_unmap_some _ env' e.addr _ h1]
  exact kref_put_find_last _ env' { e with ref := 1 } (by simp)


/-- C3 at the sample address space in which one buffer was mapped twice. -/
theorem gk20a_vm_unmap_twice_witness :
    find_mapped_buffer_locked sample_mapped_twice.vm.mapped_buffers 0x4000000 =
      some { sample_entry_c with ref := 2 } ∧
    find_mapped_buffer_locked
      (gk20a_vm_unmap sample_mapped_twice sample_env 0x4000000).vm.mapped_buffers 0x4000000 =
      some sample_entry_c ∧
    find_mapped_buffer_locked
      (gk20a_vm_unmap (gk20a_vm_unmap sample_mapped_twice sample_env 0x4000000) sample_env
        0x4000000).vm.mapped_buffers 0x4000000 = none :=
  ⟨by decide,
    gk20a_vm_unmap_twice sample_mapped_twice sample_env sample_env 0x4000000
      { sample_entry_c with ref := 2 } (by decide) rfl⟩

theorem gk20a_vm_unmap_user_none (g : Gk20a) (s : MmState) (env : Env) (v : Nat)
    (hfind : find_mapped_buffer_locked s.vm.mapped_buffers v = none) :
    gk20a_vm_unmap_user g s env v = s := by
  unfold gk20a_vm_unmap_user
  rw [hfind]

theorem gk20a_vm_unmap_user_mapped_buffers (g : Gk20a) (s : MmState) (env : Env) (v : Nat)
    (e : MappedBuffer) (hfind : find_mapped_buffer_locked s.vm.mapped_buffers v = some e) :
    (gk20a_vm_unmap_user g s env v).vm.mapped_buffers =
      if e.ref - 1 = 0 then rb_erase e s.vm.mapped_buffers
      else s.vm.mapped_buffers.modify e.addr (fun _ =>
        { e with user_mapped := u32 (e.user_mapped + U32 - 1), ref := e.ref - 1 }) := by
  unfold gk20a_vm_unmap_user
  rw [hfind]
  simp only []
  rw [kref_put_mapped_buffers]
  by_cases hf : flag_set e.flags g.NVGPU_AS_MAP_BUFFER_FLAGS_FIXED_OFFSET = true <;>
    by_cases hu : u32 (e.user_mapped + U32 - 1) = 0 <;>
    by_cases hr : e.ref - 1 = 0 <;>
    simp [hf, hu, hr] <;>
    (apply rb_erase_congr; rfl)

/-- C8, as the code has it: when `gk20a_vm_unmap_buffer` is called twice on the
address of a mapping with reference count 1, the first call removes the
mapping; the second call finds no mapping there, changes no state, and also
returns 0 (the unknown address is only reported in the kernel log). -/
theorem gk20a_vm_unmap_buffer_twice (g : Gk20a) (s : MmState) (env env' : Env) (v : Nat)
    (e : MappedBuffer) (hfind : find_mapped_buffer_locked s.vm.mapped_buffers v = some e)
    (href : e.ref = 1) :
    (gk20a_vm_unmap_buffer g s env v).1 = 0 ∧
    find_mapped_buffer_locked (gk20a_vm_unmap_buffer g s env v).2.vm.mapped_buffers v = none ∧
    (gk20a_vm_unmap_buffer g (gk20a_vm_unmap_buffer g s env v).2 env' v).1 = 0 ∧
    (gk20a_vm_unmap_buffer g (gk20a_vm_unmap_buffer g s env v).2 env' v).2 =
      (gk20a_vm_unmap_buffer g s env v).2 := by
  have hea : e.addr = v := (find_mapped_buffer_locked_some _ _ _ hfind).2
  subst hea
  have h1 : find_mapped_buffer_locked
      (gk20a_vm_unmap_buffer g s env e.addr).2.vm.mapped_buffers e.addr = none := by
    unfold gk20a_vm_unmap_buffer
    simp only []
    rw [gk20a_vm_unmap_user_mapped_buffers g s env e.addr e hfind, if_pos (by rw [href])]
    exact find_mapped_buffer_locked_erase e _
  refine ⟨rfl, h1, rfl, ?_⟩
  exact gk20a_vm_unmap_user_none g _ env' e.addr h1


/-- C8 at the sample address space with one user mapping. -/
theorem gk20a_vm_unmap_buffer_twice_witness :
    find_mapped_buffer_locked sample_user_mapped.vm.mapped_buffers 0x4000000 =
      some { sample_entry_c with user_mapped := 1, own_mem_ref := true } ∧
    (gk20a_vm_unmap_buffer sample_g
      (gk20a_vm_unmap_buffer sample_g sample_user_mapped sample_env 0x4000000).2 sample_env
      0x4000000).2 = (gk20a_vm_unmap_buffer sample_g sample_user_mapped sample_env 0x4000000).2 :=
  ⟨by decide,
    (gk20a_vm_unmap_buffer_twice sample_g sample_user_mapped sample_env sample_env 0x4000000
      { sample_entry_c with user_mapped := 1, own_mem_ref := true } (by decide) rfl).2.2.2⟩

/-- C8 as stated fails: after the first `gk20a_vm_unmap_buffer` the address
`0x4000000` is unknown to the registry, and the second call on it does not
return a non-zero error code. -/
theorem gk20a_vm_unmap_buffer_unknown_returns_zero :
    find_mapped_buffer_locked
      (gk20a_vm_unmap_buffer sample_g sample_user_mapped sample_env 0x4000000).2.vm.mapped_buffers
      0x4000000 = none ∧
    ¬ (gk20a_vm_unmap_buffer sample_g
        (gk20a_vm_unmap_buffer sample_g sample_user_mapped sample_env 0x4000000).2 sample_env
        0x4000000).1 ≠ 0 := by
  decide

/-! ## Mapping: the stages of `gk20a_vm_map` -/


/-! ### Inversion of the stages of `gk20a_vm_map` -/

theorem gk20a_vm_map_clean_up_fst (s : MmState) (dmabuf : DmaBuf) (va : Bool) (mo : Nat)
    (bfr : BufferAttrs) (pinned : Bool) : (gk20a_vm_map_clean_up s dmabuf va mo bfr pinned).1 = 0 :=
  rfl

theorem gk20a_vm_map_track_inv (s : MmState) (env : Env) (dmabuf : DmaBuf) (flags kind : Nat)
    (um : Bool) (ms : Nat) (bfr : BufferAttrs) (va : Bool) (mo : Nat)
    (h : (gk20a_vm_map_track s env dmabuf flags kind um ms bfr va mo).1 ≠ 0) :
    env.kzalloc_ok = true ∧ mo ≠ 0 ∧
    (insert_mapped_buffer s.vm.mapped_buffers
      (new_mapped_buffer s.vm dmabuf flags kind um ms bfr va mo)).1 = 0 ∧
    gk20a_vm_map_track s env dmabuf flags kind um ms bfr va mo =
      (mo, s.with_vm { s.vm with
        mapped_buffers := (insert_mapped_buffer s.vm.mapped_buffers
          (new_mapped_buffer s.vm dmabuf flags kind um ms bfr va mo)).2,
        num_user_mapped_buffers := if um then s.vm.num_user_mapped_buffers + 1
          else s.vm.num_user_mapped_buffers,
        reserved_va_list := if va then s.vm.reserved_va_list
          else update_reservation s.vm.reserved_va_list mo (fun n =>
            { n with va_buffers_list := n.va_buffers_list ++ [{ addr := mo, size := ms }] }) }) := by
  unfold gk20a_vm_map_track at h ⊢
  by_cases hk : env.kzalloc_ok = false
  · rw [if_pos hk] at h
    exact absurd (gk20a_vm_map_clean_up_fst _ _ _ _ _ _) h
  · rw [if_neg hk] at h ⊢
    simp only [] at h ⊢
    by_cases hi : (insert_mapped_buffer s.vm.mapped_buffers
        (new_mapped_buffer s.vm dmabuf flags kind um ms bfr va mo)).1 ≠ 0
    · rw [if_pos hi] at h
      exact absurd (gk20a_vm_map_clean_up_fst _ _ _ _ _ _) h
    · rw [if_neg hi] at h ⊢
      exact ⟨by simpa using hk, h, not_not.1 hi, rfl⟩

theorem gk20a_vm_map_ptes_inv (g : Gk20a) (s : MmState) (env : Env) (dmabuf : DmaBuf)
    (flags kind : Nat) (um : Bool) (rw bo ms : Nat) (bfr : BufferAttrs) (va : Bool) (mo : Nat)
    (h : (gk20a_vm_map_ptes g s env dmabuf flags kind um rw bo ms bfr va mo).1 ≠ 0) :
    (gk20a_locked_gmmu_map g (gk20a_vm_map_comptags s dmabuf bfr).2.2 env mo true bo ms
      (gk20a_vm_map_comptags s dmabuf bfr).1.pgsz_idx.toNat
      (gk20a_vm_map_comptags s dmabuf bfr).1.kind_v
      (gk20a_vm_map_comptags s dmabuf bfr).1.ctag_offset flags rw
      (gk20a_vm_map_comptags s dmabuf bfr).2.1 false).1 ≠ 0 ∧
    gk20a_vm_map_ptes g s env dmabuf flags kind um rw bo ms bfr va mo =
      gk20a_vm_map_track
        (gk20a_locked_gmmu_map g (gk20a_vm_map_comptags s dmabuf bfr).2.2 env mo true bo ms
          (gk20a_vm_map_comptags s dmabuf bfr).1.pgsz_idx.toNat
          (gk20a_vm_map_comptags s dmabuf bfr).1.kind_v
          (gk20a_vm_map_comptags s dmabuf bfr).1.ctag_offset flags rw
          (gk20a_vm_map_comptags s dmabuf bfr).2.1 false).2
        env dmabuf flags kind um ms (gk20a_vm_map_comptags s dmabuf bfr).1 va
        (gk20a_locked_gmmu_map g (gk20a_vm_map_comptags s dmabuf bfr).2.2 env mo true bo ms
          (gk20a_vm_map_comptags s dmabuf bfr).1.pgsz_idx.toNat
          (gk20a_vm_map_comptags s dmabuf bfr).1.kind_v
          (gk20a_vm_map_comptags s dmabuf bfr).1.ctag_offset flags rw
          (gk20a_vm_map_comptags s dmabuf bfr).2.1 false).1 := by
  unfold gk20a_vm_map_ptes at h ⊢
  simp only [] at h ⊢
  split_ifs at h ⊢ with hm
  · exact absurd (gk20a_vm_map_clean_up_fst _ _ _ _ _ _) h
  · exact ⟨hm, rfl⟩

theorem gk20a_vm_map_pinned_inv (g : Gk20a) (s : MmState) (env : Env) (dmabuf : DmaBuf)
    (oa flags kind : Nat) (um : Bool) (rw bo ms : Nat)
    (h : (gk20a_vm_map_pinned g s env dmabuf oa flags kind um rw bo ms).1 ≠ 0) :
    ((gk20a_vm_map_attrs g s.vm dmabuf oa flags kind).pgsz_idx = 0 ∨
      (gk20a_vm_map_attrs g s.vm dmabuf oa flags kind).pgsz_idx = 1) ∧
    (flag_set flags g.NVGPU_AS_MAP_BUFFER_FLAGS_FIXED_OFFSET = true →
      validate_fixed_buffer s.vm (gk20a_vm_map_attrs g s.vm dmabuf oa flags kind) oa
        (if ms ≠ 0 then ms else dmabuf.size) = 0) ∧
    (setup_buffer_kind_and_compression g s.vm (gk20a_vm_map_attrs g s.vm dmabuf oa flags kind)
      (gk20a_vm_map_attrs g s.vm dmabuf oa flags kind).pgsz_idx.toNat).1 = 0 ∧
    gk20a_vm_map_pinned g s env dmabuf oa flags kind um rw bo ms =
      gk20a_vm_map_ptes g s env dmabuf flags kind um rw bo (if ms ≠ 0 then ms else dmabuf.size)
        (setup_buffer_kind_and_compression g s.vm (gk20a_vm_map_attrs g s.vm dmabuf oa flags kind)
          (gk20a_vm_map_attrs g s.vm dmabuf oa flags kind).pgsz_idx.toNat).2
        (!flag_set flags g.NVGPU_AS_MAP_BUFFER_FLAGS_FIXED_OFFSET)
        (if flag_set flags g.NVGPU_AS_MAP_BUFFER_FLAGS_FIXED_OFFSET then oa else 0) := by
  have hsz : (gk20a_vm_map_attrs g s.vm dmabuf oa flags kind).size = dmabuf.size := rfl
  unfold gk20a_vm_map_pinned at h ⊢
  simp only [hsz] at h ⊢
  by_cases h1 : (gk20a_vm_map_attrs g s.vm dmabuf oa flags kind).pgsz_idx = -1
  · rw [if_pos h1] at h
    exact absurd (gk20a_vm_map_clean_up_fst _ _ _ _ _ _) h
  rw [if_neg h1] at h ⊢
  by_cases h2 : (gk20a_vm_map_attrs g s.vm dmabuf oa flags kind).pgsz_idx < gmmu_page_size_small ∨
      (gk20a_vm_map_attrs g s.vm dmabuf oa flags kind).pgsz_idx > gmmu_page_size_big
  · rw [if_pos h2] at h
    exact absurd (gk20a_vm_map_clean_up_fst _ _ _ _ _ _) h
  rw [if_neg h2] at h ⊢
  by_cases h3 : flag_set flags g.NVGPU_AS_MAP_BUFFER_FLAGS_FIXED_OFFSET = true ∧
      validate_fixed_buffer s.vm (gk20a_vm_map_attrs g s.vm dmabuf oa flags kind) oa
        (if ms ≠ 0 then ms else dmabuf.size) ≠ 0
  · rw [if_pos h3] at h
    exact absurd (gk20a_vm_map_clean_up_fst _ _ _ _ _ _) h
  rw [if_neg h3] at h ⊢
  by_cases h4 : (setup_buffer_kind_and_compression g s.vm
      (gk20a_vm_map_attrs g s.vm dmabuf oa flags kind)
      (gk20a_vm_map_attrs g s.vm dmabuf oa flags kind).pgsz_idx.toNat).1 ≠ 0
  · rw [if_pos h4] at h
    exact absurd (gk20a_vm_map_clean_up_fst _ _ _ _ _ _) h
  rw [if_neg h4] at h ⊢
  refine ⟨?_, ?_, not_not.1 h4, rfl⟩
  · unfold gmmu_page_size_small gmmu_page_size_big at h2
    push_neg at h2
    omega
  · intro hf
    by_contra hv
    exact h3 ⟨hf, hv⟩

theorem gk20a_vm_map_inv (g : Gk20a) (s : MmState) (env : Env) (dmabuf : DmaBuf)
    (oa flags kind : Nat) (um : Bool) (rw bo ms : Nat)
    (hd : (gk20a_vm_map_duplicate_locked g s dmabuf.id oa flags kind um).1 = 0)
    (h : (gk20a_vm_map g s env dmabuf oa flags kind um rw bo ms).1 ≠ 0) :
    (gk20a_mm_pin (gk20a_vm_map_duplicate_locked g s dmabuf.id oa flags kind um).2 env
      dmabuf.id).1 = true ∧
    gk20a_vm_map g s env dmabuf oa flags kind um rw bo ms =
      gk20a_vm_map_pinned g
        (gk20a_mm_pin (gk20a_vm_map_duplicate_locked g s dmabuf.id oa flags kind um).2 env
          dmabuf.id).2 env dmabuf oa flags kind um rw bo ms := by
  unfold gk20a_vm_map at h ⊢
  simp only [] at h ⊢
  rw [if_neg (not_not.2 hd)] at h ⊢
  split_ifs at h ⊢ with hp
  · exact absurd (gk20a_vm_map_clean_up_fst _ _ _ _ _ _) h
  · exact ⟨by simpa using hp, rfl⟩

theorem gk20a_vm_map_dup (g : Gk20a) (s : MmState) (env : Env) (dmabuf : DmaBuf)
    (oa flags kind : Nat) (um : Bool) (rw bo ms : Nat)
    (hd : (gk20a_vm_map_duplicate_locked g s dmabuf.id oa flags kind um).1 ≠ 0) :
    gk20a_vm_map g s env dmabuf oa flags kind um rw bo ms =
      gk20a_vm_map_duplicate_locked g s dmabuf.id oa flags kind um := by
  unfold gk20a_vm_map
  simp only []
  rw [if_pos hd]



theorem rb_link_descend_mem (t t' : RbNode) (mb : MappedBuffer)
    (h : rb_link_descend t mb = some t') : mb ∈ t'.toList := by
  induction t generalizing t' with
  | nil =>
    simp only [rb_link_descend, Option.some.injEq] at h
    subst h
    simp [RbNode.toList]
  | node l c r ihl ihr =>
    simp only [rb_link_descend] at h
    split_ifs at h with h1 h2
    · obtain ⟨l', hl', rfl⟩ := Option.map_eq_some'.1 h
      simp [RbNode.toList, ihl l' hl']
    · obtain ⟨r', hr', rfl⟩ := Option.map_eq_some'.1 h
      simp [RbNode.toList, ihr r' hr']

theorem insert_mapped_buffer_mem (t : RbNode) (mb : MappedBuffer)
    (h : (insert_mapped_buffer t mb).1 = 0) : mb ∈ (insert_mapped_buffer t mb).2.toList := by
  unfold insert_mapped_buffer at h ⊢
  cases hd : rb_link_descend t mb with
  | none =>
    rw [hd] at h
    simp only [EINVAL] at h
    omega
  | some t' => exact rb_link_descend_mem t t' mb hd

/-- What a hit of the duplicate check does to a registry entry. -/
theorem gk20a_vm_map_duplicate_locked_inv (g : Gk20a) (s : MmState) (dmabuf oa flags kind : Nat)
    (um : Bool) (h : (gk20a_vm_map_duplicate_locked g s dmabuf oa flags kind um).1 ≠ 0) :
    ∃ mb, find_mapped_buffer_reverse_locked s.vm.mapped_buffers dmabuf kind = some mb ∧
      mb.flags = flags ∧
      (gk20a_vm_map_duplicate_locked g s dmabuf oa flags kind um).1 = mb.addr ∧
      (gk20a_vm_map_duplicate_locked g s dmabuf oa flags kind um).2.vm.mapped_buffers =
        s.vm.mapped_buffers.modify mb.addr (fun m =>
          if um then
            { m with user_mapped := u32 (m.user_mapped + 1), own_mem_ref := true, ref := m.ref + 1 }
          else { m with ref := m.ref + 1 }) ∧
      ((gk20a_vm_map_duplicate_locked g s dmabuf oa flags kind um).2.log = s.log ∨
        (gk20a_vm_map_duplicate_locked g s dmabuf oa flags kind um).2.log =
          s.log ++ [.dma_buf_put mb.dmabuf]) ∧
      (gk20a_vm_map_duplicate_locked g s dmabuf oa flags kind um).2.vm.vma_small = s.vm.vma_small ∧
      (gk20a_vm_map_duplicate_locked g s dmabuf oa flags kind um).2.vm.vma_big = s.vm.vma_big ∧
      (gk20a_vm_map_duplicate_locked g s dmabuf oa flags kind um).2.vm.reserved_va_list =
        s.vm.reserved_va_list := by
  unfold gk20a_vm_map_duplicate_locked at h ⊢
  cases hf : find_mapped_buffer_reverse_locked s.vm.mapped_buffers dmabuf kind with
  | none => rw [hf] at h; exact absurd rfl h
  | some mb =>
    rw [hf] at h
    simp only [] at h ⊢
    by_cases h1 : mb.flags ≠ flags
    · rw [if_pos h1] at h; exact absurd rfl h
    rw [if_neg h1] at h ⊢
    by_cases h2 : flag_set flags g.NVGPU_AS_MAP_BUFFER_FLAGS_FIXED_OFFSET = true ∧ mb.addr ≠ oa
    · rw [if_pos h2] at h; exact absurd rfl h
    rw [if_neg h2] at h ⊢
    refine ⟨mb, rfl, not_not.1 h1, rfl, ?_, ?_, ?_, ?_, ?_⟩
    · by_cases h3 : um = true ∧ mb.own_mem_ref = true <;> simp [h3]
    · by_cases h3 : um = true ∧ mb.own_mem_ref = true
      · right; simp [h3]
      · left; simp [h3]
    · by_cases h3 : um = true ∧ mb.own_mem_ref = true <;> simp [h3]
    · by_cases h3 : um = true ∧ mb.own_mem_ref = true <;> simp [h3]
    · by_cases h3 : um = true ∧ mb.own_mem_ref = true <;> simp [h3]

theorem gk20a_vm_map_duplicate_locked_hit (g : Gk20a) (s : MmState) (dmabuf oa flags kind : Nat)
    (um : Bool) (mb : MappedBuffer)
    (hf : find_mapped_buffer_reverse_locked s.vm.mapped_buffers dmabuf kind = some mb)
    (hfl : mb.flags = flags)
    (hfix : flag_set flags g.NVGPU_AS_MAP_BUFFER_FLAGS_FIXED_OFFSET = false ∨ mb.addr = oa) :
    (gk20a_vm_map_duplicate_locked g s dmabuf oa flags kind um).1 = mb.addr := by
  unfold gk20a_vm_map_duplicate_locked
  rw [hf]
  simp only []
  rw [if_neg (not_not.2 hfl), if_neg]
  rintro ⟨h1, h2⟩
  rcases hfix with h | h
  · rw [h] at h1; exact absurd h1 (by simp)
  · exact h2 h

theorem find_mapped_buffer_reverse_locked_some (t : RbNode) (d k : Nat) (mb : MappedBuffer)
    (h : find_mapped_buffer_reverse_locked t d k = some mb) :
    mb ∈ t.toList ∧ mb.dmabuf = d ∧ mb.kind = k := by
  unfold find_mapped_buffer_reverse_locked at h
  have h1 := List.mem_of_find?_eq_some h
  have h2 := List.find?_some h
  simp only [decide_eq_true_eq] at h2
  exact ⟨h1, h2.1, h2.2.symm⟩

/-- In a list whose keys increase, `find?` returns the matching element with
the least key. -/
theorem find?_least (p : MappedBuffer → Bool) (l : List MappedBuffer) (x : MappedBuffer)
    (hl : (l.map MappedBuffer.addr).Pairwise (fun a b => a < b))
    (hx : x ∈ l) (hp : p x = true) (hmin : ∀ y ∈ l, p y = true → x.addr ≤ y.addr) :
    l.find? p = some x := by
  induction l with
  | nil => simp at hx
  | cons y rest ih =>
    simp only [List.map_cons, List.pairwise_cons, List.mem_map, forall_exists_index,
      and_imp, forall_apply_eq_imp_iff₂] at hl
    rcases List.mem_cons.1 hx with rfl | hx'
    · simp [List.find?, hp]
    · have hlt := hl.1 x hx'
      have hy : p y = false := by
        by_contra hy
        have := hmin y (List.mem_cons_self _ _) (by simpa using hy)
        omega
      simp only [List.find?, hy]
      exact ih hl.2 hx' (fun z hz hpz => hmin z (List.mem_cons_of_mem _ hz) hpz)

/-- A successful `gk20a_vm_map` leaves a registry entry at the returned
address with the buffer, kind and flags of the request. -/
theorem gk20a_vm_map_success_entry (g : Gk20a) (s : MmState) (env : Env) (dmabuf : DmaBuf)
    (oa flags kind : Nat) (um : Bool) (rw bo ms : Nat)
    (h : (gk20a_vm_map g s env dmabuf oa flags kind um rw bo ms).1 ≠ 0) :
    ∃ e ∈ (gk20a_vm_map g s env dmabuf oa flags kind um rw bo ms).2.vm.mapped_buffers.toList,
      e.addr = (gk20a_vm_map g s env dmabuf oa flags kind um rw bo ms).1 ∧
      e.dmabuf = dmabuf.id ∧ e.kind = kind ∧ e.flags = flags := by
  by_cases hd : (gk20a_vm_map_duplicate_locked g s dmabuf.id oa flags kind um).1 = 0
  · obtain ⟨_, h1⟩ := gk20a_vm_map_inv g s env dmabuf oa flags kind um rw bo ms hd h
    rw [h1] at h ⊢
    obtain ⟨_, _, _, h2⟩ := gk20a_vm_map_pinned_inv _ _ _ _ _ _ _ _ _ _ _ h
    rw [h2] at h ⊢
    obtain ⟨_, h3⟩ := gk20a_vm_map_ptes_inv _ _ _ _ _ _ _ _ _ _ _ _ _ h
    rw [h3] at h ⊢
    obtain ⟨_, _, h4, h5⟩ := gk20a_vm_map_track_inv _ _ _ _ _ _ _ _ _ _ h
    rw [h5]
    exact ⟨_, insert_mapped_buffer_mem _ _ h4, rfl, rfl, rfl, rfl⟩
  · rw [gk20a_vm_map_dup g s env dmabuf oa flags kind um rw bo ms hd]
    obtain ⟨mb, hf, hfl, hv, hreg, _⟩ :=
      gk20a_vm_map_duplicate_locked_inv g s dmabuf.id oa flags kind um hd
    obtain ⟨hm, hdm, hk⟩ := find_mapped_buffer_reverse_locked_some _ _ _ _ hf
    rw [hreg, hv, RbNode.modify_toList]
    refine ⟨_, List.mem_map.2 ⟨mb, hm, rfl⟩, ?_⟩
    cases um <;> simp [hdm, hk, hfl]


/-! ## Duplicate mappings -/


theorem RbNode.modify_addrs (a : Nat) (f : MappedBuffer → MappedBuffer) (t : RbNode)
    (hf : ∀ e, e.addr = a → (f e).addr = a) : (RbNode.modify a f t).addrs = t.addrs := by
  unfold RbNode.addrs
  rw [RbNode.modify_toList, List.map_map]
  apply List.map_congr_left
  intro e _
  simp only [Function.comp]
  by_cases h : e.addr = a
  · rw [if_pos h, hf e h, h]
  · rw [if_neg h]

/-- C2, as the code has it: when a non-fixed `gk20a_vm_map` of buffer `b` with
kind `k` and flags `f` succeeds with address `v`, and the entry at `v` is the
first registry entry in address order with buffer `b` and kind `k`, then an
immediately following map of the same `b`, `k`, `f` returns `v` again, keeps
the addresses of the registry, the VA allocators and the reservations, writes
no page table (the trace grows at most by a `dma_buf_put`), raises the
reference count of the entry at `v` by exactly one and leaves every other
entry as it was. -/
theorem gk20a_vm_map_twice_same (g : Gk20a) (s : MmState) (env env' : Env) (dmabuf : DmaBuf)
    (oa oa' flags kind : Nat) (um um' : Bool) (rw rw' bo bo' ms ms' : Nat)
    (hfix : flag_set flags g.NVGPU_AS_MAP_BUFFER_FLAGS_FIXED_OFFSET = false)
    (hsucc : (gk20a_vm_map g s env dmabuf oa flags kind um rw bo ms).1 ≠ 0)
    (hord : (gk20a_vm_map g s env dmabuf oa flags kind um rw bo ms).2.vm.mapped_buffers.Ordered)
    (hfirst : ∀ e ∈ (gk20a_vm_map g s env dmabuf oa flags kind um rw bo ms).2.vm.mapped_buffers.toList,
      e.dmabuf = dmabuf.id → e.kind = kind →
      (gk20a_vm_map g s env dmabuf oa flags kind um rw bo ms).1 ≤ e.addr) :
    (gk20a_vm_map g (gk20a_vm_map g s env dmabuf oa flags kind um rw bo ms).2 env' dmabuf oa' flags
      kind um' rw' bo' ms').1 = (gk20a_vm_map g s env dmabuf oa flags kind um rw bo ms).1 ∧
    (gk20a_vm_map g (gk20a_vm_map g s env dmabuf oa flags kind um rw bo ms).2 env' dmabuf oa' flags
      kind um' rw' bo' ms').2.vm.mapped_buffers.addrs =
      (gk20a_vm_map g s env dmabuf oa flags kind um rw bo ms).2.vm.mapped_buffers.addrs ∧
    ((gk20a_vm_map g (gk20a_vm_map g s env dmabuf oa flags kind um rw bo ms).2 env' dmabuf oa' flags
        kind um' rw' bo' ms').2.log =
        (gk20a_vm_map g s env dmabuf oa flags kind um rw bo ms).2.log ∨
      (gk20a_vm_map g (gk20a_vm_map g s env dmabuf oa flags kind um rw bo ms).2 env' dmabuf oa' flags
        kind um' rw' bo' ms').2.log =
        (gk20a_vm_map g s env dmabuf oa flags kind um rw bo ms).2.log ++
          [.dma_buf_put dmabuf.id]) ∧
    (∃ e1 e2,
      find_mapped_buffer_locked
        (gk20a_vm_map g s env dmabuf oa flags kind um rw bo ms).2.vm.mapped_buffers
        (gk20a_vm_map g s env dmabuf oa flags kind um rw bo ms).1 = some e1 ∧
      find_mapped_buffer_locked
        (gk20a_vm_map g (gk20a_vm_map g s env dmabuf oa flags kind um rw bo ms).2 env' dmabuf oa'
          flags kind um' rw' bo' ms').2.vm.mapped_buffers
        (gk20a_vm_map g s env dmabuf oa flags kind um rw bo ms).1 = some e2 ∧
      e2.ref = e1.ref + 1 ∧ e2.size = e1.size ∧ e2.dmabuf = e1.dmabuf ∧ e2.kind = e1.kind) ∧
    (∀ a, a ≠ (gk20a_vm_map g s env dmabuf oa flags kind um rw bo ms).1 →
      find_mapped_buffer_locked
        (gk20a_vm_map g (gk20a_vm_map g s env dmabuf oa flags kind um rw bo ms).2 env' dmabuf oa'
          flags kind um' rw' bo' ms').2.vm.mapped_buffers a =
      find_mapped_buffer_locked
        (gk20a_vm_map g s env dmabuf oa flags kind um rw bo ms).2.vm.mapped_buffers a) ∧
    (gk20a_vm_map g (gk20a_vm_map g s env dmabuf oa flags kind um rw bo ms).2 env' dmabuf oa' flags
      kind um' rw' bo' ms').2.vm.vma_small =
      (gk20a_vm_map g s env dmabuf oa flags kind um rw bo ms).2.vm.vma_small ∧
    (gk20a_vm_map g (gk20a_vm_map g s env dmabuf oa flags kind um rw bo ms).2 env' dmabuf oa' flags
      kind um' rw' bo' ms').2.vm.vma_big =
      (gk20a_vm_map g s env dmabuf oa flags kind um rw bo ms).2.vm.vma_big ∧
    (gk20a_vm_map g (gk20a_vm_map g s env dmabuf oa flags kind um rw bo ms).2 env' dmabuf oa' flags
      kind um' rw' bo' ms').2.vm.reserved_va_list =
      (gk20a_vm_map g s env dmabuf oa flags kind um rw bo ms).2.vm.reserved_va_list := by
  obtain ⟨e, hem, hea, hed, hek, hef⟩ :=
    gk20a_vm_map_success_entry g s env dmabuf oa flags kind um rw bo ms hsucc
  generalize gk20a_vm_map g s env dmabuf oa flags kind um rw bo ms = r1 at *
  -- the reverse lookup in the new state finds the entry at `v`
  have hrev : find_mapped_buffer_reverse_locked r1.2.vm.mapped_buffers dmabuf.id kind = some e := by
    unfold find_mapped_buffer_reverse_locked
    refine find?_least _ _ e hord hem (by simp [hed, hek]) ?_
    intro y hy hpy
    simp only [decide_eq_true_eq] at hpy
    rw [hea]
    exact hfirst y hy hpy.1 hpy.2.symm
  have hhit := gk20a_vm_map_duplicate_locked_hit g r1.2 dmabuf.id oa' flags kind um' e hrev hef
    (Or.inl hfix)
  have hd : (gk20a_vm_map_duplicate_locked g r1.2 dmabuf.id oa' flags kind um').1 ≠ 0 := by
    rw [hhit, hea]; exact hsucc
  rw [gk20a_vm_map_dup g r1.2 env' dmabuf oa' flags kind um' rw' bo' ms' hd]
  obtain ⟨mb, hf, _, hv, hreg, hlog, hvs, hvb, hres⟩ :=
    gk20a_vm_map_duplicate_locked_inv g r1.2 dmabuf.id oa' flags kind um' hd
  rw [hrev] at hf
  have hmb : e = mb := Option.some.inj hf
  subst hmb
  have hfind1 : find_mapped_buffer_locked r1.2.vm.mapped_buffers e.addr = some e :=
    find_mapped_buffer_locked_mem _ e hord hem
  have hupd : ∀ x : MappedBuffer, x.addr = e.addr →
      (if um' = true then
        { x with user_mapped := u32 (x.user_mapped + 1), own_mem_ref := true, ref := x.ref + 1 }
      else { x with ref := x.ref + 1 }).addr = e.addr := by
    intro x hx; cases um' <;> simpa using hx
  refine ⟨by rw [hhit, hea], ?_, ?_, ?_, ?_, hvs, hvb, hres⟩
  · rw [hreg]
    exact RbNode.modify_addrs _ _ _ hupd
  · rw [hed] at hlog; exact hlog
  · refine ⟨e, ?w, ?a, ?b, ?c⟩
    case a => rw [← hea]; exact hfind1
    case b =>
      rw [hreg, ← hea, find_mapped_buffer_locked_modify _ _ _ _ hupd, hfind1]
      exact rfl
    case c => cases um' <;> simp
  · intro a ha
    rw [hreg, find_mapped_buffer_locked_modify _ _ _ _ hupd]
    cases hfa : find_mapped_buffer_locked r1.2.vm.mapped_buffers a with
    | none => rfl
    | some x =>
      have hxa := (find_mapped_buffer_locked_some _ _ _ hfa).2
      have : x.addr ≠ e.addr := by rw [hxa, hea]; exact ha
      simp [this]


/-- C2 at the sample address space: a kernel mapping of `sample_buf_c` made
twice. -/
theorem gk20a_vm_map_twice_same_witness :
    (gk20a_vm_map sample_g sample_state sample_env sample_buf_c 0 0 0 false 0 0 0).1 ≠ 0 ∧
    (gk20a_vm_map sample_g
      (gk20a_vm_map sample_g sample_state sample_env sample_buf_c 0 0 0 false 0 0 0).2
      sample_env sample_buf_c 0 0 0 false 0 0 0).1 =
      (gk20a_vm_map sample_g sample_state sample_env sample_buf_c 0 0 0 false 0 0 0).1 :=
  ⟨by decide,
    (gk20a_vm_map_twice_same sample_g sample_state sample_env sample_env sample_buf_c 0 0 0 0
      false false 0 0 0 0 0 0 (by decide) (by decide) (by decide) (by decide)).1⟩

/-- C2 as stated fails: with `sample_buf_c` already mapped with flags 0 (at the
lower address `0x4000000`), a map with the cacheable flag (4, fixed-offset bit
clear) succeeds, and the immediately following map with the same buffer, kind
and flags returns a different address: the reverse lookup finds the older entry
first, its flags differ, and a further mapping is made. -/
theorem gk20a_vm_map_twice_other_flags_differs :
    flag_set 4 sample_g.NVGPU_AS_MAP_BUFFER_FLAGS_FIXED_OFFSET = false ∧
    (gk20a_vm_map sample_g sample_mapped_once sample_env sample_buf_c 0 4 0 false 0 0 0).1 =
      0x4010000 ∧
    (gk20a_vm_map sample_g
      (gk20a_vm_map sample_g sample_mapped_once sample_env sample_buf_c 0 4 0 false 0 0 0).2
      sample_env sample_buf_c 0 4 0 false 0 0 0).1 = 0x4020000 := by
  decide

/-! ## Page-table update and compression fallback -/


@[simp] theorem MmState.emit_comp_tags (s : MmState) (e : HwEvent) :
    (s.emit e).comp_tags = s.comp_tags := rfl
@[simp] theorem MmState.with_vm_comp_tags (s : MmState) (vm : VmGk20a) :
    (s.with_vm vm).comp_tags = s.comp_tags := rfl

theorem update_gmmu_ptes_locked_inv (s : MmState) (env : Env) (i : Nat) (hs : Bool)
    (bo va ve kv co : Nat) (c u : Bool) (rw : Nat) (sp : Bool)
    (h : (update_gmmu_ptes_locked s env i hs bo va ve kv co c u rw sp).1 = 0) :
    env.pte_alloc_ok = true ∧
    bo &&& u32 (u32 (s.vm.gmmu_page_sizes i) + U32 - 1) = 0 ∧
    (update_gmmu_ptes_locked s env i hs bo va ve kv co c u rw sp).2 =
      s.emit (.update_ptes i hs bo va ve kv co c u rw sp true) := by
  have hE : (-EINVAL : Int) ≠ 0 := by unfold EINVAL; omega
  have hM : (-ENOMEM : Int) ≠ 0 := by unfold ENOMEM; omega
  unfold update_gmmu_ptes_locked at h ⊢
  simp only [] at h ⊢
  by_cases h1 : bo &&& u32 (u32 (s.vm.gmmu_page_sizes i) + U32 - 1) ≠ 0
  · rw [if_pos h1] at h; exact absurd h hE
  · rw [if_neg h1] at h ⊢
    cases hp : env.pte_alloc_ok
    · rw [hp] at h; exact absurd h (by simpa using hM)
    · exact ⟨rfl, not_not.1 h1, rfl⟩

/-- What a successful `gk20a_locked_gmmu_map` has done. -/
theorem gk20a_locked_gmmu_map_inv (g : Gk20a) (s : MmState) (env : Env) (mo : Nat) (hs : Bool)
    (bo sz i kv co fl rw : Nat) (cl sp : Bool)
    (h : (gk20a_locked_gmmu_map g s env mo hs bo sz i kv co fl rw cl sp).1 ≠ 0) :
    env.pte_alloc_ok = true ∧
    (mo ≠ 0 → (gk20a_locked_gmmu_map g s env mo hs bo sz i kv co fl rw cl sp).1 = mo ∧
      (gk20a_locked_gmmu_map g s env mo hs bo sz i kv co fl rw cl sp).2.vm = s.vm) ∧
    (mo = 0 →
      (gk20a_locked_gmmu_map g s env mo hs bo sz i kv co fl rw cl sp).1 =
        (gk20a_vm_alloc_va s.vm sz i).1 ∧
      (gk20a_locked_gmmu_map g s env mo hs bo sz i kv co fl rw cl sp).2.vm =
        (gk20a_vm_alloc_va s.vm sz i).2) ∧
    (∃ pre, (pre = [] ∨ ∃ a b, pre = [HwEvent.cbc_clear a b]) ∧
      (gk20a_locked_gmmu_map g s env mo hs bo sz i kv co fl rw cl sp).2.log =
        s.log ++ pre ++
          [.update_ptes i hs bo (gk20a_locked_gmmu_map g s env mo hs bo sz i kv co fl rw cl sp).1
            (u64 ((gk20a_locked_gmmu_map g s env mo hs bo sz i kv co fl rw cl sp).1 + sz)) kv co
            (flag_set fl g.NVGPU_MAP_BUFFER_FLAGS_CACHEABLE_TRUE)
            (flag_set fl g.NVGPU_GPU_FLAGS_SUPPORT_UNMAPPED_PTE) rw sp true,
           .tlb_invalidate]) := by
  unfold gk20a_locked_gmmu_map at h ⊢
  simp only [] at h ⊢
  -- name the state after the optional tag clear
  generalize hs1 : (if cl = true ∧ co ≠ 0 then
      s.emit (.cbc_clear co (u32 (co + u32 (DIV_ROUND_UP_ULL sz g.compression_page_size) + U32 - 1)))
    else s) = s1 at h ⊢
  have hs1vm : s1.vm = s.vm := by rw [← hs1]; split_ifs <;> rfl
  have hs1log : ∃ pre, (pre = [] ∨ ∃ a b, pre = [HwEvent.cbc_clear a b]) ∧
      s1.log = s.log ++ pre := by
    rw [← hs1]
    split_ifs
    · exact ⟨_, Or.inr ⟨_, _, rfl⟩, rfl⟩
    · exact ⟨[], Or.inl rfl, by simp⟩
  generalize ha : (if mo = 0 then gk20a_vm_alloc_va s1.vm sz i else (mo, s1.vm)) = a at h ⊢
  by_cases h0 : a.1 = 0
  · rw [if_pos h0] at h; exact absurd rfl h
  rw [if_neg h0] at h ⊢
  generalize hr : update_gmmu_ptes_locked { s1 with vm := a.2 } env i hs bo a.1 (u64 (a.1 + sz)) kv co
    (flag_set fl g.NVGPU_MAP_BUFFER_FLAGS_CACHEABLE_TRUE)
    (flag_set fl g.NVGPU_GPU_FLAGS_SUPPORT_UNMAPPED_PTE) rw sp = r at h ⊢
  by_cases h1 : r.1 ≠ 0
  · rw [if_pos h1] at h
    split_ifs at h <;> exact absurd rfl h
  rw [if_neg h1] at h ⊢
  have hinv := update_gmmu_ptes_locked_inv { s1 with vm := a.2 } env i hs bo a.1 (u64 (a.1 + sz)) kv co
    (flag_set fl g.NVGPU_MAP_BUFFER_FLAGS_CACHEABLE_TRUE)
    (flag_set fl g.NVGPU_GPU_FLAGS_SUPPORT_UNMAPPED_PTE) rw sp (by rw [hr]; exact not_not.1 h1)
  rw [hr] at hinv
  obtain ⟨hpte, _, hr2⟩ := hinv
  obtain ⟨pre, hpre, hlog⟩ := hs1log
  refine ⟨hpte, ?_, ?_, pre, hpre, ?_⟩
  · intro hmo
    rw [if_neg hmo] at ha
    subst ha
    simp [hr2, hs1vm]
  · intro hmo
    rw [if_pos hmo, hs1vm] at ha
    subst ha
    simp [hr2]
  · simp [hr2, hlog]



@[simp] theorem gk20a_alloc_comptags_vm (s : MmState) (d l : Nat) :
    (gk20a_alloc_comptags s d l).2.vm = s.vm := by
  unfold gk20a_alloc_comptags
  split
  · rfl
  · simp only []; split_ifs <;> rfl

@[simp] theorem gk20a_alloc_comptags_log (s : MmState) (d l : Nat) :
    (gk20a_alloc_comptags s d l).2.log = s.log := by
  unfold gk20a_alloc_comptags
  split
  · rfl
  · simp only []; split_ifs <;> rfl

theorem gk20a_vm_map_comptags_frame (s : MmState) (dmabuf : DmaBuf) (bfr : BufferAttrs) :
    (gk20a_vm_map_comptags s dmabuf bfr).2.2.vm = s.vm ∧
    (gk20a_vm_map_comptags s dmabuf bfr).2.2.log = s.log ∧
    (gk20a_vm_map_comptags s dmabuf bfr).1.pgsz_idx = bfr.pgsz_idx ∧
    (gk20a_vm_map_comptags s dmabuf bfr).1.size = bfr.size := by
  unfold gk20a_vm_map_comptags
  simp only []
  split_ifs <;> simp

theorem gk20a_vm_map_comptags_none (s : MmState) (dmabuf : DmaBuf) (bfr : BufferAttrs)
    (h : bfr.ctag_lines = 0) :
    (gk20a_vm_map_comptags s dmabuf bfr).1.ctag_lines = 0 ∧
    (gk20a_vm_map_comptags s dmabuf bfr).1.kind_v = bfr.kind_v ∧
    (gk20a_vm_map_comptags s dmabuf bfr).2.1 = false ∧
    (gk20a_vm_map_comptags s dmabuf bfr).2.2 = s := by
  unfold gk20a_vm_map_comptags
  simp only []
  have h1 : (if s.vm.enable_ctag = false then { bfr with ctag_lines := 0 } else bfr).ctag_lines = 0 := by
    split_ifs <;> simp [h]
  rw [if_neg (by rw [h1]; simp)]
  refine ⟨h1, ?_, rfl, rfl⟩
  split_ifs <;> rfl

/-- Kind setup at a page size other than the big one: a supported
compressible kind is replaced by its uncompressed counterpart, without
error and without compression-tag lines. -/
theorem setup_buffer_kind_and_compression_small (g : Gk20a) (vm : VmGk20a) (bfr : BufferAttrs)
    (pgsz_idx : Nat) (hinv : bfr.kind_v ≠ g.gmmu_pte_kind_invalid_v)
    (hsup : g.gk20a_kind_is_supported bfr.kind_v = true)
    (hcomp : g.gk20a_kind_is_compressible bfr.kind_v = true)
    (huc : g.gk20a_get_uncompressed_kind bfr.kind_v ≠ g.gmmu_pte_kind_invalid_v)
    (hsmall : vm.gmmu_page_sizes pgsz_idx ≠ vm.big_page_size) :
    (setup_buffer_kind_and_compression g vm bfr pgsz_idx).1 = 0 ∧
    (setup_buffer_kind_and_compression g vm bfr pgsz_idx).2.kind_v =
      g.gk20a_get_uncompressed_kind bfr.kind_v ∧
    (setup_buffer_kind_and_compression g vm bfr pgsz_idx).2.ctag_lines = 0 := by
  unfold setup_buffer_kind_and_compression
  simp [hinv, hsup, hcomp, huc, hsmall]



theorem insert_mapped_buffer_ok (t : RbNode) (mb : MappedBuffer) (h : t.Ordered)
    (h0 : (insert_mapped_buffer t mb).1 = 0) :
    (insert_mapped_buffer t mb).2.toList.Perm (mb :: t.toList) ∧
      (insert_mapped_buffer t mb).2.Ordered := by
  unfold insert_mapped_buffer at h0 ⊢
  cases hd : rb_link_descend t mb with
  | none =>
    rw [hd] at h0
    simp only [EINVAL] at h0
    omega
  | some t' => exact rb_link_descend_some t t' mb h hd

theorem gk20a_vm_map_duplicate_locked_miss (g : Gk20a) (s : MmState) (dmabuf oa flags kind : Nat)
    (um : Bool) (h : find_mapped_buffer_reverse_locked s.vm.mapped_buffers dmabuf kind = none) :
    gk20a_vm_map_duplicate_locked g s dmabuf oa flags kind um = (0, s) := by
  unfold gk20a_vm_map_duplicate_locked
  rw [h]

@[simp] theorem gk20a_vm_alloc_va_mapped_buffers (vm : VmGk20a) (sz i : Nat) :
    (gk20a_vm_alloc_va vm sz i).2.mapped_buffers = vm.mapped_buffers := by
  unfold gk20a_vm_alloc_va
  simp only []
  split_ifs <;> simp

@[simp] theorem gk20a_vm_alloc_va_reserved (vm : VmGk20a) (sz i : Nat) :
    (gk20a_vm_alloc_va vm sz i).2.reserved_va_list = vm.reserved_va_list := by
  unfold gk20a_vm_alloc_va
  simp only []
  split_ifs <;> simp

@[simp] theorem gk20a_vm_alloc_va_num (vm : VmGk20a) (sz i : Nat) :
    (gk20a_vm_alloc_va vm sz i).2.num_user_mapped_buffers = vm.num_user_mapped_buffers := by
  unfold gk20a_vm_alloc_va
  simp only []
  split_ifs <;> simp

theorem gk20a_locked_gmmu_map_mapped_buffers (g : Gk20a) (s : MmState) (env : Env) (mo : Nat)
    (hs : Bool) (bo sz i kv co fl rw : Nat) (cl sp : Bool)
    (h : (gk20a_locked_gmmu_map g s env mo hs bo sz i kv co fl rw cl sp).1 ≠ 0) :
    (gk20a_locked_gmmu_map g s env mo hs bo sz i kv co fl rw cl sp).2.vm.mapped_buffers =
      s.vm.mapped_buffers ∧
    (gk20a_locked_gmmu_map g s env mo hs bo sz i kv co fl rw cl sp).2.vm.reserved_va_list =
      s.vm.reserved_va_list ∧
    (gk20a_locked_gmmu_map g s env mo hs bo sz i kv co fl rw cl sp).2.vm.num_user_mapped_buffers =
      s.vm.num_user_mapped_buffers := by
  obtain ⟨_, h1, h2, _⟩ := gk20a_locked_gmmu_map_inv g s env mo hs bo sz i kv co fl rw cl sp h
  by_cases hmo : mo = 0
  · rw [(h2 hmo).2]; simp
  · rw [(h1 hmo).2]; simp

/-- C7, as the code has it: for a supported compressible kind `k` (with an
uncompressed counterpart) and a buffer not yet mapped with it, when
`gk20a_vm_map` selects a page size other than the big one, the kind setup does
not fail, and a successful map creates a registry entry with `ctag_lines = 0`
whose page-table entries are written with the uncompressed counterpart
`gk20a_get_uncompressed_kind(k)`, while the entry's `kind` field keeps the
requested kind `k`. -/
theorem gk20a_vm_map_compression_fallback (g : Gk20a) (s : MmState) (env : Env) (dmabuf : DmaBuf)
    (oa flags kind : Nat) (um : Bool) (rw bo ms : Nat)
    (hk : kind < 256) (hinv : kind ≠ g.gmmu_pte_kind_invalid_v)
    (hsup : g.gk20a_kind_is_supported kind = true)
    (hcomp : g.gk20a_kind_is_compressible kind = true)
    (huc : g.gk20a_get_uncompressed_kind kind ≠ g.gmmu_pte_kind_invalid_v)
    (hnew : find_mapped_buffer_reverse_locked s.vm.mapped_buffers dmabuf.id kind = none)
    (hord : s.vm.mapped_buffers.Ordered)
    (hsmall : s.vm.gmmu_page_sizes (gk20a_vm_map_attrs g s.vm dmabuf oa flags kind).pgsz_idx.toNat ≠
      s.vm.big_page_size) :
    (setup_buffer_kind_and_compression g s.vm (gk20a_vm_map_attrs g s.vm dmabuf oa flags kind)
      (gk20a_vm_map_attrs g s.vm dmabuf oa flags kind).pgsz_idx.toNat).1 = 0 ∧
    ((gk20a_vm_map g s env dmabuf oa flags kind um rw bo ms).1 ≠ 0 →
      ∃ e, find_mapped_buffer_locked
          (gk20a_vm_map g s env dmabuf oa flags kind um rw bo ms).2.vm.mapped_buffers
          (gk20a_vm_map g s env dmabuf oa flags kind um rw bo ms).1 = some e ∧
        e.dmabuf = dmabuf.id ∧ e.ctag_lines = 0 ∧ e.kind = kind ∧
        s.vm.gmmu_page_sizes e.pgsz_idx ≠ s.vm.big_page_size ∧
        ∃ co, HwEvent.update_ptes e.pgsz_idx true bo e.addr (u64 (e.addr + e.size))
          (g.gk20a_get_uncompressed_kind kind) co
          (flag_set flags g.NVGPU_MAP_BUFFER_FLAGS_CACHEABLE_TRUE)
          (flag_set flags g.NVGPU_GPU_FLAGS_SUPPORT_UNMAPPED_PTE) rw false true ∈
          (gk20a_vm_map g s env dmabuf oa flags kind um rw bo ms).2.log) := by
  have hkv : (gk20a_vm_map_attrs g s.vm dmabuf oa flags kind).kind_v = kind := by
    show kind % 256 = kind
    exact Nat.mod_eq_of_lt hk
  have hset := setup_buffer_kind_and_compression_small g s.vm
    (gk20a_vm_map_attrs g s.vm dmabuf oa flags kind)
    (gk20a_vm_map_attrs g s.vm dmabuf oa flags kind).pgsz_idx.toNat
    (by rw [hkv]; exact hinv) (by rw [hkv]; exact hsup) (by rw [hkv]; exact hcomp)
    (by rw [hkv]; exact huc) hsmall
  rw [hkv] at hset
  refine ⟨hset.1, fun hsucc => ?_⟩
  have hd := gk20a_vm_map_duplicate_locked_miss g s dmabuf.id oa flags kind um hnew
  obtain ⟨_, h1⟩ := gk20a_vm_map_inv g s env dmabuf oa flags kind um rw bo ms (by rw [hd]) hsucc
  rw [h1] at hsucc ⊢
  rw [hd] at hsucc ⊢
  simp only [] at hsucc ⊢
  have hpvm : (gk20a_mm_pin s env dmabuf.id).2.vm = s.vm := gk20a_mm_pin_vm s env dmabuf.id
  have hplog : (gk20a_mm_pin s env dmabuf.id).2.log = s.log := gk20a_mm_pin_log s env dmabuf.id
  generalize (gk20a_mm_pin s env dmabuf.id).2 = sp at hsucc hpvm hplog ⊢
  obtain ⟨_, _, _, h2⟩ := gk20a_vm_map_pinned_inv _ _ _ _ _ _ _ _ _ _ _ hsucc
  rw [h2] at hsucc ⊢
  rw [hpvm] at hsucc ⊢
  generalize hkdef : setup_buffer_kind_and_compression g s.vm
    (gk20a_vm_map_attrs g s.vm dmabuf oa flags kind)
    (gk20a_vm_map_attrs g s.vm dmabuf oa flags kind).pgsz_idx.toNat = k at hsucc hset ⊢
  have hkp : k.2.pgsz_idx = (gk20a_vm_map_attrs g s.vm dmabuf oa flags kind).pgsz_idx := by
    rw [← hkdef]
    unfold setup_buffer_kind_and_compression
    simp only []
    split_ifs <;> simp
  obtain ⟨hm, h3⟩ := gk20a_vm_map_ptes_inv _ _ _ _ _ _ _ _ _ _ _ _ _ hsucc
  rw [h3] at hsucc ⊢
  obtain ⟨hc1, hc2, hc3, hc4⟩ := gk20a_vm_map_comptags_none sp dmabuf k.2 hset.2.2
  obtain ⟨_, _, hc5, _⟩ := gk20a_vm_map_comptags_frame sp dmabuf k.2
  generalize hcdef : gk20a_vm_map_comptags sp dmabuf k.2 = c at *
  generalize hmdef : gk20a_locked_gmmu_map g c.2.2 env
    (if flag_set flags g.NVGPU_AS_MAP_BUFFER_FLAGS_FIXED_OFFSET = true then oa else 0) true bo
    (if ms ≠ 0 then ms else dmabuf.size) c.1.pgsz_idx.toNat c.1.kind_v c.1.ctag_offset flags rw
    c.2.1 false = m at *
  obtain ⟨_, _, hins, h4⟩ := gk20a_vm_map_track_inv _ _ _ _ _ _ _ _ _ _ hsucc
  rw [h4]
  have hminv := gk20a_locked_gmmu_map_inv g c.2.2 env
    (if flag_set flags g.NVGPU_AS_MAP_BUFFER_FLAGS_FIXED_OFFSET = true then oa else 0) true bo
    (if ms ≠ 0 then ms else dmabuf.size) c.1.pgsz_idx.toNat c.1.kind_v c.1.ctag_offset flags rw
    c.2.1 false (by rw [hmdef]; exact hm)
  have hmreg := gk20a_locked_gmmu_map_mapped_buffers g c.2.2 env
    (if flag_set flags g.NVGPU_AS_MAP_BUFFER_FLAGS_FIXED_OFFSET = true then oa else 0) true bo
    (if ms ≠ 0 then ms else dmabuf.size) c.1.pgsz_idx.toNat c.1.kind_v c.1.ctag_offset flags rw
    c.2.1 false (by rw [hmdef]; exact hm)
  rw [hmdef] at hminv hmreg
  obtain ⟨_, _, _, pre, _, hlog⟩ := hminv
  have hord' : m.2.vm.mapped_buffers.Ordered := by
    rw [hmreg.1, hc4, hpvm]; exact hord
  obtain ⟨hperm, hord''⟩ := insert_mapped_buffer_ok _ _ hord' hins
  refine ⟨new_mapped_buffer m.2.vm dmabuf flags kind um (if ms ≠ 0 then ms else dmabuf.size) c.1
    (!flag_set flags g.NVGPU_AS_MAP_BUFFER_FLAGS_FIXED_OFFSET) m.1, ?_, rfl, hc1, rfl, ?_, ?_⟩
  · exact find_mapped_buffer_locked_mem _ _ hord'' (hperm.symm.subset (List.mem_cons_self _ _))
  · show s.vm.gmmu_page_sizes c.1.pgsz_idx.toNat ≠ s.vm.big_page_size
    rw [hc5, hkp]; exact hsmall
  · refine ⟨c.1.ctag_offset, ?_⟩
    show _ ∈ m.2.log
    rw [hlog, hc2, hset.2.1]
    simp [new_mapped_buffer]


/-- C7 at the sample address space: `sample_buf_c` is 4 KiB-aligned, so the
small page size is selected for the compressible kind 219. -/
theorem gk20a_vm_map_compression_fallback_witness :
    sample_g.gk20a_kind_is_compressible 219 = true ∧
    (setup_buffer_kind_and_compression sample_g sample_state.vm
      (gk20a_vm_map_attrs sample_g sample_state.vm sample_buf_c 0 0 219)
      (gk20a_vm_map_attrs sample_g sample_state.vm sample_buf_c 0 0 219).pgsz_idx.toNat).1 = 0 :=
  ⟨by decide,
    (gk20a_vm_map_compression_fallback sample_g sample_state sample_env sample_buf_c 0 0 219 false
      0 0 0 (by decide) (by decide) (by decide) (by decide) (by decide) (by decide) (by decide)
      (by decide)).1⟩

/-- C7 as stated fails: kind 219 is supported and compressible, the map of the
4 KiB-aligned `sample_buf_c` selects the small page size and succeeds, and the
kind stored in the registry entry is 219, not the uncompressed counterpart
254. -/
theorem gk20a_vm_map_stores_requested_kind :
    sample_g.gk20a_kind_is_supported 219 = true ∧
    sample_g.gk20a_kind_is_compressible 219 = true ∧
    sample_g.gk20a_get_uncompressed_kind 219 = 254 ∧
    (gk20a_vm_map sample_g sample_state sample_env sample_buf_c 0 0 219 false 0 0 0).1 =
      0x4000000 ∧
    (find_mapped_buffer_locked
      (gk20a_vm_map sample_g sample_state sample_env sample_buf_c 0 0 219 false 0 0
        0).2.vm.mapped_buffers 0x4000000).map
      (fun e => (e.pgsz_idx, e.ctag_lines, e.kind)) = some (0, 0, 219) := by
  decide

/-! ## Address-space invariant -/


/-! ### Page arithmetic -/

theorem ilog2_loop_two_pow (k fuel : Nat) (h : k ≤ fuel) : ilog2_loop fuel (2 ^ k) = k := by
  induction k generalizing fuel with
  | zero => cases fuel <;> simp [ilog2_loop]
  | succ k ih =>
    obtain ⟨f, rfl⟩ : ∃ f, fuel = f + 1 := ⟨fuel - 1, by omega⟩
    have h2 : 2 ^ (k + 1) ≥ 2 := by
      have := Nat.one_le_two_pow (n := k)
      rw [pow_succ]; omega
    have h3 : 2 ^ (k + 1) / 2 = 2 ^ k := by
      rw [pow_succ]; exact Nat.mul_div_cancel _ (by norm_num)
    simp only [ilog2_loop, h2, if_true, h3]
    rw [ih f (by omega)]

theorem ilog2_two_pow (k : Nat) (h : k ≤ 64) : ilog2 (2 ^ k) = k :=
  ilog2_loop_two_pow k 64 h

theorem u32_two_pow (k : Nat) (h : k < 32) : u32 (2 ^ k) = 2 ^ k :=
  Nat.mod_eq_of_lt (Nat.pow_lt_pow_right (by norm_num) h)

theorem u64_sub_one (k : Nat) (h : k < 64) : u64 (2 ^ k + U64 - 1) = 2 ^ k - 1 := by
  have h1 : 0 < 2 ^ k := Nat.two_pow_pos k
  have h2 : 2 ^ k < 2 ^ 64 := Nat.pow_lt_pow_right (by norm_num) h
  unfold u64 U64
  have : 2 ^ k + 2 ^ 64 - 1 = (2 ^ k - 1) + 2 ^ 64 := by omega
  rw [this, Nat.add_mod_right, Nat.mod_eq_of_lt (by omega)]

/-- Clearing the low `k` bits and shifting them out is shifting them out. -/
theorem and_not_mask_shift (x k : Nat) (hx : x < U64) :
    (x &&& not64 (2 ^ k - 1)) >>> k = x >>> k := by
  apply Nat.eq_of_testBit_eq
  intro i
  have hm : (2 ^ k - 1) % U64 = 2 ^ min k 64 - 1 := by
    unfold U64
    by_cases hk : k ≤ 64
    · rw [min_eq_left hk]
      apply Nat.mod_eq_of_lt
      have := Nat.pow_le_pow_right (show 0 < 2 by norm_num) hk
      have := Nat.two_pow_pos k
      omega
    · rw [min_eq_right (by omega)]
      push_neg at hk
      obtain ⟨d, rfl⟩ : ∃ d, k = 64 + d := ⟨k - 64, by omega⟩
      have h1 : 2 ^ (64 + d) - 1 = 2 ^ 64 * (2 ^ d - 1) + (2 ^ 64 - 1) := by
        have := Nat.two_pow_pos d
        rw [pow_add, Nat.mul_sub, mul_one]
        have h2 : 2 ^ 64 ≤ 2 ^ 64 * 2 ^ d := Nat.le_mul_of_pos_right _ this
        omega
      rw [h1, Nat.mul_add_mod, Nat.mod_eq_of_lt (by norm_num)]
  simp only [Nat.testBit_shiftRight, Nat.testBit_and, not64, Nat.testBit_xor, hm]
  rw [show U64 - 1 = 2 ^ 64 - 1 from rfl, Nat.testBit_two_pow_sub_one, Nat.testBit_two_pow_sub_one]
  by_cases h64 : k + i < 64
  · have : ¬ (k + i < min k 64) := by omega
    simp [h64, this]
  · have hb : x.testBit (k + i) = false := by
      apply Nat.testBit_lt_two_pow
      calc x < 2 ^ 64 := hx
        _ ≤ 2 ^ (k + i) := Nat.pow_le_pow_right (by norm_num) (by omega)
    simp [hb]

/-- The number of allocator units `gk20a_vm_alloc_va` asks for equals the number
`gk20a_vm_free_va` releases, for a power-of-two page size. -/
theorem alloc_pages_eq_free_pages (size k : Nat) (hk : k < 32) :
    u32 ((u64 (size + u64 (2 ^ k + U64 - 1)) &&& not64 (u64 (2 ^ k + U64 - 1))) >>>
        ilog2 (2 ^ k)) =
      u32 (u64 (size + u32 (2 ^ k) + U64 - 1) >>> ilog2 (u32 (2 ^ k))) := by
  rw [u64_sub_one k (by omega), u32_two_pow k hk, ilog2_two_pow k (by omega),
    and_not_mask_shift (u64 (size + (2 ^ k - 1))) k (Nat.mod_lt _ (by unfold U64; norm_num))]
  have h1 : 0 < 2 ^ k := Nat.two_pow_pos k
  have h2 : u64 (size + 2 ^ k + U64 - 1) = u64 (size + (2 ^ k - 1)) := by
    unfold u64
    have : size + 2 ^ k + U64 - 1 = (size + (2 ^ k - 1)) + U64 := by omega
    rw [this, Nat.add_mod_right]
  rw [h2]

/-- Pages needed for `size` bytes when nothing is truncated. -/
theorem free_pages_cover (size k lim : Nat) (hk : k < 31) (hs : size ≤ lim)
    (hlim : lim + 2 ^ k ≤ U32 * 2 ^ k) :
    size ≤ u32 (u64 (size + u32 (2 ^ k) + U64 - 1) >>> ilog2 (u32 (2 ^ k))) * 2 ^ k := by
  have h1 : 0 < 2 ^ k := Nat.two_pow_pos k
  have h2 : 2 ^ k < 2 ^ 31 := Nat.pow_lt_pow_right (by norm_num) hk
  rw [u32_two_pow k (by omega), ilog2_two_pow k (by omega)]
  have h3 : size + 2 ^ k + U64 - 1 = (size + 2 ^ k - 1) + U64 := by omega
  have hU : U32 * 2 ^ k < U64 := by
    unfold U32 U64
    calc 2 ^ 32 * 2 ^ k < 2 ^ 32 * 2 ^ 31 := by
          apply Nat.mul_lt_mul_of_pos_left h2 (by norm_num)
      _ < 2 ^ 64 := by norm_num
  have h4 : size + 2 ^ k - 1 < U64 := by omega
  unfold u64
  rw [h3, Nat.add_mod_right, Nat.mod_eq_of_lt h4, Nat.shiftRight_eq_div_pow]
  have h5 : (size + 2 ^ k - 1) / 2 ^ k < U32 := by
    rw [Nat.div_lt_iff_lt_mul h1]; omega
  unfold u32
  rw [Nat.mod_eq_of_lt h5]
  have h6 := Nat.div_add_mod (size + 2 ^ k - 1) (2 ^ k)
  have h7 := Nat.mod_lt (size + 2 ^ k - 1) h1
  rw [Nat.mul_comm] at h6
  omega

theorem shl_shr_cancel (s k : Nat) (hs : s < U32) (hk : k < 32) :
    u32 (u64 (s <<< k) >>> k) = s ∧ u64 (s <<< k) = s * 2 ^ k := by
  have h2 : 2 ^ k < 2 ^ 32 := Nat.pow_lt_pow_right (by norm_num) hk
  have h1 : 0 < 2 ^ k := Nat.two_pow_pos k
  have h3 : s * 2 ^ k < U64 := by
    unfold U32 at hs; unfold U64
    calc s * 2 ^ k < 2 ^ 32 * 2 ^ 32 := Nat.mul_lt_mul'' hs h2
      _ = 2 ^ 64 := by norm_num
  rw [Nat.shiftLeft_eq]
  unfold u64
  rw [Nat.mod_eq_of_lt h3, Nat.shiftRight_eq_div_pow, Nat.mul_div_cancel _ h1]
  exact ⟨Nat.mod_eq_of_lt hs, rfl⟩


namespace Gk20aAllocator

/-! ### The allocator -/

theorem first_fit_spec (len limit : Nat) (runs : List (Nat × Nat)) (cur s : Nat)
    (hsorted : runs.Pairwise (fun r r' => r.1 + r.2 ≤ r'.1))
    (hcur : ∀ r ∈ runs, cur ≤ r.1) (hlim : ∀ r ∈ runs, r.1 + r.2 ≤ limit)
    (h : first_fit len limit cur runs = some s) :
    cur ≤ s ∧ s + len ≤ limit ∧ ∀ r ∈ runs, s + len ≤ r.1 ∨ r.1 + r.2 ≤ s := by
  induction runs generalizing cur with
  | nil =>
    simp only [first_fit] at h
    split_ifs at h with h1
    cases h
    exact ⟨le_refl _, h1, by simp⟩
  | cons r rest ih =>
    rw [List.pairwise_cons] at hsorted
    simp only [first_fit] at h
    split_ifs at h with h1
    · cases h
      refine ⟨le_refl _, ?_, ?_⟩
      · have := hlim r (List.mem_cons_self _ _)
        omega
      · intro r' hr'
        rcases List.mem_cons.1 hr' with rfl | hr'
        · exact Or.inl h1
        · have := hsorted.1 r' hr'
          left; omega
    · obtain ⟨h2, h3, h4⟩ := ih (max cur (r.1 + r.2)) hsorted.2 (by
        intro r' hr'
        have := hsorted.1 r' hr'
        have := hcur r' (List.mem_cons_of_mem _ hr')
        omega) (fun r' hr' => hlim r' (List.mem_cons_of_mem _ hr')) h
      refine ⟨by omega, h3, ?_⟩
      intro r' hr'
      rcases List.mem_cons.1 hr' with rfl | hr'
      · right; omega
      · exact h4 r' hr'


theorem insert_run_perm (x : Nat × Nat) (l : List (Nat × Nat)) :
    (insert_run x l).Perm (x :: l) := by
  induction l with
  | nil => simp [insert_run]
  | cons r rest ih =>
    simp only [insert_run]
    split_ifs
    · exact List.Perm.refl _
    · exact (List.Perm.cons r ih).trans (List.Perm.swap x r rest)

theorem insert_run_sorted (x : Nat × Nat) (l : List (Nat × Nat)) (hx : 0 < x.2)
    (hl : l.Pairwise (fun r r' => r.1 + r.2 ≤ r'.1)) (hpos : ∀ r ∈ l, 0 < r.2)
    (hfree : ∀ r ∈ l, x.1 + x.2 ≤ r.1 ∨ r.1 + r.2 ≤ x.1) :
    (insert_run x l).Pairwise (fun r r' => r.1 + r.2 ≤ r'.1) := by
  induction l with
  | nil => simp [insert_run]
  | cons r rest ih =>
    rw [List.pairwise_cons] at hl
    have hr := hfree r (List.mem_cons_self _ _)
    have hrp := hpos r (List.mem_cons_self _ _)
    simp only [insert_run]
    split_ifs with h1
    · rw [List.pairwise_cons]
      refine ⟨?_, List.pairwise_cons.2 hl⟩
      intro r' hr'
      rcases List.mem_cons.1 hr' with rfl | hr'
      · omega
      · have := hl.1 r' hr'
        omega
    · rw [List.pairwise_cons]
      refine ⟨?_, ih hl.2 (fun r' hr' => hpos r' (List.mem_cons_of_mem _ hr'))
        (fun r' hr' => hfree r' (List.mem_cons_of_mem _ hr'))⟩
      intro r' hr'
      rcases List.mem_cons.1 ((insert_run_perm x rest).subset hr') with rfl | hr'
      · omega
      · exact hl.1 r' hr'

theorem erase_insert_run (x : Nat × Nat) (l : List (Nat × Nat)) (h : x ∉ l) :
    (insert_run x l).erase x = l := by
  induction l with
  | nil => simp [insert_run]
  | cons r rest ih =>
    have hne : r ≠ x := fun e => h (e ▸ List.mem_cons_self _ _)
    have hrest : x ∉ rest := fun e => h (List.mem_cons_of_mem _ e)
    simp only [insert_run]
    split_ifs
    · simp
    · rw [List.erase_cons_tail (by simpa using hne), ih hrest]

/-- What `alloc` does when it succeeds, and that it changes nothing when it
fails. -/
theorem alloc_spec (a : Gk20aAllocator) (addr len : Nat) (hwf : a.WF) :
    ((a.alloc addr len).1 = 0 →
      0 < len ∧ a.base ≤ (a.alloc addr len).2.1 ∧ (a.alloc addr len).2.1 + len ≤ a.limit ∧
      (∀ r ∈ a.runs, (a.alloc addr len).2.1 + len ≤ r.1 ∨ r.1 + r.2 ≤ (a.alloc addr len).2.1) ∧
      (addr ≠ 0 → (a.alloc addr len).2.1 = addr) ∧
      (a.alloc addr len).2.2 =
        { a with runs := insert_run ((a.alloc addr len).2.1, len) a.runs }) ∧
    ((a.alloc addr len).1 ≠ 0 → (a.alloc addr len).2.2 = a) := by
  have hE : (-EINVAL : Int) ≠ 0 := by unfold EINVAL; omega
  have hM : (-ENOMEM : Int) ≠ 0 := by unfold ENOMEM; omega
  unfold alloc
  by_cases h0 : len = 0
  · simp [h0, hE]
  rw [if_neg h0]
  by_cases h1 : addr = 0
  · rw [if_pos h1]
    cases hf : first_fit len a.limit a.base a.runs with
    | none => simp [hM]
    | some s =>
      obtain ⟨h2, h3, h4⟩ := first_fit_spec len a.limit a.runs a.base s hwf.2
        (fun r hr => (hwf.1 r hr).2.1) (fun r hr => (hwf.1 r hr).2.2) hf
      exact ⟨fun _ => ⟨by omega, h2, h3, h4, fun h => absurd h1 h, rfl⟩, fun h => absurd rfl h⟩
  · rw [if_neg h1]
    by_cases h2 : a.base ≤ addr ∧ addr + len ≤ a.limit ∧ run_free addr len a.runs = true
    · rw [if_pos h2]
      refine ⟨fun _ => ⟨by omega, h2.1, h2.2.1, ?_, fun _ => rfl, rfl⟩, fun h => absurd rfl h⟩
      intro r hr
      have := h2.2.2
      unfold run_free at this
      rw [List.all_eq_true] at this
      simpa using this r hr
    · rw [if_neg h2]
      simp [hM]

theorem alloc_wf (a : Gk20aAllocator) (addr len : Nat) (hwf : a.WF) :
    (a.alloc addr len).2.2.WF ∧ (a.alloc addr len).2.2.base = a.base ∧
      (a.alloc addr len).2.2.limit = a.limit := by
  obtain ⟨h1, h2⟩ := alloc_spec a addr len hwf
  by_cases h : (a.alloc addr len).1 = 0
  · obtain ⟨hl, hb, hlim, hfree, _, heq⟩ := h1 h
    rw [heq]
    refine ⟨⟨?_, ?_⟩, rfl, rfl⟩
    · intro r hr
      rcases List.mem_cons.1 ((insert_run_perm _ _).subset hr) with rfl | hr
      · exact ⟨hl, hb, hlim⟩
      · exact hwf.1 r hr
    · exact insert_run_sorted _ _ hl hwf.2 (fun r hr => (hwf.1 r hr).1) hfree
  · rw [h2 h]
    exact ⟨hwf, rfl, rfl⟩

theorem free_runs (a : Gk20aAllocator) (addr len : Nat) :
    (a.free addr len).2.runs = a.runs.erase (addr, len) ∧ (a.free addr len).2.base = a.base ∧
      (a.free addr len).2.limit = a.limit := by
  unfold free
  split_ifs with h
  · exact ⟨rfl, rfl, rfl⟩
  · exact ⟨(List.erase_of_not_mem h).symm, rfl, rfl⟩

theorem free_wf (a : Gk20aAllocator) (addr len : Nat) (hwf : a.WF) : (a.free addr len).2.WF := by
  obtain ⟨h1, h2, h3⟩ := free_runs a addr len
  refine ⟨?_, ?_⟩
  · intro r hr
    rw [h1] at hr
    rw [h2, h3]
    exact hwf.1 r (List.mem_of_mem_erase hr)
  · rw [h1]
    exact hwf.2.sublist (List.erase_sublist _ _)

theorem runs_apart (a : Gk20aAllocator) (hwf : a.WF) (c c' : Nat × Nat) (hc : c ∈ a.runs)
    (hc' : c' ∈ a.runs) (hne : c ≠ c') : c.1 + c.2 ≤ c'.1 ∨ c'.1 + c'.2 ≤ c.1 := by
  have := hwf.2
  generalize a.runs = l at hc hc' this
  induction l with
  | nil => simp at hc
  | cons r rest ih =>
    rw [List.pairwise_cons] at this
    rcases List.mem_cons.1 hc with rfl | hc1 <;> rcases List.mem_cons.1 hc' with rfl | hc1'
    · exact absurd rfl hne
    · exact Or.inl (this.1 _ hc1')
    · exact Or.inr (this.1 _ hc1)
    · exact ih hc1 hc1' this.2

theorem Usable.pos (a : Gk20aAllocator) (h : a.Usable) (r : Nat × Nat) (hr : r ∈ a.runs) :
    0 < r.1 ∧ 0 < r.2 ∧ r.1 + r.2 ≤ U32 := by
  obtain ⟨hwf, hl, hb⟩ := h
  obtain ⟨h1, h2, h3⟩ := hwf.1 r hr
  refine ⟨?_, h1, by omega⟩
  rcases hb with hb | hb <;> omega

theorem alloc_usable (a : Gk20aAllocator) (addr len : Nat) (h : a.Usable) :
    (a.alloc addr len).2.2.Usable := by
  obtain ⟨hwf, hb, hl⟩ := alloc_wf a addr len h.1
  exact ⟨hwf, by rw [hl]; exact h.2.1, by rw [hb, hl]; exact h.2.2⟩

theorem free_usable (a : Gk20aAllocator) (addr len : Nat) (h : a.Usable) :
    (a.free addr len).2.Usable := by
  obtain ⟨_, hb, hl⟩ := free_runs a addr len
  exact ⟨free_wf a addr len h.1, by rw [hl]; exact h.2.1, by rw [hb, hl]; exact h.2.2⟩

end Gk20aAllocator


/-! ### From the invariant to disjoint mappings -/

theorem pairwise_mem_apart {α : Type} (R : α → α → Prop) (l : List α) (h : l.Pairwise R)
    (a b : α) (ha : a ∈ l) (hb : b ∈ l) (hne : a ≠ b) : R a b ∨ R b a := by
  induction l with
  | nil => simp at ha
  | cons r rest ih =>
    rw [List.pairwise_cons] at h
    rcases List.mem_cons.1 ha with rfl | ha1 <;> rcases List.mem_cons.1 hb with rfl | hb1
    · exact absurd rfl hne
    · exact Or.inl (h.1 _ hb1)
    · exact Or.inr (h.1 _ ha1)
    · exact ih h.2 ha1 hb1

theorem ordered_addr_inj (t : RbNode) (h : t.Ordered) (e e' : MappedBuffer) (he : e ∈ t.toList)
    (he' : e' ∈ t.toList) (ha : e.addr = e'.addr) : e = e' := by
  by_contra hne
  unfold RbNode.Ordered RbNode.addrs at h
  rw [List.pairwise_map] at h
  rcases pairwise_mem_apart _ _ h e e' he he' hne with h1 | h1 <;> omega

theorem VmGk20a.vma_zero (vm : VmGk20a) : vm.vma 0 = vm.vma_small := rfl
theorem VmGk20a.vma_one (vm : VmGk20a) : vm.vma 1 = vm.vma_big := rfl
theorem VmGk20a.page_zero (vm : VmGk20a) : vm.gmmu_page_sizes 0 = vm.page_size_small := rfl
theorem VmGk20a.page_one (vm : VmGk20a) : vm.gmmu_page_sizes 1 = vm.page_size_big := rfl

theorem VmInv.page_pos {vm : VmGk20a} (h : VmInv vm) (i : Nat) : 0 < vm.gmmu_page_sizes i := by
  obtain ⟨k, _, hk⟩ := h.pages i
  rw [hk]; exact Nat.two_pow_pos k

theorem mem_va_claims_buffer (vm : VmGk20a) (e : MappedBuffer) (he : e ∈ vm.mapped_buffers.toList)
    (hva : e.va_allocated = true) : buffer_run vm e ∈ va_claims vm e.pgsz_idx := by
  unfold va_claims
  apply List.mem_append_left
  exact List.mem_map.2 ⟨e, List.mem_filter.2 ⟨he, by simp [hva]⟩, rfl⟩

theorem mem_va_claims_reservation (vm : VmGk20a) (r : VmReservedVaNode)
    (hr : r ∈ vm.reserved_va_list) : reservation_run vm r ∈ va_claims vm r.pgsz_idx := by
  unfold va_claims
  apply List.mem_append_right
  exact List.mem_map.2 ⟨r, List.mem_filter.2 ⟨hr, by simp⟩, rfl⟩

/-- The byte ranges of two different live runs do not meet. -/
theorem VmInv.claims_apart {vm : VmGk20a} (h : VmInv vm) (i j : Nat) (hi : i ≤ 1) (hj : j ≤ 1)
    (c c' : Nat × Nat) (hc : c ∈ (vm.vma i).runs) (hc' : c' ∈ (vm.vma j).runs)
    (hne : i ≠ j ∨ c ≠ c') :
    (c.1 + c.2) * vm.gmmu_page_sizes i ≤ c'.1 * vm.gmmu_page_sizes j ∨
      (c'.1 + c'.2) * vm.gmmu_page_sizes j ≤ c.1 * vm.gmmu_page_sizes i := by
  by_cases hij : i = j
  · subst hij
    have hcc : c ≠ c' := by
      rcases hne with h1 | h1
      · exact absurd rfl h1
      · exact h1
    rcases Gk20aAllocator.runs_apart _ (h.usable i).1 c c' hc hc' hcc with h1 | h1
    · exact Or.inl (Nat.mul_le_mul_right _ h1)
    · exact Or.inr (Nat.mul_le_mul_right _ h1)
  · -- one run is in the small-page allocator, the other in the big-page one
    have key : ∀ (cs cb : Nat × Nat), cs ∈ vm.vma_small.runs → cb ∈ vm.vma_big.runs →
        (cs.1 + cs.2) * vm.page_size_small ≤ cb.1 * vm.page_size_big := by
      intro cs cb hs hb
      obtain ⟨_, _, hs3⟩ := (h.usable 0).1.1 cs hs
      obtain ⟨hb1, hb2, hb3⟩ := (h.usable 1).1.1 cb hb
      rw [VmGk20a.vma_zero] at hs3
      rw [VmGk20a.vma_one] at hb2 hb3
      rcases h.apart with ha | ha
      · calc (cs.1 + cs.2) * vm.page_size_small
            ≤ vm.vma_small.limit * vm.page_size_small := Nat.mul_le_mul_right _ hs3
          _ ≤ vm.vma_big.base * vm.page_size_big := ha
          _ ≤ cb.1 * vm.page_size_big := Nat.mul_le_mul_right _ hb2
      · omega
    have hi' : i = 0 ∨ i = 1 := by omega
    have hj' : j = 0 ∨ j = 1 := by omega
    rcases hi' with rfl | rfl <;> rcases hj' with rfl | rfl
    · exact absurd rfl hij
    · exact Or.inl (key c c' hc hc')
    · exact Or.inr (key c' c hc' hc)
    · exact absurd rfl hij

/-- Every registry entry lies inside the byte range of a live run that it or
its reservation holds. -/
theorem VmInv.owner {vm : VmGk20a} (h : VmInv vm) (e : MappedBuffer)
    (he : e ∈ vm.mapped_buffers.toList) :
    ∃ i c, i ≤ 1 ∧ c ∈ va_claims vm i ∧
      c.1 * vm.gmmu_page_sizes i ≤ e.addr ∧
      e.addr + e.size ≤ (c.1 + c.2) * vm.gmmu_page_sizes i ∧
      ((e.va_allocated = true ∧ i = e.pgsz_idx ∧ c = buffer_run vm e) ∨
        (e.va_allocated = false ∧ ∃ r ∈ vm.reserved_va_list, i = r.pgsz_idx ∧
          c = reservation_run vm r ∧
          ({ addr := e.addr, size := e.size } : VaBuffer) ∈ r.va_buffers_list)) := by
  obtain ⟨hp, hg⟩ := h.buf_geom e he
  cases hva : e.va_allocated
  · obtain ⟨r, hr, hb⟩ := h.fixed_linked e he hva
    obtain ⟨hr1, hr2, hr3⟩ := h.res_geom r hr
    obtain ⟨hb1, hb2⟩ := (h.lists r hr).2 _ hb
    simp only at hb1 hb2
    refine ⟨r.pgsz_idx, reservation_run vm r, hr1, mem_va_claims_reservation vm r hr, by omega, ?_,
      Or.inr ⟨rfl, r, hr, rfl, rfl, hb⟩⟩
    rw [Nat.add_mul]
    omega
  · obtain ⟨hg1, hg2⟩ := hg hva
    refine ⟨e.pgsz_idx, buffer_run vm e, hp, mem_va_claims_buffer vm e he hva, by omega, ?_,
      Or.inl ⟨rfl, rfl, rfl⟩⟩
    rw [Nat.add_mul]
    omega

theorem VmInv.no_overlap {vm : VmGk20a} (h : VmInv vm) : NoOverlap vm := by
  intro e he e' he' hne hov
  have haddr : e.addr ≠ e'.addr := fun ha => hne (ordered_addr_inj _ h.ordered e e' he he' ha)
  obtain ⟨i, c, hi, hc, hlo, hhi, hown⟩ := h.owner e he
  obtain ⟨j, c', hj, hc', hlo', hhi', hown'⟩ := h.owner e' he'
  unfold ranges_overlap at hov
  by_cases hsame : i = j ∧ c = c'
  · obtain ⟨rfl, rfl⟩ := hsame
    have hnd := h.claims_nodup i
    unfold va_claims at hnd
    rw [List.nodup_append] at hnd
    obtain ⟨hnd1, hnd2, hdis⟩ := hnd
    rcases hown with ⟨hva, hi1, hc1⟩ | ⟨hva, r, hr, hi1, hc1, hb⟩ <;>
      rcases hown' with ⟨hva', hi2, hc2⟩ | ⟨hva', r', hr', hi2, hc2, hb'⟩
    · -- two VA-allocated entries with one run
      apply hne
      exact List.inj_on_of_nodup_map hnd1 (List.mem_filter.2 ⟨he, by simp [hva, hi1]⟩)
        (List.mem_filter.2 ⟨he', by simp [hva', hi2]⟩) (hc1.symm.trans hc2)
    · exact hdis (List.mem_map.2 ⟨e, List.mem_filter.2 ⟨he, by simp [hva, hi1]⟩, hc1.symm⟩)
        (List.mem_map.2 ⟨r', List.mem_filter.2 ⟨hr', by simp [hi2]⟩, hc2.symm⟩)
    · exact hdis (List.mem_map.2 ⟨e', List.mem_filter.2 ⟨he', by simp [hva', hi2]⟩, hc2.symm⟩)
        (List.mem_map.2 ⟨r, List.mem_filter.2 ⟨hr, by simp [hi1]⟩, hc1.symm⟩)
    · -- two fixed entries in one reservation
      have hrr : r = r' :=
        List.inj_on_of_nodup_map hnd2 (List.mem_filter.2 ⟨hr, by simp [hi1]⟩)
          (List.mem_filter.2 ⟨hr', by simp [hi2]⟩) (hc1.symm.trans hc2)
      subst hrr
      have hbne : ({ addr := e.addr, size := e.size } : VaBuffer) ≠
          { addr := e'.addr, size := e'.size } := by
        intro hb; injection hb with h1 _; exact haddr h1
      rcases pairwise_mem_apart _ _ (h.lists r hr).1 _ _ hb hb' hbne with h1 | h1
      · exact h1 hov
      · apply h1
        unfold ranges_overlap
        simp only [max_comm, min_comm] at hov ⊢
        exact hov
  · have hne' : i ≠ j ∨ c ≠ c' := by
      by_contra hcon
      push_neg at hcon
      exact hsame hcon
    have hap := h.claims_apart i j hi hj c c' (h.claims_live i c hc) (h.claims_live j c' hc') hne'
    clear hown hown' hne' hsame hc hc' he he' hne haddr h
    rcases hap with h1 | h1 <;> omega

/-! ### Steps that keep the invariant -/

theorem SameConfig.page {vm vm' : VmGk20a} (h : SameConfig vm vm') (i : Nat) :
    vm'.gmmu_page_sizes i = vm.gmmu_page_sizes i := by
  unfold VmGk20a.gmmu_page_sizes
  rw [h.1, h.2.1]

theorem SameConfig.refl (vm : VmGk20a) : SameConfig vm vm := ⟨rfl, rfl, rfl⟩

theorem SameConfig.trans {a b c : VmGk20a} (h1 : SameConfig a b) (h2 : SameConfig b c) :
    SameConfig a c :=
  ⟨h2.1.trans h1.1, h2.2.1.trans h1.2.1, h2.2.2.trans h1.2.2⟩

theorem SameConfig.set_vma_config (vm : VmGk20a) (i : Nat) (a : Gk20aAllocator) :
    SameConfig vm (vm.set_vma i a) := by
  unfold SameConfig VmGk20a.set_vma
  split <;> exact ⟨rfl, rfl, rfl⟩

theorem buffer_run_congr {vm vm' : VmGk20a} (h : SameConfig vm vm') (e e' : MappedBuffer)
    (hc : e'.core = e.core) : buffer_run vm' e' = buffer_run vm e := by
  simp only [MappedBuffer.core, Prod.mk.injEq] at hc
  obtain ⟨h1, h2, h3, _⟩ := hc
  unfold buffer_run
  rw [h1, h2, h3, h.page]

theorem reservation_run_congr {vm vm' : VmGk20a} (h : SameConfig vm vm')
    (r r' : VmReservedVaNode) (h1 : r'.vaddr_start = r.vaddr_start) (h2 : r'.size = r.size)
    (h3 : r'.pgsz_idx = r.pgsz_idx) : reservation_run vm' r' = reservation_run vm r := by
  unfold reservation_run
  rw [h1, h2, h3, h.page]

/-- The registry part and the reservation part of `va_claims`. -/
theorem va_claims_congr {vm vm' : VmGk20a} (h : SameConfig vm vm') (i : Nat)
    (g : MappedBuffer → MappedBuffer) (hg : ∀ e, (g e).core = e.core)
    (f : VmReservedVaNode → VmReservedVaNode)
    (hf : ∀ r, (f r).vaddr_start = r.vaddr_start ∧ (f r).size = r.size ∧
      (f r).pgsz_idx = r.pgsz_idx)
    (hl : vm'.mapped_buffers.toList = vm.mapped_buffers.toList.map g)
    (hr : vm'.reserved_va_list = vm.reserved_va_list.map f) :
    va_claims vm' i = va_claims vm i := by
  unfold va_claims
  rw [hl, hr, List.filter_map, List.filter_map, List.map_map, List.map_map]
  congr 1
  · have hP : ((fun e : MappedBuffer => e.va_allocated && decide (e.pgsz_idx = i)) ∘ g) =
        (fun e : MappedBuffer => e.va_allocated && decide (e.pgsz_idx = i)) := by
      funext e
      have := hg e
      simp only [MappedBuffer.core, Prod.mk.injEq] at this
      simp [this.2.2.1, this.2.2.2]
    rw [hP]
    apply List.map_congr_left
    intro e _
    exact buffer_run_congr h e (g e) (hg e)
  · have hP : ((fun r : VmReservedVaNode => decide (r.pgsz_idx = i)) ∘ f) =
        (fun r : VmReservedVaNode => decide (r.pgsz_idx = i)) := by
      funext r
      simp [(hf r).2.2]
    rw [hP]
    apply List.map_congr_left
    intro r _
    exact reservation_run_congr h r (f r) (hf r).1 (hf r).2.1 (hf r).2.2

theorem VmGk20a.vma_congr {vm vm' : VmGk20a} (hs : vm'.vma_small = vm.vma_small)
    (hb : vm'.vma_big = vm.vma_big) (i : Nat) : vm'.vma i = vm.vma i := by
  unfold VmGk20a.vma
  rw [hs, hb]

/-- Stores into registry entries that keep `addr`, `size`, page-size class and
`va_allocated` keep the shape. -/
theorem VmShape.modify_registry_shape {vm vm' : VmGk20a} (h : VmShape vm) (hc : SameConfig vm vm')
    (hr : vm'.reserved_va_list = vm.reserved_va_list)
    (g : MappedBuffer → MappedBuffer) (hg : ∀ e, (g e).core = e.core)
    (hl : vm'.mapped_buffers.toList = vm.mapped_buffers.toList.map g) : VmShape vm' := by
  have hcl : ∀ i, va_claims vm' i = va_claims vm i := fun i =>
    va_claims_congr hc i g hg id (fun _ => ⟨rfl, rfl, rfl⟩) hl (by rw [hr, List.map_id])
  have hcore : ∀ e, (g e).addr = e.addr ∧ (g e).size = e.size ∧ (g e).pgsz_idx = e.pgsz_idx ∧
      (g e).va_allocated = e.va_allocated := by
    intro e
    have := hg e
    simpa only [MappedBuffer.core, Prod.mk.injEq] using this
  refine ⟨?_, ?_, ?_, ?_, ?_, ?_, ?_, ?_, ?_⟩
  · intro i; rw [hc.page]; exact h.pages i
  · intro i; rw [hc.page, hc.2.2]; exact h.aperture i
  · unfold RbNode.Ordered RbNode.addrs
    rw [hl, List.map_map]
    have : (MappedBuffer.addr ∘ g) = MappedBuffer.addr := by
      funext e; exact (hcore e).1
    rw [this]
    exact h.ordered
  · intro i; rw [hcl]; exact h.claims_nodup i
  · intro e' he'
    rw [hl] at he'
    obtain ⟨e, he, rfl⟩ := List.mem_map.1 he'
    obtain ⟨h1, h2, h3, h4⟩ := hcore e
    rw [buffer_run_congr hc e (g e) (hg e), h1, h2, h3, h4, hc.page]
    exact h.buf_geom e he
  · intro r hr'
    rw [hr] at hr'
    rw [reservation_run_congr hc r r rfl rfl rfl, hc.page]
    exact h.res_geom r hr'
  · intro e' he' hva
    rw [hl] at he'
    obtain ⟨e, he, rfl⟩ := List.mem_map.1 he'
    obtain ⟨h1, h2, h3, h4⟩ := hcore e
    rw [h1, h2, hr]
    exact h.fixed_linked e he (by rw [← h4]; exact hva)
  · intro r hr' b hb
    rw [hr] at hr'
    obtain ⟨e, he, h1, h2, h3⟩ := h.lists_live r hr' b hb
    obtain ⟨g1, g2, g3, g4⟩ := hcore e
    exact ⟨g e, by rw [hl]; exact List.mem_map.2 ⟨e, he, rfl⟩, by rw [g4]; exact h1,
      by rw [g1]; exact h2, by rw [g2]; exact h3⟩
  · intro r hr'
    rw [hr] at hr'
    exact h.lists r hr'

theorem VmInv.modify_registry {vm vm' : VmGk20a} (h : VmInv vm) (hc : SameConfig vm vm')
    (hs : vm'.vma_small = vm.vma_small) (hb : vm'.vma_big = vm.vma_big)
    (hr : vm'.reserved_va_list = vm.reserved_va_list)
    (g : MappedBuffer → MappedBuffer) (hg : ∀ e, (g e).core = e.core)
    (hl : vm'.mapped_buffers.toList = vm.mapped_buffers.toList.map g) : VmInv vm' := by
  have hcl : ∀ i, va_claims vm' i = va_claims vm i := fun i =>
    va_claims_congr hc i g hg id (fun _ => ⟨rfl, rfl, rfl⟩) hl (by rw [hr, List.map_id])
  refine ⟨h.toVmShape.modify_registry_shape hc hr g hg hl, ?_, ?_, ?_⟩
  · intro i; rw [VmGk20a.vma_congr hs hb]; exact h.usable i
  · rw [hs, hb, hc.1, hc.2.1]; exact h.apart
  · intro i c hcm
    rw [VmGk20a.vma_congr hs hb]
    rw [hcl] at hcm
    exact h.claims_live i c hcm

theorem VmShape.va_claims_nil {vm : VmGk20a} (h : VmShape vm) (j : Nat) (hj : 2 ≤ j) :
    va_claims vm j = [] := by
  unfold va_claims
  rw [List.append_eq_nil]
  constructor
  · rw [List.map_eq_nil_iff, List.filter_eq_nil_iff]
    intro e he
    have := (h.buf_geom e he).1
    simp only [Bool.and_eq_true, decide_eq_true_eq, not_and]
    intro _; omega
  · rw [List.map_eq_nil_iff, List.filter_eq_nil_iff]
    intro r hr
    have := (h.res_geom r hr).1
    simp only [decide_eq_true_eq]
    omega

theorem VmGk20a.set_vma_vma (vm : VmGk20a) (i j : Nat) (a : Gk20aAllocator) :
    (vm.set_vma i a).vma j =
      if (i = 0 ↔ j = 0) then a else vm.vma j := by
  unfold VmGk20a.set_vma VmGk20a.vma gmmu_page_size_small
  by_cases hi : i = 0 <;> by_cases hj : j = 0 <;> simp [hi, hj]

theorem VmGk20a.set_vma_self (vm : VmGk20a) (i : Nat) : vm.set_vma i (vm.vma i) = vm := by
  unfold VmGk20a.set_vma VmGk20a.vma
  split <;> rfl

/-- Replacing the contents of one allocator keeps the invariant when the runs
that are held stay live. -/
theorem VmInv.set_vma {vm : VmGk20a} (h : VmInv vm) (i : Nat) (hi : i ≤ 1) (a : Gk20aAllocator)
    (hu : a.Usable) (hb : a.base = (vm.vma i).base) (hl : a.limit = (vm.vma i).limit)
    (hlive : ∀ c ∈ va_claims vm i, c ∈ a.runs) : VmInv (vm.set_vma i a) := by
  have hc := SameConfig.set_vma_config vm i a
  have hshape : VmShape (vm.set_vma i a) :=
    h.toVmShape.modify_registry_shape hc (by simp) id (fun _ => rfl) (by simp)
  have hcl : ∀ j, va_claims (vm.set_vma i a) j = va_claims vm j := fun j =>
    va_claims_congr hc j id (fun _ => rfl) id (fun _ => ⟨rfl, rfl, rfl⟩) (by simp) (by simp)
  refine ⟨hshape, ?_, ?_, ?_⟩
  · intro j
    rw [VmGk20a.set_vma_vma]
    split_ifs
    · exact hu
    · exact h.usable j
  · have h0 := VmGk20a.set_vma_vma vm i 0 a
    have h1 := VmGk20a.set_vma_vma vm i 1 a
    rw [VmGk20a.vma_zero] at h0
    rw [VmGk20a.vma_one] at h1
    rw [h0, h1, hc.1, hc.2.1]
    have := h.apart
    have hi' : i = 0 ∨ i = 1 := by omega
    rcases hi' with rfl | rfl
    · simp only [true_iff, if_true, if_false, one_ne_zero]
      rw [hl, VmGk20a.vma_zero, VmGk20a.vma_one]
      exact this
    · simp only [one_ne_zero, false_iff, not_true_eq_false, if_false, not_false_eq_true, if_true]
      rw [hl, hb, VmGk20a.vma_zero, VmGk20a.vma_one]
      exact this
  · intro j c hcm
    rw [hcl] at hcm
    rw [VmGk20a.set_vma_vma]
    split_ifs with hij
    · by_cases hj : j = i
      · subst hj; exact hlive c hcm
      · have hj2 : 2 ≤ j := by omega
        rw [h.toVmShape.va_claims_nil j hj2] at hcm
        simp at hcm
    · exact h.claims_live j c hcm

theorem gk20a_vm_free_va_eq (vm : VmGk20a) (o sz i : Nat) :
    (gk20a_vm_free_va vm o sz i).2 =
      vm.set_vma i ((vm.vma i).free (u32 (o >>> ilog2 (u32 (vm.gmmu_page_sizes i))))
        (u32 (u64 (sz + u32 (vm.gmmu_page_sizes i) + U64 - 1) >>>
          ilog2 (u32 (vm.gmmu_page_sizes i))))).2 := rfl

/-- Freeing a run that no mapping and no reservation holds keeps the
invariant. -/
theorem VmInv.free_va_unclaimed {vm : VmGk20a} (h : VmInv vm) (o sz i : Nat) (hi : i ≤ 1)
    (hun : ∀ c ∈ va_claims vm i, c.1 ≠ u32 (o >>> ilog2 (u32 (vm.gmmu_page_sizes i)))) :
    VmInv (gk20a_vm_free_va vm o sz i).2 ∧
    (∀ j, va_claims (gk20a_vm_free_va vm o sz i).2 j = va_claims vm j) ∧
    SameConfig vm (gk20a_vm_free_va vm o sz i).2 := by
  rw [gk20a_vm_free_va_eq]
  obtain ⟨hr, hb, hl⟩ := Gk20aAllocator.free_runs (vm.vma i)
    (u32 (o >>> ilog2 (u32 (vm.gmmu_page_sizes i))))
    (u32 (u64 (sz + u32 (vm.gmmu_page_sizes i) + U64 - 1) >>> ilog2 (u32 (vm.gmmu_page_sizes i))))
  refine ⟨h.set_vma i hi _ (Gk20aAllocator.free_usable _ _ _ (h.usable i)) hb hl ?_, ?_,
    SameConfig.set_vma_config _ _ _⟩
  · intro c hc
    rw [hr]
    apply (List.mem_erase_of_ne ?_).2 (h.claims_live i c hc)
    intro heq
    exact hun c hc (by rw [heq])
  · intro j
    exact va_claims_congr (SameConfig.set_vma_config _ _ _) j id (fun _ => rfl) id
      (fun _ => ⟨rfl, rfl, rfl⟩) (by simp) (by simp)

/-- No run that is held starts at unit 0. -/
theorem VmInv.claims_pos {vm : VmGk20a} (h : VmInv vm) (i : Nat) (c : Nat × Nat)
    (hc : c ∈ va_claims vm i) : 0 < c.1 ∧ 0 < c.2 ∧ c.1 + c.2 ≤ U32 :=
  Gk20aAllocator.Usable.pos _ (h.usable i) c (h.claims_live i c hc)

theorem VmInv.free_va_zero {vm : VmGk20a} (h : VmInv vm) (sz i : Nat) (hi : i ≤ 1) :
    VmInv (gk20a_vm_free_va vm 0 sz i).2 := by
  refine (h.free_va_unclaimed 0 sz i hi ?_).1
  intro c hc
  have := (h.claims_pos i c hc).1
  have h0 : u32 (0 >>> ilog2 (u32 (vm.gmmu_page_sizes i))) = 0 := by
    simp [u32]
  omega

/-- Dropping registry entries, reservations and linked buffers leaves a
sublist of the held runs. -/
theorem va_claims_sublist {vm vm' : VmGk20a} (hc : SameConfig vm vm') (i : Nat)
    (p : MappedBuffer → Bool) (hl : vm'.mapped_buffers.toList = vm.mapped_buffers.toList.filter p)
    (f : VaBuffer → Bool)
    (hr : vm'.reserved_va_list.Sublist (vm.reserved_va_list.map (fun n =>
      { n with va_buffers_list := n.va_buffers_list.filter f }))) :
    (va_claims vm' i).Sublist (va_claims vm i) := by
  unfold va_claims
  apply List.Sublist.append
  · rw [hl]
    have h1 : ((vm.mapped_buffers.toList.filter p).filter
        (fun e => e.va_allocated && decide (e.pgsz_idx = i))).map (buffer_run vm') =
        ((vm.mapped_buffers.toList.filter p).filter
        (fun e => e.va_allocated && decide (e.pgsz_idx = i))).map (buffer_run vm) :=
      List.map_congr_left (fun e _ => buffer_run_congr hc e e rfl)
    rw [h1]
    exact ((List.filter_sublist _).filter _).map _
  · have h1 := (hr.filter (fun r => decide (r.pgsz_idx = i))).map (reservation_run vm')
    have h2 : (((vm.reserved_va_list.map (fun n =>
        ({ n with va_buffers_list := n.va_buffers_list.filter f } : VmReservedVaNode))).filter
        (fun r => decide (r.pgsz_idx = i))).map (reservation_run vm')) =
        (vm.reserved_va_list.filter (fun r => decide (r.pgsz_idx = i))).map
          (reservation_run vm) := by
      rw [List.filter_map, List.map_map]
      apply List.map_congr_left
      intro r _
      exact reservation_run_congr hc r _ rfl rfl rfl
    rw [h2] at h1
    exact h1

/-- Dropping registry entries together with their links, and reservations
nothing is linked in, keeps the shape. -/
theorem VmShape.shrink_shape {vm vm' : VmGk20a} (h : VmShape vm) (hc : SameConfig vm vm')
    (p : MappedBuffer → Bool) (hl : vm'.mapped_buffers.toList = vm.mapped_buffers.toList.filter p)
    (f : VaBuffer → Bool)
    (hr : vm'.reserved_va_list.Sublist (vm.reserved_va_list.map (fun n =>
      { n with va_buffers_list := n.va_buffers_list.filter f })))
    (hfix : ∀ e ∈ vm'.mapped_buffers.toList, e.va_allocated = false →
      ∃ r ∈ vm'.reserved_va_list, ({ addr := e.addr, size := e.size } : VaBuffer) ∈ r.va_buffers_list)
    (hlive : ∀ e ∈ vm.mapped_buffers.toList, ∀ b : VaBuffer, f b = true → e.addr = b.addr →
      p e = true) : VmShape vm' := by
  have hres : ∀ r' ∈ vm'.reserved_va_list, ∃ r ∈ vm.reserved_va_list,
      r' = { r with va_buffers_list := r.va_buffers_list.filter f } := by
    intro r' hr'
    obtain ⟨r, hr1, hr2⟩ := List.mem_map.1 (hr.subset hr')
    exact ⟨r, hr1, hr2.symm⟩
  refine ⟨?_, ?_, ?_, ?_, ?_, ?_, hfix, ?_, ?_⟩
  · intro i; rw [hc.page]; exact h.pages i
  · intro i; rw [hc.page, hc.2.2]; exact h.aperture i
  · unfold RbNode.Ordered RbNode.addrs
    rw [hl]
    exact List.Pairwise.sublist ((List.filter_sublist _).map _) h.ordered
  · intro i
    exact List.Nodup.sublist (va_claims_sublist hc i p hl f hr) (h.claims_nodup i)
  · intro e he
    rw [hl] at he
    have he' := (List.mem_filter.1 he).1
    rw [buffer_run_congr hc e e rfl, hc.page]
    exact h.buf_geom e he'
  · intro r' hr'
    obtain ⟨r, hr1, rfl⟩ := hres r' hr'
    have h1 := reservation_run_congr hc r
      { r with va_buffers_list := r.va_buffers_list.filter f } rfl rfl rfl
    rw [h1, hc.page]
    exact h.res_geom r hr1
  · intro r' hr' b hb
    obtain ⟨r, hr1, rfl⟩ := hres r' hr'
    have hb' := List.mem_filter.1 hb
    obtain ⟨e, he, h1, h2, h3⟩ := h.lists_live r hr1 b hb'.1
    refine ⟨e, ?_, h1, h2, h3⟩
    rw [hl]
    exact List.mem_filter.2 ⟨he, hlive e he b hb'.2 h2⟩
  · intro r' hr'
    obtain ⟨r, hr1, rfl⟩ := hres r' hr'
    obtain ⟨h1, h2⟩ := h.lists r hr1
    exact ⟨List.Pairwise.sublist (List.filter_sublist _) h1,
      fun b hb => h2 b (List.mem_filter.1 hb).1⟩

theorem VmInv.shrink {vm vm' : VmGk20a} (h : VmInv vm) (hc : SameConfig vm vm')
    (hs : vm'.vma_small = vm.vma_small) (hb : vm'.vma_big = vm.vma_big)
    (p : MappedBuffer → Bool) (hl : vm'.mapped_buffers.toList = vm.mapped_buffers.toList.filter p)
    (f : VaBuffer → Bool)
    (hr : vm'.reserved_va_list.Sublist (vm.reserved_va_list.map (fun n =>
      { n with va_buffers_list := n.va_buffers_list.filter f })))
    (hfix : ∀ e ∈ vm'.mapped_buffers.toList, e.va_allocated = false →
      ∃ r ∈ vm'.reserved_va_list, ({ addr := e.addr, size := e.size } : VaBuffer) ∈ r.va_buffers_list)
    (hlive : ∀ e ∈ vm.mapped_buffers.toList, ∀ b : VaBuffer, f b = true → e.addr = b.addr →
      p e = true) : VmInv vm' := by
  refine ⟨h.toVmShape.shrink_shape hc p hl f hr hfix hlive, ?_, ?_, ?_⟩
  · intro i; rw [VmGk20a.vma_congr hs hb]; exact h.usable i
  · rw [hs, hb, hc.1, hc.2.1]; exact h.apart
  · intro i c hcm
    rw [VmGk20a.vma_congr hs hb]
    exact h.claims_live i c ((va_claims_sublist hc i p hl f hr).subset hcm)

theorem nodup_map_filter_not_mem {α β : Type} (f : α → β) (l : List α) (q : α → Bool) (a : α)
    (ha : a ∈ l) (hq : q a = false) (hn : (l.map f).Nodup) : f a ∉ (l.filter q).map f := by
  intro hm
  obtain ⟨a', ha', hf⟩ := List.mem_map.1 hm
  have h1 := List.mem_filter.1 ha'
  have := List.inj_on_of_nodup_map hn h1.1 ha hf
  rw [this] at h1
  rw [hq] at h1
  exact absurd h1.2 (by simp)

/-- After a VA-allocated mapping left the registry its run is held by nobody. -/
theorem va_claims_shrink_buffer {vm vm' : VmGk20a} (hc : SameConfig vm vm')
    (p : MappedBuffer → Bool) (hl : vm'.mapped_buffers.toList = vm.mapped_buffers.toList.filter p)
    (f : VaBuffer → Bool)
    (hr : vm'.reserved_va_list.Sublist (vm.reserved_va_list.map (fun n =>
      { n with va_buffers_list := n.va_buffers_list.filter f })))
    (e : MappedBuffer) (he : e ∈ vm.mapped_buffers.toList) (hva : e.va_allocated = true)
    (hp : p e = false) (hn : (va_claims vm e.pgsz_idx).Nodup) :
    buffer_run vm e ∉ va_claims vm' e.pgsz_idx := by
  have hsub := va_claims_sublist hc e.pgsz_idx p hl f hr
  unfold va_claims at hn hsub ⊢
  rw [List.nodup_append] at hn
  obtain ⟨hn1, hn2, hdis⟩ := hn
  have hmem : buffer_run vm e ∈ (vm.mapped_buffers.toList.filter
      (fun e' => e'.va_allocated && decide (e'.pgsz_idx = e.pgsz_idx))).map (buffer_run vm) :=
    List.mem_map.2 ⟨e, List.mem_filter.2 ⟨he, by simp [hva]⟩, rfl⟩
  rw [List.mem_append]
  rintro (h1 | h2)
  · rw [hl, List.filter_filter] at h1
    have h3 : ((vm.mapped_buffers.toList.filter (fun a =>
        (a.va_allocated && decide (a.pgsz_idx = e.pgsz_idx)) && p a)).map (buffer_run vm')) =
        ((vm.mapped_buffers.toList.filter
          (fun e' => e'.va_allocated && decide (e'.pgsz_idx = e.pgsz_idx))).filter p).map
          (buffer_run vm) := by
      rw [List.filter_filter]
      have : (fun a : MappedBuffer => p a && (a.va_allocated && decide (a.pgsz_idx = e.pgsz_idx))) =
          (fun a => (a.va_allocated && decide (a.pgsz_idx = e.pgsz_idx)) && p a) := by
        funext a; exact Bool.and_comm _ _
      rw [this]
      exact List.map_congr_left (fun a _ => buffer_run_congr hc a a rfl)
    rw [h3] at h1
    exact nodup_map_filter_not_mem (buffer_run vm) _ p e
      (List.mem_filter.2 ⟨he, by simp [hva]⟩) hp hn1 h1
  · have h3 : (vm'.reserved_va_list.filter (fun r => decide (r.pgsz_idx = e.pgsz_idx))).map
        (reservation_run vm') ⊆
        (vm.reserved_va_list.filter (fun r => decide (r.pgsz_idx = e.pgsz_idx))).map
          (reservation_run vm) := by
      have h1 := ((hr.filter (fun r => decide (r.pgsz_idx = e.pgsz_idx))).map
        (reservation_run vm')).subset
      have h2 : (((vm.reserved_va_list.map (fun n =>
          ({ n with va_buffers_list := n.va_buffers_list.filter f } : VmReservedVaNode))).filter
          (fun r => decide (r.pgsz_idx = e.pgsz_idx))).map (reservation_run vm')) =
          (vm.reserved_va_list.filter (fun r => decide (r.pgsz_idx = e.pgsz_idx))).map
            (reservation_run vm) := by
        rw [List.filter_map, List.map_map]
        apply List.map_congr_left
        intro r _
        exact reservation_run_congr hc r _ rfl rfl rfl
      rw [h2] at h1
      exact h1
    exact hdis hmem (h3 h2)

/-- Two live runs of one allocator with the same start are the same run. -/
theorem Gk20aAllocator.Usable.start_inj (a : Gk20aAllocator) (h : a.Usable) (c c' : Nat × Nat)
    (hc : c ∈ a.runs) (hc' : c' ∈ a.runs) (hs : c.1 = c'.1) : c = c' := by
  by_contra hne
  have h1 := Gk20aAllocator.runs_apart a h.1 c c' hc hc' hne
  have h2 := (Gk20aAllocator.Usable.pos a h c hc).2.1
  have h3 := (Gk20aAllocator.Usable.pos a h c' hc').2.1
  omega

theorem gk20a_vm_unmap_locked_vm (s : MmState) (env : Env) (mb : MappedBuffer) :
    ∃ n, (gk20a_vm_unmap_locked s env mb).vm =
      (if mb.va_allocated then
        (gk20a_vm_free_va { s.vm with
          mapped_buffers := rb_erase mb s.vm.mapped_buffers,
          reserved_va_list := s.vm.reserved_va_list.map (fun n =>
            { n with va_buffers_list := n.va_buffers_list.filter (fun b => b.addr ≠ mb.addr) }),
          num_user_mapped_buffers := n } mb.addr mb.size mb.pgsz_idx).2
      else { s.vm with
          mapped_buffers := rb_erase mb s.vm.mapped_buffers,
          reserved_va_list := s.vm.reserved_va_list.map (fun n =>
            { n with va_buffers_list := n.va_buffers_list.filter (fun b => b.addr ≠ mb.addr) }),
          num_user_mapped_buffers := n }) := by
  have key : ∀ (X : MmState) (b : Bool) (ev : HwEvent), (if b = true then X.emit ev else X).vm = X.vm := by
    intro X b ev; split <;> rfl
  unfold gk20a_vm_unmap_locked
  simp only []
  rw [key]
  by_cases hu : mb.user_mapped ≠ 0
  · refine ⟨s.vm.num_user_mapped_buffers - 1, ?_⟩
    rw [if_pos hu]
    rcases Bool.eq_false_or_eq_true mb.va_allocated with hva | hva
    · rw [if_pos hva]
      simp only [MmState.with_vm_vm, gk20a_mm_unpin_vm, gk20a_locked_gmmu_unmap_vm, hva, if_true,
        gk20a_vm_free_va_mapped_buffers, gk20a_vm_free_va_reserved, gk20a_vm_free_va_num]
      unfold gk20a_vm_free_va VmGk20a.set_vma VmGk20a.vma VmGk20a.gmmu_page_sizes
      simp only []
      split <;> rfl
    · rw [if_neg (by simp [hva])]
      simp only [MmState.with_vm_vm, gk20a_mm_unpin_vm, gk20a_locked_gmmu_unmap_vm, hva,
        Bool.false_eq_true, if_false]
  · refine ⟨s.vm.num_user_mapped_buffers, ?_⟩
    rw [if_neg hu]
    rcases Bool.eq_false_or_eq_true mb.va_allocated with hva | hva
    · rw [if_pos hva]
      simp only [MmState.with_vm_vm, gk20a_mm_unpin_vm, gk20a_locked_gmmu_unmap_vm, hva, if_true,
        gk20a_vm_free_va_mapped_buffers, gk20a_vm_free_va_reserved, gk20a_vm_free_va_num]
      unfold gk20a_vm_free_va VmGk20a.set_vma VmGk20a.vma VmGk20a.gmmu_page_sizes
      simp only []
      split <;> rfl
    · rw [if_neg (by simp [hva])]
      simp only [MmState.with_vm_vm, gk20a_mm_unpin_vm, gk20a_locked_gmmu_unmap_vm, hva,
        Bool.false_eq_true, if_false]

theorem MappedBuffer.core_eq {mb e : MappedBuffer} (h : mb.core = e.core) :
    mb.addr = e.addr ∧ mb.size = e.size ∧ mb.pgsz_idx = e.pgsz_idx ∧
      mb.va_allocated = e.va_allocated := by
  simpa only [MappedBuffer.core, Prod.mk.injEq] using h

/-- Taking an entry out of the registry and out of the buffer lists keeps the
invariant, and so does releasing its run afterwards. -/
theorem VmInv.erase_entry {vm vm' : VmGk20a} (h : VmInv vm) (mb e : MappedBuffer)
    (he : e ∈ vm.mapped_buffers.toList) (hcore : mb.core = e.core)
    (hc : SameConfig vm vm') (hs : vm'.vma_small = vm.vma_small) (hb : vm'.vma_big = vm.vma_big)
    (hreg : vm'.mapped_buffers = rb_erase mb vm.mapped_buffers)
    (hres : vm'.reserved_va_list = vm.reserved_va_list.map (fun n =>
      { n with va_buffers_list := n.va_buffers_list.filter (fun b => decide (b.addr ≠ mb.addr)) })) :
    VmInv vm' ∧
      (mb.va_allocated = true → VmInv (gk20a_vm_free_va vm' mb.addr mb.size mb.pgsz_idx).2) := by
  obtain ⟨c1, c2, c3, c4⟩ := MappedBuffer.core_eq hcore
  have hl : vm'.mapped_buffers.toList =
      vm.mapped_buffers.toList.filter (fun e => decide (e.addr ≠ mb.addr)) := by
    rw [hreg]; exact rb_erase_toList mb vm.mapped_buffers
  have hr : vm'.reserved_va_list.Sublist (vm.reserved_va_list.map (fun n =>
      { n with va_buffers_list := n.va_buffers_list.filter (fun b => decide (b.addr ≠ mb.addr)) })) := by
    rw [hres]
  have ha : VmInv vm' := by
    refine h.shrink hc hs hb (fun e => decide (e.addr ≠ mb.addr)) hl
      (fun b => decide (b.addr ≠ mb.addr)) hr ?_ ?_
    · intro e' he' hfx
      rw [hl] at he'
      obtain ⟨he1, he2⟩ := List.mem_filter.1 he'
      obtain ⟨r, hr1, hr2⟩ := h.fixed_linked e' he1 hfx
      rw [hres]
      refine ⟨_, List.mem_map.2 ⟨r, hr1, rfl⟩, ?_⟩
      exact List.mem_filter.2 ⟨hr2, he2⟩
    · intro e' _ b hb hab
      show decide (e'.addr ≠ mb.addr) = true
      rw [hab]; exact hb
  refine ⟨ha, fun hva => ?_⟩
  have hi : mb.pgsz_idx ≤ 1 := by rw [c3]; exact (h.buf_geom e he).1
  refine (ha.free_va_unclaimed mb.addr mb.size mb.pgsz_idx hi ?_).1
  intro c hcm hstart
  have hcm' := (va_claims_sublist hc mb.pgsz_idx _ hl _ hr).subset hcm
  have hrun : buffer_run vm e ∈ va_claims vm mb.pgsz_idx := by
    rw [c3]; exact mem_va_claims_buffer vm e he (by rw [← c4]; exact hva)
  have hceq : c = buffer_run vm e := by
    apply Gk20aAllocator.Usable.start_inj _ (h.usable mb.pgsz_idx) c _
      (h.claims_live _ c hcm') (h.claims_live _ _ hrun)
    rw [hstart]
    unfold buffer_run
    rw [c1, c3, hc.page]
  have hnot := va_claims_shrink_buffer hc _ hl _ hr e he (by rw [← c4]; exact hva)
    (by simp [c1]) (h.claims_nodup e.pgsz_idx)
  rw [hceq, c3] at hcm
  exact hnot hcm

/-- Tearing down a mapping of the registry keeps the invariant. -/
theorem VmInv.unmap_locked (s : MmState) (env : Env) (mb e : MappedBuffer) (h : VmInv s.vm)
    (he : e ∈ s.vm.mapped_buffers.toList) (hcore : mb.core = e.core) :
    VmInv (gk20a_vm_unmap_locked s env mb).vm := by
  obtain ⟨n, hn⟩ := gk20a_vm_unmap_locked_vm s env mb
  rw [hn]
  have key := @VmInv.erase_entry s.vm { s.vm with
      mapped_buffers := rb_erase mb s.vm.mapped_buffers,
      reserved_va_list := s.vm.reserved_va_list.map (fun n =>
        { n with va_buffers_list := n.va_buffers_list.filter (fun b => b.addr ≠ mb.addr) }),
      num_user_mapped_buffers := n } h mb e he hcore ⟨rfl, rfl, rfl⟩ rfl rfl rfl rfl
  rcases Bool.eq_false_or_eq_true mb.va_allocated with hva | hva
  · rw [if_pos hva]
    exact key.2 hva
  · rw [if_neg (by simp [hva])]
    exact key.1

/-- What tearing down a fixed-offset mapping changes. -/
theorem gk20a_vm_unmap_locked_fixed (s : MmState) (env : Env) (mb : MappedBuffer)
    (hva : mb.va_allocated = false) :
    SameConfig s.vm (gk20a_vm_unmap_locked s env mb).vm ∧
    (gk20a_vm_unmap_locked s env mb).vm.vma_small = s.vm.vma_small ∧
    (gk20a_vm_unmap_locked s env mb).vm.vma_big = s.vm.vma_big ∧
    (gk20a_vm_unmap_locked s env mb).vm.mapped_buffers = rb_erase mb s.vm.mapped_buffers ∧
    (gk20a_vm_unmap_locked s env mb).vm.reserved_va_list = s.vm.reserved_va_list.map (fun n =>
      { n with va_buffers_list := n.va_buffers_list.filter (fun b => b.addr ≠ mb.addr) }) := by
  obtain ⟨n, hn⟩ := gk20a_vm_unmap_locked_vm s env mb
  rw [hn, if_neg (by simp [hva])]
  exact ⟨⟨rfl, rfl, rfl⟩, rfl, rfl, rfl, rfl⟩

theorem gk20a_vm_unmap_locked_config (s : MmState) (env : Env) (mb : MappedBuffer) :
    SameConfig s.vm (gk20a_vm_unmap_locked s env mb).vm := by
  obtain ⟨n, hn⟩ := gk20a_vm_unmap_locked_vm s env mb
  rw [hn]
  split
  · unfold gk20a_vm_free_va
    exact SameConfig.set_vma_config _ _ _
  · exact ⟨rfl, rfl, rfl⟩

/-- Dropping one reference of a registry entry keeps the invariant. -/
theorem VmInv.kref_put (s : MmState) (env : Env) (mb e : MappedBuffer) (h : VmInv s.vm)
    (he : e ∈ s.vm.mapped_buffers.toList) (hcore : mb.core = e.core) :
    VmInv (kref_put s env mb).vm := by
  unfold Gk20aMm.kref_put
  simp only []
  split_ifs
  · exact VmInv.unmap_locked s env _ e h he hcore
  · obtain ⟨c1, c2, c3, c4⟩ := MappedBuffer.core_eq hcore
    refine h.modify_registry ⟨rfl, rfl, rfl⟩ rfl rfl rfl
      (fun x => if x = e then { mb with ref := mb.ref - 1 } else x) ?_ ?_
    · intro x
      by_cases hx : x = e
      · simp only [hx, if_true]
        exact hcore
      · simp only [hx, if_false]
    · show (RbNode.modify _ _ _).toList = _
      rw [RbNode.modify_toList]
      apply List.map_congr_left
      intro x hxm
      by_cases hx : x = e
      · simp [hx, c1]
      · have : x.addr ≠ mb.addr := by
          intro hxa
          exact hx (ordered_addr_inj _ h.ordered x e hxm he (by rw [hxa, c1]))
        simp [hx, this]

theorem VmInv.unmap (s : MmState) (env : Env) (offset : Nat) (h : VmInv s.vm) :
    VmInv (gk20a_vm_unmap s env offset).vm := by
  unfold gk20a_vm_unmap
  split
  · exact h
  · next e hf =>
    exact VmInv.kref_put s env e e h (find_mapped_buffer_locked_some _ _ _ hf).1 rfl

theorem unmap_user_pre_vm (g : Gk20a) (s : MmState) (env : Env) (e : MappedBuffer) :
    (if flag_set e.flags g.NVGPU_AS_MAP_BUFFER_FLAGS_FIXED_OFFSET then
        s.emit (.udelay 50 (sync_unmap_delays g env))
      else s).vm = s.vm := by
  split <;> rfl

theorem VmInv.unmap_user (g : Gk20a) (s : MmState) (env : Env) (offset : Nat) (h : VmInv s.vm) :
    VmInv (gk20a_vm_unmap_user g s env offset).vm := by
  unfold gk20a_vm_unmap_user
  split
  · exact h
  · next e hf =>
    have he := (find_mapped_buffer_locked_some _ _ _ hf).1
    simp only []
    have h1 := unmap_user_pre_vm g s env e
    generalize (if flag_set e.flags g.NVGPU_AS_MAP_BUFFER_FLAGS_FIXED_OFFSET = true
      then s.emit (.udelay 50 (sync_unmap_delays g env)) else s) = s1 at h1 ⊢
    generalize u32 (e.user_mapped + U32 - 1) = um
    have h2 : VmInv s1.vm := by rw [h1]; exact h
    have he2 : e ∈ s1.vm.mapped_buffers.toList := by rw [h1]; exact he
    clear h1 he hf h
    refine VmInv.kref_put _ env _ e ?_ ?_ ?_
    · split
      · exact h2.modify_registry ⟨rfl, rfl, rfl⟩ rfl rfl rfl id (fun _ => rfl) (by simp)
      · exact h2
    · split
      · exact he2
      · exact he2
    · simp only [MappedBuffer.core]

/-- What a VA allocation gives: the invariant stays, and on success the run
behind the returned offset is live, held by nobody yet, and large enough. -/
theorem VmInv.alloc_va {vm : VmGk20a} (h : VmInv vm) (size i : Nat) (hs : size ≤ vm.va_limit) :
    VmInv (gk20a_vm_alloc_va vm size i).2 ∧
    ((gk20a_vm_alloc_va vm size i).1 ≠ 0 → i ≤ 1 ∧
      (gk20a_vm_alloc_va vm size i).2 = vm.set_vma i (Gk20aAllocator.mk (vm.vma i).base
        (vm.vma i).limit (Gk20aAllocator.insert_run
          (u32 ((gk20a_vm_alloc_va vm size i).1 >>> ilog2 (u32 (vm.gmmu_page_sizes i))),
            u32 (u64 (size + u32 (vm.gmmu_page_sizes i) + U64 - 1) >>>
              ilog2 (u32 (vm.gmmu_page_sizes i)))) (vm.vma i).runs)) ∧
      (∀ c ∈ (vm.vma i).runs,
        c.1 ≠ u32 ((gk20a_vm_alloc_va vm size i).1 >>> ilog2 (u32 (vm.gmmu_page_sizes i)))) ∧
      (gk20a_vm_alloc_va vm size i).1 =
        u32 ((gk20a_vm_alloc_va vm size i).1 >>> ilog2 (u32 (vm.gmmu_page_sizes i))) *
          vm.gmmu_page_sizes i ∧
      size ≤ u32 (u64 (size + u32 (vm.gmmu_page_sizes i) + U64 - 1) >>>
              ilog2 (u32 (vm.gmmu_page_sizes i))) * vm.gmmu_page_sizes i) := by
  obtain ⟨k, hk, hpage⟩ := h.pages i
  have hfree := alloc_pages_eq_free_pages size k (by omega)
  have hcover := free_pages_cover size k vm.va_limit hk hs (by rw [← hpage]; exact h.aperture i)
  unfold gk20a_vm_alloc_va
  simp only []
  by_cases h1 : i ≥ gmmu_nr_page_sizes
  · rw [if_pos h1]; exact ⟨h, fun h0 => absurd rfl h0⟩
  rw [if_neg h1]
  have hi : i ≤ 1 := by unfold gmmu_nr_page_sizes at h1; omega
  by_cases h2 : i = gmmu_page_size_big ∧ vm.big_pages = false
  · rw [if_pos h2]; exact ⟨h, fun h0 => absurd rfl h0⟩
  rw [if_neg h2, hpage, hfree]
  generalize u32 (u64 (size + u32 (2 ^ k) + U64 - 1) >>> ilog2 (u32 (2 ^ k))) = n at hcover ⊢
  have hu32 := u32_two_pow k (by omega)
  have hilog := ilog2_two_pow k (by omega)
  rw [hu32, hilog]
  have hwf := (h.usable i).1
  obtain ⟨hok, hfail⟩ := Gk20aAllocator.alloc_spec (vm.vma i) 0 n hwf
  obtain ⟨_, hbase, hlimit⟩ := Gk20aAllocator.alloc_wf (vm.vma i) 0 n hwf
  have husable := Gk20aAllocator.alloc_usable (vm.vma i) 0 n (h.usable i)
  by_cases h3 : ((vm.vma i).alloc 0 n).1 ≠ 0
  · rw [if_pos h3]
    refine ⟨?_, fun h0 => absurd rfl h0⟩
    rw [hfail h3, VmGk20a.set_vma_self]
    exact h
  · rw [if_neg h3]
    push_neg at h3
    obtain ⟨hlen, hb, hl, hfr, _, heq⟩ := hok h3
    have hlim32 := (h.usable i).2.1
    have hsl : ((vm.vma i).alloc 0 n).2.1 < U32 := by omega
    obtain ⟨hc1, hc2⟩ := shl_shr_cancel _ k hsl (by omega)
    rw [hc2] at hc1
    simp only []
    rw [hc2, hc1]
    refine ⟨?_, fun _ => ⟨hi, ?_, ?_, rfl, hcover⟩⟩
    · refine h.set_vma i hi _ husable hbase hlimit ?_
      intro c hc
      rw [heq]
      exact (Gk20aAllocator.insert_run_perm _ _).mem_iff.2
        (List.mem_cons_of_mem _ (h.claims_live i c hc))
    · rw [heq]
    · intro c hc hceq
      have := hfr c hc
      have hp := (Gk20aAllocator.Usable.pos _ (h.usable i) c hc).2.1
      omega

/-- The address space after `gk20a_locked_gmmu_map`, on every path. -/
theorem gk20a_locked_gmmu_map_vm (g : Gk20a) (s : MmState) (env : Env) (mo : Nat) (hs : Bool)
    (bo sz i kv co fl rw : Nat) (cl sp : Bool) :
    (mo ≠ 0 → (gk20a_locked_gmmu_map g s env mo hs bo sz i kv co fl rw cl sp).2.vm = s.vm ∧
      ((gk20a_locked_gmmu_map g s env mo hs bo sz i kv co fl rw cl sp).1 = 0 ∨
        (gk20a_locked_gmmu_map g s env mo hs bo sz i kv co fl rw cl sp).1 = mo)) ∧
    (mo = 0 →
      ((gk20a_locked_gmmu_map g s env mo hs bo sz i kv co fl rw cl sp).2.vm =
          (gk20a_vm_alloc_va s.vm sz i).2 ∧
        (gk20a_locked_gmmu_map g s env mo hs bo sz i kv co fl rw cl sp).1 =
          (gk20a_vm_alloc_va s.vm sz i).1) ∨
      ((gk20a_locked_gmmu_map g s env mo hs bo sz i kv co fl rw cl sp).1 = 0 ∧
        (gk20a_vm_alloc_va s.vm sz i).1 ≠ 0 ∧
        (gk20a_locked_gmmu_map g s env mo hs bo sz i kv co fl rw cl sp).2.vm =
          (gk20a_vm_free_va (gk20a_vm_alloc_va s.vm sz i).2 (gk20a_vm_alloc_va s.vm sz i).1
            sz i).2)) := by
  unfold gk20a_locked_gmmu_map
  simp only []
  generalize hs0 : (if cl = true ∧ co ≠ 0 then
    s.emit (.cbc_clear co (u32 (co + u32 (DIV_ROUND_UP_ULL sz g.compression_page_size) + U32 - 1)))
    else s) = s0
  have h0 : s0.vm = s.vm := by rw [← hs0]; split <;> rfl
  rw [h0]
  constructor
  · intro hmo
    have hd : decide (mo = 0) = false := by simp [hmo]
    simp only [if_neg hmo, hd, Bool.false_eq_true, if_false]
    split_ifs <;> simp
  · intro hmo
    subst hmo
    simp only [if_true, decide_True]
    by_cases ha : (gk20a_vm_alloc_va s.vm sz i).1 = 0
    · rw [if_pos ha]
      left; exact ⟨rfl, ha.symm⟩
    · rw [if_neg ha]
      split_ifs with h1
      · right
        simp only [update_gmmu_ptes_locked_vm]
        exact ⟨trivial, ha, trivial⟩
      · left
        simp

/-! ## Reverse translation -/

theorem find_mapped_buffer_range_locked_some (t : RbNode) (a : Nat) (m : MappedBuffer)
    (h : find_mapped_buffer_range_locked t a = some m) :
    m ∈ t.toList ∧ m.addr ≤ a ∧ a < u64 (m.addr + m.size) := by
  induction t with
  | nil => simp [find_mapped_buffer_range_locked] at h
  | node l c r ihl ihr =>
    simp only [find_mapped_buffer_range_locked] at h
    simp only [RbNode.toList, List.mem_append, List.mem_cons]
    split_ifs at h with h1 h2
    · cases h; exact ⟨Or.inr (Or.inl rfl), h1.1, h1.2⟩
    · obtain ⟨hm, hr⟩ := ihl h; exact ⟨Or.inl hm, hr⟩
    · obtain ⟨hm, hr⟩ := ihr h; exact ⟨Or.inr (Or.inr hm), hr⟩

theorem find_mapped_buffer_range_locked_complete (t : RbNode) (a : Nat) (ho : t.Ordered)
    (hr : t.RangesApart) (m : MappedBuffer) (hm : m ∈ t.toList) (hc : m.covers a) :
    find_mapped_buffer_range_locked t a = some m := by
  induction t with
  | nil => simp [RbNode.toList] at hm
  | node l c r ihl ihr =>
    obtain ⟨hol, hor, hlc, hcr⟩ := (RbNode.ordered_node l r c).1 ho
    have hsub : ∀ e, e ∈ l.toList ∨ e = c ∨ e ∈ r.toList → e ∈ (RbNode.node l c r).toList := by
      intro e he
      simpa only [RbNode.toList, List.mem_append, List.mem_cons] using he
    have hrl : l.RangesApart :=
      ⟨fun e he => hr.1 e (hsub e (Or.inl he)),
        fun e he e' he' => hr.2 e (hsub e (Or.inl he)) e' (hsub e' (Or.inl he'))⟩
    have hrr : r.RangesApart :=
      ⟨fun e he => hr.1 e (hsub e (Or.inr (Or.inr he))),
        fun e he e' he' => hr.2 e (hsub e (Or.inr (Or.inr he))) e' (hsub e' (Or.inr (Or.inr he')))⟩
    have hcpos := hr.1 c (hsub c (Or.inr (Or.inl rfl)))
    have hcu : u64 (c.addr + c.size) = (c.addr + c.size) % U64 := rfl
    simp only [RbNode.toList, List.mem_append, List.mem_cons] at hm
    simp only [find_mapped_buffer_range_locked]
    unfold MappedBuffer.covers at hc
    have hmpos := hr.1 m (hsub m hm)
    rcases hm with hm | hm | hm
    · -- `m` is in the left subtree
      have hlt := hlc m hm
      have hne : m ≠ c := by intro h; rw [h] at hlt; exact absurd hlt (lt_irrefl _)
      have hap := hr.2 m (hsub m (Or.inl hm)) c (hsub c (Or.inr (Or.inl rfl))) hne
      unfold ranges_overlap at hap
      have hca : c.addr > a := by
        by_contra hcon
        apply hap
        simp only [lt_min_iff, max_lt_iff]
        omega
      rw [if_neg (by omega), if_pos hca]
      exact ihl hol hrl hm
    · subst hm
      have hu : u64 (m.addr + m.size) > a := by
        unfold u64
        rw [Nat.mod_eq_of_lt hmpos.2]; exact hc.2
      rw [if_pos ⟨hc.1, hu⟩]
    · -- `m` is in the right subtree
      have hlt := hcr m hm
      have hne : c ≠ m := by intro h; rw [h] at hlt; exact absurd hlt (lt_irrefl _)
      have hap := hr.2 c (hsub c (Or.inr (Or.inl rfl))) m (hsub m (Or.inr (Or.inr hm))) hne
      unfold ranges_overlap at hap
      have hu : u64 (c.addr + c.size) = c.addr + c.size := Nat.mod_eq_of_lt hcpos.2
      have hca : ¬ (c.addr ≤ a ∧ u64 (c.addr + c.size) > a) := by
        rw [hu]
        intro hcon
        apply hap
        simp only [lt_min_iff, max_lt_iff]
        omega
      rw [if_neg hca, if_neg (by omega)]
      exact ihr hor hrr hm

/-- C11: on a registry ordered by `addr` whose entries have pairwise disjoint
non-empty ranges that do not wrap past `2^64`, and for every address `a`:
`find_mapped_buffer_range_locked` returns an entry `m` with
`m.addr ≤ a < m.addr + m.size` if one exists and nothing otherwise;
`gk20a_vm_find_buffer` then returns 0 with that entry's buffer and the offset
`a - m.addr`, which is below `m.size`, and returns `-EINVAL` when no mapping
contains `a`. -/
theorem gk20a_vm_find_buffer_spec (vm : VmGk20a) (a : Nat) (ho : vm.mapped_buffers.Ordered)
    (hr : vm.mapped_buffers.RangesApart) :
    (∀ m ∈ vm.mapped_buffers.toList, m.covers a →
      find_mapped_buffer_range_locked vm.mapped_buffers a = some m ∧
        gk20a_vm_find_buffer vm a = (0, some (m.dmabuf, a - m.addr)) ∧ a - m.addr < m.size) ∧
    ((∀ m ∈ vm.mapped_buffers.toList, ¬ m.covers a) →
      find_mapped_buffer_range_locked vm.mapped_buffers a = none ∧
        gk20a_vm_find_buffer vm a = (-EINVAL, none)) ∧
    (∀ m, find_mapped_buffer_range_locked vm.mapped_buffers a = some m →
      m ∈ vm.mapped_buffers.toList ∧ m.covers a) := by
  have hsome : ∀ m, find_mapped_buffer_range_locked vm.mapped_buffers a = some m →
      m ∈ vm.mapped_buffers.toList ∧ m.covers a := by
    intro m hfind
    obtain ⟨hm, h1, h2⟩ := find_mapped_buffer_range_locked_some _ a m hfind
    refine ⟨hm, h1, ?_⟩
    have h3 := (hr.1 m hm).2
    unfold u64 at h2
    rw [Nat.mod_eq_of_lt h3] at h2
    exact h2
  refine ⟨?_, ?_, hsome⟩
  · intro m hm hc
    have hf := find_mapped_buffer_range_locked_complete _ a ho hr m hm hc
    refine ⟨hf, ?_, ?_⟩
    · unfold gk20a_vm_find_buffer
      rw [hf]
      have h1 := hr.1 m hm
      unfold MappedBuffer.covers at hc
      have h2 : u64 (a + U64 - m.addr) = a - m.addr := by
        unfold u64
        have : a + U64 - m.addr = (a - m.addr) + U64 := by omega
        rw [this, Nat.add_mod_right, Nat.mod_eq_of_lt (by omega)]
      simp only [h2]
    · unfold MappedBuffer.covers at hc
      omega
  · intro hno
    have hf : find_mapped_buffer_range_locked vm.mapped_buffers a = none := by
      cases hfind : find_mapped_buffer_range_locked vm.mapped_buffers a with
      | none => rfl
      | some m => exact absurd (hsome m hfind).2 (hno m (hsome m hfind).1)
    refine ⟨hf, ?_⟩
    unfold gk20a_vm_find_buffer
    rw [hf]

/-- C11 at the sample registry: `0x3800` lies in the mapping of buffer 2 at
`0x3000`, offset `0x800`; `0x5000` lies in no mapping. -/
theorem gk20a_vm_find_buffer_spec_witness :
    sample_vm_tree.mapped_buffers.Ordered ∧ sample_vm_tree.mapped_buffers.RangesApart ∧
    gk20a_vm_find_buffer sample_vm_tree 0x3800 = (0, some (2, 0x800)) ∧
    gk20a_vm_find_buffer sample_vm_tree 0x5000 = (-EINVAL, none) :=
  ⟨by decide, by decide,
    ((gk20a_vm_find_buffer_spec sample_vm_tree 0x3800 (by decide) (by decide)).1
      (sample_buffer 2 0x3000 0x2000) (by decide) (by decide)).2.1,
    ((gk20a_vm_find_buffer_spec sample_vm_tree 0x5000 (by decide) (by decide)).2.1
      (by decide)).2⟩

/-! ## Page-size selection -/

/-- The mask test of `gmmu_select_page_size` is divisibility by the page size. -/
theorem page_mask_test (align k : Nat) (hk : k < 32) :
    (u32 (2 ^ k + U32 - 1) &&& align = 0) ↔ 2 ^ k ∣ align := by
  rw [Nat.land_comm, and_mask_eq_mod align k hk, Nat.dvd_iff_mod_eq_zero]

theorem gmmu_select_page_size_spec (vm : VmGk20a) (bfr : BufferAttrs) (ks kb : Nat)
    (hs : vm.gmmu_page_sizes 0 = 2 ^ ks) (hb : vm.gmmu_page_sizes 1 = 2 ^ kb) (hks : ks < 32)
    (hkb : kb < 32) :
    gmmu_select_page_size vm bfr =
      if 2 ^ kb ∣ bfr.align then 1 else if 2 ^ ks ∣ bfr.align then 0 else bfr.pgsz_idx := by
  unfold gmmu_select_page_size
  rw [hs, hb]
  simp only [page_mask_test _ _ hks, page_mask_test _ _ hkb]

/-- For an address whose lowest set bit is below bit 31, `1 << __ffs(buf_addr)`
is that bit. -/
theorem bfr_align_eq (buf_addr : Nat) (ht : __ffs buf_addr < 31) :
    bfr_align buf_addr = 2 ^ __ffs buf_addr := by
  unfold bfr_align
  have h1 : 2 ^ __ffs buf_addr < 2 ^ 31 := Nat.pow_lt_pow_right (by norm_num) ht
  have h2 : 2 ^ __ffs buf_addr % U32 = 2 ^ __ffs buf_addr :=
    Nat.mod_eq_of_lt (by unfold U32; omega)
  simp only [h2, h1, if_true]

theorem gk20a_vm_map_pinned_no_page_size (g : Gk20a) (s : MmState) (env : Env) (dmabuf : DmaBuf)
    (oa flags kind : Nat) (um : Bool) (rw bo ms : Nat)
    (h : (gk20a_vm_map_attrs g s.vm dmabuf oa flags kind).pgsz_idx = -1) :
    (gk20a_vm_map_pinned g s env dmabuf oa flags kind um rw bo ms).1 = 0 := by
  unfold gk20a_vm_map_pinned
  simp only []
  rw [if_pos h]
  rfl

/-- C12, as the code has it: for a non-fixed map in an address space with big
pages enabled and power-of-two page sizes `2^ks ≤ 2^kb`, and for every buffer
address, with `align = 1 << __ffs(buf_addr)` (the lowest set bit of the
address when that is below bit 31): if a configured page size divides `align`,
the class `gk20a_vm_map` chooses is the largest configured page size that
divides it; if none does, no class is chosen (`pgsz_idx` stays `-1`) and the
map of a buffer that is not yet mapped fails, returning 0. -/
theorem gk20a_vm_map_page_size_choice (g : Gk20a) (vm : VmGk20a) (dmabuf : DmaBuf)
    (oa flags kind ks kb : Nat)
    (hfix : flag_set flags g.NVGPU_AS_MAP_BUFFER_FLAGS_FIXED_OFFSET = false)
    (hbig : vm.big_pages = true)
    (hs : vm.gmmu_page_sizes 0 = 2 ^ ks) (hb : vm.gmmu_page_sizes 1 = 2 ^ kb)
    (hle : ks ≤ kb) (hkb : kb < 32) :
    (gk20a_vm_map_attrs g vm dmabuf oa flags kind).align =
      bfr_align (if dmabuf.sg_dma_address = 0 then dmabuf.sg_phys else dmabuf.sg_dma_address) ∧
    (__ffs (if dmabuf.sg_dma_address = 0 then dmabuf.sg_phys else dmabuf.sg_dma_address) < 31 →
      (gk20a_vm_map_attrs g vm dmabuf oa flags kind).align =
        2 ^ __ffs (if dmabuf.sg_dma_address = 0 then dmabuf.sg_phys else dmabuf.sg_dma_address)) ∧
    ((∃ i ≤ 1, vm.gmmu_page_sizes i ∣ (gk20a_vm_map_attrs g vm dmabuf oa flags kind).align) →
      ∃ p : Nat, p ≤ 1 ∧ (gk20a_vm_map_attrs g vm dmabuf oa flags kind).pgsz_idx = (p : Int) ∧
        vm.gmmu_page_sizes p ∣ (gk20a_vm_map_attrs g vm dmabuf oa flags kind).align ∧
        ∀ i ≤ 1, vm.gmmu_page_sizes i ∣ (gk20a_vm_map_attrs g vm dmabuf oa flags kind).align →
          vm.gmmu_page_sizes i ≤ vm.gmmu_page_sizes p) ∧
    ((∀ i ≤ 1, ¬ vm.gmmu_page_sizes i ∣ (gk20a_vm_map_attrs g vm dmabuf oa flags kind).align) →
      (gk20a_vm_map_attrs g vm dmabuf oa flags kind).pgsz_idx = -1 ∧
      ∀ (s : MmState) (env : Env) (um : Bool) (rw bo ms : Nat), s.vm = vm →
        find_mapped_buffer_reverse_locked s.vm.mapped_buffers dmabuf.id kind = none →
        (gk20a_vm_map g s env dmabuf oa flags kind um rw bo ms).1 = 0) := by
  have hsel := gmmu_select_page_size_spec vm
    { size := dmabuf.size,
      align := bfr_align (if dmabuf.sg_dma_address = 0 then dmabuf.sg_phys
        else dmabuf.sg_dma_address),
      ctag_offset := 0, ctag_lines := 0, pgsz_idx := -1, kind_v := kind % 256, uc_kind_v := 0 }
    ks kb hs hb (by omega) hkb
  have hidx : (gk20a_vm_map_attrs g vm dmabuf oa flags kind).pgsz_idx =
      if 2 ^ kb ∣ bfr_align (if dmabuf.sg_dma_address = 0 then dmabuf.sg_phys
          else dmabuf.sg_dma_address) then 1
      else if 2 ^ ks ∣ bfr_align (if dmabuf.sg_dma_address = 0 then dmabuf.sg_phys
          else dmabuf.sg_dma_address) then 0 else -1 := by
    unfold gk20a_vm_map_attrs gk20a_vm_map_pgsz
    simp only [hfix, hbig, Bool.false_eq_true, if_false, if_true]
    exact hsel
  have halign : (gk20a_vm_map_attrs g vm dmabuf oa flags kind).align =
      bfr_align (if dmabuf.sg_dma_address = 0 then dmabuf.sg_phys else dmabuf.sg_dma_address) := rfl
  have hpow : (2 : Nat) ^ ks ≤ 2 ^ kb := Nat.pow_le_pow_right (by norm_num) hle
  have hpages : ∀ i ≤ 1, vm.gmmu_page_sizes i = 2 ^ ks ∨ vm.gmmu_page_sizes i = 2 ^ kb := by
    intro i hi
    have : i = 0 ∨ i = 1 := by omega
    rcases this with rfl | rfl
    · exact Or.inl hs
    · exact Or.inr hb
  refine ⟨halign, fun ht => by rw [halign]; exact bfr_align_eq _ ht, ?_, ?_⟩
  · rintro ⟨i, hi, hdiv⟩
    rw [halign] at hdiv ⊢
    by_cases hB : 2 ^ kb ∣ bfr_align (if dmabuf.sg_dma_address = 0 then dmabuf.sg_phys
        else dmabuf.sg_dma_address)
    · refine ⟨1, le_refl _, ?_, by rw [hb]; exact hB, ?_⟩
      · rw [hidx, if_pos hB]; rfl
      · intro j hj _
        rw [hb]
        rcases hpages j hj with h | h <;> rw [h]
        exact hpow
    · have hS : 2 ^ ks ∣ bfr_align (if dmabuf.sg_dma_address = 0 then dmabuf.sg_phys
          else dmabuf.sg_dma_address) := by
        rcases hpages i hi with h | h
        · rw [h] at hdiv; exact hdiv
        · rw [h] at hdiv; exact absurd hdiv hB
      refine ⟨0, by omega, ?_, by rw [hs]; exact hS, ?_⟩
      · rw [hidx, if_neg hB, if_pos hS]; rfl
      · intro j hj hjd
        rw [hs]
        rcases hpages j hj with h | h
        · rw [h]
        · rw [h] at hjd; exact absurd hjd hB
  · intro hno
    have hB : ¬ 2 ^ kb ∣ bfr_align (if dmabuf.sg_dma_address = 0 then dmabuf.sg_phys
        else dmabuf.sg_dma_address) := by
      have := hno 1 (le_refl _); rw [hb, halign] at this; exact this
    have hS : ¬ 2 ^ ks ∣ bfr_align (if dmabuf.sg_dma_address = 0 then dmabuf.sg_phys
        else dmabuf.sg_dma_address) := by
      have := hno 0 (by omega); rw [hs, halign] at this; exact this
    have hm1 : (gk20a_vm_map_attrs g vm dmabuf oa flags kind).pgsz_idx = -1 := by
      rw [hidx, if_neg hB, if_neg hS]
    refine ⟨hm1, ?_⟩
    intro s env um rw bo ms hvm hnew
    subst hvm
    unfold gk20a_vm_map
    simp only []
    rw [gk20a_vm_map_duplicate_locked_miss g s dmabuf.id oa flags kind um hnew]
    simp only [ne_eq, not_true_eq_false, if_false]
    split
    · rfl
    · apply gk20a_vm_map_pinned_no_page_size
      rw [gk20a_mm_pin_vm]
      exact hm1

/-- C12 at the sample address space (4 KiB and 64 KiB pages): the address
`0x301000` of `sample_buf_c` has alignment `0x1000`, and the small class is
chosen; the address `0x100800` of `sample_buf_d` has alignment `0x800`, no class
is chosen and the map returns 0. -/
theorem gk20a_vm_map_page_size_choice_witness :
    flag_set 0 sample_g.NVGPU_AS_MAP_BUFFER_FLAGS_FIXED_OFFSET = false ∧
    sample_state.vm.big_pages = true ∧
    sample_state.vm.gmmu_page_sizes 0 = 2 ^ 12 ∧ sample_state.vm.gmmu_page_sizes 1 = 2 ^ 16 ∧
    (gk20a_vm_map_attrs sample_g sample_state.vm sample_buf_c 0 0 0).align = 2 ^ 12 ∧
    (∃ p : Nat, p ≤ 1 ∧ (gk20a_vm_map_attrs sample_g sample_state.vm sample_buf_c 0 0 0).pgsz_idx = (p : Int) ∧
      sample_state.vm.gmmu_page_sizes p ∣
        (gk20a_vm_map_attrs sample_g sample_state.vm sample_buf_c 0 0 0).align ∧
      ∀ i ≤ 1, sample_state.vm.gmmu_page_sizes i ∣
          (gk20a_vm_map_attrs sample_g sample_state.vm sample_buf_c 0 0 0).align →
        sample_state.vm.gmmu_page_sizes i ≤ sample_state.vm.gmmu_page_sizes p) ∧
    (gk20a_vm_map sample_g sample_state sample_env sample_buf_d 0 0 0 false 0 0 0).1 = 0 :=
  ⟨by decide, by decide, by decide, by decide,
    (gk20a_vm_map_page_size_choice sample_g sample_state.vm sample_buf_c 0 0 0 12 16 (by decide)
      (by decide) (by decide) (by decide) (by decide) (by decide)).2.1 (by decide),
    (gk20a_vm_map_page_size_choice sample_g sample_state.vm sample_buf_c 0 0 0 12 16 (by decide)
      (by decide) (by decide) (by decide) (by decide) (by decide)).2.2.1 ⟨0, by decide, by decide⟩,
    ((gk20a_vm_map_page_size_choice sample_g sample_state.vm sample_buf_d 0 0 0 12 16 (by decide)
      (by decide) (by decide) (by decide) (by decide) (by decide)).2.2.2 (by decide)).2
      sample_state sample_env false 0 0 0 rfl (by decide)⟩

/-- C12 as stated fails: with big pages enabled, the 2 KiB-aligned address of
`sample_buf_d` is divisible by no configured page size; the small class is not
chosen (`pgsz_idx` is `-1`, not 0) and `gk20a_vm_map` fails, while the same
buffer at a 4 KiB-aligned address is mapped. -/
theorem gk20a_vm_map_unaligned_buffer_fails :
    sample_state.vm.big_pages = true ∧
    bfr_align sample_buf_d.sg_dma_address = 0x800 ∧
    (∀ i ≤ 1, ¬ sample_state.vm.gmmu_page_sizes i ∣ 0x800) ∧
    (gk20a_vm_map_attrs sample_g sample_state.vm sample_buf_d 0 0 0).pgsz_idx = -1 ∧
    (gk20a_vm_map sample_g sample_state sample_env sample_buf_d 0 0 0 false 0 0 0).1 = 0 ∧
    (gk20a_vm_map sample_g sample_state sample_env sample_buf_e 0 0 0 false 0 0 0).1 = 0x4000000 := by
  decide

/-! ## Failure paths of `gk20a_vm_map` -/

/-- C13 at a failing input: a non-fixed map of the first 64 KiB of the 128 KiB
buffer `sample_buf_a` (`mapping_size = 0x10000`) in the fresh sample address
space, when the allocation of the tracking node fails. The call returns 0, the
registry, `num_user_mapped_buffers` and the pin count are as before, but the
big-page allocator, empty before the call, still holds the one-page run at unit
`0x40000` the call allocated: `clean_up` asks `gk20a_vm_free_va` to release
`bfr.size = 0x20000` bytes (two pages) there, not the `mapping_size` bytes that
were allocated. With `mapping_size = 0` (the whole buffer) the same failure
leaves the allocator as it was. -/
theorem gk20a_vm_map_clean_up_keeps_va :
    (gk20a_vm_map sample_g sample_state sample_env_no_kzalloc sample_buf_a 0 0 0 false 0 0
      0x10000).1 = 0 ∧
    (gk20a_vm_map sample_g sample_state sample_env_no_kzalloc sample_buf_a 0 0 0 false 0 0
      0x10000).2.vm.mapped_buffers = sample_state.vm.mapped_buffers ∧
    (gk20a_vm_map sample_g sample_state sample_env_no_kzalloc sample_buf_a 0 0 0 false 0 0
      0x10000).2.vm.num_user_mapped_buffers = sample_state.vm.num_user_mapped_buffers ∧
    ((gk20a_vm_map sample_g sample_state sample_env_no_kzalloc sample_buf_a 0 0 0 false 0 0
      0x10000).2.priv sample_buf_a.id).map (fun p => p.pin_count) =
      (sample_state.priv sample_buf_a.id).map (fun p => p.pin_count) ∧
    sample_state.vm.vma_big.runs = [] ∧
    (gk20a_vm_map sample_g sample_state sample_env_no_kzalloc sample_buf_a 0 0 0 false 0 0
      0x10000).2.vm.vma_big.runs = [(0x40000, 1)] ∧
    buffer_run sample_state.vm
      { sample_buffer 1 0x400000000 sample_buf_a.size with pgsz_idx := 1 } = (0x40000, 2) ∧
    (gk20a_vm_map sample_g sample_state sample_env_no_kzalloc sample_buf_a 0 0 0 false 0 0
      0).2.vm.vma_big = sample_state.vm.vma_big := by
  decide

/-! ## Hardware sync: bounded polling -/

/-- The loop ends at the first read that is not busy, if the budget lasts
until then. -/
theorem poll_status_first_idle (silicon : Bool) (busy : Nat → Bool) (reads : Nat → Nat)
    (k : Nat) : ∀ (fuel : Nat) (retry : Int) (i : Nat), (∀ j < k, busy (reads (i + j)) = true) →
    busy (reads (i + k)) = false → (silicon = true → (k : Int) ≤ retry) → k + 1 ≤ fuel →
    poll_status silicon busy reads fuel retry i = some (retry - k, i + k + 1) := by
  induction k with
  | zero =>
    intro fuel retry i _ hidle _ hfuel
    obtain ⟨f, rfl⟩ : ∃ f, fuel = f + 1 := ⟨fuel - 1, by omega⟩
    simp only [poll_status]
    rw [Nat.add_zero] at hidle
    simp [hidle]
  | succ k ih =>
    intro fuel retry i hbusy hidle hb hfuel
    obtain ⟨f, rfl⟩ : ∃ f, fuel = f + 1 := ⟨fuel - 1, by omega⟩
    have h0 : busy (reads i) = true := by simpa using hbusy 0 (by omega)
    simp only [poll_status, h0, if_true]
    have hcont : (retry - 1 ≥ 0 ∨ silicon = false) := by
      cases silicon
      · exact Or.inr rfl
      · left; have := hb rfl; omega
    rw [if_pos hcont]
    rw [ih f (retry - 1) (i + 1) (fun j hj => by
        have := hbusy (j + 1) (by omega)
        rwa [show i + (j + 1) = i + 1 + j by omega] at this)
      (by rwa [show i + (k + 1) = i + 1 + k by omega] at hidle)
      (fun hs => by have := hb hs; push_cast at this; omega) (by omega)]
    congr 2
    · push_cast; omega
    · omega

/-- On silicon the loop ends with `retry = -1` after `retry + 1` reads when
every one of them is busy. -/
theorem poll_status_exhausted (busy : Nat → Bool) (reads : Nat → Nat) (b : Nat) :
    ∀ (fuel i : Nat), (∀ j < b + 1, busy (reads (i + j)) = true) → b + 1 ≤ fuel →
    poll_status true busy reads fuel (b : Int) i = some (-1, i + b + 1) := by
  induction b with
  | zero =>
    intro fuel i hbusy hfuel
    obtain ⟨f, rfl⟩ : ∃ f, fuel = f + 1 := ⟨fuel - 1, by omega⟩
    have h0 : busy (reads i) = true := by simpa using hbusy 0 (by omega)
    simp [poll_status, h0]
  | succ b ih =>
    intro fuel i hbusy hfuel
    obtain ⟨f, rfl⟩ : ∃ f, fuel = f + 1 := ⟨fuel - 1, by omega⟩
    have h0 : busy (reads i) = true := by simpa using hbusy 0 (by omega)
    simp only [poll_status, h0, if_true]
    rw [if_pos (Or.inl (by push_cast; omega))]
    have hc : ((b + 1 : Nat) : Int) - 1 = (b : Int) := by push_cast; omega
    rw [hc, ih f (i + 1) (fun j hj => by
        have := hbusy (j + 1) (by omega)
        rwa [show i + (j + 1) = i + 1 + j by omega] at this) (by omega)]
    congr 2
    omega

/-- On silicon, with budget `b` and at least `b + 1` reads of fuel, the loop
terminates after at most `b + 1` reads: either at the first read that is not
busy (`retry` stays non-negative) or with `retry = -1` after `b + 1` busy
reads. -/
theorem poll_status_silicon (busy : Nat → Bool) (reads : Nat → Nat) (b fuel i : Nat)
    (hfuel : b + 1 ≤ fuel) :
    ∃ retry n, poll_status true busy reads fuel (b : Int) i = some (retry, n) ∧
      i < n ∧ n ≤ i + b + 1 ∧ -1 ≤ retry ∧ (n : Int) + retry ≤ i + b + 1 ∧
      ((retry = -1 ∧ n = i + b + 1 ∧ ∀ j < b + 1, busy (reads (i + j)) = true) ∨
       (0 ≤ retry ∧ busy (reads (n - 1)) = false ∧ ∃ k ≤ b, busy (reads (i + k)) = false)) := by
  by_cases hall : ∀ j < b + 1, busy (reads (i + j)) = true
  · exact ⟨-1, i + b + 1, poll_status_exhausted busy reads b fuel i hall hfuel, by omega,
      le_refl _, le_refl _, by push_cast; omega, Or.inl ⟨rfl, rfl, hall⟩⟩
  · push_neg at hall
    have hex : ∃ k, k < b + 1 ∧ busy (reads (i + k)) ≠ true := hall
    classical
    let k := Nat.find hex
    have hk : k < b + 1 ∧ busy (reads (i + k)) ≠ true := Nat.find_spec hex
    have hmin : ∀ j < k, busy (reads (i + j)) = true := by
      intro j hj
      by_contra hcon
      exact Nat.find_min hex hj ⟨by omega, hcon⟩
    have hidle : busy (reads (i + k)) = false := by simpa using hk.2
    refine ⟨(b : Int) - k, i + k + 1,
      poll_status_first_idle true busy reads k fuel b i hmin hidle (fun _ => by omega) (by omega),
      by omega, by omega, by omega, by push_cast; omega,
      Or.inr ⟨by omega, by simpa using hidle, k, by omega, hidle⟩⟩

/-- Off silicon the loop does not end while the reads are busy. -/
theorem poll_status_sim_busy (busy : Nat → Bool) (reads : Nat → Nat) :
    ∀ (fuel : Nat) (retry : Int) (i : Nat), (∀ j < fuel, busy (reads (i + j)) = true) →
    poll_status false busy reads fuel retry i = none := by
  intro fuel
  induction fuel with
  | zero => intro retry i _; rfl
  | succ f ih =>
    intro retry i hbusy
    have h0 : busy (reads i) = true := by simpa using hbusy 0 (by omega)
    simp only [poll_status, h0, if_true, or_true]
    exact ih (retry - 1) (i + 1) (fun j hj => by
      have := hbusy (j + 1) (by omega)
      rwa [show i + (j + 1) = i + 1 + j by omega] at this)

/-- C14: `gk20a_mm_fb_flush` returns, when it returns, `-EBUSY` if and only if
the backend is silicon and the status register reported outstanding-or-pending
on each of the 101 polls of the retry budget; on silicon it always returns
within 101 polls, with 0 as soon as one poll reports neither; on any backend it
returns 0 right after the first poll that reports neither (on silicon: if that
is among the first 101); on a non-silicon backend it never returns an error. -/
theorem gk20a_mm_fb_flush_spec (g : Gk20a) (r : SyncRegs) (reads : Nat → Nat) :
    (∀ fuel ret n, gk20a_mm_fb_flush g r reads fuel = some (ret, n) →
      (ret = -EBUSY ∨ ret = 0) ∧
      (ret = -EBUSY ↔ g.tegra_platform_is_silicon = true ∧
        ∀ i < 101, fb_flush_busy r (reads i) = true)) ∧
    (g.tegra_platform_is_silicon = true → ∀ fuel, 101 ≤ fuel →
      ∃ ret n, gk20a_mm_fb_flush g r reads fuel = some (ret, n) ∧ n ≤ 101) ∧
    (∀ k, (∀ j < k, fb_flush_busy r (reads j) = true) → fb_flush_busy r (reads k) = false →
      (g.tegra_platform_is_silicon = true → k ≤ 100) → ∀ fuel, k + 1 ≤ fuel →
      gk20a_mm_fb_flush g r reads fuel = some (0, k + 1)) ∧
    (g.tegra_platform_is_silicon = false → ∀ fuel ret n,
      gk20a_mm_fb_flush g r reads fuel = some (ret, n) → ret = 0) := by
  have hidle : ∀ k, (∀ j < k, fb_flush_busy r (reads j) = true) →
      fb_flush_busy r (reads k) = false →
      (g.tegra_platform_is_silicon = true → k ≤ 100) → ∀ fuel, k + 1 ≤ fuel →
      gk20a_mm_fb_flush g r reads fuel = some (0, k + 1) := by
    intro k hb hi hk fuel hfuel
    unfold gk20a_mm_fb_flush
    have := poll_status_first_idle g.tegra_platform_is_silicon (fb_flush_busy r) reads k fuel 100 0
      (fun j hj => by rw [Nat.zero_add]; exact hb j hj) (by rw [Nat.zero_add]; exact hi)
      (fun hs => by have := hk hs; omega) hfuel
    rw [this]
    simp only [Nat.zero_add]
    have hneg : ¬ (g.tegra_platform_is_silicon = true ∧ (100 : Int) - k < 0) := by
      rintro ⟨hs, hlt⟩
      have := hk hs
      omega
    rw [if_neg hneg]
  have hsim : g.tegra_platform_is_silicon = false → ∀ fuel ret n,
      gk20a_mm_fb_flush g r reads fuel = some (ret, n) → ret = 0 := by
    intro hs fuel ret n h
    unfold gk20a_mm_fb_flush at h
    rw [hs] at h
    split at h
    · cases h
    · simp only [Bool.false_eq_true, false_and, if_false, Option.some.injEq, Prod.mk.injEq] at h
      exact h.1.symm
  have hsil : g.tegra_platform_is_silicon = true → ∀ fuel ret n,
      gk20a_mm_fb_flush g r reads fuel = some (ret, n) →
      (ret = -EBUSY ∧ ∀ i < 101, fb_flush_busy r (reads i) = true) ∨
      (ret = 0 ∧ ∃ k ≤ 100, fb_flush_busy r (reads k) = false) := by
    intro hs fuel ret n h
    by_cases hall : ∀ j < 101, fb_flush_busy r (reads j) = true
    · left
      refine ⟨?_, hall⟩
      by_cases hf : 101 ≤ fuel
      · have := poll_status_exhausted (fb_flush_busy r) reads 100 fuel 0
          (fun j hj => by rw [Nat.zero_add]; exact hall j hj) hf
        unfold gk20a_mm_fb_flush at h
        rw [hs] at h
        simp only [Nat.cast_ofNat] at this
        rw [this] at h
        simp at h
        exact h.1.symm
      · exfalso
        have hnone := fun (b : Nat) => poll_status_silicon (fb_flush_busy r) reads b
        -- with less fuel than budget and only busy reads the evaluation has not ended
        have : ∀ (f : Nat) (retry : Int) (i : Nat), (f : Int) ≤ retry → i + f ≤ 101 →
            poll_status true (fb_flush_busy r) reads f retry i = none := by
          intro f
          induction f with
          | zero => intro _ _ _ _; rfl
          | succ f ih =>
            intro retry i hr hi
            have h0 : fb_flush_busy r (reads i) = true := hall i (by omega)
            simp only [poll_status, h0, if_true]
            rw [if_pos (Or.inl (by push_cast at hr; omega))]
            exact ih (retry - 1) (i + 1) (by push_cast at hr; omega) (by omega)
        unfold gk20a_mm_fb_flush at h
        rw [hs, this fuel 100 0 (by omega) (by omega)] at h
        cases h
    · right
      push_neg at hall
      classical
      let k := Nat.find hall
      have hk : k < 101 ∧ fb_flush_busy r (reads k) ≠ true := Nat.find_spec hall
      have hmin : ∀ j < k, fb_flush_busy r (reads j) = true := by
        intro j hj
        by_contra hcon
        exact Nat.find_min hall hj ⟨by omega, hcon⟩
      have hi : fb_flush_busy r (reads k) = false := by simpa using hk.2
      by_cases hf : k + 1 ≤ fuel
      · rw [hidle k hmin hi (fun _ => by omega) fuel hf] at h
        simp only [Option.some.injEq, Prod.mk.injEq] at h
        exact ⟨h.1.symm, k, by omega, hi⟩
      · exfalso
        have : ∀ (f : Nat) (retry : Int) (i : Nat), (f : Int) ≤ retry → i + f ≤ k →
            poll_status true (fb_flush_busy r) reads f retry i = none := by
          intro f
          induction f with
          | zero => intro _ _ _ _; rfl
          | succ f ih =>
            intro retry i hr hi'
            have h0 : fb_flush_busy r (reads i) = true := hmin i (by omega)
            simp only [poll_status, h0, if_true]
            rw [if_pos (Or.inl (by push_cast at hr; omega))]
            exact ih (retry - 1) (i + 1) (by push_cast at hr; omega) (by omega)
        unfold gk20a_mm_fb_flush at h
        rw [hs, this fuel 100 0 (by omega) (by omega)] at h
        cases h
  refine ⟨?_, ?_, hidle, hsim⟩
  · intro fuel ret n h
    have hE : (-EBUSY : Int) ≠ 0 := by unfold EBUSY; omega
    cases hs : g.tegra_platform_is_silicon
    · have := hsim hs fuel ret n h
      subst this
      exact ⟨Or.inr rfl, ⟨fun h0 => absurd h0.symm hE, fun h0 => by simp at h0⟩⟩
    · rcases hsil hs fuel ret n h with ⟨h1, h2⟩ | ⟨h1, k, hk, hi⟩
      · exact ⟨Or.inl h1, ⟨fun _ => ⟨rfl, h2⟩, fun _ => h1⟩⟩
      · refine ⟨Or.inr h1, ⟨fun h0 => ?_, fun h0 => ?_⟩⟩
        · rw [h1] at h0; exact absurd h0.symm hE
        · have := h0.2 k (by omega)
          rw [hi] at this
          cases this
  · intro hs fuel hfuel
    obtain ⟨retry, n, h, _, hn, _⟩ := poll_status_silicon (fb_flush_busy r) reads 100 fuel 0 hfuel
    unfold gk20a_mm_fb_flush
    rw [hs]
    simp only [Nat.cast_ofNat] at h
    rw [h]
    exact ⟨_, n, rfl, by omega⟩

/-- C14 on silicon with the sample decoders: three busy polls and an idle one
give 0 after four reads; 101 busy polls give `-EBUSY`. -/
theorem gk20a_mm_fb_flush_spec_witness :
    (∀ j < 3, fb_flush_busy sample_regs (sample_reads_busy 3 j) = true) ∧
    fb_flush_busy sample_regs (sample_reads_busy 3 3) = false ∧
    gk20a_mm_fb_flush sample_g sample_regs (sample_reads_busy 3) 101 = some (0, 4) ∧
    gk20a_mm_fb_flush sample_g sample_regs (sample_reads_busy 101) 101 = some (-EBUSY, 101) ∧
    (sample_g.tegra_platform_is_silicon = true ∧
      ∀ i < 101, fb_flush_busy sample_regs (sample_reads_busy 101 i) = true) :=
  ⟨by decide, by decide,
    (gk20a_mm_fb_flush_spec sample_g sample_regs (sample_reads_busy 3)).2.2.1 3 (by decide)
      (by decide) (by decide) 101 (by decide),
    by decide,
    ((gk20a_mm_fb_flush_spec sample_g sample_regs (sample_reads_busy 101)).1 101 (-EBUSY) 101
      (by decide)).2.1 rfl⟩

/-- On silicon `gk20a_mm_fb_flush` returns within 101 polls. -/
theorem gk20a_mm_fb_flush_total (g : Gk20a) (r : SyncRegs) (reads : Nat → Nat)
    (hs : g.tegra_platform_is_silicon = true) :
    ∀ fuel, 101 ≤ fuel → ∃ ret n, gk20a_mm_fb_flush g r reads fuel = some (ret, n) ∧ n ≤ 101 := by
  intro fuel hfuel
  obtain ⟨retry, n, h, _, hn, _⟩ := poll_status_silicon (fb_flush_busy r) reads 100 fuel 0 hfuel
  unfold gk20a_mm_fb_flush
  rw [hs]
  simp only [Nat.cast_ofNat] at h
  rw [h]
  exact ⟨_, n, rfl, by omega⟩

/-- C15 as stated fails off silicon: with the status register stuck at busy,
`gk20a_mm_fb_flush` on the simulated backend is still polling after 102 reads,
one more than budget plus one; and when the register turns idle at the 151st
read, the call returns after 151 reads. -/
theorem gk20a_mm_fb_flush_sim_unbounded :
    sample_g_sim.tegra_platform_is_silicon = false ∧
    gk20a_mm_fb_flush sample_g_sim sample_regs (fun _ => 1) 102 = none ∧
    gk20a_mm_fb_flush sample_g_sim sample_regs (sample_reads_busy 150) 200 = some (0, 151) := by
  decide

/-- C15, as the code has it: on silicon every polling loop performs at most
its retry budget plus one status reads and then terminates: 101 reads in
`gk20a_mm_fb_flush`, 201 in `gk20a_mm_l2_invalidate_locked`, 201 in the loop of
`gk20a_mm_l2_flush` (and 201 in the invalidate it may call), and the two loops
of `gk20a_mm_tlb_invalidate`, which share a budget of 2000, at most 2002
together. On any other backend a loop ends right after the first read that is
not busy, and is still polling after any number of busy reads. -/
theorem polling_bounded_on_silicon (g : Gk20a) (r : SyncRegs) (reads : Nat → Nat) :
    (g.tegra_platform_is_silicon = true →
      (∀ fuel, 101 ≤ fuel → ∃ ret n, gk20a_mm_fb_flush g r reads fuel = some (ret, n) ∧ n ≤ 101) ∧
      (∀ fuel, 201 ≤ fuel → ∃ n, gk20a_mm_l2_invalidate_locked g r reads fuel = some n ∧ n ≤ 201) ∧
      (∀ fuel power_on invalidate, 201 ≤ fuel →
        ∃ n m, gk20a_mm_l2_flush g r power_on invalidate reads fuel = some (n, m) ∧
          n ≤ 201 ∧ m ≤ 201) ∧
      (∀ fuel power_on, 2001 ≤ fuel →
        ∃ n m, gk20a_mm_tlb_invalidate g r power_on reads fuel = some (n, m) ∧
          n ≤ 2001 ∧ m ≤ 2001 ∧ n + m ≤ 2002)) ∧
    (∀ (busy : Nat → Bool) (k fuel : Nat) (retry : Int) (i : Nat),
      (∀ j < k, busy (reads (i + j)) = true) → busy (reads (i + k)) = false → k + 1 ≤ fuel →
      poll_status false busy reads fuel retry i = some (retry - k, i + k + 1)) ∧
    (∀ (busy : Nat → Bool) (fuel : Nat) (retry : Int) (i : Nat),
      (∀ j < fuel, busy (reads (i + j)) = true) →
      poll_status false busy reads fuel retry i = none) := by
  refine ⟨fun hs => ⟨?_, ?_, ?_, ?_⟩, ?_, ?_⟩
  · exact gk20a_mm_fb_flush_total g r reads hs
  · intro fuel hfuel
    obtain ⟨retry, n, h, _, hn, _⟩ :=
      poll_status_silicon (l2_invalidate_busy r) reads 200 fuel 0 hfuel
    unfold gk20a_mm_l2_invalidate_locked
    rw [hs]
    simp only [Nat.cast_ofNat] at h
    rw [h]
    exact ⟨n, rfl, by omega⟩
  · intro fuel power_on invalidate hfuel
    unfold gk20a_mm_l2_flush
    cases power_on
    · exact ⟨0, 0, by simp, by omega, by omega⟩
    · obtain ⟨retry, n, h, _, hn, _⟩ :=
        poll_status_silicon (l2_flush_busy r) reads 200 fuel 0 hfuel
      simp only [Nat.cast_ofNat] at h
      rw [hs]
      simp only [Bool.true_eq_false, if_false, h]
      cases invalidate
      · exact ⟨n, 0, by simp, by omega, by omega⟩
      · obtain ⟨retry2, m, h2, _, hm, _⟩ :=
          poll_status_silicon (l2_invalidate_busy r) (fun i => reads (n + i)) 200 fuel 0 hfuel
        simp only [Nat.cast_ofNat] at h2
        unfold gk20a_mm_l2_invalidate_locked
        rw [hs]
        simp only [if_true, h2, Option.map_some']
        exact ⟨n, m, rfl, by omega, by omega⟩
  · intro fuel power_on hfuel
    unfold gk20a_mm_tlb_invalidate
    cases power_on
    · exact ⟨0, 0, by simp, by omega, by omega, by omega⟩
    · obtain ⟨retry, n, h, _, hn, hr1, hr2, hcase⟩ :=
        poll_status_silicon (fun data => decide (r.fb_mmu_ctrl_pri_fifo_space_v data = 0)) reads
          2000 fuel 0 hfuel
      simp only [Nat.cast_ofNat] at h
      rw [hs]
      simp only [Bool.true_eq_false, if_false, h, true_and]
      by_cases hneg : retry < 0
      · rw [if_pos hneg]
        exact ⟨n, 0, rfl, by omega, by omega, by omega⟩
      · rw [if_neg hneg]
        obtain ⟨b2, hb2⟩ : ∃ b2 : Nat, retry = (b2 : Int) := ⟨retry.toNat, by omega⟩
        subst hb2
        obtain ⟨retry2, m, h2, _, hm, _⟩ :=
          poll_status_silicon (fun data => decide (r.fb_mmu_ctrl_pri_fifo_empty_v data =
            r.fb_mmu_ctrl_pri_fifo_empty_false_f)) (fun i => reads (n + i)) b2 fuel 0
            (by push_cast at hr2; omega)
        rw [h2]
        simp only [Option.map_some']
        exact ⟨n, m, rfl, by omega, by push_cast at hr2; omega, by push_cast at hr2; omega⟩
  · intro busy k fuel retry i hb hi hf
    exact poll_status_first_idle false busy reads k fuel retry i hb hi (fun h => by cases h) hf
  · intro busy fuel retry i hb
    exact poll_status_sim_busy busy reads fuel retry i hb

/-- C15 on silicon with the sample decoders: the flush and the TLB invalidate
return within their budgets whatever is read. -/
theorem polling_bounded_on_silicon_witness :
    sample_g.tegra_platform_is_silicon = true ∧
    (∃ ret n, gk20a_mm_fb_flush sample_g sample_regs (fun _ => 1) 101 = some (ret, n) ∧ n ≤ 101) ∧
    (∃ n m, gk20a_mm_tlb_invalidate sample_g sample_regs true (fun _ => 0) 2001 = some (n, m) ∧
      n ≤ 2001 ∧ m ≤ 2001 ∧ n + m ≤ 2002) :=
  ⟨by decide,
    ((polling_bounded_on_silicon sample_g sample_regs (fun _ => 1)).1 (by decide)).1 101
      (by decide),
    ((polling_bounded_on_silicon sample_g sample_regs (fun _ => 0)).1 (by decide)).2.2.2 2001 true
      (by decide)⟩

/-! ## Hardware setup -/

/-- C16 as stated fails: on silicon, when the first `gk20a_mm_fb_flush` uses up
its 101 polls and the status register is idle from then on, a second flush
would return 0 after one read, yet `gk20a_init_mm_setup_hw` returns `-EBUSY`:
the second operand of `||` is not evaluated. -/
theorem gk20a_init_mm_setup_hw_single_failure_fatal :
    gk20a_mm_fb_flush sample_g sample_regs (sample_reads_busy 101) 101 = some (-EBUSY, 101) ∧
    gk20a_mm_fb_flush sample_g sample_regs (fun i => sample_reads_busy 101 (101 + i)) 101 =
      some (0, 1) ∧
    gk20a_init_mm_setup_hw sample_g sample_regs none (sample_reads_busy 101) 101 =
      some (-EBUSY) := by
  decide

/-- C16, as the code has it: once the BAR2 setup did not fail,
`gk20a_init_mm_setup_hw` returns `-EBUSY` if and only if the first
`gk20a_mm_fb_flush` fails, or the first succeeds and the second, made right
after it, fails; it returns 0 when both succeed. On silicon it returns within
two times 101 polls. -/
theorem gk20a_init_mm_setup_hw_spec (g : Gk20a) (r : SyncRegs) (bar2 : Option Int)
    (reads : Nat → Nat) (fuel : Nat) (hbar2 : bar2 = none ∨ bar2 = some 0) :
    (∀ ret1 n1, gk20a_mm_fb_flush g r reads fuel = some (ret1, n1) → ret1 ≠ 0 →
      gk20a_init_mm_setup_hw g r bar2 reads fuel = some (-EBUSY)) ∧
    (∀ n1 ret2 n2, gk20a_mm_fb_flush g r reads fuel = some (0, n1) →
      gk20a_mm_fb_flush g r (fun i => reads (n1 + i)) fuel = some (ret2, n2) →
      gk20a_init_mm_setup_hw g r bar2 reads fuel = some (if ret2 ≠ 0 then -EBUSY else 0)) ∧
    (g.tegra_platform_is_silicon = true → 101 ≤ fuel →
      ∃ ret, gk20a_init_mm_setup_hw g r bar2 reads fuel = some ret) := by
  have hb : ¬ (bar2.isSome = true ∧ bar2 ≠ some 0) := by
    rcases hbar2 with h | h <;> simp [h]
  refine ⟨?_, ?_, ?_⟩
  · intro ret1 n1 h1 hne
    unfold gk20a_init_mm_setup_hw
    rw [if_neg hb, h1]
    simp only [ne_eq, hne, not_false_eq_true, if_true]
  · intro n1 ret2 n2 h1 h2
    unfold gk20a_init_mm_setup_hw
    rw [if_neg hb, h1]
    simp only [ne_eq, not_true_eq_false, if_false, h2]
    split_ifs <;> rfl
  · intro hs hfuel
    obtain ⟨ret1, n1, h1, _⟩ := (gk20a_mm_fb_flush_total g r reads hs) fuel hfuel
    unfold gk20a_init_mm_setup_hw
    rw [if_neg hb, h1]
    simp only []
    by_cases hne : ret1 ≠ 0
    · exact ⟨-EBUSY, by rw [if_pos hne]⟩
    · obtain ⟨ret2, n2, h2, _⟩ :=
        (gk20a_mm_fb_flush_total g r (fun i => reads (n1 + i)) hs) fuel hfuel
      rw [if_neg hne, h2]
      simp only []
      split_ifs
      · exact ⟨_, rfl⟩
      · exact ⟨_, rfl⟩

/-- C16 with the sample decoders on silicon: an idle status register gives 0;
a first flush that fails gives `-EBUSY`. -/
theorem gk20a_init_mm_setup_hw_spec_witness :
    gk20a_mm_fb_flush sample_g sample_regs (fun _ => 0) 101 = some (0, 1) ∧
    gk20a_init_mm_setup_hw sample_g sample_regs none (fun _ => 0) 101 = some 0 ∧
    gk20a_init_mm_setup_hw sample_g sample_regs none (sample_reads_busy 101) 101 =
      some (-EBUSY) :=
  ⟨by decide,
    (gk20a_init_mm_setup_hw_spec sample_g sample_regs none (fun _ => 0) 101 (Or.inl rfl)).2.1 1 0 1
      (by decide) (by decide),
    (gk20a_init_mm_setup_hw_spec sample_g sample_regs none (sample_reads_busy 101) 101
      (Or.inl rfl)).1 (-EBUSY) 101 (by decide) (by decide)⟩

/-! ## Directory entries -/

@[simp] theorem PageTables.write_size (pt : PageTables) (e : EntryPtr) (i w0 w1 : Nat) :
    (pt.write e i w0 w1).size = pt.size := rfl
@[simp] theorem PageTables.write_pgsz (pt : PageTables) (e : EntryPtr) (i w0 w1 : Nat) :
    (pt.write e i w0 w1).pgsz = pt.pgsz := rfl
@[simp] theorem PageTables.write_sgl (pt : PageTables) (e : EntryPtr) (i w0 w1 : Nat) :
    (pt.write e i w0 w1).sgl = pt.sgl := rfl
@[simp] theorem PageTables.write_has_entries (pt : PageTables) (e : EntryPtr) (i w0 w1 : Nat) :
    (pt.write e i w0 w1).has_entries = pt.has_entries := rfl
@[simp] theorem PageTables.write_num_entries (pt : PageTables) (e : EntryPtr) (i w0 w1 : Nat) :
    (pt.write e i w0 w1).num_entries = pt.num_entries := rfl

theorem PageTables.write_mem (pt : PageTables) (e : EntryPtr) (i w0 w1 : Nat) (e' : EntryPtr)
    (j : Nat) :
    (pt.write e i w0 w1).mem e' j = if e' = e ∧ j = i then (u32 w0, u32 w1) else pt.mem e' j := rfl

/-- Writing the same words to a slot twice is writing them once. -/
theorem PageTables.write_write (pt : PageTables) (e : EntryPtr) (i w0 w1 v0 v1 : Nat) :
    ((pt.write e i v0 v1).write e i w0 w1) = pt.write e i w0 w1 := by
  unfold PageTables.write
  simp only [PageTables.mk.injEq, true_and]
  funext e' j
  by_cases h : e' = e ∧ j = i <;> simp [h]

/-- C20: the two words `update_gmmu_pde_locked` writes for directory index `i`
are a function of the child entry's `size`, `pgsz` and table address only: the
call returns 0, leaves `*ctag` and every other slot alone, and writes to slot
`i` of the directory the same pair for every `pte`, page-size index, `iova`,
`kind_v`, `ctag`, `cacheable`, `unmapped_pte`, `rw_flag` and `sparse`. Word 0
(big) and word 1 (small) are both written; the aperture of the page size the
child does not have is the invalid one. Hence a second call, with any
arguments, leaves the tables as the first call left them. -/
theorem update_gmmu_pde_locked_spec (hw : GmmuHw) (pt : PageTables) (i : Nat)
    (pte pte' : EntryPtr) (pgsz_idx iova kind_v ctag : Nat) (cacheable unmapped_pte : Bool)
    (rw_flag : Nat) (sparse : Bool) (pgsz_idx' iova' kind_v' ctag' : Nat)
    (cacheable' unmapped_pte' : Bool) (rw_flag' : Nat) (sparse' : Bool) :
    (update_gmmu_pde_locked hw pt pte i pgsz_idx iova kind_v ctag cacheable unmapped_pte rw_flag
      sparse).1 = 0 ∧
    (update_gmmu_pde_locked hw pt pte i pgsz_idx iova kind_v ctag cacheable unmapped_pte rw_flag
      sparse).2.2 = ctag ∧
    (update_gmmu_pde_locked hw pt pte i pgsz_idx iova kind_v ctag cacheable unmapped_pte rw_flag
      sparse).2.1 =
      (update_gmmu_pde_locked hw pt pte' i pgsz_idx' iova' kind_v' ctag' cacheable' unmapped_pte'
        rw_flag' sparse').2.1 ∧
    (∀ e j, ¬ (e = [] ∧ j = i) →
      (update_gmmu_pde_locked hw pt pte i pgsz_idx iova kind_v ctag cacheable unmapped_pte rw_flag
        sparse).2.1.mem e j = pt.mem e j) ∧
    (update_gmmu_pde_locked hw pt pte i pgsz_idx iova kind_v ctag cacheable unmapped_pte rw_flag
      sparse).2.1.mem [] i =
      (if pt.size [i] ≠ 0 ∧ pt.pgsz [i] = gmmu_page_size_big then
        (u32 (u32 hw.gmmu_pde_size_full_f |||
            big_valid_pde0_bits hw (gk20a_mm_iova_addr hw (pt.sgl [i]))),
          u32 (u32 (hw.gmmu_pde_aperture_small_invalid_f ||| hw.gmmu_pde_vol_small_false_f) |||
            u32 hw.gmmu_pde_vol_big_true_f))
      else if pt.size [i] ≠ 0 ∧ pt.pgsz [i] = gmmu_page_size_small then
        (u32 (u32 hw.gmmu_pde_size_full_f ||| u32 hw.gmmu_pde_aperture_big_invalid_f),
          u32 (small_valid_pde1_bits hw (gk20a_mm_iova_addr hw (pt.sgl [i])) |||
            u32 hw.gmmu_pde_vol_big_false_f))
      else
        (u32 (u32 hw.gmmu_pde_size_full_f ||| u32 hw.gmmu_pde_aperture_big_invalid_f),
          u32 (u32 (hw.gmmu_pde_aperture_small_invalid_f ||| hw.gmmu_pde_vol_small_false_f) |||
            u32 hw.gmmu_pde_vol_big_false_f))) ∧
    (update_gmmu_pde_locked hw
      (update_gmmu_pde_locked hw pt pte i pgsz_idx iova kind_v ctag cacheable unmapped_pte rw_flag
        sparse).2.1 pte' i pgsz_idx' iova' kind_v' ctag' cacheable' unmapped_pte' rw_flag'
        sparse').2.1 =
      (update_gmmu_pde_locked hw pt pte i pgsz_idx iova kind_v ctag cacheable unmapped_pte rw_flag
        sparse).2.1 := by
  refine ⟨rfl, rfl, rfl, ?_, ?_, ?_⟩
  · intro e j hne
    simp only [update_gmmu_pde_locked, PageTables.write_mem, if_neg hne]
  · simp only [update_gmmu_pde_locked, PageTables.write_mem, and_self, if_true]
    unfold gmmu_page_size_big gmmu_page_size_small
    by_cases hs : pt.size [i] = 0
    · simp [hs]
    · by_cases hb : pt.pgsz [i] = 1
      · simp [hs, hb]
      · by_cases hsm : pt.pgsz [i] = 0
        · simp [hs, hsm]
        · simp [hs, hb, hsm]
  · simp only [update_gmmu_pde_locked, PageTables.write_size, PageTables.write_pgsz,
      PageTables.write_sgl]
    exact PageTables.write_write _ _ _ _ _ _ _

/-! ## The page-table walk -/

theorem not64_and_self (k : Nat) (hk : k ≤ 64) : not64 (2 ^ k - 1) &&& (2 ^ k - 1) = 0 := by
  apply Nat.eq_of_testBit_eq
  intro i
  have hm : (2 ^ k - 1) % U64 = 2 ^ k - 1 := by
    apply Nat.mod_eq_of_lt
    have := Nat.pow_le_pow_right (show 0 < 2 by norm_num) hk
    have := Nat.two_pow_pos k
    unfold U64; omega
  simp only [Nat.testBit_and, not64, Nat.testBit_xor, hm, Nat.zero_testBit]
  rw [show U64 - 1 = 2 ^ 64 - 1 from rfl, Nat.testBit_two_pow_sub_one, Nat.testBit_two_pow_sub_one]
  by_cases h : i < k
  · have : i < 64 := by omega
    simp [h, this]
  · simp [h]

/-- Clearing the low `k` bits rounds down to a multiple of `2^k`. -/
theorem and_not_mask_eq (x k : Nat) (hx : x < U64) (hk : k ≤ 64) :
    x &&& not64 (2 ^ k - 1) = x / 2 ^ k * 2 ^ k := by
  have h1 := and_not_mask_shift x k hx
  rw [Nat.shiftRight_eq_div_pow, Nat.shiftRight_eq_div_pow] at h1
  have h2 : (x &&& not64 (2 ^ k - 1)) % 2 ^ k = 0 := by
    rw [← Nat.and_pow_two_sub_one_eq_mod, Nat.land_assoc, not64_and_self k hk, Nat.and_zero]
  have h3 := Nat.div_add_mod (x &&& not64 (2 ^ k - 1)) (2 ^ k)
  rw [h1, h2, Nat.add_zero, Nat.mul_comm] at h3
  exact h3.symm

theorem level_next_eq (l : Gk20aMmuLevel) (pgsz_idx gpu_va gpu_end : Nat)
    (hlo : l.lo_bit pgsz_idx < 64) (hva : gpu_va + 2 ^ l.lo_bit pgsz_idx < U64) :
    level_next l pgsz_idx gpu_va gpu_end =
      min ((gpu_va / 2 ^ l.lo_bit pgsz_idx + 1) * 2 ^ l.lo_bit pgsz_idx) gpu_end := by
  unfold level_next
  simp only []
  have hp : 2 ^ l.lo_bit pgsz_idx < U64 := by
    unfold U64; exact Nat.pow_lt_pow_right (by norm_num) hlo
  have h1 : u64 (1 <<< l.lo_bit pgsz_idx) = 2 ^ l.lo_bit pgsz_idx := by
    rw [Nat.shiftLeft_eq, Nat.one_mul]; exact Nat.mod_eq_of_lt hp
  rw [h1, u64_sub_one _ hlo]
  have h2 : u64 (gpu_va + 2 ^ l.lo_bit pgsz_idx) = gpu_va + 2 ^ l.lo_bit pgsz_idx :=
    Nat.mod_eq_of_lt hva
  rw [h2, and_not_mask_eq _ _ hva (by omega)]
  have h3 : (gpu_va + 2 ^ l.lo_bit pgsz_idx) / 2 ^ l.lo_bit pgsz_idx =
      gpu_va / 2 ^ l.lo_bit pgsz_idx + 1 :=
    Nat.add_div_right _ (Nat.two_pow_pos _)
  rw [h3]

theorem pde_index_eq (l : Gk20aMmuLevel) (pgsz_idx gpu_va : Nat)
    (hhi : l.hi_bit pgsz_idx + 1 < 64)
    (hlt : gpu_va % 2 ^ (l.hi_bit pgsz_idx + 1) / 2 ^ l.lo_bit pgsz_idx < U32) :
    pde_index l pgsz_idx gpu_va =
      gpu_va % 2 ^ (l.hi_bit pgsz_idx + 1) / 2 ^ l.lo_bit pgsz_idx := by
  unfold pde_index
  have hp : 2 ^ (l.hi_bit pgsz_idx + 1) < U64 := by
    unfold U64; exact Nat.pow_lt_pow_right (by norm_num) hhi
  have h1 : u64 (1 <<< (l.hi_bit pgsz_idx + 1)) = 2 ^ (l.hi_bit pgsz_idx + 1) := by
    rw [Nat.shiftLeft_eq, Nat.one_mul]; exact Nat.mod_eq_of_lt hp
  rw [h1, u64_sub_one _ hhi, Nat.and_pow_two_sub_one_eq_mod, Nat.shiftRight_eq_div_pow]
  exact Nat.mod_eq_of_lt hlt

theorem call_update_entry_fst (g : Gk20a) (hw : GmmuHw) (page_size : Nat) (fn : UpdateEntry)
    (pt : PageTables) (pte : EntryPtr) (pde_i pgsz_idx iova kind_v ctag : Nat)
    (cacheable unmapped_pte : Bool) (rw_flag : Nat) (sparse : Bool) :
    (call_update_entry g hw page_size fn pt pte pde_i pgsz_idx iova kind_v ctag cacheable
      unmapped_pte rw_flag sparse).1 = 0 := by
  cases fn
  · rfl
  · unfold call_update_entry update_gmmu_pte_locked
    simp only []
    split_ifs <;> rfl

theorem leaf_calls_append (a b : List EntryCall) : leaf_calls (a ++ b) = leaf_calls a ++ leaf_calls b := by
  unfold leaf_calls
  exact List.filterMap_append _ _ _

/-- The loop at the last level with an `update_entry`: over `m` pages starting
at a page boundary it makes one call per page, at consecutive indices. -/
theorem update_gmmu_level_loop_leaf (g : Gk20a) (hw : GmmuHw) (env : PtEnv)
    (levels : List Gk20aMmuLevel) (page_size pgsz_idx kind_v : Nat) (cacheable unmapped_pte : Bool)
    (rw_flag : Nat) (sparse : Bool) (lvl : Nat)
    (hfn : (mmu_level levels lvl).update_entry = some UpdateEntry.update_gmmu_pte_locked)
    (hlast : (mmu_level levels (lvl + 1)).update_entry = none)
    (hlo : (mmu_level levels lvl).lo_bit pgsz_idx < 64) (pte : EntryPtr) :
    ∀ (m fuel : Nat) (pt : PageTables) (pde_i iova gpu_va ctag : Nat) (calls : List EntryCall),
      gpu_va % 2 ^ (mmu_level levels lvl).lo_bit pgsz_idx = 0 →
      gpu_va + (m + 1) * 2 ^ (mmu_level levels lvl).lo_bit pgsz_idx < U64 →
      pde_i + m < U32 →
      (iova ≠ 0 → iova + m * 2 ^ (mmu_level levels lvl).lo_bit pgsz_idx < U64) →
      m + 1 ≤ fuel →
      ∃ pt' ctag' new,
        update_gmmu_level_loop g hw env levels page_size pgsz_idx kind_v cacheable unmapped_pte
          rw_flag sparse (gpu_va + m * 2 ^ (mmu_level levels lvl).lo_bit pgsz_idx) fuel lvl pt pte
          pde_i iova gpu_va ctag calls = some (0, pt', ctag', calls ++ new) ∧
        leaf_calls new = (List.range m).map (fun k =>
          (pte, pde_i + k,
            if iova = 0 then 0 else iova + k * 2 ^ (mmu_level levels lvl).lo_bit pgsz_idx)) := by
  intro m
  induction m with
  | zero =>
    intro fuel pt pde_i iova gpu_va ctag calls _ _ _ _ hfuel
    obtain ⟨f, rfl⟩ : ∃ f, fuel = f + 1 := ⟨fuel - 1, by omega⟩
    refine ⟨pt, ctag, [], ?_, rfl⟩
    simp [update_gmmu_level_loop]
  | succ m ih =>
    intro fuel pt pde_i iova gpu_va ctag calls hal hva hpde hiova hfuel
    obtain ⟨f, rfl⟩ : ∃ f, fuel = f + 1 := ⟨fuel - 1, by omega⟩
    have hP : 0 < 2 ^ (mmu_level levels lvl).lo_bit pgsz_idx := Nat.two_pow_pos _
    generalize hPdef : 2 ^ (mmu_level levels lvl).lo_bit pgsz_idx = P at *
    have hlt : gpu_va < gpu_va + (m + 1) * P := by
      have : 0 < (m + 1) * P := Nat.mul_pos (by omega) hP
      omega
    have hexp1 : (m + 1) * P = m * P + P := by ring
    have hexp2 : (m + 1 + 1) * P = (m + 1) * P + P := by ring
    have hnext : level_next (mmu_level levels lvl) pgsz_idx gpu_va (gpu_va + (m + 1) * P) =
        gpu_va + P := by
      rw [level_next_eq _ _ _ _ hlo (by rw [hPdef]; omega), hPdef]
      have h1 : (gpu_va / P + 1) * P = gpu_va + P := by
        have := Nat.div_add_mod gpu_va P
        rw [hal, Nat.add_zero, Nat.mul_comm] at this
        rw [Nat.add_mul, Nat.one_mul, this]
      rw [h1]
      apply min_eq_left
      have : 0 ≤ m * P := Nat.zero_le _
      omega
    obtain ⟨pt', ctag', new, hrun, hnew⟩ := ih f
      (call_update_entry g hw page_size UpdateEntry.update_gmmu_pte_locked pt pte pde_i pgsz_idx
        iova kind_v ctag cacheable unmapped_pte rw_flag sparse).2.1
      (pde_i + 1) (if iova ≠ 0 then iova + P else iova) (gpu_va + P)
      (call_update_entry g hw page_size UpdateEntry.update_gmmu_pte_locked pt pte pde_i pgsz_idx
        iova kind_v ctag cacheable unmapped_pte rw_flag sparse).2.2
      (calls ++ [EntryCall.mk UpdateEntry.update_gmmu_pte_locked pte pde_i iova ctag])
      (by rw [Nat.add_mod, hal, Nat.mod_self]; simp)
      (by omega) (by omega)
      (by
        intro h0
        by_cases hi : iova = 0
        · simp [hi] at h0
        · rw [if_pos hi]; have := hiova hi; omega)
      (by omega)
    have hend : gpu_va + P + m * P = gpu_va + (m + 1) * P := by omega
    rw [hend] at hrun
    refine ⟨pt', ctag', EntryCall.mk UpdateEntry.update_gmmu_pte_locked pte pde_i iova ctag :: new,
      ?_, ?_⟩
    · rw [update_gmmu_level_loop]
      simp only [hlt, not_true_eq_false, if_false]
      have halloc : alloc_next_level hw env (mmu_level levels lvl) (mmu_level levels (lvl + 1)) pt
          pte pde_i pgsz_idx = (0, pt) := by
        unfold alloc_next_level
        simp [hlast]
      rw [halloc]
      simp only [ne_eq, not_true_eq_false, if_false, hfn, call_update_entry_fst, hlast,
        Option.isSome_none, Bool.false_eq_true, hnext]
      have hu32 : u32 (pde_i + 1) = pde_i + 1 := Nat.mod_eq_of_lt (by omega)
      have hiv : (if iova = 0 then iova else u64 (iova + (gpu_va + P - gpu_va))) =
          (if iova ≠ 0 then iova + P else iova) := by
        by_cases hi : iova = 0
        · simp [hi]
        · have := hiova hi
          simp only [hi, if_false, ne_eq, not_false_eq_true, if_true, Nat.add_sub_cancel_left]
          exact Nat.mod_eq_of_lt (by omega)
      simp only [ite_not] at hrun ⊢
      rw [hu32, hiv]
      simp only [ite_not]
      rw [hrun, List.append_assoc]
      rfl
    · rw [List.range_succ_eq_map, List.map_cons, List.map_map]
      have hl : leaf_calls (EntryCall.mk UpdateEntry.update_gmmu_pte_locked pte pde_i iova ctag ::
          new) = (pte, pde_i, iova) :: leaf_calls new := by
        simp [leaf_calls]
      rw [hl, hnew]
      congr 1
      · by_cases hi : iova = 0 <;> simp [hi]
      · apply List.map_congr_left
        intro k _
        simp only [Function.comp, Prod.mk.injEq, true_and]
        refine ⟨by omega, ?_⟩
        by_cases hi : iova = 0
        · simp [hi]
        · simp only [hi, if_false, ne_eq, not_false_eq_true, if_true]
          have hne : iova + P ≠ 0 := by omega
          simp only [hne, if_false]
          rw [Nat.succ_eq_add_one, Nat.add_mul, Nat.one_mul]
          omega

theorem alloc_gmmu_pages_ok (hw : GmmuHw) (env : PtEnv) (pt : PageTables) (order : Nat)
    (entry : EntryPtr) (h : env.alloc_pages_ok entry = true) :
    (alloc_gmmu_pages hw env pt order entry).1 = 0 := by
  unfold alloc_gmmu_pages
  simp only [h, if_true]
  split <;> rfl

theorem gk20a_zalloc_gmmu_page_table_ok (hw : GmmuHw) (env : PtEnv) (pt : PageTables)
    (pgsz_idx : Nat) (l : Gk20aMmuLevel) (entry : EntryPtr)
    (h : env.alloc_pages_ok entry = true) :
    (gk20a_zalloc_gmmu_page_table hw env pt pgsz_idx l entry).1 = 0 := by
  unfold gk20a_zalloc_gmmu_page_table
  simp only []
  split
  · next hne => exact absurd (alloc_gmmu_pages_ok hw env pt _ entry h) hne
  · exact alloc_gmmu_pages_ok hw env pt _ entry h

theorem alloc_next_level_ok (hw : GmmuHw) (env : PtEnv) (l next_l : Gk20aMmuLevel)
    (pt : PageTables) (pte : EntryPtr) (pde_i pgsz_idx : Nat)
    (henv : ∀ e, env.vzalloc_ok e = true ∧ env.alloc_pages_ok e = true ∧ env.map_pages_ok e = true) :
    (alloc_next_level hw env l next_l pt pte pde_i pgsz_idx).1 = 0 := by
  have key : ∀ grown : PageTables, grown.has_entries pte = true →
      (if grown.has_entries pte = false then (-ENOMEM, grown)
        else if grown.size (pte ++ [pde_i]) = 0 then
          gk20a_zalloc_gmmu_page_table hw env grown pgsz_idx next_l (pte ++ [pde_i])
        else (0, grown)).1 = 0 := by
    intro grown hg
    rw [if_neg (by rw [hg]; exact Bool.noConfusion)]
    split
    · exact gk20a_zalloc_gmmu_page_table_ok hw env _ pgsz_idx next_l _ (henv _).2.1
    · rfl
  unfold alloc_next_level
  by_cases hn : next_l.update_entry.isSome = false
  · rw [if_pos hn]
  · rw [if_neg hn]
    apply key
    by_cases hh : pt.has_entries pte = false
    · rw [if_pos hh]
      simp only [if_true]
      exact (henv pte).1
    · rw [if_neg hh]
      simpa using hh

/-- Pages of one directory cell: same directory index, consecutive leaf
indices. -/
theorem cell_leaf_index (va P q j : Nat) (hP : 0 < P) (hq : 0 < q)
    (hin : va + (j + 1) * P ≤ (va / (P * q) + 1) * (P * q)) :
    (va + j * P) / (P * q) = va / (P * q) ∧
      (va + j * P) % (P * q) / P = va % (P * q) / P + j := by
  have hC : 0 < P * q := Nat.mul_pos hP hq
  have h1 := Nat.div_add_mod va (P * q)
  have h2 := Nat.mod_lt va hC
  have hexp : (va / (P * q) + 1) * (P * q) = P * q * (va / (P * q)) + P * q := by ring
  have hexp2 : (j + 1) * P = j * P + P := by ring
  have hlt : va % (P * q) + j * P < P * q := by omega
  have hdiv : (va + j * P) / (P * q) = va / (P * q) := by
    have : va + j * P = (va % (P * q) + j * P) + (va / (P * q)) * (P * q) := by
      rw [Nat.mul_comm (va / (P * q))]; omega
    rw [this, Nat.add_mul_div_right _ _ hC, Nat.div_eq_of_lt hlt, Nat.zero_add]
  have hmod : (va + j * P) % (P * q) = va % (P * q) + j * P := by
    have : va + j * P = (va % (P * q) + j * P) + (va / (P * q)) * (P * q) := by
      rw [Nat.mul_comm (va / (P * q))]; omega
    rw [this, Nat.add_mul_mod_self_right, Nat.mod_eq_of_lt hlt]
  refine ⟨hdiv, ?_⟩
  rw [hmod, Nat.add_mul_div_right _ _ hP]

/-- One step of the directory loop, in numbers: the part of `[va, gpu_end)`
in the cell of `va` is a whole number `m ≥ 1` of pages. -/
theorem cell_step_facts (va gpu_end P q : Nat) (hP : 0 < P) (hq : 0 < q) (hal : va % P = 0)
    (hve : gpu_end % P = 0) (hlt : va < gpu_end) :
    ∃ m, 1 ≤ m ∧ va + m * P = min ((va / (P * q) + 1) * (P * q)) gpu_end ∧
      va % (P * q) / P + m ≤ q ∧
      (∀ j < m, va + (j + 1) * P ≤ (va / (P * q) + 1) * (P * q)) ∧
      (gpu_end - va) / P = m + (gpu_end - min ((va / (P * q) + 1) * (P * q)) gpu_end) / P ∧
      (min ((va / (P * q) + 1) * (P * q)) gpu_end < gpu_end →
        min ((va / (P * q) + 1) * (P * q)) gpu_end / (P * q) = va / (P * q) + 1 ∧
        ∀ k, gpu_end ≤ (va / (P * q) + (k + 1)) * (P * q) →
          gpu_end ≤ (min ((va / (P * q) + 1) * (P * q)) gpu_end / (P * q) + k) * (P * q)) := by
  obtain ⟨a, rfl⟩ := Nat.dvd_of_mod_eq_zero hal
  obtain ⟨e, rfl⟩ := Nat.dvd_of_mod_eq_zero hve
  have hae : a < e := Nat.lt_of_mul_lt_mul_left hlt
  have hdiv : P * a / (P * q) = a / q := Nat.mul_div_mul_left a q hP
  have hmod : P * a % (P * q) = P * (a % q) := Nat.mul_mod_mul_left P a q
  have hce : (a / q + 1) * (P * q) = P * ((a / q + 1) * q) := by ring
  have hmin : min (P * ((a / q + 1) * q)) (P * e) = P * min ((a / q + 1) * q) e := by
    rcases Nat.le_total ((a / q + 1) * q) e with h | h
    · rw [min_eq_left h, min_eq_left (Nat.mul_le_mul_left P h)]
    · rw [min_eq_right h, min_eq_right (Nat.mul_le_mul_left P h)]
  have hdm := Nat.div_add_mod a q
  have hr := Nat.mod_lt a hq
  have hcell : a < (a / q + 1) * q := by
    have : (a / q + 1) * q = q * (a / q) + q := by ring
    omega
  have hn : a < min ((a / q + 1) * q) e := lt_min hcell hae
  rw [hdiv, hce, hmin, hmod, Nat.mul_div_cancel_left _ hP]
  refine ⟨min ((a / q + 1) * q) e - a, by omega, ?_, ?_, ?_, ?_, ?_⟩
  · rw [Nat.mul_comm _ P, ← Nat.mul_add]
    congr 1
    omega
  · have h1 : min ((a / q + 1) * q) e ≤ (a / q + 1) * q := min_le_left _ _
    have : (a / q + 1) * q = q * (a / q) + q := by ring
    omega
  · intro j hj
    have h1 : min ((a / q + 1) * q) e ≤ (a / q + 1) * q := min_le_left _ _
    have h2 : a + (j + 1) ≤ (a / q + 1) * q := by omega
    calc P * a + (j + 1) * P = P * (a + (j + 1)) := by ring
      _ ≤ P * ((a / q + 1) * q) := Nat.mul_le_mul_left P h2
  · have h1 : min ((a / q + 1) * q) e ≤ e := min_le_right _ _
    rw [← Nat.mul_sub, ← Nat.mul_sub, Nat.mul_div_cancel_left _ hP, Nat.mul_div_cancel_left _ hP]
    omega
  · intro hlt2
    have hlt3 : min ((a / q + 1) * q) e < e := Nat.lt_of_mul_lt_mul_left hlt2
    have hmn : min ((a / q + 1) * q) e = (a / q + 1) * q := by
      rcases Nat.le_total ((a / q + 1) * q) e with h | h
      · exact min_eq_left h
      · rw [min_eq_right h] at hlt3; exact absurd hlt3 (lt_irrefl _)
    rw [hmn]
    have hd2 : P * ((a / q + 1) * q) / (P * q) = a / q + 1 := by
      rw [Nat.mul_div_mul_left _ _ hP, Nat.mul_div_cancel _ hq]
    rw [hd2]
    refine ⟨rfl, fun k hk => ?_⟩
    have : (a / q + (k + 1)) * (P * q) = (a / q + 1 + k) * (P * q) := by ring
    rw [← this]
    exact hk

theorem update_gmmu_level_loop_done (g : Gk20a) (hw : GmmuHw) (env : PtEnv)
    (levels : List Gk20aMmuLevel) (page_size pgsz_idx kind_v : Nat) (cacheable unmapped_pte : Bool)
    (rw_flag : Nat) (sparse : Bool) (gpu_end fuel lvl : Nat) (pt : PageTables) (pte : EntryPtr)
    (pde_i iova gpu_va ctag : Nat) (calls : List EntryCall) (h : ¬ gpu_va < gpu_end) :
    update_gmmu_level_loop g hw env levels page_size pgsz_idx kind_v cacheable unmapped_pte
      rw_flag sparse gpu_end (fuel + 1) lvl pt pte pde_i iova gpu_va ctag calls =
        some (0, pt, ctag, calls) := by
  rw [update_gmmu_level_loop]
  simp only [h, not_false_eq_true, if_true]

/-- The loop at level 0 of a two-level table: over a page-aligned range it
makes one leaf call per page, in ascending order, under the directory index and
at the leaf index of the page. -/
theorem update_gmmu_level_loop_dir (g : Gk20a) (hw : GmmuHw) (env : PtEnv)
    (levels : List Gk20aMmuLevel) (page_size pgsz_idx kind_v : Nat) (cacheable unmapped_pte : Bool)
    (rw_flag : Nat) (sparse : Bool) (gpu_end lo1 d P q : Nat)
    (henv : ∀ e, env.vzalloc_ok e = true ∧ env.alloc_pages_ok e = true ∧ env.map_pages_ok e = true)
    (h0 : (mmu_level levels 0).update_entry = some UpdateEntry.update_gmmu_pde_locked)
    (h1 : (mmu_level levels 1).update_entry = some UpdateEntry.update_gmmu_pte_locked)
    (h2 : (mmu_level levels 2).update_entry = none)
    (hlo0 : (mmu_level levels 0).lo_bit pgsz_idx = lo1 + d)
    (hlo1 : (mmu_level levels 1).lo_bit pgsz_idx = lo1)
    (hhi1 : (mmu_level levels 1).hi_bit pgsz_idx + 1 = lo1 + d)
    (hb : lo1 + d ≤ 31) (hPdef : 2 ^ lo1 = P) (hqdef : 2 ^ d = q)
    (hend : gpu_end ≤ 2 ^ 32 * (P * q)) (hve : gpu_end % P = 0) (M : Nat) :
    ∀ (k fuel : Nat) (pt : PageTables) (pde_i iova gpu_va ctag : Nat) (calls : List EntryCall),
      gpu_va % P = 0 → gpu_va ≤ gpu_end →
      (gpu_va < gpu_end → gpu_end ≤ (gpu_va / (P * q) + k) * (P * q)) →
      (gpu_va < gpu_end → pde_i = gpu_va / (P * q)) →
      (iova ≠ 0 → iova + (gpu_end - gpu_va) < U64) →
      (gpu_end - gpu_va) / P + 1 ≤ M → k + M ≤ fuel →
      ∃ pt' ctag' new,
        update_gmmu_level_loop g hw env levels page_size pgsz_idx kind_v cacheable unmapped_pte
          rw_flag sparse gpu_end fuel 0 pt [] pde_i iova gpu_va ctag calls =
            some (0, pt', ctag', calls ++ new) ∧
        leaf_calls new = (List.range ((gpu_end - gpu_va) / P)).map (fun j =>
          ([(gpu_va + j * P) / (P * q)], (gpu_va + j * P) % (P * q) / P,
            if iova = 0 then 0 else iova + j * P)) := by
  have hP : 0 < P := hPdef ▸ Nat.two_pow_pos _
  have hq : 0 < q := hqdef ▸ Nat.two_pow_pos _
  have hC : 2 ^ (lo1 + d) = P * q := by rw [pow_add, hPdef, hqdef]
  have hC31 : P * q ≤ 2 ^ 31 := hC ▸ Nat.pow_le_pow_right (by norm_num) hb
  have hPle : P ≤ P * q := Nat.le_mul_of_pos_right P hq
  have hqle : q ≤ P * q := Nat.le_mul_of_pos_left q hP
  have he63 : gpu_end ≤ 2 ^ 63 :=
    calc gpu_end ≤ 2 ^ 32 * (P * q) := hend
      _ ≤ 2 ^ 32 * 2 ^ 31 := Nat.mul_le_mul_left _ hC31
      _ = 2 ^ 63 := by norm_num
  have hdone : ∀ (fuel : Nat) (pt : PageTables) (pde_i iova gpu_va ctag : Nat)
      (calls : List EntryCall), ¬ gpu_va < gpu_end → gpu_va ≤ gpu_end → 1 ≤ fuel →
      ∃ pt' ctag' new,
        update_gmmu_level_loop g hw env levels page_size pgsz_idx kind_v cacheable unmapped_pte
          rw_flag sparse gpu_end fuel 0 pt [] pde_i iova gpu_va ctag calls =
            some (0, pt', ctag', calls ++ new) ∧
        leaf_calls new = (List.range ((gpu_end - gpu_va) / P)).map (fun j =>
          ([(gpu_va + j * P) / (P * q)], (gpu_va + j * P) % (P * q) / P,
            if iova = 0 then 0 else iova + j * P)) := by
    intro fuel pt pde_i iova gpu_va ctag calls hge hle hfuel
    obtain ⟨f, rfl⟩ : ∃ f, fuel = f + 1 := ⟨fuel - 1, by omega⟩
    have hz : gpu_end - gpu_va = 0 := by omega
    refine ⟨pt, ctag, [], ?_, ?_⟩
    · rw [update_gmmu_level_loop_done _ _ _ _ _ _ _ _ _ _ _ _ _ _ _ _ _ _ _ _ _ hge,
        List.append_nil]
    · rw [hz, Nat.zero_div]; rfl
  intro k
  induction k with
  | zero =>
    intro fuel pt pde_i iova gpu_va ctag calls _ hle hcov _ _ hM hfuel
    have hM1 : 1 ≤ M := Nat.le_trans (Nat.le_add_left 1 _) hM
    refine hdone fuel pt pde_i iova gpu_va ctag calls ?_ hle (by omega)
    intro h
    have h1 := hcov h
    rw [Nat.add_zero] at h1
    have h2 := Nat.div_mul_le_self gpu_va (P * q)
    omega
  | succ k ih =>
    intro fuel pt pde_i iova gpu_va ctag calls hal hle hcov hpde hiova hM hfuel
    have hM1 : 1 ≤ M := Nat.le_trans (Nat.le_add_left 1 _) hM
    by_cases hlt : gpu_va < gpu_end
    swap
    · exact hdone fuel pt pde_i iova gpu_va ctag calls hlt hle (by omega)
    obtain ⟨f, rfl⟩ : ∃ f, fuel = f + 1 := ⟨fuel - 1, by omega⟩
    obtain ⟨m, hm1, hnext, hidx, hin, hcnt, hrest⟩ :=
      cell_step_facts gpu_va gpu_end P q hP hq hal hve hlt
    generalize hnx : min ((gpu_va / (P * q) + 1) * (P * q)) gpu_end = next at hnext hcnt hrest
    have hnle : next ≤ gpu_end := hnx ▸ min_le_right _ _
    have hM2 : m + (gpu_end - next) / P + 1 ≤ M := hcnt ▸ hM
    have hmM : m + 1 ≤ M := Nat.le_trans (Nat.add_le_add_right (Nat.le_add_right m _) 1) hM2
    have hsM : (gpu_end - next) / P + 1 ≤ M :=
      Nat.le_trans (Nat.add_le_add_right (Nat.le_add_left _ m) 1) hM2
    have hlevel : level_next (mmu_level levels 0) pgsz_idx gpu_va gpu_end = next := by
      rw [level_next_eq _ _ _ _ (by rw [hlo0]; omega) (by rw [hlo0, hC]; unfold U64; omega),
        hlo0, hC, hnx]
    have hpidx : pde_index (mmu_level levels 1) pgsz_idx gpu_va = gpu_va % (P * q) / P := by
      rw [pde_index_eq _ _ _ (by rw [hhi1]; omega)
        (by rw [hhi1, hlo1, hC, hPdef]; unfold U32; omega), hhi1, hlo1, hC, hPdef]
    rw [update_gmmu_level_loop]
    simp only [hlt, not_true_eq_false, if_false, zero_add, List.nil_append]
    have ha := alloc_next_level_ok hw env (mmu_level levels 0) (mmu_level levels 1) pt []
      pde_i pgsz_idx henv
    generalize alloc_next_level hw env (mmu_level levels 0) (mmu_level levels 1) pt []
      pde_i pgsz_idx = a at ha ⊢
    simp only [ha, ne_eq, not_true_eq_false, if_false, h0, call_update_entry_fst, h1,
      Option.isSome_some, if_true, (henv _).2.2, Bool.true_eq_false, hlevel, hpidx]
    obtain ⟨pt1, ctag1, new1, hrun1, hnew1⟩ := update_gmmu_level_loop_leaf g hw env levels
      page_size pgsz_idx kind_v cacheable unmapped_pte rw_flag sparse 1 h1 h2
      (by rw [hlo1]; omega) [pde_i] m f
      (call_update_entry g hw page_size UpdateEntry.update_gmmu_pde_locked a.2 [] pde_i pgsz_idx
        iova kind_v ctag cacheable unmapped_pte rw_flag sparse).2.1
      (gpu_va % (P * q) / P) iova gpu_va
      (call_update_entry g hw page_size UpdateEntry.update_gmmu_pde_locked a.2 [] pde_i pgsz_idx
        iova kind_v ctag cacheable unmapped_pte rw_flag sparse).2.2
      (calls ++ [EntryCall.mk UpdateEntry.update_gmmu_pde_locked [] pde_i iova ctag])
      (by rw [hlo1, hPdef]; exact hal)
      (by rw [hlo1, hPdef, Nat.add_mul, Nat.one_mul]; unfold U64; omega)
      (by unfold U32; omega)
      (by intro hi; rw [hlo1, hPdef]; have := hiova hi; omega)
      (by omega)
    clear hM2
    rw [hlo1, hPdef, hnext] at hrun1
    rw [hlo1, hPdef] at hnew1
    rw [hrun1]
    simp only [ne_eq, not_true_eq_false, if_false]
    obtain ⟨pt2, ctag2, new2, hrun2, hnew2⟩ := ih f pt1 (u32 (pde_i + 1))
      (if ¬ iova = 0 then u64 (iova + (next - gpu_va)) else iova) next ctag1
      (calls ++ [EntryCall.mk UpdateEntry.update_gmmu_pde_locked [] pde_i iova ctag] ++ new1)
      (by rw [← hnext, Nat.add_mul_mod_self_right]; exact hal)
      hnle
      (fun h => (hrest h).2 k (hcov hlt))
      (fun h => by
        have h3 := (hrest h).1
        have h4 : next / (P * q) < 2 ^ 32 :=
          Nat.div_lt_of_lt_mul (by rw [Nat.mul_comm]; omega)
        rw [h3, hpde hlt]
        rw [hpde hlt] at *
        exact Nat.mod_eq_of_lt (by unfold U32; omega))
      (by
        intro h0
        by_cases hi : iova = 0
        · simp [hi] at h0
        · have := hiova hi
          simp only [hi, not_false_eq_true, if_true]
          rw [show u64 (iova + (next - gpu_va)) = iova + (next - gpu_va) from
            Nat.mod_eq_of_lt (by omega)]
          omega)
      hsM (by omega)
    refine ⟨pt2, ctag2, EntryCall.mk UpdateEntry.update_gmmu_pde_locked [] pde_i iova ctag ::
      (new1 ++ new2), ?_, ?_⟩
    · rw [hrun2]
      simp only [List.append_assoc, List.singleton_append, List.cons_append, List.nil_append]
    · have hl : leaf_calls (EntryCall.mk UpdateEntry.update_gmmu_pde_locked [] pde_i iova ctag ::
          (new1 ++ new2)) = leaf_calls new1 ++ leaf_calls new2 := by
        rw [← leaf_calls_append]
        simp [leaf_calls]
      rw [hl, hnew1, hnew2, hcnt, List.range_add, List.map_append, List.map_map]
      congr 1
      · apply List.map_congr_left
        intro j hj
        have hjm : j < m := List.mem_range.mp hj
        obtain ⟨c1, c2⟩ := cell_leaf_index gpu_va P q j hP hq (hin j hjm)
        rw [c1, c2, hpde hlt]
      · apply List.map_congr_left
        intro j _
        simp only [Function.comp]
        have e1 : next + j * P = gpu_va + (m + j) * P := by rw [← hnext, Nat.add_mul]; omega
        rw [e1]
        congr 2
        by_cases hi : iova = 0
        · simp [hi]
        · have := hiova hi
          have hux : u64 (iova + (next - gpu_va)) = iova + m * P :=
            by rw [← hnext, Nat.add_sub_cancel_left]; exact Nat.mod_eq_of_lt (by omega)
          have hne : iova + m * P ≠ 0 := by omega
          simp only [hi, not_false_eq_true, if_true, if_false, hux, hne, Nat.add_mul]
          omega

/-- The walk from level 0 of a two-level table whose level 0 ends at bit `R`:
with enough fuel it returns 0 after one leaf call per page of the range. -/
theorem update_gmmu_level_locked_two_level (g : Gk20a) (hw : GmmuHw) (env : PtEnv)
    (levels : List Gk20aMmuLevel) (page_size fuel : Nat) (pt : PageTables)
    (pgsz_idx iova gpu_va gpu_end kind_v ctag : Nat) (cacheable unmapped_pte : Bool)
    (rw_flag : Nat) (sparse : Bool) (R : Nat)
    (henv : ∀ e, env.vzalloc_ok e = true ∧ env.alloc_pages_ok e = true ∧ env.map_pages_ok e = true)
    (h0 : (mmu_level levels 0).update_entry = some UpdateEntry.update_gmmu_pde_locked)
    (h1 : (mmu_level levels 1).update_entry = some UpdateEntry.update_gmmu_pte_locked)
    (h2 : (mmu_level levels 2).update_entry = none)
    (hhi0 : (mmu_level levels 0).hi_bit pgsz_idx + 1 = R)
    (hhi1 : (mmu_level levels 1).hi_bit pgsz_idx + 1 = (mmu_level levels 0).lo_bit pgsz_idx)
    (hlo : (mmu_level levels 1).lo_bit pgsz_idx ≤ (mmu_level levels 0).lo_bit pgsz_idx)
    (hb : (mmu_level levels 0).lo_bit pgsz_idx ≤ 31)
    (hR : R ≤ 32 + (mmu_level levels 0).lo_bit pgsz_idx)
    (hlt : gpu_va < gpu_end) (hend : gpu_end ≤ 2 ^ R)
    (hva : gpu_va % 2 ^ (mmu_level levels 1).lo_bit pgsz_idx = 0)
    (hve : gpu_end % 2 ^ (mmu_level levels 1).lo_bit pgsz_idx = 0)
    (hiova : iova ≠ 0 → iova + (gpu_end - gpu_va) < U64)
    (hfuel : gpu_end / 2 ^ (mmu_level levels 0).lo_bit pgsz_idx +
      (gpu_end - gpu_va) / 2 ^ (mmu_level levels 1).lo_bit pgsz_idx + 2 ≤ fuel) :
    ∃ pt' ctag' calls,
      update_gmmu_level_locked g hw env levels page_size fuel pt [] pgsz_idx iova gpu_va gpu_end
        kind_v ctag cacheable unmapped_pte rw_flag sparse 0 = some (0, pt', ctag', calls) ∧
      leaf_calls calls =
        (List.range ((gpu_end - gpu_va) / 2 ^ (mmu_level levels 1).lo_bit pgsz_idx)).map (fun j =>
          ([(gpu_va + j * 2 ^ (mmu_level levels 1).lo_bit pgsz_idx) >>>
              (mmu_level levels 0).lo_bit pgsz_idx],
            ((gpu_va + j * 2 ^ (mmu_level levels 1).lo_bit pgsz_idx) %
              2 ^ (mmu_level levels 0).lo_bit pgsz_idx) >>> (mmu_level levels 1).lo_bit pgsz_idx,
            if iova = 0 then 0
            else iova + j * 2 ^ (mmu_level levels 1).lo_bit pgsz_idx)) := by
  unfold update_gmmu_level_locked
  obtain ⟨d, hd⟩ := Nat.exists_eq_add_of_le hlo
  have hidx : pde_index (mmu_level levels 0) pgsz_idx gpu_va =
      gpu_va / 2 ^ (mmu_level levels 0).lo_bit pgsz_idx := by
    have hR64 : R < 64 := by omega
    have hlt2 : gpu_va < 2 ^ R := by omega
    have hle2 : 2 ^ R ≤ 2 ^ (32 + (mmu_level levels 0).lo_bit pgsz_idx) :=
      Nat.pow_le_pow_right (by norm_num) hR
    rw [pow_add] at hle2
    have hdl : gpu_va / 2 ^ (mmu_level levels 0).lo_bit pgsz_idx < 2 ^ 32 :=
      Nat.div_lt_of_lt_mul (by rw [Nat.mul_comm]; omega)
    rw [pde_index_eq _ _ _ (by rw [hhi0]; exact hR64)
      (by rw [hhi0, Nat.mod_eq_of_lt hlt2]; unfold U32; exact hdl), hhi0, Nat.mod_eq_of_lt hlt2]
  rw [hidx]
  generalize hl1 : (mmu_level levels 1).lo_bit pgsz_idx = lo1 at *
  generalize hl0 : (mmu_level levels 0).lo_bit pgsz_idx = lo0 at *
  subst hd
  have hC : 2 ^ (lo1 + d) = 2 ^ lo1 * 2 ^ d := pow_add 2 lo1 d
  have hCpos : 0 < 2 ^ lo1 * 2 ^ d := Nat.mul_pos (Nat.two_pow_pos _) (Nat.two_pow_pos _)
  have hend2 : gpu_end ≤ 2 ^ 32 * (2 ^ lo1 * 2 ^ d) := by
    rw [← hC, ← pow_add]
    exact Nat.le_trans hend (Nat.pow_le_pow_right (by norm_num) hR)
  rw [hC] at hfuel ⊢
  obtain ⟨pt', ctag', new, hrun, hnew⟩ := update_gmmu_level_loop_dir g hw env levels page_size
    pgsz_idx kind_v cacheable unmapped_pte rw_flag sparse gpu_end lo1 d (2 ^ lo1) (2 ^ d) henv
    h0 h1 h2 hl0 hl1 hhi1 hb rfl rfl hend2 hve ((gpu_end - gpu_va) / 2 ^ lo1 + 1)
    (gpu_end / (2 ^ lo1 * 2 ^ d) + 1) fuel pt (gpu_va / (2 ^ lo1 * 2 ^ d)) iova gpu_va ctag []
    hva (Nat.le_of_lt hlt)
    (fun _ => by
      have h3 := Nat.lt_succ_iff.mp (Nat.lt_succ_of_lt (Nat.lt_div_mul_add (a := gpu_end) hCpos))
      have h4 : gpu_end / (2 ^ lo1 * 2 ^ d) * (2 ^ lo1 * 2 ^ d) + 2 ^ lo1 * 2 ^ d ≤
          (gpu_va / (2 ^ lo1 * 2 ^ d) + (gpu_end / (2 ^ lo1 * 2 ^ d) + 1)) * (2 ^ lo1 * 2 ^ d) := by
        rw [← Nat.succ_mul]
        exact Nat.mul_le_mul_right _ (Nat.le_add_left _ _)
      exact Nat.le_trans h3 h4)
    (fun _ => rfl) hiova (Nat.le_refl _) (by omega)
  refine ⟨pt', ctag', new, by simpa using hrun, ?_⟩
  rw [hnew]
  apply List.map_congr_left
  intro j _
  rw [Nat.shiftRight_eq_div_pow, Nat.shiftRight_eq_div_pow, hC]

/-- The shape of both level tables: a directory level with
`update_gmmu_pde_locked` over bits `lo_bit .. NV_GMMU_VA_RANGE - 1`, a leaf
level with `update_gmmu_pte_locked` right below it, and the terminator. -/
theorem gk20a_mm_get_mmu_levels_shape (g : Gk20a) (big_page_size pgsz_idx : Nat) :
    (mmu_level (gk20a_mm_get_mmu_levels g big_page_size) 0).update_entry =
        some UpdateEntry.update_gmmu_pde_locked ∧
      (mmu_level (gk20a_mm_get_mmu_levels g big_page_size) 1).update_entry =
        some UpdateEntry.update_gmmu_pte_locked ∧
      (mmu_level (gk20a_mm_get_mmu_levels g big_page_size) 2).update_entry = none ∧
      (mmu_level (gk20a_mm_get_mmu_levels g big_page_size) 0).hi_bit pgsz_idx =
        g.NV_GMMU_VA_RANGE - 1 ∧
      (mmu_level (gk20a_mm_get_mmu_levels g big_page_size) 1).hi_bit pgsz_idx + 1 =
        (mmu_level (gk20a_mm_get_mmu_levels g big_page_size) 0).lo_bit pgsz_idx ∧
      12 ≤ (mmu_level (gk20a_mm_get_mmu_levels g big_page_size) 1).lo_bit pgsz_idx ∧
      (mmu_level (gk20a_mm_get_mmu_levels g big_page_size) 1).lo_bit pgsz_idx ≤
        (mmu_level (gk20a_mm_get_mmu_levels g big_page_size) 0).lo_bit pgsz_idx ∧
      26 ≤ (mmu_level (gk20a_mm_get_mmu_levels g big_page_size) 0).lo_bit pgsz_idx ∧
      (mmu_level (gk20a_mm_get_mmu_levels g big_page_size) 0).lo_bit pgsz_idx ≤ 27 := by
  unfold gk20a_mm_get_mmu_levels
  split
  · simp only [mmu_level, gk20a_mm_levels_64k, List.getD_cons_zero, List.getD_cons_succ]
    refine ⟨trivial, trivial, trivial, trivial, trivial, ?_, ?_, by norm_num, by norm_num⟩ <;>
      split <;> norm_num
  · simp only [mmu_level, gk20a_mm_levels_128k, List.getD_cons_zero, List.getD_cons_succ]
    refine ⟨trivial, trivial, trivial, trivial, trivial, ?_, ?_, by norm_num, by norm_num⟩ <;>
      split <;> norm_num

/-- C19: for either level table and a page-size class `pgsz_idx ≤ 1`, on a
range `[gpu_va, gpu_end)` with `gpu_va < gpu_end ≤ 2^NV_GMMU_VA_RANGE`
(`NV_GMMU_VA_RANGE ≤ 58`), both ends multiples of the page size
`2^lo_bit[level 1]`, with every allocation succeeding and `iova + length` below
`2^64`, `update_gmmu_level_locked` from level 0 returns 0 once the fuel covers
the cells and pages of the range, and its `update_gmmu_pte_locked` calls are
exactly one per page, in ascending address order: the page at `va` under
directory index `va >> lo_bit[level 0]`, at leaf index
`(va mod 2^lo_bit[level 0]) >> lo_bit[level 1]`, with `iova + (va - gpu_va)`
when `iova` is non-zero and 0 otherwise. -/
theorem update_gmmu_level_locked_coverage (g : Gk20a) (hw : GmmuHw) (env : PtEnv)
    (big_page_size page_size fuel : Nat) (pt : PageTables)
    (pgsz_idx iova gpu_va gpu_end kind_v ctag : Nat) (cacheable unmapped_pte : Bool)
    (rw_flag : Nat) (sparse : Bool)
    (henv : ∀ e, env.vzalloc_ok e = true ∧ env.alloc_pages_ok e = true ∧ env.map_pages_ok e = true)
    (_hidx : pgsz_idx ≤ 1) (hrange : g.NV_GMMU_VA_RANGE ≤ 58)
    (hlt : gpu_va < gpu_end) (hend : gpu_end ≤ 2 ^ g.NV_GMMU_VA_RANGE)
    (hva : gpu_va % 2 ^ (mmu_level (gk20a_mm_get_mmu_levels g big_page_size) 1).lo_bit pgsz_idx = 0)
    (hve : gpu_end % 2 ^ (mmu_level (gk20a_mm_get_mmu_levels g big_page_size) 1).lo_bit pgsz_idx = 0)
    (hiova : iova ≠ 0 → iova + (gpu_end - gpu_va) < U64)
    (hfuel : gpu_end / 2 ^ (mmu_level (gk20a_mm_get_mmu_levels g big_page_size) 0).lo_bit pgsz_idx +
      (gpu_end - gpu_va) /
        2 ^ (mmu_level (gk20a_mm_get_mmu_levels g big_page_size) 1).lo_bit pgsz_idx + 2 ≤ fuel) :
    ∃ pt' ctag' calls,
      update_gmmu_level_locked g hw env (gk20a_mm_get_mmu_levels g big_page_size) page_size fuel pt
        [] pgsz_idx iova gpu_va gpu_end kind_v ctag cacheable unmapped_pte rw_flag sparse 0 =
          some (0, pt', ctag', calls) ∧
      leaf_calls calls =
        (List.range ((gpu_end - gpu_va) /
          2 ^ (mmu_level (gk20a_mm_get_mmu_levels g big_page_size) 1).lo_bit pgsz_idx)).map
          (fun j =>
            ([(gpu_va + j * 2 ^ (mmu_level (gk20a_mm_get_mmu_levels g big_page_size) 1).lo_bit
                pgsz_idx) >>> (mmu_level (gk20a_mm_get_mmu_levels g big_page_size) 0).lo_bit
                pgsz_idx],
              ((gpu_va + j * 2 ^ (mmu_level (gk20a_mm_get_mmu_levels g big_page_size) 1).lo_bit
                pgsz_idx) % 2 ^ (mmu_level (gk20a_mm_get_mmu_levels g big_page_size) 0).lo_bit
                pgsz_idx) >>> (mmu_level (gk20a_mm_get_mmu_levels g big_page_size) 1).lo_bit
                pgsz_idx,
              if iova = 0 then 0
              else iova + j * 2 ^ (mmu_level (gk20a_mm_get_mmu_levels g big_page_size) 1).lo_bit
                pgsz_idx)) := by
  obtain ⟨h0, h1, h2, hhi0, hhi1, h12, hlo, h26, h27⟩ :=
    gk20a_mm_get_mmu_levels_shape g big_page_size pgsz_idx
  have hR1 : 1 ≤ g.NV_GMMU_VA_RANGE := by
    by_contra hc
    have hz : g.NV_GMMU_VA_RANGE = 0 := by omega
    rw [hz, pow_zero] at hend
    have he1 : gpu_end = 1 := by omega
    have hp : 2 ^ 1 ≤ 2 ^ (mmu_level (gk20a_mm_get_mmu_levels g big_page_size) 1).lo_bit pgsz_idx :=
      Nat.pow_le_pow_right (by norm_num) (by omega)
    rw [he1, Nat.mod_eq_of_lt (by omega)] at hve
    exact absurd hve (by norm_num)
  exact update_gmmu_level_locked_two_level g hw env _ page_size fuel pt pgsz_idx iova gpu_va
    gpu_end kind_v ctag cacheable unmapped_pte rw_flag sparse g.NV_GMMU_VA_RANGE henv h0 h1 h2
    (by rw [hhi0]; omega) hhi1 hlo (by omega) (by omega) hlt hend hva hve hiova hfuel

theorem update_gmmu_level_locked_coverage_witness :
    ∃ pt' ctag' calls,
      update_gmmu_level_locked sample_g sample_hw sample_pt_env
        (gk20a_mm_get_mmu_levels sample_g 65536) 4096 20 sample_pt [] 0 0x100000 0x3fff000
        0x4002000 0 0 true false 0 false 0 = some (0, pt', ctag', calls) ∧
      leaf_calls calls = [([0], 0x3fff, 0x100000), ([1], 0, 0x101000), ([1], 1, 0x102000)] :=
  update_gmmu_level_locked_coverage sample_g sample_hw sample_pt_env 65536 4096 20 sample_pt 0
    0x100000 0x3fff000 0x4002000 0 0 true false 0 false (fun _ => ⟨rfl, rfl, rfl⟩) (by decide)
    (by decide) (by decide) (by decide) (by decide) (by decide) (by decide) (by decide)

/-! ## Freeing a sparse reservation -/

/-- C28 (failing input): after `gk20a_vm_alloc_space` made a sparse
reservation of two big pages at `0x400000000` (its sparse PTEs written and the
TLB invalidated), `gk20a_vm_free_space` on it returns 0, takes the reservation
off the list and releases its allocator run, but the trace of hardware effects
is the one from before the call: `gk20a_locked_gmmu_unmap` is entered with
`va_allocated = true`, its `gk20a_vm_free_va` fails on the run that was just
released, and it returns before the PTE rewrite, the L2 flush and the TLB
invalidate. -/
theorem gk20a_vm_free_space_sparse_skips_pte_rewrite :
    (gk20a_vm_alloc_space sample_g sample_state sample_env sample_sparse_alloc_args).1 = 0 ∧
    sample_sparse_reserved.vm.reserved_va_list =
      [{ vaddr_start := 0x400000000, size := 0x20000, pgsz_idx := 1, sparse := true,
         va_buffers_list := [] }] ∧
    sample_sparse_reserved.vm.vma_big.runs = [(0x40000, 2)] ∧
    sample_sparse_reserved.log =
      [.update_ptes 1 false 0 0x400000000 0x400020000 0 0 false false 0 true true,
       .tlb_invalidate] ∧
    (gk20a_vm_free_space sample_sparse_reserved sample_env sample_sparse_free_args).1 = 0 ∧
    (gk20a_vm_free_space sample_sparse_reserved sample_env sample_sparse_free_args).2.vm.reserved_va_list
      = [] ∧
    (gk20a_vm_free_space sample_sparse_reserved sample_env sample_sparse_free_args).2.vm.vma_big.runs
      = [] ∧
    (gk20a_vm_free_space sample_sparse_reserved sample_env sample_sparse_free_args).2.log =
      sample_sparse_reserved.log := by
  decide

/-! ## Alloc/free symmetry of the VA wrappers -/

theorem VmGk20a.set_vma_page (vm : VmGk20a) (i j : Nat) (a : Gk20aAllocator) :
    (vm.set_vma i a).gmmu_page_sizes j = vm.gmmu_page_sizes j :=
  (SameConfig.set_vma_config vm i a).page j

theorem VmGk20a.set_vma_set_vma (vm : VmGk20a) (i : Nat) (a b : Gk20aAllocator) :
    (vm.set_vma i a).set_vma i b = vm.set_vma i b := by
  unfold VmGk20a.set_vma
  by_cases h : i = gmmu_page_size_small
  · simp only [h, if_true]
  · simp only [h, if_false]

/-- C27: for a page-size class with page size `2^k` (`k < 32`) whose allocator
is well formed with at most `2^32` units, and a byte size that does not
overflow 64 bits when rounded up: the unit count `gk20a_vm_alloc_va` requests,
`((s + p - 1) & ~(p - 1)) >> k`, equals the count `gk20a_vm_free_va` releases,
`(s + p - 1) >> k`; and when `gk20a_vm_alloc_va` returns a non-zero offset, it
has recorded one run `(start, n)` of that many units, the offset is
`start * p` (a multiple of `p`), and `gk20a_vm_free_va` on that offset and
size returns 0 and gives back the address space as it was. -/
theorem gk20a_vm_alloc_free_va_symmetry (vm : VmGk20a) (size i k : Nat)
    (hp : vm.gmmu_page_sizes i = 2 ^ k) (hk : k < 32) (hs : size + 2 ^ k - 1 < U64)
    (hwf : (vm.vma i).WF) (hlim : (vm.vma i).limit ≤ U32) :
    ((size + (2 ^ k - 1)) &&& not64 (2 ^ k - 1)) >>> k = (size + 2 ^ k - 1) >>> k ∧
    ((gk20a_vm_alloc_va vm size i).1 ≠ 0 →
      ∃ start,
        (gk20a_vm_alloc_va vm size i).2 = vm.set_vma i (Gk20aAllocator.mk (vm.vma i).base
          (vm.vma i).limit (Gk20aAllocator.insert_run
            (start, u32 ((size + 2 ^ k - 1) >>> k)) (vm.vma i).runs)) ∧
        (gk20a_vm_alloc_va vm size i).1 = start * 2 ^ k ∧
        (gk20a_vm_alloc_va vm size i).1 % 2 ^ k = 0 ∧
        gk20a_vm_free_va (gk20a_vm_alloc_va vm size i).2 (gk20a_vm_alloc_va vm size i).1 size i =
          (0, vm)) := by
  have hpos : 0 < 2 ^ k := Nat.two_pow_pos k
  have hsum : size + (2 ^ k - 1) = size + 2 ^ k - 1 := by omega
  refine ⟨by rw [hsum]; exact and_not_mask_shift _ k hs, ?_⟩
  have hfree := alloc_pages_eq_free_pages size k hk
  have hu32 := u32_two_pow k hk
  have hilog := ilog2_two_pow k (by omega)
  have hn : u32 (u64 (size + u32 (2 ^ k) + U64 - 1) >>> ilog2 (u32 (2 ^ k))) =
      u32 ((size + 2 ^ k - 1) >>> k) := by
    rw [hu32, hilog]
    have : size + 2 ^ k + U64 - 1 = (size + 2 ^ k - 1) + U64 := by omega
    unfold u64
    rw [this, Nat.add_mod_right, Nat.mod_eq_of_lt hs]
  have hfv : ∀ vm' o, gk20a_vm_free_va vm' o size i =
      (((vm'.vma i).free (u32 (o >>> ilog2 (u32 (vm'.gmmu_page_sizes i))))
        (u32 (u64 (size + u32 (vm'.gmmu_page_sizes i) + U64 - 1) >>>
          ilog2 (u32 (vm'.gmmu_page_sizes i))))).1,
       vm'.set_vma i ((vm'.vma i).free (u32 (o >>> ilog2 (u32 (vm'.gmmu_page_sizes i))))
        (u32 (u64 (size + u32 (vm'.gmmu_page_sizes i) + U64 - 1) >>>
          ilog2 (u32 (vm'.gmmu_page_sizes i))))).2) := fun _ _ => rfl
  rw [hfv]
  unfold gk20a_vm_alloc_va
  simp only []
  by_cases h1 : i ≥ gmmu_nr_page_sizes
  · rw [if_pos h1]; exact fun h0 => absurd rfl h0
  rw [if_neg h1]
  by_cases h2 : i = gmmu_page_size_big ∧ vm.big_pages = false
  · rw [if_pos h2]; exact fun h0 => absurd rfl h0
  rw [if_neg h2, hp, hfree, hn]
  have hn2 : u32 (u64 (size + 2 ^ k + U64 - 1) >>> k) = u32 ((size + 2 ^ k - 1) >>> k) := by
    rw [hu32, hilog] at hn; exact hn
  generalize u32 ((size + 2 ^ k - 1) >>> k) = n at hn2 ⊢
  rw [hilog]
  obtain ⟨hok, _⟩ := Gk20aAllocator.alloc_spec (vm.vma i) 0 n hwf
  by_cases h3 : ((vm.vma i).alloc 0 n).1 ≠ 0
  · rw [if_pos h3]; exact fun h0 => absurd rfl h0
  rw [if_neg h3]
  push_neg at h3
  obtain ⟨hlen, hb, hl, hfr, _, heq⟩ := hok h3
  have hsl : ((vm.vma i).alloc 0 n).2.1 < U32 := by omega
  obtain ⟨hc1, hc2⟩ := shl_shr_cancel _ k hsl hk
  intro _
  simp only []
  refine ⟨((vm.vma i).alloc 0 n).2.1, by rw [heq], hc2, ?_, ?_⟩
  · rw [hc2]; exact Nat.mul_mod_left _ _
  · have hv : (vm.set_vma i ((vm.vma i).alloc 0 n).2.2).vma i = ((vm.vma i).alloc 0 n).2.2 := by
      rw [VmGk20a.set_vma_vma]; simp
    rw [VmGk20a.set_vma_page, hp, hu32, hilog, hc1, hv, VmGk20a.set_vma_set_vma, hn2]
    have hnot : (((vm.vma i).alloc 0 n).2.1, n) ∉ (vm.vma i).runs := by
      intro hmem
      have := hfr _ hmem
      simp only [] at this
      omega
    have hmem : (((vm.vma i).alloc 0 n).2.1, n) ∈ ((vm.vma i).alloc 0 n).2.2.runs := by
      rw [heq]
      exact (Gk20aAllocator.insert_run_perm _ _).mem_iff.2 (List.mem_cons_self _ _)
    have hfe : ((vm.vma i).alloc 0 n).2.2.free ((vm.vma i).alloc 0 n).2.1 n = (0, vm.vma i) := by
      unfold Gk20aAllocator.free
      rw [if_pos hmem]
      congr 1
      rw [heq]
      simp only []
      rw [Gk20aAllocator.erase_insert_run _ _ hnot]
    rw [hfe]
    simp only []
    rw [VmGk20a.set_vma_self]

theorem gk20a_vm_alloc_free_va_symmetry_witness :
    ((0x11000 + (2 ^ 12 - 1)) &&& not64 (2 ^ 12 - 1)) >>> 12 = (0x11000 + 2 ^ 12 - 1) >>> 12 ∧
    ((gk20a_vm_alloc_va sample_vm 0x11000 0).1 ≠ 0 →
      ∃ start,
        (gk20a_vm_alloc_va sample_vm 0x11000 0).2 = sample_vm.set_vma 0 (Gk20aAllocator.mk
          (sample_vm.vma 0).base (sample_vm.vma 0).limit (Gk20aAllocator.insert_run
            (start, u32 ((0x11000 + 2 ^ 12 - 1) >>> 12)) (sample_vm.vma 0).runs)) ∧
        (gk20a_vm_alloc_va sample_vm 0x11000 0).1 = start * 2 ^ 12 ∧
        (gk20a_vm_alloc_va sample_vm 0x11000 0).1 % 2 ^ 12 = 0 ∧
        gk20a_vm_free_va (gk20a_vm_alloc_va sample_vm 0x11000 0).2
          (gk20a_vm_alloc_va sample_vm 0x11000 0).1 0x11000 0 = (0, sample_vm)) :=
  gk20a_vm_alloc_free_va_symmetry sample_vm 0x11000 0 12 (by decide) (by decide) (by decide)
    (by decide) (by decide)

/-! ## Leaf entries -/

/-- C23: for a non-zero `iova` (and distinct codes for read-only and
write-only), the two words `update_gmmu_pte_locked` stores in slot `i` are:
word 0 the valid field (true exactly when `unmapped_pte` is false) with the
address field, and `read_only_true` exactly when `rw_flag` is read-only; word 1
the aperture, kind and comptagline fields, `write_disable_true` exactly when
`rw_flag` is read-only, `read_disable_true` exactly when it is write-only, and
`vol_true` exactly when the mapping is not cacheable and `unmapped_pte` is
false. For a cacheable mapping that is neither read-only nor write-only, word 1
is the aperture, kind and comptagline fields alone. -/
theorem update_gmmu_pte_locked_encoding (g : Gk20a) (hw : GmmuHw) (page_size : Nat)
    (pt : PageTables) (pte : EntryPtr) (i gmmu_pgsz_idx iova kind_v ctag : Nat)
    (cacheable unmapped_pte : Bool) (rw_flag : Nat) (sparse : Bool) (hiova : iova ≠ 0)
    (hrw : hw.gk20a_mem_flag_read_only ≠ hw.gk20a_mem_flag_write_only) :
    (update_gmmu_pte_locked g hw page_size pt pte i gmmu_pgsz_idx iova kind_v ctag cacheable
      unmapped_pte rw_flag sparse).2.1.mem pte i =
      (u32 ((if unmapped_pte = false then hw.gmmu_pte_valid_true_f else hw.gmmu_pte_valid_false_f) |||
          hw.gmmu_pte_address_sys_f (u32 (iova >>> hw.gmmu_pte_address_shift_v)) |||
          (if rw_flag = hw.gk20a_mem_flag_read_only then hw.gmmu_pte_read_only_true_f else 0)),
       u32 (hw.gmmu_pte_aperture_video_memory_f ||| hw.gmmu_pte_kind_f kind_v |||
          hw.gmmu_pte_comptagline_f (ctag / u32 g.compression_page_size) |||
          (if rw_flag = hw.gk20a_mem_flag_read_only then hw.gmmu_pte_write_disable_true_f else 0) |||
          (if rw_flag = hw.gk20a_mem_flag_write_only then hw.gmmu_pte_read_disable_true_f else 0) |||
          (if cacheable = false ∧ unmapped_pte = false then hw.gmmu_pte_vol_true_f else 0))) ∧
    (cacheable = true → rw_flag ≠ hw.gk20a_mem_flag_read_only →
      rw_flag ≠ hw.gk20a_mem_flag_write_only →
      ((update_gmmu_pte_locked g hw page_size pt pte i gmmu_pgsz_idx iova kind_v ctag cacheable
        unmapped_pte rw_flag sparse).2.1.mem pte i).2 =
        u32 (hw.gmmu_pte_aperture_video_memory_f ||| hw.gmmu_pte_kind_f kind_v |||
          hw.gmmu_pte_comptagline_f (ctag / u32 g.compression_page_size))) := by
  unfold update_gmmu_pte_locked
  simp only [hiova, ne_eq, not_false_eq_true, if_true, PageTables.write_mem, and_self]
  refine ⟨?_, ?_⟩
  · by_cases hro : rw_flag = hw.gk20a_mem_flag_read_only
    · have hwo : rw_flag ≠ hw.gk20a_mem_flag_write_only := fun h => hrw (hro.symm.trans h)
      cases unmapped_pte <;> cases cacheable <;> simp [hro, hwo, hrw]
    · by_cases hwo : rw_flag = hw.gk20a_mem_flag_write_only
      · subst hwo
        cases unmapped_pte <;> cases cacheable <;> simp [hrw.symm]
      · cases unmapped_pte <;> cases cacheable <;> simp [hro, hwo]
  · intro hc hro hwo
    subst hc
    cases unmapped_pte <;> simp [hro, hwo]

theorem update_gmmu_pte_locked_encoding_witness :
    (update_gmmu_pte_locked sample_g sample_hw 4096 sample_pt [3] 5 0 0x100000 0 0 false false
      sample_hw.gk20a_mem_flag_read_only false).2.1.mem [3] 5 =
      (u32 ((if false = false then sample_hw.gmmu_pte_valid_true_f
            else sample_hw.gmmu_pte_valid_false_f) |||
          sample_hw.gmmu_pte_address_sys_f (u32 (0x100000 >>> sample_hw.gmmu_pte_address_shift_v)) |||
          (if sample_hw.gk20a_mem_flag_read_only = sample_hw.gk20a_mem_flag_read_only
            then sample_hw.gmmu_pte_read_only_true_f else 0)),
       u32 (sample_hw.gmmu_pte_aperture_video_memory_f ||| sample_hw.gmmu_pte_kind_f 0 |||
          sample_hw.gmmu_pte_comptagline_f (0 / u32 sample_g.compression_page_size) |||
          (if sample_hw.gk20a_mem_flag_read_only = sample_hw.gk20a_mem_flag_read_only
            then sample_hw.gmmu_pte_write_disable_true_f else 0) |||
          (if sample_hw.gk20a_mem_flag_read_only = sample_hw.gk20a_mem_flag_write_only
            then sample_hw.gmmu_pte_read_disable_true_f else 0) |||
          (if false = false ∧ false = false then sample_hw.gmmu_pte_vol_true_f else 0))) ∧
    (false = true → sample_hw.gk20a_mem_flag_read_only ≠ sample_hw.gk20a_mem_flag_read_only →
      sample_hw.gk20a_mem_flag_read_only ≠ sample_hw.gk20a_mem_flag_write_only →
      ((update_gmmu_pte_locked sample_g sample_hw 4096 sample_pt [3] 5 0 0x100000 0 0 false false
        sample_hw.gk20a_mem_flag_read_only false).2.1.mem [3] 5).2 =
        u32 (sample_hw.gmmu_pte_aperture_video_memory_f ||| sample_hw.gmmu_pte_kind_f 0 |||
          sample_hw.gmmu_pte_comptagline_f (0 / u32 sample_g.compression_page_size))) :=
  update_gmmu_pte_locked_encoding sample_g sample_hw 4096 sample_pt [3] 5 0 0x100000 0 0 false
    false sample_hw.gk20a_mem_flag_read_only false (by decide) (by decide)

/-! ## Pin counting -/

theorem MmState.set_priv_priv (s : MmState) (d : Nat) (p : Gk20aDmabufPriv) :
    (s.set_priv d p).priv d = some p := by
  simp [MmState.set_priv]

/-- One `gk20a_mm_pin` on a buffer whose attachment agrees with its pin count:
the count goes up by one when a table is returned and stays otherwise, and the
attachment agrees with the count afterwards. -/
theorem gk20a_mm_pin_step (s : MmState) (env : Env) (d : Nat) (priv : Gk20aDmabufPriv)
    (hpriv : s.priv d = some priv) (hinv : priv.attached = decide (0 < priv.pin_count)) :
    ∃ p', (gk20a_mm_pin s env d).2.priv d = some p' ∧
      p'.pin_count = priv.pin_count + (if (gk20a_mm_pin s env d).1 then 1 else 0) ∧
      p'.attached = decide (0 < p'.pin_count) ∧ p'.comptags = priv.comptags := by
  unfold gk20a_mm_pin
  rw [hpriv]
  simp only []
  by_cases h0 : priv.pin_count = 0
  · have hatt : priv.attached = false := by rw [hinv, h0]; rfl
    cases ha : env.attach_ok <;> cases hm : env.map_attachment_ok <;>
      simp [h0, MmState.set_priv_priv, hpriv, hatt]
  · simp only [h0, if_false, MmState.set_priv_priv]
    refine ⟨_, rfl, by simp, ?_, rfl⟩
    simp only [hinv, decide_eq_decide]
    by_cases hp : 0 < priv.pin_count
    · simp only [hp, true_iff]; omega
    · simp only [hp, false_iff]; omega

/-- One `gk20a_mm_unpin`: the count goes down by one and the attachment agrees
with the count afterwards. -/
theorem gk20a_mm_unpin_step (s : MmState) (d : Nat) (priv : Gk20aDmabufPriv)
    (hpriv : s.priv d = some priv) (hinv : priv.attached = decide (0 < priv.pin_count)) :
    ∃ p', (gk20a_mm_unpin s d).priv d = some p' ∧ p'.pin_count = priv.pin_count - 1 ∧
      p'.attached = decide (0 < p'.pin_count) ∧ p'.comptags = priv.comptags := by
  unfold gk20a_mm_unpin
  rw [hpriv]
  simp only []
  by_cases h1 : priv.pin_count - 1 = 0
  · rw [if_pos h1, MmState.set_priv_priv]
    exact ⟨_, rfl, rfl, by simp [h1], rfl⟩
  · rw [if_neg h1, MmState.set_priv_priv]
    refine ⟨_, rfl, rfl, ?_, rfl⟩
    simp only [hinv, decide_eq_decide]
    by_cases hp : 0 < priv.pin_count
    · simp only [hp, true_iff]; omega
    · simp only [hp, false_iff]; omega

/-- After any sequence of pins and unpins the count is the initial count plus
the pins that returned a table minus the unpins, and the buffer is attached
exactly when the count is positive. -/
theorem run_pin_calls_spec (env : Env) (d : Nat) (calls : List PinCall) :
    ∀ (s : MmState) (priv : Gk20aDmabufPriv), s.priv d = some priv →
      priv.attached = decide (0 < priv.pin_count) →
      ∃ p', (run_pin_calls env d s calls).1.priv d = some p' ∧
        p'.pin_count = priv.pin_count + (run_pin_calls env d s calls).2 -
          calls.count PinCall.unpin ∧
        p'.attached = decide (0 < p'.pin_count) := by
  induction calls with
  | nil =>
    intro s priv hpriv hinv
    exact ⟨priv, hpriv, by simp [run_pin_calls], hinv⟩
  | cons c rest ih =>
    intro s priv hpriv hinv
    cases c with
    | pin a m =>
      obtain ⟨p1, h1, h2, h3, _⟩ := gk20a_mm_pin_step s
        { env with attach_ok := a, map_attachment_ok := m } d priv hpriv hinv
      obtain ⟨p', h4, h5, h6⟩ := ih _ p1 h1 h3
      refine ⟨p', h4, ?_, h6⟩
      rw [h5, h2]
      simp only [run_pin_calls]
      have hc : (PinCall.pin a m :: rest).count PinCall.unpin = rest.count PinCall.unpin := by
        simp
      rw [hc]
      split <;> simp_all
      all_goals omega
    | unpin =>
      obtain ⟨p1, h1, h2, h3, _⟩ := gk20a_mm_unpin_step s d priv hpriv hinv
      obtain ⟨p', h4, h5, h6⟩ := ih _ p1 h1 h3
      refine ⟨p', h4, ?_, h6⟩
      simp only [run_pin_calls]
      rw [h5, h2, List.count_cons_self]
      push_cast
      omega

/-- C29: on a buffer with driver data whose attachment agrees with its pin
count (attached exactly when `pin_count > 0`): `gk20a_mm_pin` with a non-zero
count only increments the count; with count 0 and both `dma_buf_attach` and
`dma_buf_map_attachment` succeeding it attaches and sets the count to 1; with
count 0 and one of them failing it returns an error and leaves the driver data
as it was (count 0, detached); `gk20a_mm_unpin` decrements the count and
detaches exactly when the count was 1; after any sequence of calls the count
is the initial count plus the number of pins that returned a table minus the
number of unpins, and the buffer is attached exactly when the count is
positive; a pin that returned a table followed by an unpin restores the driver
data. -/
theorem gk20a_mm_pin_unpin_spec (s : MmState) (env : Env) (d : Nat) (priv : Gk20aDmabufPriv)
    (hpriv : s.priv d = some priv) (hinv : priv.attached = decide (0 < priv.pin_count)) :
    (priv.pin_count ≠ 0 → gk20a_mm_pin s env d =
      (true, s.set_priv d { priv with pin_count := priv.pin_count + 1 })) ∧
    (priv.pin_count = 0 → env.attach_ok = true → env.map_attachment_ok = true →
      gk20a_mm_pin s env d = (true, s.set_priv d { priv with attached := true, pin_count := 1 })) ∧
    (priv.pin_count = 0 → (env.attach_ok = false ∨ env.map_attachment_ok = false) →
      (gk20a_mm_pin s env d).1 = false ∧ (gk20a_mm_pin s env d).2.priv d = some priv ∧
        priv.attached = false) ∧
    (gk20a_mm_unpin s d).priv d = some { priv with
      pin_count := priv.pin_count - 1, attached := priv.attached && decide (priv.pin_count ≠ 1) } ∧
    (∀ calls : List PinCall, ∃ p', (run_pin_calls env d s calls).1.priv d = some p' ∧
      p'.pin_count = priv.pin_count + (run_pin_calls env d s calls).2 -
        calls.count PinCall.unpin ∧
      p'.attached = decide (0 < p'.pin_count)) ∧
    ((gk20a_mm_pin s env d).1 = true →
      (gk20a_mm_unpin (gk20a_mm_pin s env d).2 d).priv d = some priv) := by
  have hatt0 : priv.pin_count = 0 → priv.attached = false := by
    intro h0; rw [hinv, h0]; rfl
  refine ⟨?_, ?_, ?_, ?_, fun calls => run_pin_calls_spec env d calls s priv hpriv hinv, ?_⟩
  · intro h0
    unfold gk20a_mm_pin
    rw [hpriv]
    simp only [h0, if_false]
  · intro h0 ha hm
    unfold gk20a_mm_pin
    rw [hpriv]
    simp only [h0, ha, hm, if_true, Bool.true_eq_false, if_false, zero_add]
  · intro h0 hfail
    unfold gk20a_mm_pin
    rw [hpriv]
    simp only [h0, if_true]
    by_cases ha : env.attach_ok = false
    · rw [if_pos ha]
      exact ⟨rfl, hpriv, hatt0 h0⟩
    · rw [if_neg ha]
      have hm : env.map_attachment_ok = false := by
        rcases hfail with h | h
        · exact absurd h ha
        · exact h
      rw [if_pos hm, MmState.set_priv_priv]
      refine ⟨rfl, ?_, hatt0 h0⟩
      have := hatt0 h0
      cases priv
      simp_all
  · unfold gk20a_mm_unpin
    rw [hpriv]
    simp only []
    by_cases h1 : priv.pin_count - 1 = 0
    · have h2 : priv.pin_count = 1 := by omega
      rw [if_pos h1, MmState.set_priv_priv]
      simp [h2]
    · have h2 : priv.pin_count ≠ 1 := by omega
      rw [if_neg h1, MmState.set_priv_priv]
      simp [h2]
  · intro hok
    unfold gk20a_mm_pin at hok ⊢
    rw [hpriv] at hok ⊢
    simp only [] at hok ⊢
    by_cases h0 : priv.pin_count = 0
    · rw [if_pos h0] at hok ⊢
      by_cases ha : env.attach_ok = false
      · rw [if_pos ha] at hok; exact absurd hok (by simp)
      rw [if_neg ha] at hok ⊢
      by_cases hm : env.map_attachment_ok = false
      · rw [if_pos hm] at hok; exact absurd hok (by simp)
      rw [if_neg hm]
      unfold gk20a_mm_unpin
      rw [MmState.set_priv_priv]
      have := hatt0 h0
      simp only [h0, zero_add, sub_self, if_true, MmState.set_priv_priv]
      cases priv
      simp_all
    · rw [if_neg h0]
      unfold gk20a_mm_unpin
      rw [MmState.set_priv_priv]
      have h1 : ¬ (priv.pin_count + 1 - 1 = 0) := by omega
      simp only [h1, if_false, MmState.set_priv_priv, add_sub_cancel_right, h0]

theorem gk20a_mm_pin_unpin_spec_witness :
    (gk20a_mm_pin sample_state sample_env 1).1 = true ∧
      (gk20a_mm_unpin (gk20a_mm_pin sample_state sample_env 1).2 1).priv 1 =
        some { comptags := { offset := 0, lines := 0 }, pin_count := 0, attached := false } :=
  ⟨by decide, (gk20a_mm_pin_unpin_spec sample_state sample_env 1
    { comptags := { offset := 0, lines := 0 }, pin_count := 0, attached := false } rfl
    rfl).2.2.2.2.2 (by decide)⟩

/-! ## Leaf table bounds -/

/-- The leaf level of both level tables: 8-byte entries, and between 10 and 15
index bits. -/
theorem gk20a_mm_get_mmu_levels_leaf (g : Gk20a) (big_page_size pgsz_idx : Nat) :
    (mmu_level (gk20a_mm_get_mmu_levels g big_page_size) 1).entry_size = 8 ∧
      (mmu_level (gk20a_mm_get_mmu_levels g big_page_size) 1).lo_bit pgsz_idx ≤
        (mmu_level (gk20a_mm_get_mmu_levels g big_page_size) 1).hi_bit pgsz_idx ∧
      (mmu_level (gk20a_mm_get_mmu_levels g big_page_size) 1).hi_bit pgsz_idx ≤
        (mmu_level (gk20a_mm_get_mmu_levels g big_page_size) 1).lo_bit pgsz_idx + 14 := by
  unfold gk20a_mm_get_mmu_levels
  split
  · simp only [mmu_level, gk20a_mm_levels_64k, List.getD_cons_zero, List.getD_cons_succ]
    refine ⟨trivial, ?_, ?_⟩ <;> split <;> norm_num
  · simp only [mmu_level, gk20a_mm_levels_128k, List.getD_cons_zero, List.getD_cons_succ]
    refine ⟨trivial, ?_, ?_⟩ <;> split <;> norm_num

/-- The size `gk20a_zalloc_gmmu_page_table` gives a table of `2^bits` entries
of 8 bytes when the allocation succeeds and `PAGE_SHIFT ≤ 31`. -/
theorem gk20a_zalloc_gmmu_page_table_size (hw : GmmuHw) (env : PtEnv) (pt : PageTables)
    (pgsz_idx : Nat) (l : Gk20aMmuLevel) (entry : EntryPtr)
    (halloc : env.alloc_pages_ok entry = true) (hps : hw.PAGE_SHIFT ≤ 31)
    (hes : l.entry_size = 8) (hlo : l.lo_bit pgsz_idx ≤ l.hi_bit pgsz_idx)
    (hhi : l.hi_bit pgsz_idx ≤ l.lo_bit pgsz_idx + 14) :
    (gk20a_zalloc_gmmu_page_table hw env pt pgsz_idx l entry).1 = 0 ∧
    (gk20a_zalloc_gmmu_page_table hw env pt pgsz_idx l entry).2.size entry =
      2 ^ hw.PAGE_SHIFT <<< (max 0 ((l.hi_bit pgsz_idx : Int) - l.lo_bit pgsz_idx + 1 +
        ilog2 l.entry_size - hw.PAGE_SHIFT)).toNat ∧
    2 ^ (l.hi_bit pgsz_idx - l.lo_bit pgsz_idx + 1) * l.entry_size ≤
      (gk20a_zalloc_gmmu_page_table hw env pt pgsz_idx l entry).2.size entry := by
  have h8 : ilog2 8 = 3 := by decide
  obtain ⟨b, hb⟩ : ∃ b, l.hi_bit pgsz_idx = l.lo_bit pgsz_idx + b := ⟨_, (Nat.add_sub_cancel' hlo).symm⟩
  have hb14 : b ≤ 14 := by omega
  obtain ⟨o, ho, hsum⟩ : ∃ o : Nat, (max 0 ((l.hi_bit pgsz_idx : Int) - l.lo_bit pgsz_idx + 1 +
      ilog2 l.entry_size - hw.PAGE_SHIFT)).toNat = o ∧ o + hw.PAGE_SHIFT = max hw.PAGE_SHIFT (b + 4) := by
    refine ⟨_, rfl, ?_⟩
    rw [hes, h8, hb]
    push_cast
    rcases Nat.le_total hw.PAGE_SHIFT (b + 4) with h | h
    · rw [max_eq_right h, max_eq_right (by omega)]
      omega
    · rw [max_eq_left h, max_eq_left (by omega)]
      simp
  have hle31 : o + hw.PAGE_SHIFT ≤ 31 := by
    rw [hsum]; exact max_le hps (by omega)
  have hlen : u32 (u32 (1 <<< o) * 2 ^ hw.PAGE_SHIFT) = 2 ^ hw.PAGE_SHIFT <<< o := by
    rw [Nat.shiftLeft_eq, Nat.shiftLeft_eq, Nat.one_mul, u32_two_pow o (by omega), ← pow_add,
      ← pow_add, Nat.add_comm]
    exact u32_two_pow _ (by omega)
  have hsize : (gk20a_zalloc_gmmu_page_table hw env pt pgsz_idx l entry).2.size entry =
      2 ^ hw.PAGE_SHIFT <<< o := by
    unfold gk20a_zalloc_gmmu_page_table
    simp only [ho]
    have hok := alloc_gmmu_pages_ok hw env pt o entry halloc
    rw [if_neg (by rw [hok]; exact fun h => h rfl)]
    unfold alloc_gmmu_pages
    simp only [halloc, if_true]
    split <;> simp [hlen]
  refine ⟨gk20a_zalloc_gmmu_page_table_ok hw env pt pgsz_idx l entry halloc, by rw [hsize, ho], ?_⟩
  rw [hsize, hes, hb, Nat.add_sub_cancel_left, Nat.shiftLeft_eq, ← pow_add]
  have hge : b + 4 ≤ hw.PAGE_SHIFT + o := by
    have := le_max_right hw.PAGE_SHIFT (b + 4)
    omega
  calc 2 ^ (b + 1) * 8 = 2 ^ (b + 4) := by rw [pow_add, pow_add]; ring
    _ ≤ 2 ^ (hw.PAGE_SHIFT + o) := Nat.pow_le_pow_right (by norm_num) hge

/-- C30: for either level table and a page-size class `pgsz_idx ≤ 1`, with
`PAGE_SHIFT ≤ 31` and every allocation succeeding: the table
`gk20a_zalloc_gmmu_page_table` allocates for the leaf level has
`PAGE_SIZE << max(0, hi_bit - lo_bit + 1 + log2(entry_size) - PAGE_SHIFT)`
bytes, at least `2^(hi_bit - lo_bit + 1) * entry_size`; and every leaf index
`i` that `update_gmmu_level_locked` uses on a page-aligned range inside the
aperture is below `2^(hi_bit - lo_bit + 1)`, so the 8 bytes at offset `i * 8`
lie inside the table. -/
theorem leaf_table_bounds (g : Gk20a) (hw : GmmuHw) (env : PtEnv)
    (big_page_size page_size fuel : Nat) (pt pt0 : PageTables) (entry : EntryPtr)
    (pgsz_idx iova gpu_va gpu_end kind_v ctag : Nat) (cacheable unmapped_pte : Bool)
    (rw_flag : Nat) (sparse : Bool)
    (henv : ∀ e, env.vzalloc_ok e = true ∧ env.alloc_pages_ok e = true ∧ env.map_pages_ok e = true)
    (_hidx : pgsz_idx ≤ 1) (hps : hw.PAGE_SHIFT ≤ 31) (hrange : g.NV_GMMU_VA_RANGE ≤ 58)
    (hlt : gpu_va < gpu_end) (hend : gpu_end ≤ 2 ^ g.NV_GMMU_VA_RANGE)
    (hva : gpu_va % 2 ^ (mmu_level (gk20a_mm_get_mmu_levels g big_page_size) 1).lo_bit pgsz_idx = 0)
    (hve : gpu_end % 2 ^ (mmu_level (gk20a_mm_get_mmu_levels g big_page_size) 1).lo_bit pgsz_idx = 0)
    (hiova : iova ≠ 0 → iova + (gpu_end - gpu_va) < U64)
    (hfuel : gpu_end / 2 ^ (mmu_level (gk20a_mm_get_mmu_levels g big_page_size) 0).lo_bit pgsz_idx +
      (gpu_end - gpu_va) /
        2 ^ (mmu_level (gk20a_mm_get_mmu_levels g big_page_size) 1).lo_bit pgsz_idx + 2 ≤ fuel) :
    (gk20a_zalloc_gmmu_page_table hw env pt0 pgsz_idx
      (mmu_level (gk20a_mm_get_mmu_levels g big_page_size) 1) entry).1 = 0 ∧
    (gk20a_zalloc_gmmu_page_table hw env pt0 pgsz_idx
      (mmu_level (gk20a_mm_get_mmu_levels g big_page_size) 1) entry).2.size entry =
      2 ^ hw.PAGE_SHIFT <<<
        (max 0 (((mmu_level (gk20a_mm_get_mmu_levels g big_page_size) 1).hi_bit pgsz_idx : Int) -
          (mmu_level (gk20a_mm_get_mmu_levels g big_page_size) 1).lo_bit pgsz_idx + 1 +
          ilog2 (mmu_level (gk20a_mm_get_mmu_levels g big_page_size) 1).entry_size -
          hw.PAGE_SHIFT)).toNat ∧
    2 ^ ((mmu_level (gk20a_mm_get_mmu_levels g big_page_size) 1).hi_bit pgsz_idx -
        (mmu_level (gk20a_mm_get_mmu_levels g big_page_size) 1).lo_bit pgsz_idx + 1) *
        (mmu_level (gk20a_mm_get_mmu_levels g big_page_size) 1).entry_size ≤
      (gk20a_zalloc_gmmu_page_table hw env pt0 pgsz_idx
        (mmu_level (gk20a_mm_get_mmu_levels g big_page_size) 1) entry).2.size entry ∧
    ∃ pt' ctag' calls,
      update_gmmu_level_locked g hw env (gk20a_mm_get_mmu_levels g big_page_size) page_size fuel pt
        [] pgsz_idx iova gpu_va gpu_end kind_v ctag cacheable unmapped_pte rw_flag sparse 0 =
          some (0, pt', ctag', calls) ∧
      ∀ c ∈ leaf_calls calls,
        c.2.1 < 2 ^ ((mmu_level (gk20a_mm_get_mmu_levels g big_page_size) 1).hi_bit pgsz_idx -
          (mmu_level (gk20a_mm_get_mmu_levels g big_page_size) 1).lo_bit pgsz_idx + 1) ∧
        c.2.1 * 8 + 8 ≤ (gk20a_zalloc_gmmu_page_table hw env pt0 pgsz_idx
          (mmu_level (gk20a_mm_get_mmu_levels g big_page_size) 1) entry).2.size entry := by
  obtain ⟨h0, h1, h2, hhi0, hhi1, h12, hlo, h26, h27⟩ :=
    gk20a_mm_get_mmu_levels_shape g big_page_size pgsz_idx
  obtain ⟨hes, hlohi, hhi14⟩ := gk20a_mm_get_mmu_levels_leaf g big_page_size pgsz_idx
  obtain ⟨hz1, hz2, hz3⟩ := gk20a_zalloc_gmmu_page_table_size hw env pt0 pgsz_idx
    (mmu_level (gk20a_mm_get_mmu_levels g big_page_size) 1) entry (henv entry).2.1 hps hes hlohi
    hhi14
  have hR1 : 1 ≤ g.NV_GMMU_VA_RANGE := by
    by_contra hc
    have hz : g.NV_GMMU_VA_RANGE = 0 := by omega
    rw [hz, pow_zero] at hend
    have he1 : gpu_end = 1 := by omega
    have hp : 2 ^ 1 ≤ 2 ^ (mmu_level (gk20a_mm_get_mmu_levels g big_page_size) 1).lo_bit pgsz_idx :=
      Nat.pow_le_pow_right (by norm_num) (by omega)
    rw [he1, Nat.mod_eq_of_lt (by omega)] at hve
    exact absurd hve (by norm_num)
  obtain ⟨pt', ctag', calls, hrun, hcalls⟩ := update_gmmu_level_locked_two_level g hw env _
    page_size fuel pt pgsz_idx iova gpu_va gpu_end kind_v ctag cacheable unmapped_pte rw_flag sparse
    g.NV_GMMU_VA_RANGE henv h0 h1 h2 (by rw [hhi0]; omega) hhi1 hlo (by omega) (by omega) hlt hend
    hva hve hiova hfuel
  refine ⟨hz1, hz2, hz3, pt', ctag', calls, hrun, ?_⟩
  intro c hc
  rw [hcalls, List.mem_map] at hc
  obtain ⟨j, _, rfl⟩ := hc
  simp only []
  have hbits : (mmu_level (gk20a_mm_get_mmu_levels g big_page_size) 1).hi_bit pgsz_idx -
      (mmu_level (gk20a_mm_get_mmu_levels g big_page_size) 1).lo_bit pgsz_idx + 1 =
      (mmu_level (gk20a_mm_get_mmu_levels g big_page_size) 0).lo_bit pgsz_idx -
      (mmu_level (gk20a_mm_get_mmu_levels g big_page_size) 1).lo_bit pgsz_idx := by omega
  have hidx : ((gpu_va + j * 2 ^ (mmu_level (gk20a_mm_get_mmu_levels g big_page_size) 1).lo_bit
      pgsz_idx) % 2 ^ (mmu_level (gk20a_mm_get_mmu_levels g big_page_size) 0).lo_bit pgsz_idx) >>>
      (mmu_level (gk20a_mm_get_mmu_levels g big_page_size) 1).lo_bit pgsz_idx <
      2 ^ ((mmu_level (gk20a_mm_get_mmu_levels g big_page_size) 1).hi_bit pgsz_idx -
        (mmu_level (gk20a_mm_get_mmu_levels g big_page_size) 1).lo_bit pgsz_idx + 1) := by
    rw [hbits, Nat.shiftRight_eq_div_pow]
    apply Nat.div_lt_of_lt_mul
    rw [← pow_add, Nat.add_sub_cancel' hlo]
    exact Nat.mod_lt _ (Nat.two_pow_pos _)
  refine ⟨hidx, ?_⟩
  rw [hes] at hz3
  omega

theorem leaf_table_bounds_witness :
    (gk20a_zalloc_gmmu_page_table sample_hw sample_pt_env sample_pt 0
      (mmu_level (gk20a_mm_get_mmu_levels sample_g 65536) 1) [1]).2.size [1] = 0x20000 ∧
    ∃ pt' ctag' calls,
      update_gmmu_level_locked sample_g sample_hw sample_pt_env
        (gk20a_mm_get_mmu_levels sample_g 65536) 4096 20 sample_pt [] 0 0x100000 0x3fff000
        0x4002000 0 0 true false 0 false 0 = some (0, pt', ctag', calls) ∧
      ∀ c ∈ leaf_calls calls, c.2.1 < 0x4000 ∧ c.2.1 * 8 + 8 ≤ 0x20000 :=
  have h := leaf_table_bounds sample_g sample_hw sample_pt_env 65536 4096 20 sample_pt sample_pt
    [1] 0 0x100000 0x3fff000 0x4002000 0 0 true false 0 false (fun _ => ⟨rfl, rfl, rfl⟩)
    (by decide) (by decide) (by decide) (by decide) (by decide) (by decide) (by decide) (by decide)
    (by decide)
  ⟨by decide, h.2.2.2⟩

/-! ## Compression-tag allocation failure -/

theorem Gk20aAllocator.alloc_fail_eq (a : Gk20aAllocator) (addr len : Nat)
    (h : (a.alloc addr len).1 ≠ 0) : (a.alloc addr len).2.2 = a := by
  unfold Gk20aAllocator.alloc at h ⊢
  by_cases h0 : len = 0
  · simp only [h0, if_true]
  · simp only [h0, if_false] at h ⊢
    by_cases h1 : addr = 0
    · simp only [h1, if_true] at h ⊢
      cases hf : Gk20aAllocator.first_fit len a.limit a.base a.runs with
      | none => rfl
      | some v => rw [hf] at h; exact absurd rfl h
    · simp only [h1, if_false] at h ⊢
      split_ifs at h ⊢
      · exact absurd rfl h
      · rfl

theorem gk20a_alloc_comptags_fail (s : MmState) (d lines : Nat)
    (h : (gk20a_alloc_comptags s d lines).1 ≠ 0) : (gk20a_alloc_comptags s d lines).2 = s := by
  unfold gk20a_alloc_comptags at h ⊢
  cases hp : s.priv d with
  | none => rfl
  | some priv =>
    rw [hp] at h
    simp only [] at h ⊢
    by_cases hl : lines = 0
    · simp only [hl, if_true]
    · simp only [hl, if_false] at h ⊢
      by_cases hr : (s.comp_tags.alloc 0 lines).1 = 0
      · simp only [hr, if_true] at h; exact absurd rfl h
      · simp only [hr, if_false]
        rw [Gk20aAllocator.alloc_fail_eq _ _ _ hr]

/-- C24: in the compression-tag step of `gk20a_vm_map`, on a buffer whose
cached tag offset is 0 while it has no tag lines: when tags are needed
(`enable_ctag`, `ctag_lines ≠ 0`, none cached) and `gk20a_alloc_comptags`
fails, the step leaves the state as it was and goes on with `ctag_lines = 0`,
the uncompressed kind and `ctag_offset = 0`, without asking for a clear; the
rest of `gk20a_vm_map` then runs exactly as for the same buffer with the
uncompressed kind and no tag lines, so it returns 0 only if that map does.
When tags are cached on the buffer (`lines ≠ 0`), nothing is allocated, the
state stays, the cached offset is used and no clear is asked for. -/
theorem gk20a_vm_map_comptag_failure_not_fatal (g : Gk20a) (s : MmState) (env : Env)
    (dmabuf : DmaBuf) (flags kind : Nat) (user_mapped : Bool)
    (rw_flag buffer_offset mapping_size : Nat) (bfr : BufferAttrs) (va_allocated : Bool)
    (map_offset : Nat)
    (hwf : (gk20a_get_comptags s dmabuf.id).lines = 0 →
      (gk20a_get_comptags s dmabuf.id).offset = 0) :
    (s.vm.enable_ctag = true → bfr.ctag_lines ≠ 0 → (gk20a_get_comptags s dmabuf.id).lines = 0 →
      (gk20a_alloc_comptags s dmabuf.id bfr.ctag_lines).1 ≠ 0 →
      gk20a_vm_map_comptags s dmabuf bfr =
        ({ bfr with ctag_lines := 0, kind_v := bfr.uc_kind_v, ctag_offset := 0 }, false, s) ∧
      gk20a_vm_map_ptes g s env dmabuf flags kind user_mapped rw_flag buffer_offset mapping_size
          bfr va_allocated map_offset =
        gk20a_vm_map_ptes g s env dmabuf flags kind user_mapped rw_flag buffer_offset mapping_size
          { bfr with ctag_lines := 0, kind_v := bfr.uc_kind_v } va_allocated map_offset ∧
      ((gk20a_locked_gmmu_map g s env map_offset true buffer_offset mapping_size
          bfr.pgsz_idx.toNat bfr.uc_kind_v 0 flags rw_flag false false).1 ≠ 0 →
        gk20a_vm_map_ptes g s env dmabuf flags kind user_mapped rw_flag buffer_offset mapping_size
            bfr va_allocated map_offset =
          gk20a_vm_map_track (gk20a_locked_gmmu_map g s env map_offset true buffer_offset
            mapping_size bfr.pgsz_idx.toNat bfr.uc_kind_v 0 flags rw_flag false false).2 env dmabuf
            flags kind user_mapped mapping_size
            { bfr with ctag_lines := 0, kind_v := bfr.uc_kind_v, ctag_offset := 0 } va_allocated
            (gk20a_locked_gmmu_map g s env map_offset true buffer_offset mapping_size
              bfr.pgsz_idx.toNat bfr.uc_kind_v 0 flags rw_flag false false).1)) ∧
    ((gk20a_get_comptags s dmabuf.id).lines ≠ 0 →
      gk20a_vm_map_comptags s dmabuf bfr =
        ({ bfr with
            ctag_lines := if s.vm.enable_ctag = false then 0 else bfr.ctag_lines,
            ctag_offset := (gk20a_get_comptags s dmabuf.id).offset }, false, s)) := by
  refine ⟨fun hen hlines hnone hfail => ?_, fun hcached => ?_⟩
  · have hc : gk20a_vm_map_comptags s dmabuf bfr =
        ({ bfr with ctag_lines := 0, kind_v := bfr.uc_kind_v, ctag_offset := 0 }, false, s) := by
      unfold gk20a_vm_map_comptags
      simp only [hen, Bool.true_eq_false, if_false]
      rw [if_pos ⟨hlines, hnone⟩, if_pos hfail, gk20a_alloc_comptags_fail s _ _ hfail, hwf hnone]
    have hc0 : gk20a_vm_map_comptags s dmabuf { bfr with ctag_lines := 0, kind_v := bfr.uc_kind_v } =
        ({ bfr with ctag_lines := 0, kind_v := bfr.uc_kind_v, ctag_offset := 0 }, false, s) := by
      unfold gk20a_vm_map_comptags
      simp only [hen, Bool.true_eq_false, if_false, ne_eq, not_true_eq_false, false_and, hwf hnone]
    refine ⟨hc, ?_, ?_⟩
    · unfold gk20a_vm_map_ptes
      rw [hc, hc0]
    · intro hm
      unfold gk20a_vm_map_ptes
      rw [hc]
      simp only []
      rw [if_neg hm]
  · unfold gk20a_vm_map_comptags
    cases hen : s.vm.enable_ctag <;> simp [hcached]

theorem gk20a_vm_map_comptag_failure_not_fatal_witness :
    (gk20a_alloc_comptags sample_state_no_tags sample_buf_a.id sample_bfr_tags.ctag_lines).1 ≠ 0 ∧
    gk20a_vm_map_comptags sample_state_no_tags sample_buf_a sample_bfr_tags =
      ({ sample_bfr_tags with ctag_lines := 0, kind_v := 254, ctag_offset := 0 }, false,
        sample_state_no_tags) ∧
    gk20a_vm_map_ptes sample_g sample_state_no_tags sample_env sample_buf_a 0 219 false 0 0 0x20000
        sample_bfr_tags true 0 =
      gk20a_vm_map_ptes sample_g sample_state_no_tags sample_env sample_buf_a 0 219 false 0 0
        0x20000 { sample_bfr_tags with ctag_lines := 0, kind_v := 254 } true 0 :=
  have h := (gk20a_vm_map_comptag_failure_not_fatal sample_g sample_state_no_tags sample_env
    sample_buf_a 0 219 false 0 0 0x20000 sample_bfr_tags true 0 (fun _ => rfl)).1 (by decide)
    (by decide) (by decide) (by decide)
  ⟨by decide, h.1, h.2.1⟩

/-! ## User unmap of a fixed-offset mapping -/

/-- The wait loop stops at the first read of 1: when read `i + n` is the
first one that returns 1 and `n` is below the budget, `n` retries are used. -/
theorem sync_unmap_wait_stop (reads : Nat → Int) :
    ∀ retries i n, n < retries → reads (i + n) = 1 → (∀ j < n, reads (i + j) ≠ 1) →
      sync_unmap_wait reads retries i = retries - n := by
  intro retries
  induction retries with
  | zero => intro i n hn; omega
  | succ r ih =>
    intro i n hn h1 hne
    unfold sync_unmap_wait
    by_cases hr : reads i = 1
    · rw [if_pos hr]
      cases n with
      | zero => rfl
      | succ m => exact absurd hr (hne 0 (by omega))
    · rw [if_neg hr]
      cases n with
      | zero => exact absurd h1 hr
      | succ m =>
        rw [ih (i + 1) m (by omega) (by rw [← h1]; congr 1; omega)
          (fun j hj => by have := hne (j + 1) (by omega); rwa [show i + (j + 1) = i + 1 + j by omega] at this)]
        omega

/-- The wait loop runs out of retries when no read within the budget returns
1. -/
theorem sync_unmap_wait_timeout (reads : Nat → Int) :
    ∀ retries i, (∀ j < retries, reads (i + j) ≠ 1) → sync_unmap_wait reads retries i = 0 := by
  intro retries
  induction retries with
  | zero => intro i _; rfl
  | succ r ih =>
    intro i hne
    unfold sync_unmap_wait
    have h0 : reads i ≠ 1 := by simpa using hne 0 (by omega)
    rw [if_neg h0]
    exact ih (i + 1) (fun j hj => by
      have := hne (j + 1) (by omega)
      rwa [show i + (j + 1) = i + 1 + j by omega] at this)

/-- C25: for a registry entry `e` at `offset` with `0 < user_mapped < 2^32`:
the wait of `gk20a_vm_unmap_user` reads the reference count until a read
returns 1 or the budget of 1000 retries on silicon, 1000000 otherwise, is used
up, with one delay after every read that is not 1: it makes `n` delays when
read `n` (counted from 0, `n` below the budget) is the first that returns 1,
and as many delays as the budget when none of the reads within the budget
returns 1, so never more than the budget; for a fixed-offset entry the call is
that wait (recorded in the trace) followed by the decrement of `user_mapped`
and `kref_put`, for any other entry it is the decrement and `kref_put` alone,
whatever the reference count reads; and in both cases, whatever the wait saw,
the entry afterwards has `user_mapped` and the reference count one lower, or is
gone from the registry when the count was 1. -/
theorem gk20a_vm_unmap_user_wait (g : Gk20a) (s : MmState) (env : Env) (offset : Nat)
    (e : MappedBuffer) (hfind : find_mapped_buffer_locked s.vm.mapped_buffers offset = some e)
    (hum : 0 < e.user_mapped) (hlt : e.user_mapped < U32) :
    sync_unmap_delays g env ≤ (if g.tegra_platform_is_silicon then 1000 else 1000000) ∧
    (∀ n, n < (if g.tegra_platform_is_silicon then 1000 else 1000000) →
      env.refcount_reads n = 1 → (∀ i < n, env.refcount_reads i ≠ 1) →
      sync_unmap_delays g env = n) ∧
    ((∀ i < (if g.tegra_platform_is_silicon then 1000 else 1000000), env.refcount_reads i ≠ 1) →
      sync_unmap_delays g env = (if g.tegra_platform_is_silicon then 1000 else 1000000)) ∧
    (flag_set e.flags g.NVGPU_AS_MAP_BUFFER_FLAGS_FIXED_OFFSET = true →
      gk20a_vm_unmap_user g s env offset =
        kref_put
          (if e.user_mapped - 1 = 0 then
            (s.emit (.udelay 50 (sync_unmap_delays g env))).with_vm { s.vm with
              num_user_mapped_buffers := s.vm.num_user_mapped_buffers - 1 }
          else s.emit (.udelay 50 (sync_unmap_delays g env)))
          env { e with user_mapped := e.user_mapped - 1 }) ∧
    (flag_set e.flags g.NVGPU_AS_MAP_BUFFER_FLAGS_FIXED_OFFSET = false →
      (gk20a_vm_unmap_user g s env offset =
        kref_put
          (if e.user_mapped - 1 = 0 then
            s.with_vm { s.vm with num_user_mapped_buffers := s.vm.num_user_mapped_buffers - 1 }
          else s) env { e with user_mapped := e.user_mapped - 1 }) ∧
      ∀ reads, gk20a_vm_unmap_user g s { env with refcount_reads := reads } offset =
        gk20a_vm_unmap_user g s env offset) ∧
    (e.ref - 1 ≠ 0 →
      find_mapped_buffer_locked (gk20a_vm_unmap_user g s env offset).vm.mapped_buffers offset =
        some { e with user_mapped := e.user_mapped - 1, ref := e.ref - 1 }) ∧
    (e.ref - 1 = 0 →
      find_mapped_buffer_locked (gk20a_vm_unmap_user g s env offset).vm.mapped_buffers offset =
        none) := by
  have hu : u32 (e.user_mapped + U32 - 1) = e.user_mapped - 1 := by
    unfold u32
    have : e.user_mapped + U32 - 1 = (e.user_mapped - 1) + U32 := by omega
    rw [this, Nat.add_mod_right, Nat.mod_eq_of_lt (by omega)]
  have hea : e.addr = offset := (find_mapped_buffer_locked_some _ _ _ hfind).2
  refine ⟨?_, ?_, ?_, ?_, ?_, ?_, ?_⟩
  · unfold sync_unmap_delays
    simp only []
    split <;> exact Nat.sub_le _ _
  · intro n hn h1 hne
    unfold sync_unmap_delays
    simp only []
    generalize (if g.tegra_platform_is_silicon then 1000 else 1000000) = budget at hn ⊢
    rw [sync_unmap_wait_stop env.refcount_reads budget 0 n hn (by rwa [Nat.zero_add])
      (fun j hj => by rw [Nat.zero_add]; exact hne j hj)]
    omega
  · intro hne
    unfold sync_unmap_delays
    simp only []
    generalize (if g.tegra_platform_is_silicon then 1000 else 1000000) = budget at hne ⊢
    rw [sync_unmap_wait_timeout env.refcount_reads budget 0
      (fun j hj => by rw [Nat.zero_add]; exact hne j hj)]
    rfl
  · intro hf
    unfold gk20a_vm_unmap_user
    rw [hfind]
    simp only [hf, if_true, hu]
    split <;> rfl
  · intro hf
    refine ⟨?_, fun reads => ?_⟩
    · unfold gk20a_vm_unmap_user
      rw [hfind]
      simp only [hf, Bool.false_eq_true, if_false, hu]
    · unfold gk20a_vm_unmap_user
      rw [hfind]
      simp only [hf, Bool.false_eq_true, if_false, hu]
      rfl
  · intro hr
    subst hea
    rw [gk20a_vm_unmap_user_mapped_buffers g s env e.addr e hfind, if_neg hr, hu,
      find_mapped_buffer_locked_modify s.vm.mapped_buffers e.addr e.addr
        (fun _ => { e with user_mapped := e.user_mapped - 1, ref := e.ref - 1 })
        (fun _ _ => rfl), hfind]
    simp
  · intro hr
    subst hea
    rw [gk20a_vm_unmap_user_mapped_buffers g s env e.addr e hfind, if_pos hr]
    exact find_mapped_buffer_locked_erase e _

/-- On the sample entry (fixed offset, one user mapping, count 1): when the
count always reads 2 the wait makes all 1000 delays, when it reads 1 at the
fourth read it makes 3, and in both cases the entry is gone afterwards. -/
theorem gk20a_vm_unmap_user_wait_witness :
    sync_unmap_delays sample_g sample_env_busy = 1000 ∧
    find_mapped_buffer_locked
      (gk20a_vm_unmap_user sample_g sample_vm_fixed_user sample_env_busy
        0x400000000).vm.mapped_buffers 0x400000000 = none ∧
    sync_unmap_delays sample_g sample_env_settles = 3 ∧
    find_mapped_buffer_locked
      (gk20a_vm_unmap_user sample_g sample_vm_fixed_user sample_env_settles
        0x400000000).vm.mapped_buffers 0x400000000 = none :=
  have h := gk20a_vm_unmap_user_wait sample_g sample_vm_fixed_user sample_env_busy 0x400000000
    { sample_buffer 1 0x400000000 0x10000 with
        pgsz_idx := 1, flags := 1, va_allocated := false, user_mapped := 1,
        va_node := some { vaddr_start := 0x400000000, sparse := false } }
    (by decide) (by decide) (by decide)
  have h' := gk20a_vm_unmap_user_wait sample_g sample_vm_fixed_user sample_env_settles 0x400000000
    { sample_buffer 1 0x400000000 0x10000 with
        pgsz_idx := 1, flags := 1, va_allocated := false, user_mapped := 1,
        va_node := some { vaddr_start := 0x400000000, sparse := false } }
    (by decide) (by decide) (by decide)
  ⟨h.2.2.1 (fun _ _ => (by decide : (2 : Int) ≠ 1)), h.2.2.2.2.2.2 (by decide),
    h'.2.1 3 (by decide) (by decide) (by decide), h'.2.2.2.2.2.2 (by decide)⟩

/-! ## The user-mapped counter -/

/-- C26 (failing input): `sample_mapped_once` holds one kernel mapping
(`user_mapped = 0`, count 1) at `0x4000000` and the counter is 0. A
`gk20a_vm_unmap_user` on that address decrements `user_mapped` from 0 to
`0xffffffff`, leaves the counter, and drops the last reference, so the
teardown sees `user_mapped != 0` and decrements the counter: the registry is
empty and `num_user_mapped_buffers` is -1, and `gk20a_vm_get_buffers` hits its
`BUG_ON`. When the mapping has count 2 (`sample_mapped_twice`), the entry stays
with `user_mapped = 0xffffffff` while the counter is 0, and the `BUG_ON` fires
as well. -/
theorem gk20a_vm_unmap_user_kernel_mapping_breaks_counter :
    sample_mapped_once.vm.num_user_mapped_buffers = 0 ∧
    sample_mapped_once.vm.mapped_buffers.toList.map MappedBuffer.user_mapped = [0] ∧
    (gk20a_vm_get_buffers sample_mapped_once true).isSome = true ∧
    (gk20a_vm_unmap_user sample_g sample_mapped_once sample_env
      0x4000000).vm.num_user_mapped_buffers = -1 ∧
    (gk20a_vm_unmap_user sample_g sample_mapped_once sample_env
      0x4000000).vm.mapped_buffers.toList = [] ∧
    (gk20a_vm_get_buffers
      (gk20a_vm_unmap_user sample_g sample_mapped_once sample_env 0x4000000) true).isSome = false ∧
    (gk20a_vm_unmap_user sample_g sample_mapped_twice sample_env
      0x4000000).vm.num_user_mapped_buffers = 0 ∧
    (gk20a_vm_unmap_user sample_g sample_mapped_twice sample_env
      0x4000000).vm.mapped_buffers.toList.map MappedBuffer.user_mapped = [0xffffffff] ∧
    (gk20a_vm_get_buffers
      (gk20a_vm_unmap_user sample_g sample_mapped_twice sample_env 0x4000000) true).isSome =
        false := by
  decide

/-! ## Compression tags along the walk -/

theorem call_update_entry_ctag (g : Gk20a) (hw : GmmuHw) (page_size : Nat) (fn : UpdateEntry)
    (pt : PageTables) (pte : EntryPtr) (pde_i pgsz_idx iova kind_v ctag : Nat)
    (cacheable unmapped_pte : Bool) (rw_flag : Nat) (sparse : Bool) :
    (call_update_entry g hw page_size fn pt pte pde_i pgsz_idx iova kind_v ctag cacheable
      unmapped_pte rw_flag sparse).2.2 =
      (EntryCall.mk fn pte pde_i iova ctag).ctag_after page_size := by
  cases fn
  · rfl
  · unfold call_update_entry update_gmmu_pte_locked EntryCall.ctag_after
    simp only []
    split_ifs <;> rfl

theorem CtagChain.append (ps : Nat) (a b : List EntryCall) (c c' c'' : Nat)
    (h1 : CtagChain ps c a c') (h2 : CtagChain ps c' b c'') : CtagChain ps c (a ++ b) c'' := by
  induction a generalizing c with
  | nil => simp only [CtagChain] at h1; subst h1; exact h2
  | cons x xs ih => exact ⟨h1.1, ih _ h1.2⟩

/-- Whatever path the walk takes, the calls it records pass `*ctag` along. -/
theorem update_gmmu_level_loop_ctag_chain (g : Gk20a) (hw : GmmuHw) (env : PtEnv)
    (levels : List Gk20aMmuLevel) (page_size pgsz_idx kind_v : Nat) (cacheable unmapped_pte : Bool)
    (rw_flag : Nat) (sparse : Bool) :
    ∀ (fuel gpu_end lvl : Nat) (pt : PageTables) (pte : EntryPtr) (pde_i iova gpu_va ctag : Nat)
      (calls : List EntryCall) (r : Int × PageTables × Nat × List EntryCall),
      update_gmmu_level_loop g hw env levels page_size pgsz_idx kind_v cacheable unmapped_pte
        rw_flag sparse gpu_end fuel lvl pt pte pde_i iova gpu_va ctag calls = some r →
      ∃ new, r.2.2.2 = calls ++ new ∧ CtagChain page_size ctag new r.2.2.1 := by
  intro fuel
  induction fuel with
  | zero =>
    intro gpu_end lvl pt pte pde_i iova gpu_va ctag calls r h
    simp [update_gmmu_level_loop] at h
  | succ f ih =>
    intro gpu_end lvl pt pte pde_i iova gpu_va ctag calls r h
    rw [update_gmmu_level_loop] at h
    by_cases hlt : gpu_va < gpu_end
    swap
    · simp only [hlt, not_false_eq_true, if_true, Option.some.injEq] at h
      subst h
      exact ⟨[], by simp, rfl⟩
    simp only [hlt, not_true_eq_false, if_false] at h
    generalize alloc_next_level hw env (mmu_level levels lvl) (mmu_level levels (lvl + 1)) pt pte
      pde_i pgsz_idx = a at h
    by_cases ha : a.1 ≠ 0
    · rw [if_pos ha] at h
      simp only [Option.some.injEq] at h
      subst h
      exact ⟨[], by simp, rfl⟩
    rw [if_neg ha] at h
    cases hfn : (mmu_level levels lvl).update_entry with
    | none => rw [hfn] at h; simp at h
    | some fn =>
      rw [hfn] at h
      simp only [] at h
      have hct := call_update_entry_ctag g hw page_size fn a.2 pte pde_i pgsz_idx iova kind_v ctag
        cacheable unmapped_pte rw_flag sparse
      generalize call_update_entry g hw page_size fn a.2 pte pde_i pgsz_idx iova kind_v ctag
        cacheable unmapped_pte rw_flag sparse = u at h hct
      have hx : CtagChain page_size ctag [EntryCall.mk fn pte pde_i iova ctag] u.2.2 :=
        ⟨rfl, hct⟩
      by_cases hu : u.1 ≠ 0
      · rw [if_pos hu] at h
        simp only [Option.some.injEq] at h
        subst h
        exact ⟨[EntryCall.mk fn pte pde_i iova ctag], rfl, hx⟩
      rw [if_neg hu] at h
      have hdown : ∀ d, (if (mmu_level levels (lvl + 1)).update_entry.isSome = true then
            if env.map_pages_ok (pte ++ [pde_i]) = false then
              some (-ENOMEM, u.2.1, u.2.2, calls ++ [EntryCall.mk fn pte pde_i iova ctag])
            else
              update_gmmu_level_loop g hw env levels page_size pgsz_idx kind_v cacheable
                unmapped_pte rw_flag sparse
                (level_next (mmu_level levels lvl) pgsz_idx gpu_va gpu_end) f (lvl + 1) u.2.1
                (pte ++ [pde_i]) (pde_index (mmu_level levels (lvl + 1)) pgsz_idx gpu_va) iova
                gpu_va u.2.2 (calls ++ [EntryCall.mk fn pte pde_i iova ctag])
          else some (0, u.2.1, u.2.2, calls ++ [EntryCall.mk fn pte pde_i iova ctag])) = some d →
          ∃ new, d.2.2.2 = calls ++ new ∧ CtagChain page_size ctag new d.2.2.1 := by
        intro d hd
        split_ifs at hd
        · simp only [Option.some.injEq] at hd
          subst hd
          exact ⟨[EntryCall.mk fn pte pde_i iova ctag], rfl, hx⟩
        · obtain ⟨new, h1, h2⟩ := ih _ _ _ _ _ _ _ _ _ _ hd
          exact ⟨EntryCall.mk fn pte pde_i iova ctag :: new, by rw [h1]; simp,
            CtagChain.append _ [_] new _ _ _ hx h2⟩
        · simp only [Option.some.injEq] at hd
          subst hd
          exact ⟨[EntryCall.mk fn pte pde_i iova ctag], rfl, hx⟩
      generalize (if (mmu_level levels (lvl + 1)).update_entry.isSome = true then
            if env.map_pages_ok (pte ++ [pde_i]) = false then
              some (-ENOMEM, u.2.1, u.2.2, calls ++ [EntryCall.mk fn pte pde_i iova ctag])
            else
              update_gmmu_level_loop g hw env levels page_size pgsz_idx kind_v cacheable
                unmapped_pte rw_flag sparse
                (level_next (mmu_level levels lvl) pgsz_idx gpu_va gpu_end) f (lvl + 1) u.2.1
                (pte ++ [pde_i]) (pde_index (mmu_level levels (lvl + 1)) pgsz_idx gpu_va) iova
                gpu_va u.2.2 (calls ++ [EntryCall.mk fn pte pde_i iova ctag])
          else some (0, u.2.1, u.2.2, calls ++ [EntryCall.mk fn pte pde_i iova ctag])) = down
        at h hdown
      cases down with
      | none => simp at h
      | some d =>
        obtain ⟨new1, h1, h2⟩ := hdown d rfl
        simp only [] at h
        by_cases hd : d.1 ≠ 0
        · rw [if_pos hd] at h
          simp only [Option.some.injEq] at h
          subst h
          exact ⟨new1, h1, h2⟩
        · rw [if_neg hd] at h
          obtain ⟨new2, h3, h4⟩ := ih _ _ _ _ _ _ _ _ _ _ h
          exact ⟨new1 ++ new2, by rw [h3, h1, List.append_assoc],
            CtagChain.append _ new1 new2 _ _ _ h2 h4⟩

theorem leaf_calls_length (calls : List EntryCall) :
    (leaf_calls calls).length = (leaf_ctags calls).length := by
  induction calls with
  | nil => rfl
  | cons x xs ih =>
    unfold leaf_calls leaf_ctags at ih ⊢
    by_cases hx : x.fn = UpdateEntry.update_gmmu_pte_locked
    · simp [List.filterMap_cons, hx, ih]
    · simp [List.filterMap_cons, hx, ih]

/-- Along a chain whose leaf calls all have a non-zero `iova`, the `k`-th leaf
call sees `c + k * page_size` when `c` is non-zero (and nothing overflows 32
bits), and 0 when `c` is 0. -/
theorem CtagChain.leaf_ctags_eq (ps : Nat) (hps : ps < U32) (new : List EntryCall) :
    ∀ (c c' : Nat), CtagChain ps c new c' →
      (∀ x ∈ new, x.fn = UpdateEntry.update_gmmu_pte_locked → x.iova ≠ 0) →
      (c ≠ 0 → c + (leaf_ctags new).length * ps < U32) →
      leaf_ctags new = (List.range (leaf_ctags new).length).map (fun k =>
        if c = 0 then 0 else c + k * ps) := by
  induction new with
  | nil => intro c c' _ _ _; rfl
  | cons x xs ih =>
    intro c c' hch hio hov
    obtain ⟨hxc, hrest⟩ := hch
    by_cases hx : x.fn = UpdateEntry.update_gmmu_pte_locked
    · have hcons : leaf_ctags (x :: xs) = c :: leaf_ctags xs := by
        simp [leaf_ctags, List.filterMap_cons, hx, hxc]
      have hi := hio x (List.mem_cons_self _ _) hx
      rw [hcons] at hov ⊢
      simp only [List.length_cons] at hov ⊢
      have hafter : x.ctag_after ps = if c = 0 then 0 else c + ps := by
        unfold EntryCall.ctag_after
        rw [hx, hxc]
        simp only [hi, ne_eq, not_false_eq_true, if_true]
        by_cases hc : c = 0
        · simp [hc]
        · have h1 := hov hc
          have h2 : u32 ps = ps := Nat.mod_eq_of_lt hps
          have h3 : (leaf_ctags xs).length * ps + ps = ((leaf_ctags xs).length + 1) * ps := by ring
          have h4 : 0 ≤ (leaf_ctags xs).length * ps := Nat.zero_le _
          simp only [hc, not_false_eq_true, if_true, if_false, h2]
          exact Nat.mod_eq_of_lt (by omega)
      rw [hafter] at hrest
      have hih := ih _ c' hrest (fun y hy => hio y (List.mem_cons_of_mem _ hy)) (by
        intro hne
        by_cases hc : c = 0
        · simp [hc] at hne
        · have h1 := hov hc
          have h3 : (leaf_ctags xs).length * ps + ps = ((leaf_ctags xs).length + 1) * ps := by ring
          simp only [hc, if_false]
          omega)
      rw [List.range_succ_eq_map, List.map_cons, List.map_map]
      congr 1
      · by_cases hc : c = 0 <;> simp [hc]
      · rw [hih]
        simp only [List.length_map, List.length_range]
        apply List.map_congr_left
        intro k _
        simp only [Function.comp]
        by_cases hc : c = 0
        · simp [hc]
        · have hne : c + ps ≠ 0 := by omega
          simp only [hc, if_false, hne, Nat.succ_eq_add_one, Nat.add_mul, Nat.one_mul]
          omega
    · have hcons : leaf_ctags (x :: xs) = leaf_ctags xs := by
        simp [leaf_ctags, List.filterMap_cons, hx]
      have hafter : x.ctag_after ps = c := by
        unfold EntryCall.ctag_after
        cases hfn : x.fn
        · exact hxc
        · exact absurd hfn hx
      rw [hafter] at hrest
      rw [hcons] at hov ⊢
      exact ih c c' hrest (fun y hy => hio y (List.mem_cons_of_mem _ hy)) hov

theorem mem_leaf_calls (calls : List EntryCall) (x : EntryCall) (hx : x ∈ calls)
    (hfn : x.fn = UpdateEntry.update_gmmu_pte_locked) : (x.pte, x.i, x.iova) ∈ leaf_calls calls := by
  unfold leaf_calls
  rw [List.mem_filterMap]
  exact ⟨x, hx, by simp [hfn]⟩

/-- C22: when `update_gmmu_ptes_locked` populates the `n` pages of a
page-aligned range inside the aperture from a scatter table (non-zero `iova`,
every allocation succeeding) with tag offset `c`, granularity `g` and page size
`p`, and `c * g + n * p` fits in 32 bits, it returns 0 and the `k`-th leaf
update (`k = 0..n-1`) is called with `*ctag = c * g + k * p`, so the
comptagline it writes is `(c * g + k * p) div g`; when `c * g` is 0 every leaf
update is called with `*ctag = 0` and writes comptagline 0. -/
theorem update_gmmu_ptes_locked_ctag_lines (g : Gk20a) (hw : GmmuHw) (env : PtEnv)
    (big_page_size page_size fuel : Nat) (pt : PageTables) (pgsz_idx : Nat) (sgl : ScatterHead)
    (buffer_offset gpu_va gpu_end kind_v ctag_offset : Nat) (cacheable unmapped_pte : Bool)
    (rw_flag : Nat) (sparse : Bool)
    (henv : ∀ e, env.vzalloc_ok e = true ∧ env.alloc_pages_ok e = true ∧ env.map_pages_ok e = true)
    (_hidx : pgsz_idx ≤ 1) (hrange : g.NV_GMMU_VA_RANGE ≤ 58)
    (hlt : gpu_va < gpu_end) (hend : gpu_end ≤ 2 ^ g.NV_GMMU_VA_RANGE)
    (hva : gpu_va % 2 ^ (mmu_level (gk20a_mm_get_mmu_levels g big_page_size) 1).lo_bit pgsz_idx = 0)
    (hve : gpu_end % 2 ^ (mmu_level (gk20a_mm_get_mmu_levels g big_page_size) 1).lo_bit pgsz_idx = 0)
    (hbo : buffer_offset &&& u32 (u32 page_size + U32 - 1) = 0)
    (hiova : 0 < gk20a_mm_iova_addr hw sgl + buffer_offset ∧
      gk20a_mm_iova_addr hw sgl + buffer_offset + (gpu_end - gpu_va) < U64)
    (hps : page_size < U32) (hgran : g.compression_page_size < U32)
    (hov : ctag_offset * g.compression_page_size + (gpu_end - gpu_va) /
      2 ^ (mmu_level (gk20a_mm_get_mmu_levels g big_page_size) 1).lo_bit pgsz_idx * page_size < U32)
    (hfuel : gpu_end / 2 ^ (mmu_level (gk20a_mm_get_mmu_levels g big_page_size) 0).lo_bit pgsz_idx +
      (gpu_end - gpu_va) /
        2 ^ (mmu_level (gk20a_mm_get_mmu_levels g big_page_size) 1).lo_bit pgsz_idx + 2 ≤ fuel) :
    ∃ pt' calls,
      update_gmmu_ptes_locked_tables g hw env (gk20a_mm_get_mmu_levels g big_page_size) page_size
        fuel pt pgsz_idx (some sgl) buffer_offset gpu_va gpu_end kind_v ctag_offset cacheable
        unmapped_pte rw_flag sparse = some (0, pt', calls) ∧
      leaf_ctags calls =
        (List.range ((gpu_end - gpu_va) /
          2 ^ (mmu_level (gk20a_mm_get_mmu_levels g big_page_size) 1).lo_bit pgsz_idx)).map
          (fun k => if ctag_offset * g.compression_page_size = 0 then 0
            else ctag_offset * g.compression_page_size + k * page_size) ∧
      (leaf_ctags calls).map (fun c => c / u32 g.compression_page_size) =
        (List.range ((gpu_end - gpu_va) /
          2 ^ (mmu_level (gk20a_mm_get_mmu_levels g big_page_size) 1).lo_bit pgsz_idx)).map
          (fun k => if ctag_offset * g.compression_page_size = 0 then 0
            else (ctag_offset * g.compression_page_size + k * page_size) /
              g.compression_page_size) := by
  obtain ⟨h0, h1, h2, hhi0, hhi1, h12, hlo, h26, h27⟩ :=
    gk20a_mm_get_mmu_levels_shape g big_page_size pgsz_idx
  have hR1 : 1 ≤ g.NV_GMMU_VA_RANGE := by
    by_contra hc
    have hz : g.NV_GMMU_VA_RANGE = 0 := by omega
    rw [hz, pow_zero] at hend
    have he1 : gpu_end = 1 := by omega
    have hp : 2 ^ 1 ≤ 2 ^ (mmu_level (gk20a_mm_get_mmu_levels g big_page_size) 1).lo_bit pgsz_idx :=
      Nat.pow_le_pow_right (by norm_num) (by omega)
    rw [he1, Nat.mod_eq_of_lt (by omega)] at hve
    exact absurd hve (by norm_num)
  have hsub : 0 ≤ gpu_end - gpu_va := Nat.zero_le _
  have hiv : u64 (gk20a_mm_iova_addr hw sgl + buffer_offset) =
      gk20a_mm_iova_addr hw sgl + buffer_offset := Nat.mod_eq_of_lt (by omega)
  have hnn : 0 ≤ (gpu_end - gpu_va) /
      2 ^ (mmu_level (gk20a_mm_get_mmu_levels g big_page_size) 1).lo_bit pgsz_idx * page_size :=
    Nat.zero_le _
  have hct : u32 (ctag_offset * g.compression_page_size) = ctag_offset * g.compression_page_size :=
    Nat.mod_eq_of_lt (by omega)
  obtain ⟨pt', ctag', calls, hrun, hcalls⟩ := update_gmmu_level_locked_two_level g hw env _
    page_size fuel pt pgsz_idx (gk20a_mm_iova_addr hw sgl + buffer_offset) gpu_va gpu_end kind_v
    (ctag_offset * g.compression_page_size) cacheable unmapped_pte rw_flag sparse
    g.NV_GMMU_VA_RANGE henv h0 h1 h2 (by rw [hhi0]; omega) hhi1 hlo (by omega) (by omega) hlt hend
    hva hve (fun _ => hiova.2) hfuel
  obtain ⟨new, hnew, hchain⟩ := update_gmmu_level_loop_ctag_chain g hw env _ page_size pgsz_idx
    kind_v cacheable unmapped_pte rw_flag sparse _ _ _ _ _ _ _ _ _ _ _ hrun
  simp only [List.nil_append] at hnew
  subst hnew
  have hlen : (leaf_ctags calls).length = (gpu_end - gpu_va) /
      2 ^ (mmu_level (gk20a_mm_get_mmu_levels g big_page_size) 1).lo_bit pgsz_idx := by
    rw [← leaf_calls_length, hcalls, List.length_map, List.length_range]
  have hio : ∀ x ∈ calls, x.fn = UpdateEntry.update_gmmu_pte_locked → x.iova ≠ 0 := by
    intro x hx hfn
    have hm := mem_leaf_calls calls x hx hfn
    rw [hcalls, List.mem_map] at hm
    obtain ⟨j, _, hj⟩ := hm
    have hne : gk20a_mm_iova_addr hw sgl + buffer_offset ≠ 0 := by omega
    simp only [hne, if_false, Prod.mk.injEq] at hj
    rw [← hj.2.2]
    omega
  have hleaf := CtagChain.leaf_ctags_eq page_size hps calls _ _ hchain hio (by
    intro _; rw [hlen]; exact hov)
  rw [hlen] at hleaf
  refine ⟨pt', calls, ?_, hleaf, ?_⟩
  · unfold update_gmmu_ptes_locked_tables
    simp only [hbo, ne_eq, not_true_eq_false, if_false, (henv []).2.2, Bool.true_eq_false, hiv,
      hct, hrun, Option.map_some']
  · rw [hleaf, List.map_map]
    apply List.map_congr_left
    intro k _
    simp only [Function.comp]
    by_cases hc : ctag_offset * g.compression_page_size = 0
    · simp [hc]
    · simp only [hc, if_false]
      rw [show u32 g.compression_page_size = g.compression_page_size from
        Nat.mod_eq_of_lt hgran]

theorem update_gmmu_ptes_locked_ctag_lines_witness :
    ∃ pt' calls,
      update_gmmu_ptes_locked_tables sample_g sample_hw sample_pt_env
        (gk20a_mm_get_mmu_levels sample_g 65536) 4096 20 sample_pt 0
        (some { sg_dma_address := 0x100000, sg_phys := 0 }) 0 0x3fff000 0x4002000 0 1 true false 0
        false = some (0, pt', calls) ∧
      leaf_ctags calls = [131072, 135168, 139264] ∧
      (leaf_ctags calls).map (fun c => c / u32 sample_g.compression_page_size) = [1, 1, 1] :=
  update_gmmu_ptes_locked_ctag_lines sample_g sample_hw sample_pt_env 65536 4096 20 sample_pt 0
    { sg_dma_address := 0x100000, sg_phys := 0 } 0 0x3fff000 0x4002000 0 1 true false 0 false
    (fun _ => ⟨rfl, rfl, rfl⟩) (by decide) (by decide) (by decide) (by decide) (by decide)
    (by decide) (by decide) (by decide) (by decide) (by decide) (by decide) (by decide)

/-! ## Teardown of a mapping's leaf entries -/

/-- The cell of a page-aligned address `va` in a directory with cells of `q`
pages of `P` bytes: where the cell ends, which pages lie in it, and where the
walk goes on when the range reaches beyond the cell. -/
theorem cell_step_facts_any (va gpu_end P q : Nat) (hP : 0 < P) (hq : 0 < q) (hal : va % P = 0) :
    va % (P * q) / P < q ∧
    (va / (P * q) + 1) * (P * q) = va + (q - va % (P * q) / P) * P ∧
    (∀ j, va + j * P < (va / (P * q) + 1) * (P * q) →
      (va + j * P) / (P * q) = va / (P * q) ∧
        (va + j * P) % (P * q) / P = va % (P * q) / P + j) ∧
    (min ((va / (P * q) + 1) * (P * q)) gpu_end < gpu_end →
      min ((va / (P * q) + 1) * (P * q)) gpu_end = (va / (P * q) + 1) * (P * q) ∧
      min ((va / (P * q) + 1) * (P * q)) gpu_end / (P * q) = va / (P * q) + 1 ∧
      min ((va / (P * q) + 1) * (P * q)) gpu_end % P = 0 ∧
      ∀ k, gpu_end ≤ (va / (P * q) + (k + 1)) * (P * q) →
        gpu_end ≤ (min ((va / (P * q) + 1) * (P * q)) gpu_end / (P * q) + k) * (P * q)) := by
  obtain ⟨a, rfl⟩ := Nat.dvd_of_mod_eq_zero hal
  have hdiv : P * a / (P * q) = a / q := Nat.mul_div_mul_left a q hP
  have hmod : P * a % (P * q) = P * (a % q) := Nat.mul_mod_mul_left P a q
  have hdm := Nat.div_add_mod a q
  have hr := Nat.mod_lt a hq
  have hce : (a / q + 1) * (P * q) = P * ((a / q + 1) * q) := by ring
  have hcq : (a / q + 1) * q = q * (a / q) + q := by ring
  rw [hdiv, hmod, Nat.mul_div_cancel_left _ hP, hce]
  refine ⟨hr, ?_, ?_, ?_⟩
  · rw [Nat.mul_comm _ P, ← Nat.mul_add]
    congr 1
    omega
  · intro j hj
    have hj2 : P * a + j * P = P * (a + j) := by ring
    rw [hj2] at hj
    have hj3 : a + j < (a / q + 1) * q := Nat.lt_of_mul_lt_mul_left hj
    have hin : P * a + (j + 1) * P ≤ (P * a / (P * q) + 1) * (P * q) := by
      rw [hdiv, hce]
      calc P * a + (j + 1) * P = P * (a + (j + 1)) := by ring
        _ ≤ P * ((a / q + 1) * q) := Nat.mul_le_mul_left P (by omega)
    have := cell_leaf_index (P * a) P q j hP hq hin
    rw [hdiv, hmod, Nat.mul_div_cancel_left _ hP] at this
    exact this
  · intro hlt2
    have hmn : min (P * ((a / q + 1) * q)) gpu_end = P * ((a / q + 1) * q) := by
      rcases Nat.le_total (P * ((a / q + 1) * q)) gpu_end with h | h
      · exact min_eq_left h
      · rw [min_eq_right h] at hlt2; exact absurd hlt2 (lt_irrefl _)
    rw [hmn]
    have hd2 : P * ((a / q + 1) * q) / (P * q) = a / q + 1 := by
      rw [Nat.mul_div_mul_left _ _ hP, Nat.mul_div_cancel _ hq]
    rw [hd2]
    refine ⟨rfl, rfl, Nat.mul_mod_right _ _, fun k hk => ?_⟩
    have : (a / q + (k + 1)) * (P * q) = (a / q + 1 + k) * (P * q) := by ring
    rw [← this]
    exact hk

theorem alloc_gmmu_pages_mem (hw : GmmuHw) (env : PtEnv) (pt : PageTables) (order : Nat)
    (entry e : EntryPtr) (he : e ≠ entry) :
    (alloc_gmmu_pages hw env pt order entry).2.mem e = pt.mem e := by
  unfold alloc_gmmu_pages
  simp only []
  split_ifs <;> simp [he]

theorem gk20a_zalloc_gmmu_page_table_mem (hw : GmmuHw) (env : PtEnv) (pt : PageTables)
    (pgsz_idx : Nat) (l : Gk20aMmuLevel) (entry e : EntryPtr) (he : e ≠ entry) :
    (gk20a_zalloc_gmmu_page_table hw env pt pgsz_idx l entry).2.mem e = pt.mem e := by
  unfold gk20a_zalloc_gmmu_page_table
  simp only []
  split
  · exact alloc_gmmu_pages_mem hw env pt _ entry e he
  · exact alloc_gmmu_pages_mem hw env pt _ entry e he

/-- The block "Allocate next level" touches the memory of the new table only. -/
theorem alloc_next_level_mem (hw : GmmuHw) (env : PtEnv) (l next_l : Gk20aMmuLevel)
    (pt : PageTables) (pte : EntryPtr) (pde_i pgsz_idx : Nat) (e : EntryPtr)
    (he : e ≠ pte ++ [pde_i]) :
    (alloc_next_level hw env l next_l pt pte pde_i pgsz_idx).2.mem e = pt.mem e := by
  have key : ∀ grown : PageTables, grown.mem = pt.mem →
      (if grown.has_entries pte = false then ((-ENOMEM : Int), grown)
        else if grown.size (pte ++ [pde_i]) = 0 then
          gk20a_zalloc_gmmu_page_table hw env grown pgsz_idx next_l (pte ++ [pde_i])
        else (0, grown)).2.mem e = pt.mem e := by
    intro grown hg
    split
    · rw [hg]
    · split
      · rw [gk20a_zalloc_gmmu_page_table_mem hw env grown pgsz_idx next_l _ e he, hg]
      · rw [hg]
  unfold alloc_next_level
  by_cases hn : next_l.update_entry.isSome = false
  · rw [if_pos hn]
  · rw [if_neg hn]
    apply key
    split <;> rfl

/-- A leaf update with `iova = 0` stores the invalid encoding, or the
invalid-but-volatile one for a sparse range, and leaves `*ctag`. -/
theorem call_update_entry_pte_unmap (g : Gk20a) (hw : GmmuHw) (page_size : Nat)
    (pt : PageTables) (pte : EntryPtr) (pde_i pgsz_idx kind_v ctag : Nat)
    (cacheable unmapped_pte : Bool) (rw_flag : Nat) (sparse : Bool) :
    call_update_entry g hw page_size UpdateEntry.update_gmmu_pte_locked pt pte pde_i pgsz_idx 0
      kind_v ctag cacheable unmapped_pte rw_flag sparse =
      (0, pt.write pte pde_i (if sparse then hw.gmmu_pte_valid_false_f else 0)
        (if sparse then hw.gmmu_pte_vol_true_f else 0), ctag) := by
  unfold call_update_entry update_gmmu_pte_locked
  cases sparse <;> simp

/-- The loop at the leaf level with `iova = 0`: every page of the range gets
the invalid encoding at its index, and nothing else in the tables changes
below the starting index or in another table. -/
theorem update_gmmu_level_loop_leaf_unmap (g : Gk20a) (hw : GmmuHw) (env : PtEnv)
    (levels : List Gk20aMmuLevel) (page_size pgsz_idx kind_v : Nat) (cacheable unmapped_pte : Bool)
    (rw_flag : Nat) (sparse : Bool) (lvl : Nat)
    (hfn : (mmu_level levels lvl).update_entry = some UpdateEntry.update_gmmu_pte_locked)
    (hlast : (mmu_level levels (lvl + 1)).update_entry = none)
    (hlo : (mmu_level levels lvl).lo_bit pgsz_idx < 64) (pte : EntryPtr) (gpu_end : Nat) :
    ∀ (m fuel : Nat) (pt : PageTables) (pde_i gpu_va ctag : Nat) (calls : List EntryCall),
      (gpu_va < gpu_end → gpu_va % 2 ^ (mmu_level levels lvl).lo_bit pgsz_idx = 0) →
      gpu_end ≤ gpu_va + m * 2 ^ (mmu_level levels lvl).lo_bit pgsz_idx →
      gpu_va + (m + 1) * 2 ^ (mmu_level levels lvl).lo_bit pgsz_idx < U64 →
      pde_i + m < U32 → m + 1 ≤ fuel →
      ∃ pt' ctag' calls',
        update_gmmu_level_loop g hw env levels page_size pgsz_idx kind_v cacheable unmapped_pte
          rw_flag sparse gpu_end fuel lvl pt pte pde_i 0 gpu_va ctag calls =
            some (0, pt', ctag', calls') ∧
        (∀ k, gpu_va + k * 2 ^ (mmu_level levels lvl).lo_bit pgsz_idx < gpu_end →
          pt'.mem pte (pde_i + k) = (u32 (if sparse then hw.gmmu_pte_valid_false_f else 0),
            u32 (if sparse then hw.gmmu_pte_vol_true_f else 0))) ∧
        (∀ e j, (e ≠ pte ∨ j < pde_i) → pt'.mem e j = pt.mem e j) := by
  have hP : 0 < 2 ^ (mmu_level levels lvl).lo_bit pgsz_idx := Nat.two_pow_pos _
  generalize hPdef : 2 ^ (mmu_level levels lvl).lo_bit pgsz_idx = P at *
  have hdone : ∀ (fuel : Nat) (pt : PageTables) (pde_i gpu_va ctag : Nat)
      (calls : List EntryCall), ¬ gpu_va < gpu_end → 1 ≤ fuel →
      ∃ pt' ctag' calls',
        update_gmmu_level_loop g hw env levels page_size pgsz_idx kind_v cacheable unmapped_pte
          rw_flag sparse gpu_end fuel lvl pt pte pde_i 0 gpu_va ctag calls =
            some (0, pt', ctag', calls') ∧
        (∀ k, gpu_va + k * P < gpu_end →
          pt'.mem pte (pde_i + k) = (u32 (if sparse then hw.gmmu_pte_valid_false_f else 0),
            u32 (if sparse then hw.gmmu_pte_vol_true_f else 0))) ∧
        (∀ e j, (e ≠ pte ∨ j < pde_i) → pt'.mem e j = pt.mem e j) := by
    intro fuel pt pde_i gpu_va ctag calls hge hfuel
    obtain ⟨f, rfl⟩ : ∃ f, fuel = f + 1 := ⟨fuel - 1, by omega⟩
    refine ⟨pt, ctag, calls, update_gmmu_level_loop_done _ _ _ _ _ _ _ _ _ _ _ _ _ _ _ _ _ _ _ _ _
      hge, ?_, fun _ _ _ => rfl⟩
    intro k hk
    have : 0 ≤ k * P := Nat.zero_le _
    omega
  intro m
  induction m with
  | zero =>
    intro fuel pt pde_i gpu_va ctag calls _ hend _ _ hfuel
    exact hdone fuel pt pde_i gpu_va ctag calls (by omega) (by omega)
  | succ m ih =>
    intro fuel pt pde_i gpu_va ctag calls hal hend hva hpde hfuel
    by_cases hlt : gpu_va < gpu_end
    swap
    · exact hdone fuel pt pde_i gpu_va ctag calls hlt (by omega)
    obtain ⟨f, rfl⟩ : ∃ f, fuel = f + 1 := ⟨fuel - 1, by omega⟩
    have hal' := hal hlt
    have hexp1 : (m + 1) * P = m * P + P := by ring
    have hexp2 : (m + 1 + 1) * P = (m + 1) * P + P := by ring
    have hmP : 0 ≤ m * P := Nat.zero_le _
    have hnext : level_next (mmu_level levels lvl) pgsz_idx gpu_va gpu_end =
        min (gpu_va + P) gpu_end := by
      rw [level_next_eq _ _ _ _ hlo (by rw [hPdef]; omega), hPdef]
      have h1 : (gpu_va / P + 1) * P = gpu_va + P := by
        have := Nat.div_add_mod gpu_va P
        rw [hal', Nat.add_zero, Nat.mul_comm] at this
        rw [Nat.add_mul, Nat.one_mul, this]
      rw [h1]
    generalize hnx : min (gpu_va + P) gpu_end = next at hnext
    have hnle : next ≤ gpu_end := hnx ▸ min_le_right _ _
    have hnle2 : next ≤ gpu_va + P := hnx ▸ min_le_left _ _
    have hncase : next < gpu_end → next = gpu_va + P := by
      intro h
      rcases Nat.le_total (gpu_va + P) gpu_end with h1 | h1
      · rw [← hnx]; exact min_eq_left h1
      · rw [← hnx, min_eq_right h1] at h; exact absurd h (lt_irrefl _)
    obtain ⟨pt', ctag', calls', hrun, hpages, hframe⟩ := ih f
      (pt.write pte pde_i (if sparse then hw.gmmu_pte_valid_false_f else 0)
        (if sparse then hw.gmmu_pte_vol_true_f else 0))
      (pde_i + 1) next ctag
      (calls ++ [EntryCall.mk UpdateEntry.update_gmmu_pte_locked pte pde_i 0 ctag])
      (by
        intro h
        rw [hncase h, Nat.add_mod, hal', Nat.mod_self]; simp)
      (by
        by_cases h : next < gpu_end
        · rw [hncase h]; omega
        · omega)
      (by omega) (by omega) (by omega)
    refine ⟨pt', ctag', calls', ?_, ?_, ?_⟩
    · rw [update_gmmu_level_loop]
      simp only [hlt, not_true_eq_false, if_false]
      have halloc : alloc_next_level hw env (mmu_level levels lvl) (mmu_level levels (lvl + 1)) pt
          pte pde_i pgsz_idx = (0, pt) := by
        unfold alloc_next_level
        simp [hlast]
      rw [halloc]
      simp only [ne_eq, not_true_eq_false, if_false, hfn, call_update_entry_pte_unmap, hlast,
        Option.isSome_none, Bool.false_eq_true, hnext]
      have hu32 : u32 (pde_i + 1) = pde_i + 1 := Nat.mod_eq_of_lt (by omega)
      rw [hu32]
      exact hrun
    · intro k hk
      cases k with
      | zero =>
        rw [Nat.add_zero, hframe pte pde_i (Or.inr (by omega)), PageTables.write_mem]
        simp
      | succ k =>
        have hk2 : (k + 1) * P = k * P + P := by ring
        have hkP : 0 ≤ k * P := Nat.zero_le _
        have hn : next = gpu_va + P := hncase (by omega)
        have := hpages k (by rw [hn]; omega)
        rw [← this]
        congr 1
        omega
    · intro e j hej
      rw [hframe e j (by rcases hej with h | h; exact Or.inl h; exact Or.inr (by omega)),
        PageTables.write_mem]
      have : ¬ (e = pte ∧ j = pde_i) := by
        rintro ⟨h1, h2⟩
        rcases hej with h | h
        · exact h h1
        · omega
      rw [if_neg this]

theorem call_update_entry_pde_mem (g : Gk20a) (hw : GmmuHw) (page_size : Nat)
    (pt : PageTables) (pte : EntryPtr) (pde_i pgsz_idx iova kind_v ctag : Nat)
    (cacheable unmapped_pte : Bool) (rw_flag : Nat) (sparse : Bool) (e : EntryPtr) (he : e ≠ []) :
    (call_update_entry g hw page_size UpdateEntry.update_gmmu_pde_locked pt pte pde_i pgsz_idx
      iova kind_v ctag cacheable unmapped_pte rw_flag sparse).2.1.mem e = pt.mem e := by
  unfold call_update_entry update_gmmu_pde_locked
  simp only []
  funext j
  rw [PageTables.write_mem, if_neg (fun h => he h.1)]

/-- The loop at level 0 of a two-level table with `iova = 0`: the leaf entry of
every page of the range gets the invalid encoding, and no table below a lower
directory index changes. -/
theorem update_gmmu_level_loop_dir_unmap (g : Gk20a) (hw : GmmuHw) (env : PtEnv)
    (levels : List Gk20aMmuLevel) (page_size pgsz_idx kind_v : Nat) (cacheable unmapped_pte : Bool)
    (rw_flag : Nat) (sparse : Bool) (gpu_end lo1 d P q : Nat)
    (henv : ∀ e, env.vzalloc_ok e = true ∧ env.alloc_pages_ok e = true ∧ env.map_pages_ok e = true)
    (h0 : (mmu_level levels 0).update_entry = some UpdateEntry.update_gmmu_pde_locked)
    (h1 : (mmu_level levels 1).update_entry = some UpdateEntry.update_gmmu_pte_locked)
    (h2 : (mmu_level levels 2).update_entry = none)
    (hlo0 : (mmu_level levels 0).lo_bit pgsz_idx = lo1 + d)
    (hlo1 : (mmu_level levels 1).lo_bit pgsz_idx = lo1)
    (hhi1 : (mmu_level levels 1).hi_bit pgsz_idx + 1 = lo1 + d)
    (hb : lo1 + d ≤ 31) (hPdef : 2 ^ lo1 = P) (hqdef : 2 ^ d = q)
    (hend : gpu_end ≤ 2 ^ 32 * (P * q)) :
    ∀ (k fuel : Nat) (pt : PageTables) (pde_i gpu_va ctag : Nat) (calls : List EntryCall),
      (gpu_va < gpu_end → gpu_va % P = 0) →
      (gpu_va < gpu_end → gpu_end ≤ (gpu_va / (P * q) + k) * (P * q)) →
      (gpu_va < gpu_end → pde_i = gpu_va / (P * q)) →
      k + q + 1 ≤ fuel →
      ∃ pt' ctag' calls',
        update_gmmu_level_loop g hw env levels page_size pgsz_idx kind_v cacheable unmapped_pte
          rw_flag sparse gpu_end fuel 0 pt [] pde_i 0 gpu_va ctag calls =
            some (0, pt', ctag', calls') ∧
        (∀ j, gpu_va + j * P < gpu_end →
          pt'.mem [(gpu_va + j * P) / (P * q)] ((gpu_va + j * P) % (P * q) / P) =
            (u32 (if sparse then hw.gmmu_pte_valid_false_f else 0),
              u32 (if sparse then hw.gmmu_pte_vol_true_f else 0))) ∧
        (∀ dd i, (gpu_va < gpu_end → dd < gpu_va / (P * q)) → pt'.mem [dd] i = pt.mem [dd] i) := by
  have hP : 0 < P := hPdef ▸ Nat.two_pow_pos _
  have hq : 0 < q := hqdef ▸ Nat.two_pow_pos _
  have hC : 2 ^ (lo1 + d) = P * q := by rw [pow_add, hPdef, hqdef]
  have hC31 : P * q ≤ 2 ^ 31 := hC ▸ Nat.pow_le_pow_right (by norm_num) hb
  have hPle : P ≤ P * q := Nat.le_mul_of_pos_right P hq
  have hqle : q ≤ P * q := Nat.le_mul_of_pos_left q hP
  have hCpos : 0 < P * q := Nat.mul_pos hP hq
  have hdone : ∀ (fuel : Nat) (pt : PageTables) (pde_i gpu_va ctag : Nat)
      (calls : List EntryCall), ¬ gpu_va < gpu_end → 1 ≤ fuel →
      ∃ pt' ctag' calls',
        update_gmmu_level_loop g hw env levels page_size pgsz_idx kind_v cacheable unmapped_pte
          rw_flag sparse gpu_end fuel 0 pt [] pde_i 0 gpu_va ctag calls =
            some (0, pt', ctag', calls') ∧
        (∀ j, gpu_va + j * P < gpu_end →
          pt'.mem [(gpu_va + j * P) / (P * q)] ((gpu_va + j * P) % (P * q) / P) =
            (u32 (if sparse then hw.gmmu_pte_valid_false_f else 0),
              u32 (if sparse then hw.gmmu_pte_vol_true_f else 0))) ∧
        (∀ dd i, (gpu_va < gpu_end → dd < gpu_va / (P * q)) → pt'.mem [dd] i = pt.mem [dd] i) := by
    intro fuel pt pde_i gpu_va ctag calls hge hfuel
    obtain ⟨f, rfl⟩ : ∃ f, fuel = f + 1 := ⟨fuel - 1, by omega⟩
    refine ⟨pt, ctag, calls, update_gmmu_level_loop_done _ _ _ _ _ _ _ _ _ _ _ _ _ _ _ _ _ _ _ _ _
      hge, ?_, fun _ _ _ => rfl⟩
    intro j hj
    have : 0 ≤ j * P := Nat.zero_le _
    omega
  intro k
  induction k with
  | zero =>
    intro fuel pt pde_i gpu_va ctag calls _ hcov _ hfuel
    refine hdone fuel pt pde_i gpu_va ctag calls ?_ (by omega)
    intro h
    have h1 := hcov h
    rw [Nat.add_zero] at h1
    have h2 := Nat.div_mul_le_self gpu_va (P * q)
    omega
  | succ k ih =>
    intro fuel pt pde_i gpu_va ctag calls hal hcov hpde hfuel
    by_cases hlt : gpu_va < gpu_end
    swap
    · exact hdone fuel pt pde_i gpu_va ctag calls hlt (by omega)
    obtain ⟨f, rfl⟩ : ∃ f, fuel = f + 1 := ⟨fuel - 1, by omega⟩
    have hal' := hal hlt
    have hpde' := hpde hlt
    obtain ⟨hidx, hce, hcell, hrest⟩ := cell_step_facts_any gpu_va gpu_end P q hP hq hal'
    have hdlt : gpu_va / (P * q) < 2 ^ 32 :=
      Nat.div_lt_of_lt_mul (by rw [Nat.mul_comm]; omega)
    have hce63 : (gpu_va / (P * q) + 1) * (P * q) ≤ 2 ^ 63 :=
      calc (gpu_va / (P * q) + 1) * (P * q) ≤ 2 ^ 32 * (P * q) := Nat.mul_le_mul_right _ (by omega)
        _ ≤ 2 ^ 32 * 2 ^ 31 := Nat.mul_le_mul_left _ hC31
        _ = 2 ^ 63 := by norm_num
    have hvace : gpu_va < (gpu_va / (P * q) + 1) * (P * q) := by
      rw [Nat.add_mul, Nat.one_mul]; exact Nat.lt_div_mul_add hCpos
    generalize hcedef : (gpu_va / (P * q) + 1) * (P * q) = ce at hce hcell hrest hce63 hvace
    generalize hnx : min ce gpu_end = next at hrest
    have hnle : next ≤ gpu_end := hnx ▸ min_le_right _ _
    have hnce : next ≤ ce := hnx ▸ min_le_left _ _
    have hvan : gpu_va < next := hnx ▸ lt_min hvace hlt
    have hlevel : level_next (mmu_level levels 0) pgsz_idx gpu_va gpu_end = next := by
      rw [level_next_eq _ _ _ _ (by rw [hlo0]; omega) (by rw [hlo0, hC]; unfold U64; omega),
        hlo0, hC, hcedef, hnx]
    have hpidx : pde_index (mmu_level levels 1) pgsz_idx gpu_va = gpu_va % (P * q) / P := by
      rw [pde_index_eq _ _ _ (by rw [hhi1]; omega)
        (by rw [hhi1, hlo1, hC, hPdef]; unfold U32; omega), hhi1, hlo1, hC, hPdef]
    generalize hidxdef : gpu_va % (P * q) / P = idx at hidx hce hcell hpidx
    have hm0 : 0 ≤ (q - idx) * P := Nat.zero_le _
    have ha := alloc_next_level_ok hw env (mmu_level levels 0) (mmu_level levels 1) pt []
      pde_i pgsz_idx henv
    have hamem := alloc_next_level_mem hw env (mmu_level levels 0) (mmu_level levels 1) pt []
      pde_i pgsz_idx
    generalize hadef : alloc_next_level hw env (mmu_level levels 0) (mmu_level levels 1) pt []
      pde_i pgsz_idx = a at ha hamem
    have humem := call_update_entry_pde_mem g hw page_size a.2 [] pde_i pgsz_idx 0 kind_v ctag
      cacheable unmapped_pte rw_flag sparse
    have hufst := call_update_entry_fst g hw page_size UpdateEntry.update_gmmu_pde_locked a.2 []
      pde_i pgsz_idx 0 kind_v ctag cacheable unmapped_pte rw_flag sparse
    generalize hudef : call_update_entry g hw page_size UpdateEntry.update_gmmu_pde_locked a.2 []
      pde_i pgsz_idx 0 kind_v ctag cacheable unmapped_pte rw_flag sparse = u at humem hufst
    obtain ⟨pt1, ctag1, calls1, hrun1, hpages1, hframe1⟩ := update_gmmu_level_loop_leaf_unmap g hw
      env levels page_size pgsz_idx kind_v cacheable unmapped_pte rw_flag sparse 1 h1 h2
      (by rw [hlo1]; omega) [pde_i] next (q - idx) f u.2.1 idx gpu_va u.2.2
      (calls ++ [EntryCall.mk UpdateEntry.update_gmmu_pde_locked [] pde_i 0 ctag])
      (by intro _; rw [hlo1, hPdef]; exact hal')
      (by rw [hlo1, hPdef]; omega)
      (by rw [hlo1, hPdef, Nat.add_mul, Nat.one_mul]; unfold U64; omega)
      (by unfold U32; omega)
      (by omega)
    rw [hlo1, hPdef] at hpages1
    obtain ⟨pt2, ctag2, calls2, hrun2, hpages2, hframe2⟩ := ih f pt1 (u32 (pde_i + 1)) next ctag1
      calls1
      (fun h => (hrest h).2.2.1)
      (fun h => (hrest h).2.2.2 k (hcov hlt))
      (fun h => by
        have h3 := (hrest h).2.1
        have h4 : next / (P * q) < 2 ^ 32 :=
          Nat.div_lt_of_lt_mul (by rw [Nat.mul_comm]; omega)
        rw [h3, hpde']
        rw [hpde'] at *
        exact Nat.mod_eq_of_lt (by unfold U32; omega))
      (by omega)
    have hdir : ∀ i, pt2.mem [pde_i] i = pt1.mem [pde_i] i := by
      intro i
      apply hframe2
      intro h
      rw [(hrest h).2.1, hpde']
      omega
    refine ⟨pt2, ctag2, calls2, ?_, ?_, ?_⟩
    · rw [update_gmmu_level_loop]
      simp only [hlt, not_true_eq_false, if_false, zero_add, List.nil_append, hadef]
      simp only [ha, ne_eq, not_true_eq_false, if_false, h0, hudef, hufst, h1,
        Option.isSome_some, if_true, (henv _).2.2, Bool.true_eq_false, hlevel, hpidx]
      rw [hrun1]
      simp only [ne_eq, not_true_eq_false, if_false]
      exact hrun2
    · intro j hj
      by_cases hjn : gpu_va + j * P < next
      · obtain ⟨c1, c2⟩ := hcell j (by omega)
        rw [c1, c2, ← hpde', hdir]
        exact hpages1 j hjn
      · have hnlt : next < gpu_end := by omega
        have hnce2 : next = ce := (hrest hnlt).1
        have hjge : q - idx ≤ j := by
          apply Nat.le_of_mul_le_mul_right _ hP
          omega
        obtain ⟨j', rfl⟩ : ∃ j', j = (q - idx) + j' := ⟨j - (q - idx), by omega⟩
        have he : gpu_va + ((q - idx) + j') * P = next + j' * P := by
          rw [Nat.add_mul]; omega
        rw [he]
        exact hpages2 j' (by rw [← he]; exact hj)
    · intro dd i hdd
      have hdd' := hdd hlt
      rw [hframe2 dd i (by intro h; rw [(hrest h).2.1]; omega),
        hframe1 [dd] i (Or.inl (by simp; omega)),
        humem [dd] (by simp), hamem [dd] (by simp; omega)]

/-- The walk from level 0 of a two-level table with `iova = 0`: with enough
fuel it returns 0 and the leaf entry of every page of the range holds the
invalid encoding. -/
theorem update_gmmu_level_locked_two_level_unmap (g : Gk20a) (hw : GmmuHw) (env : PtEnv)
    (levels : List Gk20aMmuLevel) (page_size fuel : Nat) (pt : PageTables)
    (pgsz_idx gpu_va gpu_end kind_v ctag : Nat) (cacheable unmapped_pte : Bool)
    (rw_flag : Nat) (sparse : Bool) (R : Nat)
    (henv : ∀ e, env.vzalloc_ok e = true ∧ env.alloc_pages_ok e = true ∧ env.map_pages_ok e = true)
    (h0 : (mmu_level levels 0).update_entry = some UpdateEntry.update_gmmu_pde_locked)
    (h1 : (mmu_level levels 1).update_entry = some UpdateEntry.update_gmmu_pte_locked)
    (h2 : (mmu_level levels 2).update_entry = none)
    (hhi0 : (mmu_level levels 0).hi_bit pgsz_idx + 1 = R)
    (hhi1 : (mmu_level levels 1).hi_bit pgsz_idx + 1 = (mmu_level levels 0).lo_bit pgsz_idx)
    (hlo : (mmu_level levels 1).lo_bit pgsz_idx ≤ (mmu_level levels 0).lo_bit pgsz_idx)
    (hb : (mmu_level levels 0).lo_bit pgsz_idx ≤ 31)
    (hR : R ≤ 32 + (mmu_level levels 0).lo_bit pgsz_idx)
    (hend : gpu_end ≤ 2 ^ R)
    (hva : gpu_va % 2 ^ (mmu_level levels 1).lo_bit pgsz_idx = 0)
    (hfuel : gpu_end / 2 ^ (mmu_level levels 0).lo_bit pgsz_idx +
      2 ^ ((mmu_level levels 0).lo_bit pgsz_idx - (mmu_level levels 1).lo_bit pgsz_idx) + 2 ≤
        fuel) :
    ∃ pt' ctag' calls,
      update_gmmu_level_locked g hw env levels page_size fuel pt [] pgsz_idx 0 gpu_va gpu_end
        kind_v ctag cacheable unmapped_pte rw_flag sparse 0 = some (0, pt', ctag', calls) ∧
      ∀ j, gpu_va + j * 2 ^ (mmu_level levels 1).lo_bit pgsz_idx < gpu_end →
        pt'.mem [(gpu_va + j * 2 ^ (mmu_level levels 1).lo_bit pgsz_idx) >>>
            (mmu_level levels 0).lo_bit pgsz_idx]
          (((gpu_va + j * 2 ^ (mmu_level levels 1).lo_bit pgsz_idx) %
            2 ^ (mmu_level levels 0).lo_bit pgsz_idx) >>> (mmu_level levels 1).lo_bit pgsz_idx) =
          (u32 (if sparse then hw.gmmu_pte_valid_false_f else 0),
            u32 (if sparse then hw.gmmu_pte_vol_true_f else 0)) := by
  unfold update_gmmu_level_locked
  obtain ⟨d, hd⟩ := Nat.exists_eq_add_of_le hlo
  have hidx : gpu_va < gpu_end → pde_index (mmu_level levels 0) pgsz_idx gpu_va =
      gpu_va / 2 ^ (mmu_level levels 0).lo_bit pgsz_idx := by
    intro hlt
    have hR64 : R < 64 := by omega
    have hlt2 : gpu_va < 2 ^ R := by omega
    have hle2 : 2 ^ R ≤ 2 ^ (32 + (mmu_level levels 0).lo_bit pgsz_idx) :=
      Nat.pow_le_pow_right (by norm_num) hR
    rw [pow_add] at hle2
    have hdl : gpu_va / 2 ^ (mmu_level levels 0).lo_bit pgsz_idx < 2 ^ 32 :=
      Nat.div_lt_of_lt_mul (by rw [Nat.mul_comm]; omega)
    rw [pde_index_eq _ _ _ (by rw [hhi0]; exact hR64)
      (by rw [hhi0, Nat.mod_eq_of_lt hlt2]; unfold U32; exact hdl), hhi0, Nat.mod_eq_of_lt hlt2]
  generalize pde_index (mmu_level levels 0) pgsz_idx gpu_va = pde_i at hidx ⊢
  generalize hl1 : (mmu_level levels 1).lo_bit pgsz_idx = lo1 at *
  generalize hl0 : (mmu_level levels 0).lo_bit pgsz_idx = lo0 at *
  subst hd
  have hC : 2 ^ (lo1 + d) = 2 ^ lo1 * 2 ^ d := pow_add 2 lo1 d
  have hCpos : 0 < 2 ^ lo1 * 2 ^ d := Nat.mul_pos (Nat.two_pow_pos _) (Nat.two_pow_pos _)
  have hend2 : gpu_end ≤ 2 ^ 32 * (2 ^ lo1 * 2 ^ d) := by
    rw [← hC, ← pow_add]
    exact Nat.le_trans hend (Nat.pow_le_pow_right (by norm_num) hR)
  rw [Nat.add_sub_cancel_left] at hfuel
  rw [hC] at hfuel hidx ⊢
  obtain ⟨pt', ctag', calls, hrun, hpages, _⟩ := update_gmmu_level_loop_dir_unmap g hw env levels
    page_size pgsz_idx kind_v cacheable unmapped_pte rw_flag sparse gpu_end lo1 d (2 ^ lo1) (2 ^ d)
    henv h0 h1 h2 hl0 hl1 hhi1 hb rfl rfl hend2
    (gpu_end / (2 ^ lo1 * 2 ^ d) + 1) fuel pt pde_i gpu_va ctag []
    (fun _ => hva)
    (fun _ => by
      have h3 := Nat.lt_succ_iff.mp (Nat.lt_succ_of_lt (Nat.lt_div_mul_add (a := gpu_end) hCpos))
      have h4 : gpu_end / (2 ^ lo1 * 2 ^ d) * (2 ^ lo1 * 2 ^ d) + 2 ^ lo1 * 2 ^ d ≤
          (gpu_va / (2 ^ lo1 * 2 ^ d) + (gpu_end / (2 ^ lo1 * 2 ^ d) + 1)) * (2 ^ lo1 * 2 ^ d) := by
        rw [← Nat.succ_mul]
        exact Nat.mul_le_mul_right _ (Nat.le_add_left _ _)
      exact Nat.le_trans h3 h4)
    hidx (by omega)
  refine ⟨pt', ctag', calls, hrun, ?_⟩
  intro j hj
  rw [Nat.shiftRight_eq_div_pow, Nat.shiftRight_eq_div_pow, hC]
  exact hpages j hj

theorem gk20a_vm_unmap_locked_log_eq (s : MmState) (env : Env) (e : MappedBuffer) (sp : Bool)
    (hsp : (e.va_node = none ∧ sp = false) ∨ (∃ n, e.va_node = some n ∧ sp = n.sparse)) :
    (gk20a_vm_unmap_locked s env e).log =
      (gk20a_locked_gmmu_unmap s env e.addr e.size e.pgsz_idx e.va_allocated gk20a_mem_flag_none
        sp).log ++ (if e.own_mem_ref then [HwEvent.dma_buf_put e.dmabuf] else []) := by
  unfold gk20a_vm_unmap_locked
  rcases hsp with ⟨h1, rfl⟩ | ⟨n, h1, rfl⟩
  · simp only [h1]
    split_ifs <;> simp
  · simp only [h1]
    split_ifs <;> simp

/-- The trace `gk20a_vm_unmap_locked` leaves when the release of the VA does
not fail: the page-table update over the mapping's range with no scatter
table, then the L2 flush and the TLB invalidate. -/
theorem gk20a_vm_unmap_locked_log (s : MmState) (env : Env) (e : MappedBuffer) (sp : Bool)
    (hsp : (e.va_node = none ∧ sp = false) ∨ (∃ n, e.va_node = some n ∧ sp = n.sparse))
    (hfree : e.va_allocated = true → (gk20a_vm_free_va s.vm e.addr e.size e.pgsz_idx).1 = 0) :
    ∃ post, (gk20a_vm_unmap_locked s env e).log =
      s.log ++ [HwEvent.update_ptes e.pgsz_idx false 0 e.addr (u64 (e.addr + e.size)) 0 0 false
        false gk20a_mem_flag_none sp env.pte_alloc_ok, HwEvent.l2_flush true,
        HwEvent.tlb_invalidate] ++ post := by
  have hmask : (0 : Nat) &&& u32 (u32 (s.vm.gmmu_page_sizes e.pgsz_idx) + U32 - 1) = 0 :=
    Nat.zero_and _
  have hcore : (gk20a_locked_gmmu_unmap s env e.addr e.size e.pgsz_idx e.va_allocated
      gk20a_mem_flag_none sp).log =
      s.log ++ [HwEvent.update_ptes e.pgsz_idx false 0 e.addr (u64 (e.addr + e.size)) 0 0 false
        false gk20a_mem_flag_none sp env.pte_alloc_ok, HwEvent.l2_flush true,
        HwEvent.tlb_invalidate] := by
    unfold gk20a_locked_gmmu_unmap update_gmmu_ptes_locked
    cases hva : e.va_allocated
    · simp [gk20a_vm_free_va]
    · have := hfree hva
      simp [this, SameConfig.page (SameConfig.set_vma_config _ _ _), gk20a_vm_free_va_eq]
  rw [gk20a_vm_unmap_locked_log_eq s env e sp hsp, hcore]
  exact ⟨_, rfl⟩

/-- In a well-formed address space the release of the VA of a VA-allocated
registry entry succeeds: the run `gk20a_vm_free_va` computes from the entry is
live in the allocator of its class. -/
theorem VmInv.free_va_live {vm : VmGk20a} (h : VmInv vm) (e : MappedBuffer)
    (he : e ∈ vm.mapped_buffers.toList) (hva : e.va_allocated = true) :
    (gk20a_vm_free_va vm e.addr e.size e.pgsz_idx).1 = 0 := by
  have hlive := h.claims_live e.pgsz_idx _ (mem_va_claims_buffer vm e he hva)
  have hrun : (gk20a_vm_free_va vm e.addr e.size e.pgsz_idx).1 =
      ((vm.vma e.pgsz_idx).free (buffer_run vm e).1 (buffer_run vm e).2).1 := rfl
  rw [hrun]
  unfold Gk20aAllocator.free
  rw [if_pos hlive]

/-- C21 as stated fails: `sample_buf_a` is mapped without a fixed offset (two
big pages at `0x400000000`, PTEs written), then `gk20a_vm_free_space` with the
offset and page count of the mapping returns 0 and releases the run while the
entry stays in the registry. `gk20a_vm_unmap_locked` on that entry finds that
`gk20a_vm_free_va` fails (`-ENOENT`), so `gk20a_locked_gmmu_unmap` returns
before the page-table update, the L2 flush and the TLB invalidate: the trace of
hardware effects is the one from before the call, its last page-table update is
the one that mapped the range, and the entry is gone from the registry. -/
theorem gk20a_vm_unmap_locked_stale_run_keeps_ptes :
    stale_trace_mapped.vm.mapped_buffers.toList = [stale_trace_entry] ∧
    stale_trace_mapped.log =
      [.update_ptes 1 true 0 0x400000000 0x400020000 0 0 false false 0 false true,
       .tlb_invalidate] ∧
    (gk20a_vm_free_space stale_trace_mapped sample_env
      { pages := 2, page_size := 0x10000, flags := 0, offset := 0x400000000 }).1 = 0 ∧
    stale_trace_freed.vm.mapped_buffers.toList = [stale_trace_entry] ∧
    stale_trace_freed.vm.vma_big.runs = [] ∧
    stale_trace_entry.va_allocated = true ∧
    (gk20a_vm_free_va stale_trace_freed.vm stale_trace_entry.addr stale_trace_entry.size
      stale_trace_entry.pgsz_idx).1 = -ENOENT ∧
    (gk20a_vm_unmap_locked stale_trace_freed sample_env stale_trace_entry).log =
      stale_trace_mapped.log ∧
    (gk20a_vm_unmap_locked stale_trace_freed sample_env stale_trace_entry).vm.mapped_buffers.toList
      = [] ∧
    gk20a_vm_unmap stale_trace_freed sample_env 0x400000000 =
      gk20a_vm_unmap_locked stale_trace_freed sample_env { stale_trace_entry with ref := 0 } ∧
    (gk20a_vm_unmap stale_trace_freed sample_env 0x400000000).log = stale_trace_mapped.log := by
  refine ⟨by decide, by decide, by decide, by decide, by decide, by decide, by decide, by decide,
    by decide, ?_, by decide⟩
  rfl

/-- C21 (amended): for a registry entry `e` at a page-aligned address inside
the aperture (`NV_GMMU_VA_RANGE ≤ 58`, page size of the class as in the level
table), when the release of its VA does not fail (there is none for a
fixed-offset entry, and it succeeds for every VA-allocated entry of a
well-formed address space, `VmInv.free_va_live`) and no page-table allocation
fails: `gk20a_vm_unmap_locked` runs the page-table update over
`[addr, addr + size)` with no scatter table and the sparse flag of the owning
reservation (false without one), then flushes L2 and invalidates the TLB; and
that update returns 0 and leaves in the leaf entry of every page of the range
both words 0 when the flag is false, and `valid_false`, `vol_true` when it is
true. VA-allocated and fixed-offset entries are covered alike. -/
theorem gk20a_vm_unmap_locked_invalidates_ptes (g : Gk20a) (hw : GmmuHw) (penv : PtEnv)
    (s : MmState) (env : Env) (e : MappedBuffer) (sp : Bool) (fuel : Nat) (pt : PageTables)
    (henv : ∀ x, penv.vzalloc_ok x = true ∧ penv.alloc_pages_ok x = true ∧
      penv.map_pages_ok x = true)
    (_hidx : e.pgsz_idx ≤ 1) (hrange : g.NV_GMMU_VA_RANGE ≤ 58)
    (hsp : (e.va_node = none ∧ sp = false) ∨ (∃ n, e.va_node = some n ∧ sp = n.sparse))
    (hfree : e.va_allocated = true → (gk20a_vm_free_va s.vm e.addr e.size e.pgsz_idx).1 = 0)
    (hpage : s.vm.gmmu_page_sizes e.pgsz_idx =
      2 ^ (mmu_level (gk20a_mm_get_mmu_levels g s.vm.big_page_size) 1).lo_bit e.pgsz_idx)
    (halign : e.addr % s.vm.gmmu_page_sizes e.pgsz_idx = 0)
    (hend : e.addr + e.size ≤ 2 ^ g.NV_GMMU_VA_RANGE)
    (hfuel : (e.addr + e.size) /
        2 ^ (mmu_level (gk20a_mm_get_mmu_levels g s.vm.big_page_size) 0).lo_bit e.pgsz_idx +
      2 ^ ((mmu_level (gk20a_mm_get_mmu_levels g s.vm.big_page_size) 0).lo_bit e.pgsz_idx -
        (mmu_level (gk20a_mm_get_mmu_levels g s.vm.big_page_size) 1).lo_bit e.pgsz_idx) + 2 ≤
        fuel) :
    (∃ post, (gk20a_vm_unmap_locked s env e).log =
      s.log ++ [HwEvent.update_ptes e.pgsz_idx false 0 e.addr (e.addr + e.size) 0 0 false
        false gk20a_mem_flag_none sp env.pte_alloc_ok, HwEvent.l2_flush true,
        HwEvent.tlb_invalidate] ++ post) ∧
    ∃ pt' calls,
      update_gmmu_ptes_locked_tables g hw penv (gk20a_mm_get_mmu_levels g s.vm.big_page_size)
        (s.vm.gmmu_page_sizes e.pgsz_idx) fuel pt e.pgsz_idx none 0 e.addr (e.addr + e.size) 0 0
        false false gk20a_mem_flag_none sp = some (0, pt', calls) ∧
      ∀ j, j * s.vm.gmmu_page_sizes e.pgsz_idx < e.size →
        pt'.mem [(e.addr + j * s.vm.gmmu_page_sizes e.pgsz_idx) >>>
            (mmu_level (gk20a_mm_get_mmu_levels g s.vm.big_page_size) 0).lo_bit e.pgsz_idx]
          (((e.addr + j * s.vm.gmmu_page_sizes e.pgsz_idx) %
              2 ^ (mmu_level (gk20a_mm_get_mmu_levels g s.vm.big_page_size) 0).lo_bit e.pgsz_idx) >>>
            (mmu_level (gk20a_mm_get_mmu_levels g s.vm.big_page_size) 1).lo_bit e.pgsz_idx) =
          if sp then (u32 hw.gmmu_pte_valid_false_f, u32 hw.gmmu_pte_vol_true_f) else (0, 0) := by
  obtain ⟨h0, h1, h2, hhi0, hhi1, h12, hlo, h26, h27⟩ :=
    gk20a_mm_get_mmu_levels_shape g s.vm.big_page_size e.pgsz_idx
  have hlt64 : e.addr + e.size < U64 := by
    have : 2 ^ g.NV_GMMU_VA_RANGE ≤ 2 ^ 58 := Nat.pow_le_pow_right (by norm_num) hrange
    unfold U64; omega
  constructor
  · obtain ⟨post, hpost⟩ := gk20a_vm_unmap_locked_log s env e sp hsp hfree
    rw [show u64 (e.addr + e.size) = e.addr + e.size from Nat.mod_eq_of_lt hlt64] at hpost
    exact ⟨post, hpost⟩
  · rw [hpage] at halign ⊢
    have hend' : e.addr + e.size ≤ 2 ^ max g.NV_GMMU_VA_RANGE 1 :=
      Nat.le_trans hend (Nat.pow_le_pow_right (by norm_num) (le_max_left _ _))
    obtain ⟨pt', ctag', calls, hrun, hpages⟩ := update_gmmu_level_locked_two_level_unmap g hw penv
      _ (2 ^ (mmu_level (gk20a_mm_get_mmu_levels g s.vm.big_page_size) 1).lo_bit e.pgsz_idx) fuel
      pt e.pgsz_idx e.addr (e.addr + e.size) 0 (u32 (0 * g.compression_page_size)) false false
      gk20a_mem_flag_none sp (max g.NV_GMMU_VA_RANGE 1) henv h0 h1 h2 (by rw [hhi0]; omega) hhi1
      hlo (by omega) (by omega) hend' halign hfuel
    refine ⟨pt', calls, ?_, ?_⟩
    · unfold update_gmmu_ptes_locked_tables
      simp only [Nat.zero_and, ne_eq, not_true_eq_false, if_false, (henv []).2.2,
        Bool.true_eq_false, hrun, Option.map_some']
    · intro j hj
      rw [hpages j (by omega)]
      cases sp <;> simp [u32]

/-- The teardown of the fixed-offset sample entry, whose VA is the
reservation's, and of the VA-allocated entry of `stale_trace_mapped`, whose run
is live: both run the page-table update over the range with the L2 flush and
the TLB invalidate, and the update leaves both words of the first leaf entry
0. -/
theorem gk20a_vm_unmap_locked_invalidates_ptes_witness :
    ((∃ post, (gk20a_vm_unmap_locked sample_vm_state sample_env sample_entry_fixed).log =
      sample_vm_state.log ++ [HwEvent.update_ptes 1 false 0 0x400000000 0x400010000 0 0 false
        false gk20a_mem_flag_none false true, HwEvent.l2_flush true, HwEvent.tlb_invalidate] ++
        post) ∧
    ∃ pt' calls,
      update_gmmu_ptes_locked_tables sample_g sample_hw sample_pt_env
        (gk20a_mm_get_mmu_levels sample_g 0x10000) 0x10000 2000 sample_pt 1 none 0 0x400000000
        0x400010000 0 0 false false gk20a_mem_flag_none false = some (0, pt', calls) ∧
      pt'.mem [256] 0 = (0, 0)) ∧
    stale_trace_entry ∈ stale_trace_mapped.vm.mapped_buffers.toList ∧
    stale_trace_entry.va_allocated = true ∧
    (gk20a_vm_free_va stale_trace_mapped.vm stale_trace_entry.addr stale_trace_entry.size
      stale_trace_entry.pgsz_idx).1 = 0 ∧
    (∃ post, (gk20a_vm_unmap_locked stale_trace_mapped sample_env stale_trace_entry).log =
      stale_trace_mapped.log ++ [HwEvent.update_ptes 1 false 0 0x400000000 0x400020000 0 0 false
        false gk20a_mem_flag_none false true, HwEvent.l2_flush true, HwEvent.tlb_invalidate] ++
        post) ∧
    ∃ pt' calls,
      update_gmmu_ptes_locked_tables sample_g sample_hw sample_pt_env
        (gk20a_mm_get_mmu_levels sample_g 0x10000) 0x10000 2000 sample_pt 1 none 0 0x400000000
        0x400020000 0 0 false false gk20a_mem_flag_none false = some (0, pt', calls) ∧
      pt'.mem [256] 0 = (0, 0) ∧ pt'.mem [256] 1 = (0, 0) :=
  have h := gk20a_vm_unmap_locked_invalidates_ptes sample_g sample_hw sample_pt_env
    sample_vm_state sample_env sample_entry_fixed false 2000 sample_pt (fun _ => ⟨rfl, rfl, rfl⟩)
    (by decide) (by decide) (Or.inr ⟨_, rfl, rfl⟩) (by decide) (by decide) (by decide) (by decide)
    (by decide)
  have hfree : (gk20a_vm_free_va stale_trace_mapped.vm stale_trace_entry.addr
      stale_trace_entry.size stale_trace_entry.pgsz_idx).1 = 0 := by decide
  have h' := gk20a_vm_unmap_locked_invalidates_ptes sample_g sample_hw sample_pt_env
    stale_trace_mapped sample_env stale_trace_entry false 2000 sample_pt
    (fun _ => ⟨rfl, rfl, rfl⟩) (by decide) (by decide) (Or.inl ⟨rfl, rfl⟩) (fun _ => hfree)
    (by decide) (by decide) (by decide) (by decide)
  ⟨⟨h.1, h.2.imp fun _ h1 => h1.imp fun _ h2 => ⟨h2.1, h2.2 0 (by decide)⟩⟩,
    by decide, by decide, hfree, h'.1,
    h'.2.imp fun _ h1 => h1.imp fun _ h2 => ⟨h2.1, h2.2 0 (by decide), h2.2 1 (by decide)⟩⟩

/-! ## Snapshot of the user-mapped buffers -/

theorem RbNode.get_user_mapped_toList (t : RbNode) :
    t.get_user_mapped.toList =
      t.toList.map (fun e => if e.user_mapped ≠ 0 then { e with ref := e.ref + 1 } else e) := by
  induction t with
  | nil => rfl
  | node l e r ihl ihr =>
    simp only [RbNode.get_user_mapped, RbNode.toList, ihl, ihr, List.map_append, List.map_cons]

theorem RbNode.get_user_mapped_ordered (t : RbNode) (h : t.Ordered) : t.get_user_mapped.Ordered := by
  unfold RbNode.Ordered RbNode.addrs at h ⊢
  rw [RbNode.get_user_mapped_toList, List.map_map]
  have : (MappedBuffer.addr ∘ fun e : MappedBuffer =>
      if e.user_mapped ≠ 0 then { e with ref := e.ref + 1 } else e) = MappedBuffer.addr := by
    funext e
    simp only [Function.comp]
    split <;> rfl
  rw [this]
  exact h

theorem RbNode.modify_const_ordered (t : RbNode) (a : Nat) (m : MappedBuffer) (hm : m.addr = a)
    (h : t.Ordered) : (RbNode.modify a (fun _ => m) t).Ordered := by
  unfold RbNode.Ordered at h ⊢
  rw [RbNode.modify_addrs a (fun _ => m) t (fun _ _ => hm)]
  exact h

/-- Dropping a reference keeps the registry ordered. -/
theorem kref_put_ordered (s : MmState) (env : Env) (mb : MappedBuffer)
    (h : s.vm.mapped_buffers.Ordered) : (kref_put s env mb).vm.mapped_buffers.Ordered := by
  rw [kref_put_mapped_buffers]
  split
  · unfold RbNode.Ordered RbNode.addrs at h ⊢
    rw [rb_erase_toList]
    exact h.sublist ((List.filter_sublist _).map _)
  · unfold RbNode.Ordered at h ⊢
    have := RbNode.modify_addrs mb.addr (fun _ => { mb with ref := mb.ref - 1 })
      s.vm.mapped_buffers (fun _ _ => rfl)
    rw [this]
    exact h

/-- What a run of `kref_put` over distinct nodes leaves of the registry: a
listed node loses one reference and is taken out when its count reaches zero,
the other nodes stay as they are. -/
theorem gk20a_vm_put_buffers_toList (env : Env) (L : List Nat) (hL : L.Nodup) :
    ∀ (s : MmState), s.vm.mapped_buffers.Ordered →
    (gk20a_vm_put_buffers s env L).vm.mapped_buffers.toList =
      s.vm.mapped_buffers.toList.filterMap (fun e =>
        if e.addr ∈ L then (if e.ref - 1 = 0 then none else some { e with ref := e.ref - 1 })
        else some e) := by
  induction L with
  | nil =>
    intro s _
    simp [gk20a_vm_put_buffers]
  | cons a rest ih =>
    intro s hord
    obtain ⟨ha, hrest⟩ := List.nodup_cons.1 hL
    rw [gk20a_vm_put_buffers]
    cases hf : find_mapped_buffer_locked s.vm.mapped_buffers a with
    | none =>
      simp only []
      rw [ih hrest s hord]
      apply List.filterMap_congr
      intro e he
      have hne : e.addr ≠ a := by
        intro hea
        have := find_mapped_buffer_locked_mem _ e hord he
        rw [hea, hf] at this
        exact Option.noConfusion this
      simp [hne]
    | some mb =>
      simp only []
      obtain ⟨hmem, hadd⟩ := find_mapped_buffer_locked_some _ _ _ hf
      rw [ih hrest _ (kref_put_ordered s env mb hord), kref_put_mapped_buffers]
      by_cases h0 : mb.ref - 1 = 0
      · rw [if_pos h0, rb_erase_toList, List.filterMap_filter]
        apply List.filterMap_congr
        intro e he
        by_cases hea : e.addr = mb.addr
        · have : e = mb := ordered_addr_inj _ hord e mb he hmem hea
          subst this
          simp [hadd, h0]
        · have hne : e.addr ≠ a := by rw [← hadd]; exact hea
          simp [hea, hne]
      · rw [if_neg h0, RbNode.modify_toList, List.filterMap_map]
        apply List.filterMap_congr
        intro e he
        by_cases hea : e.addr = mb.addr
        · have : e = mb := ordered_addr_inj _ hord e mb he hmem hea
          subst this
          simp [hadd, h0, ha]
        · have hne : e.addr ≠ a := by rw [← hadd]; exact hea
          simp [hea, hne]

/-- C17: on a registry ordered by address whose user-mapped entries number
`num_user_mapped_buffers` and hold a reference each, `gk20a_vm_get_buffers`
returns 0 with a list `L` and the counter as `*num_buffers`: `L` has that
length, is strictly ascending, and lists exactly the entries with
`user_mapped != 0`. In the state after the call each listed entry has one
reference more and nothing else has changed. `gk20a_vm_put_buffers` on `L`
takes one reference of each listed node in any state with an ordered registry,
so right after the snapshot it restores the registry; and an entry that
`gk20a_vm_unmap_user` unmaps in between stays in the registry, and the put
leaves it with one reference fewer than before the snapshot, or takes it out
when that was its only one. -/
theorem gk20a_vm_get_put_buffers_spec (g : Gk20a) (s : MmState) (env : Env)
    (hord : s.vm.mapped_buffers.Ordered)
    (hcount : ((s.vm.mapped_buffers.toList.filter (fun m => m.user_mapped ≠ 0)).length : Int) =
      s.vm.num_user_mapped_buffers)
    (href : ∀ e ∈ s.vm.mapped_buffers.toList, e.user_mapped ≠ 0 → 0 < e.ref) :
    ∃ (L : List Nat) (s' : MmState),
      gk20a_vm_get_buffers s true = some (0, L, s.vm.num_user_mapped_buffers, s') ∧
      (L.length : Int) = s.vm.num_user_mapped_buffers ∧
      L.Pairwise (fun a b => a < b) ∧
      (∀ a ∈ L, ∃ e ∈ s.vm.mapped_buffers.toList, e.addr = a ∧ e.user_mapped ≠ 0) ∧
      (∀ e ∈ s.vm.mapped_buffers.toList, e.addr ∈ L ↔ e.user_mapped ≠ 0) ∧
      s'.vm.mapped_buffers.toList = s.vm.mapped_buffers.toList.map (fun e =>
        if e.addr ∈ L then { e with ref := e.ref + 1 } else e) ∧
      s' = s.with_vm { s.vm with mapped_buffers := s'.vm.mapped_buffers } ∧
      (gk20a_vm_put_buffers s' env L).vm.mapped_buffers.toList = s.vm.mapped_buffers.toList ∧
      (∀ s2 : MmState, s2.vm.mapped_buffers.Ordered →
        (gk20a_vm_put_buffers s2 env L).vm.mapped_buffers.toList =
          s2.vm.mapped_buffers.toList.filterMap (fun e =>
            if e.addr ∈ L then (if e.ref - 1 = 0 then none else some { e with ref := e.ref - 1 })
            else some e)) ∧
      (∀ e ∈ s.vm.mapped_buffers.toList, e.user_mapped ≠ 0 →
        find_mapped_buffer_locked (gk20a_vm_unmap_user g s' env e.addr).vm.mapped_buffers e.addr =
          some { e with user_mapped := u32 (e.user_mapped + U32 - 1) } ∧
        (gk20a_vm_put_buffers (gk20a_vm_unmap_user g s' env e.addr) env L).vm.mapped_buffers.toList =
          s.vm.mapped_buffers.toList.filterMap (fun x =>
            if x.addr = e.addr then
              (if x.ref - 1 = 0 then none
               else some { x with user_mapped := u32 (x.user_mapped + U32 - 1), ref := x.ref - 1 })
            else some x)) := by
  have hLp : ((s.vm.mapped_buffers.toList.filter (fun m => m.user_mapped ≠ 0)).map
      MappedBuffer.addr).Pairwise (fun a b => a < b) :=
    List.Pairwise.sublist ((List.filter_sublist _).map _) hord
  have hLn := hLp.imp (fun h => Nat.ne_of_lt h)
  have hmem : ∀ a ∈ (s.vm.mapped_buffers.toList.filter (fun m => m.user_mapped ≠ 0)).map
      MappedBuffer.addr, ∃ e ∈ s.vm.mapped_buffers.toList, e.addr = a ∧ e.user_mapped ≠ 0 := by
    intro a ha
    obtain ⟨e, he, hea⟩ := List.mem_map.1 ha
    obtain ⟨he1, he2⟩ := List.mem_filter.1 he
    exact ⟨e, he1, hea, by simpa using he2⟩
  have hiff : ∀ e ∈ s.vm.mapped_buffers.toList,
      e.addr ∈ (s.vm.mapped_buffers.toList.filter (fun m => m.user_mapped ≠ 0)).map
        MappedBuffer.addr ↔ e.user_mapped ≠ 0 := by
    intro e he
    constructor
    · intro ha
      obtain ⟨e', he', hea, hu⟩ := hmem _ ha
      have := ordered_addr_inj _ hord e' e he' he hea
      rw [← this]; exact hu
    · intro hu
      exact List.mem_map.2 ⟨e, List.mem_filter.2 ⟨he, by simpa using hu⟩, rfl⟩
  have hlist : s.vm.mapped_buffers.get_user_mapped.toList = s.vm.mapped_buffers.toList.map (fun e =>
      if e.addr ∈ (s.vm.mapped_buffers.toList.filter (fun m => m.user_mapped ≠ 0)).map
        MappedBuffer.addr then { e with ref := e.ref + 1 } else e) := by
    rw [RbNode.get_user_mapped_toList]
    apply List.map_congr_left
    intro e he
    by_cases hu : e.user_mapped ≠ 0
    · rw [if_pos hu, if_pos ((hiff e he).2 hu)]
    · rw [if_neg hu, if_neg (fun h => hu ((hiff e he).1 h))]
  have hord' := RbNode.get_user_mapped_ordered _ hord
  have hput := gk20a_vm_put_buffers_toList env _ hLn
  generalize hLdef : (s.vm.mapped_buffers.toList.filter (fun m => m.user_mapped ≠ 0)).map
      MappedBuffer.addr = L at hLp hLn hmem hiff hlist hput
  refine ⟨L, s.with_vm { s.vm with mapped_buffers := s.vm.mapped_buffers.get_user_mapped },
    ?_, ?_, hLp, hmem, hiff, hlist, rfl, ?_, hput, ?_⟩
  · unfold gk20a_vm_get_buffers
    simp only [Bool.true_eq_false, if_false, hLdef]
    rw [if_neg]
    rw [← hLdef, List.length_map]
    exact fun h => h hcount
  · rw [← hLdef, List.length_map]
    exact hcount
  · rw [hput _ hord']
    show List.filterMap _ s.vm.mapped_buffers.get_user_mapped.toList = _
    rw [hlist, List.filterMap_map]
    conv_rhs => rw [← List.filterMap_some s.vm.mapped_buffers.toList]
    apply List.filterMap_congr
    intro x hx
    by_cases hu : x.addr ∈ L
    · have h0 := href x hx ((hiff x hx).1 hu)
      simp [hu]
      omega
    · simp [hu]
  · intro e he hu
    have hmemL := (hiff e he).2 hu
    have hr := href e he hu
    have he' : ({ e with ref := e.ref + 1 } : MappedBuffer) ∈
        s.vm.mapped_buffers.get_user_mapped.toList := by
      rw [hlist]
      refine List.mem_map.2 ⟨e, he, ?_⟩
      rw [if_pos hmemL]
    have hfind := find_mapped_buffer_locked_mem _ _ hord' he'
    have hreg := gk20a_vm_unmap_user_mapped_buffers g
      (s.with_vm { s.vm with mapped_buffers := s.vm.mapped_buffers.get_user_mapped }) env e.addr
      { e with ref := e.ref + 1 } hfind
    have hne : ({ e with ref := e.ref + 1 } : MappedBuffer).ref - 1 ≠ 0 := by
      show e.ref + 1 - 1 ≠ 0
      omega
    rw [if_neg hne] at hreg
    simp only [Nat.add_sub_cancel] at hreg
    have hs't : (s.with_vm { s.vm with
        mapped_buffers := s.vm.mapped_buffers.get_user_mapped }).vm.mapped_buffers =
        s.vm.mapped_buffers.get_user_mapped := rfl
    rw [hs't] at hreg
    have hord2 : (gk20a_vm_unmap_user g
        (s.with_vm { s.vm with mapped_buffers := s.vm.mapped_buffers.get_user_mapped }) env
        e.addr).vm.mapped_buffers.Ordered := by
      rw [hreg]
      exact RbNode.modify_const_ordered _ _ _ rfl hord'
    constructor
    · rw [hreg]
      have hm := find_mapped_buffer_locked_modify s.vm.mapped_buffers.get_user_mapped e.addr e.addr
        (fun _ => { e with user_mapped := u32 (e.user_mapped + U32 - 1) }) (fun _ _ => rfl)
      rw [hm]
      have hfind' : find_mapped_buffer_locked s.vm.mapped_buffers.get_user_mapped e.addr =
          some { e with ref := e.ref + 1 } := hfind
      rw [hfind']
      simp
    · rw [hput _ hord2, hreg, RbNode.modify_toList, hlist, List.map_map, List.filterMap_map]
      apply List.filterMap_congr
      intro x hx
      by_cases hxe : x.addr = e.addr
      · have := ordered_addr_inj _ hord x e hx he hxe
        subst this
        simp [hmemL]
      · by_cases hxu : x.addr ∈ L
        · have h0 := href x hx ((hiff x hx).1 hxu)
          simp [hxu, hxe]
          omega
        · simp [hxu, hxe]

theorem gk20a_vm_get_put_buffers_spec_witness :
    ∃ (L : List Nat) (s' : MmState),
      gk20a_vm_get_buffers sample_vm_fixed_user true = some (0, L, 1, s') ∧
      (L.length : Int) = 1 ∧
      (gk20a_vm_put_buffers s' sample_env L).vm.mapped_buffers.toList =
        sample_vm_fixed_user.vm.mapped_buffers.toList := by
  obtain ⟨L, s', h1, h2, _, _, _, _, _, h8, _⟩ :=
    gk20a_vm_get_put_buffers_spec sample_g sample_vm_fixed_user sample_env
      (by decide) (by decide) (by decide)
  exact ⟨L, s', h1, h2, h8⟩

/-! ## Releasing a reservation -/

/-- The loop of `gk20a_vm_free_space` is the loop of `gk20a_vm_put_buffers`
over the linked buffers. -/
theorem put_va_buffers_eq (env : Env) (L : List VaBuffer) :
    ∀ s : MmState, put_va_buffers s env L = gk20a_vm_put_buffers s env (L.map VaBuffer.addr) := by
  induction L with
  | nil => intro s; rfl
  | cons b rest ih =>
    intro s
    rw [put_va_buffers, List.map_cons, gk20a_vm_put_buffers]
    cases find_mapped_buffer_locked s.vm.mapped_buffers b.addr with
    | none => exact ih s
    | some mb => exact ih _

theorem gk20a_vm_put_buffers_ordered (env : Env) (L : List Nat) :
    ∀ s : MmState, s.vm.mapped_buffers.Ordered →
      (gk20a_vm_put_buffers s env L).vm.mapped_buffers.Ordered := by
  induction L with
  | nil => intro s h; exact h
  | cons a rest ih =>
    intro s h
    rw [gk20a_vm_put_buffers]
    cases find_mapped_buffer_locked s.vm.mapped_buffers a with
    | none => exact ih s h
    | some mb => exact ih _ (kref_put_ordered s env mb h)

theorem VmReservedVaNode.filter_true (n : VmReservedVaNode) :
    { n with va_buffers_list := n.va_buffers_list.filter (fun _ => true) } = n := by
  cases n
  simp

/-- Dropping a reference leaves the reservations in place; it only unlinks
buffers from their lists. -/
theorem kref_put_reserved (s : MmState) (env : Env) (mb : MappedBuffer) :
    ∃ p : VaBuffer → Bool, (kref_put s env mb).vm.reserved_va_list =
      s.vm.reserved_va_list.map (fun n =>
        { n with va_buffers_list := n.va_buffers_list.filter p }) := by
  unfold kref_put
  simp only []
  split
  · obtain ⟨n, hn⟩ := gk20a_vm_unmap_locked_vm s env { mb with ref := mb.ref - 1 }
    refine ⟨fun b => decide (b.addr ≠ mb.addr), ?_⟩
    rw [hn]
    split
    · rw [gk20a_vm_free_va_reserved]
    · rfl
  · refine ⟨fun _ => true, ?_⟩
    simp only [MmState.with_vm_vm, VmReservedVaNode.filter_true, List.map_id']

theorem gk20a_vm_put_buffers_reserved (env : Env) (L : List Nat) :
    ∀ s : MmState, ∃ p : VaBuffer → Bool,
      (gk20a_vm_put_buffers s env L).vm.reserved_va_list =
        s.vm.reserved_va_list.map (fun n =>
          { n with va_buffers_list := n.va_buffers_list.filter p }) := by
  induction L with
  | nil =>
    intro s
    refine ⟨fun _ => true, ?_⟩
    simp only [gk20a_vm_put_buffers, VmReservedVaNode.filter_true, List.map_id']
  | cons a rest ih =>
    intro s
    rw [gk20a_vm_put_buffers]
    cases find_mapped_buffer_locked s.vm.mapped_buffers a with
    | none => exact ih s
    | some mb =>
      obtain ⟨p, hp⟩ := ih (kref_put s env mb)
      obtain ⟨q, hq⟩ := kref_put_reserved s env mb
      refine ⟨fun b => q b && p b, ?_⟩
      simp only []
      rw [hp, hq, List.map_map]
      apply List.map_congr_left
      intro n _
      simp only [Function.comp, List.filter_filter]
      congr 1
      apply List.filter_congr
      intro b _
      exact Bool.and_comm _ _

theorem reservation_contains_filter (a : Nat) (p : VaBuffer → Bool) (n : VmReservedVaNode) :
    reservation_contains a { n with va_buffers_list := n.va_buffers_list.filter p } =
      reservation_contains a n := rfl

/-- The state after a `gk20a_vm_free_space` that found a reservation and
returned 0: the registry and the reservation list in terms of the loop over the
linked buffers. -/
theorem gk20a_vm_free_space_ok (s : MmState) (env : Env) (args : SpaceArgs)
    (va_node : VmReservedVaNode)
    (hnode : addr_to_reservation s.vm args.offset = some va_node)
    (hok : (gk20a_vm_free_space s env args).1 = 0) :
    ∃ s1 : MmState, s1.vm.mapped_buffers = s.vm.mapped_buffers ∧
      s1.vm.reserved_va_list = s.vm.reserved_va_list ∧
      (gk20a_vm_free_space s env args).2.vm.mapped_buffers =
        (put_va_buffers s1 env va_node.va_buffers_list).vm.mapped_buffers ∧
      (gk20a_vm_free_space s env args).2.vm.reserved_va_list =
        (put_va_buffers s1 env va_node.va_buffers_list).vm.reserved_va_list.eraseP
          (reservation_contains args.offset) := by
  unfold gk20a_vm_free_space at hok ⊢
  simp only [] at hok ⊢
  generalize determine_pgsz_idx s.vm args.page_size = i at hok ⊢
  generalize (s.vm.vma i).free (u32 (args.offset >>> ilog2 (s.vm.gmmu_page_sizes i)))
    args.pages = r at hok ⊢
  by_cases h1 : i ≥ gmmu_nr_page_sizes
  · rw [if_pos h1] at hok
    have hE : (-EINVAL : Int) ≠ 0 := by decide
    exact absurd hok hE
  · rw [if_neg h1] at hok ⊢
    by_cases h2 : r.1 ≠ 0
    · rw [if_pos h2] at hok
      exact absurd hok h2
    · rw [if_neg h2] at hok ⊢
      have hnode' : addr_to_reservation (s.with_vm (s.vm.set_vma i r.2)).vm args.offset =
          some va_node := by
        unfold addr_to_reservation at hnode ⊢
        simpa using hnode
      rw [hnode']
      simp only []
      refine ⟨s.with_vm (s.vm.set_vma i r.2), by simp, by simp, ?_, ?_⟩
      · cases va_node.sparse
        · simp
        · simp [gk20a_locked_gmmu_unmap_vm]
      · cases va_node.sparse
        · simp
        · simp [gk20a_locked_gmmu_unmap_vm]

/-- C18: when `gk20a_vm_free_space` returns 0 and `addr_to_reservation` finds
a reservation at the offset (registry ordered by address, the linked buffers
distinct): the reservation list afterwards is the old one without that
reservation, the lists of the others at most shortened, so an address that no
remaining reservation contains has no reservation; and every registry entry
linked in the reservation has lost exactly one reference and is out of the
registry when that was its last, while the other entries are unchanged. -/
theorem gk20a_vm_free_space_releases (s : MmState) (env : Env) (args : SpaceArgs)
    (va_node : VmReservedVaNode)
    (hord : s.vm.mapped_buffers.Ordered)
    (hnode : addr_to_reservation s.vm args.offset = some va_node)
    (hdist : (va_node.va_buffers_list.map VaBuffer.addr).Nodup)
    (hok : (gk20a_vm_free_space s env args).1 = 0) :
    (∃ p : VaBuffer → Bool, (gk20a_vm_free_space s env args).2.vm.reserved_va_list =
        (s.vm.reserved_va_list.eraseP (reservation_contains args.offset)).map
          (fun n => { n with va_buffers_list := n.va_buffers_list.filter p })) ∧
    (∀ a, (∀ r ∈ s.vm.reserved_va_list.eraseP (reservation_contains args.offset),
        reservation_contains a r = false) →
      addr_to_reservation (gk20a_vm_free_space s env args).2.vm a = none) ∧
    (gk20a_vm_free_space s env args).2.vm.mapped_buffers.toList =
      s.vm.mapped_buffers.toList.filterMap (fun e =>
        if e.addr ∈ va_node.va_buffers_list.map VaBuffer.addr then
          (if e.ref - 1 = 0 then none else some { e with ref := e.ref - 1 })
        else some e) ∧
    (∀ b ∈ va_node.va_buffers_list, ∀ e ∈ s.vm.mapped_buffers.toList, e.addr = b.addr →
      find_mapped_buffer_locked (gk20a_vm_free_space s env args).2.vm.mapped_buffers b.addr =
        if e.ref - 1 = 0 then none else some { e with ref := e.ref - 1 }) := by
  obtain ⟨s1, hreg1, hres1, hreg, hres⟩ := gk20a_vm_free_space_ok s env args va_node hnode hok
  rw [put_va_buffers_eq] at hreg hres
  have hord1 : s1.vm.mapped_buffers.Ordered := by rw [hreg1]; exact hord
  have hlist := gk20a_vm_put_buffers_toList env _ hdist s1 hord1
  rw [← hreg, hreg1] at hlist
  have hordf : (gk20a_vm_free_space s env args).2.vm.mapped_buffers.Ordered := by
    rw [hreg]; exact gk20a_vm_put_buffers_ordered env _ s1 hord1
  obtain ⟨p, hp⟩ := gk20a_vm_put_buffers_reserved env (va_node.va_buffers_list.map VaBuffer.addr) s1
  have hresf : (gk20a_vm_free_space s env args).2.vm.reserved_va_list =
      (s.vm.reserved_va_list.eraseP (reservation_contains args.offset)).map
        (fun n => { n with va_buffers_list := n.va_buffers_list.filter p }) := by
    rw [hres, hp, hres1, List.eraseP_map]
    rfl
  refine ⟨⟨p, hresf⟩, ?_, hlist, ?_⟩
  · intro a ha
    unfold addr_to_reservation
    rw [hresf, List.find?_map]
    have : List.find? (reservation_contains a ∘ fun n : VmReservedVaNode =>
        { n with va_buffers_list := n.va_buffers_list.filter p })
        (s.vm.reserved_va_list.eraseP (reservation_contains args.offset)) = none := by
      rw [List.find?_eq_none]
      intro r hr
      have := ha r hr
      simpa [Function.comp, reservation_contains_filter] using this
    rw [this]
    rfl
  · intro b hb e he hea
    have hbL : b.addr ∈ va_node.va_buffers_list.map VaBuffer.addr := List.mem_map.2 ⟨b, hb, rfl⟩
    by_cases h0 : e.ref - 1 = 0
    · rw [if_pos h0]
      apply find_mapped_buffer_locked_none
      intro x hx hxa
      rw [hlist] at hx
      obtain ⟨y, hy, hyx⟩ := List.mem_filterMap.1 hx
      by_cases hyL : y.addr ∈ va_node.va_buffers_list.map VaBuffer.addr
      · rw [if_pos hyL] at hyx
        by_cases hy0 : y.ref - 1 = 0
        · rw [if_pos hy0] at hyx
          exact Option.noConfusion hyx
        · rw [if_neg hy0] at hyx
          have hxy : x.addr = y.addr := by
            have := Option.some.inj hyx
            rw [← this]
          have := ordered_addr_inj _ hord y e hy he (by rw [← hxy, hxa, hea])
          rw [this] at hy0
          exact hy0 h0
      · rw [if_neg hyL] at hyx
        have := Option.some.inj hyx
        rw [this, hxa] at hyL
        exact hyL hbL
    · rw [if_neg h0]
      have hmem : ({ e with ref := e.ref - 1 } : MappedBuffer) ∈
          (gk20a_vm_free_space s env args).2.vm.mapped_buffers.toList := by
        rw [hlist]
        refine List.mem_filterMap.2 ⟨e, he, ?_⟩
        rw [if_pos (by rw [hea]; exact hbL), if_neg h0]
      have := find_mapped_buffer_locked_mem _ _ hordf hmem
      rw [← hea]
      exact this

theorem gk20a_vm_free_space_releases_witness :
    (gk20a_vm_free_space sample_vm_state sample_env
        { pages := 2, page_size := 0x10000, flags := 0, offset := 0x400000000 }).1 = 0 ∧
    (gk20a_vm_free_space sample_vm_state sample_env
        { pages := 2, page_size := 0x10000, flags := 0, offset := 0x400000000 }).2.vm.mapped_buffers.toList
      = [] ∧
    addr_to_reservation (gk20a_vm_free_space sample_vm_state sample_env
        { pages := 2, page_size := 0x10000, flags := 0, offset := 0x400000000 }).2.vm 0x400000000
      = none := by
  have h := gk20a_vm_free_space_releases sample_vm_state sample_env
    { pages := 2, page_size := 0x10000, flags := 0, offset := 0x400000000 }
    { vaddr_start := 0x400000000, size := 0x20000, pgsz_idx := 1, sparse := false,
      va_buffers_list := [{ addr := 0x400000000, size := 0x10000 }] }
    (by decide) (by decide) (by decide) (by decide)
  refine ⟨by decide, ?_, ?_⟩
  · rw [h.2.2.1]
    decide
  · exact h.2.1 0x400000000 (by decide)

/-! ## Fixed-offset mappings that overlap -/

/-- When at most one reservation contains `a`, the store through the pointer
`addr_to_reservation` returned changes that reservation. -/
theorem update_reservation_eq_map (a : Nat) (f : VmReservedVaNode → VmReservedVaNode) :
    ∀ l : List VmReservedVaNode,
      l.Pairwise (fun r r' => ¬ (reservation_contains a r = true ∧ reservation_contains a r' = true)) →
      update_reservation l a f = l.map (fun n => if reservation_contains a n then f n else n) := by
  intro l
  induction l with
  | nil => intro _; rfl
  | cons n rest ih =>
    intro h
    obtain ⟨h1, h2⟩ := List.pairwise_cons.1 h
    rw [update_reservation, List.map_cons]
    by_cases hc : reservation_contains a n = true
    · rw [if_pos hc, if_pos hc]
      congr 1
      symm
      conv_rhs => rw [← List.map_id rest]
      apply List.map_congr_left
      intro x hx
      have := h1 x hx
      have hx' : ¬ reservation_contains a x = true := fun hxc => this ⟨hc, hxc⟩
      rw [if_neg hx']
      rfl
    · rw [if_neg hc, if_neg hc, ih h2]

/-- A fixed-offset request for a buffer that is not mapped yet and that
`validate_fixed_buffer` rejects returns 0 and leaves the address space. -/
theorem gk20a_vm_map_fixed_invalid (g : Gk20a) (s : MmState) (env : Env) (dmabuf : DmaBuf)
    (oa flags kind : Nat) (um : Bool) (rw bo ms : Nat)
    (hfix : flag_set flags g.NVGPU_AS_MAP_BUFFER_FLAGS_FIXED_OFFSET = true)
    (hnew : find_mapped_buffer_reverse_locked s.vm.mapped_buffers dmabuf.id kind = none)
    (hval : validate_fixed_buffer s.vm (gk20a_vm_map_attrs g s.vm dmabuf oa flags kind) oa
      (if ms ≠ 0 then ms else dmabuf.size) ≠ 0) :
    (gk20a_vm_map g s env dmabuf oa flags kind um rw bo ms).1 = 0 ∧
    (gk20a_vm_map g s env dmabuf oa flags kind um rw bo ms).2.vm = s.vm := by
  have hd := gk20a_vm_map_duplicate_locked_miss g s dmabuf.id oa flags kind um hnew
  unfold gk20a_vm_map
  simp only [hd, ne_eq, not_true_eq_false, if_false]
  cases hp : (gk20a_mm_pin s env dmabuf.id).1
  · simp only [if_true]
    refine ⟨rfl, ?_⟩
    simp [gk20a_vm_map_clean_up]
  · simp only [Bool.true_eq_false, if_false]
    unfold gk20a_vm_map_pinned
    simp only [gk20a_mm_pin_vm]
    have hsz : (gk20a_vm_map_attrs g s.vm dmabuf oa flags kind).size = dmabuf.size := rfl
    rw [hsz]
    generalize (if ms ≠ 0 then ms else dmabuf.size) = msz at hval ⊢
    have hc : ∀ (x : MmState) (b : BufferAttrs), x.vm = s.vm →
        (gk20a_vm_map_clean_up x dmabuf false 0 b true).1 = 0 ∧
        (gk20a_vm_map_clean_up x dmabuf false 0 b true).2.vm = s.vm := by
      intro x b hx
      exact ⟨rfl, by simp [gk20a_vm_map_clean_up, hx]⟩
    by_cases h1 : (gk20a_vm_map_attrs g s.vm dmabuf oa flags kind).pgsz_idx = -1
    · rw [if_pos h1]
      exact hc _ _ (gk20a_mm_pin_vm _ _ _)
    · rw [if_neg h1]
      by_cases h2 : (gk20a_vm_map_attrs g s.vm dmabuf oa flags kind).pgsz_idx < gmmu_page_size_small ∨
          (gk20a_vm_map_attrs g s.vm dmabuf oa flags kind).pgsz_idx > gmmu_page_size_big
      · rw [if_pos h2]
        exact hc _ _ (gk20a_mm_pin_vm _ _ _)
      · rw [if_neg h2, if_pos ⟨hfix, hval⟩]
        exact hc _ _ (gk20a_mm_pin_vm _ _ _)

/-- What a successful fixed-offset `gk20a_vm_map` of a buffer that was not
mapped yet has done to the address space: the request passed
`validate_fixed_buffer`, the returned address is the requested one, and the
mapping is linked in the reservation of that address. -/
theorem gk20a_vm_map_fixed_success_vm (g : Gk20a) (s : MmState) (env : Env) (dmabuf : DmaBuf)
    (oa flags kind : Nat) (um : Bool) (rw bo ms : Nat)
    (hfix : flag_set flags g.NVGPU_AS_MAP_BUFFER_FLAGS_FIXED_OFFSET = true)
    (hnew : find_mapped_buffer_reverse_locked s.vm.mapped_buffers dmabuf.id kind = none)
    (hO : oa ≠ 0)
    (hok : (gk20a_vm_map g s env dmabuf oa flags kind um rw bo ms).1 ≠ 0) :
    (gk20a_vm_map g s env dmabuf oa flags kind um rw bo ms).1 = oa ∧
    validate_fixed_buffer s.vm (gk20a_vm_map_attrs g s.vm dmabuf oa flags kind) oa
      (if ms ≠ 0 then ms else dmabuf.size) = 0 ∧
    ∃ t n, (gk20a_vm_map g s env dmabuf oa flags kind um rw bo ms).2.vm =
      { s.vm with
        mapped_buffers := t
        num_user_mapped_buffers := n
        reserved_va_list := update_reservation s.vm.reserved_va_list oa (fun r =>
          { r with va_buffers_list := r.va_buffers_list ++
              [{ addr := oa, size := if ms ≠ 0 then ms else dmabuf.size }] }) } := by
  have hd := gk20a_vm_map_duplicate_locked_miss g s dmabuf.id oa flags kind um hnew
  obtain ⟨_, hmap⟩ := gk20a_vm_map_inv g s env dmabuf oa flags kind um rw bo ms (by rw [hd]) hok
  rw [hd] at hmap
  simp only [] at hmap
  rw [hmap] at hok ⊢
  have hpv : (gk20a_mm_pin s env dmabuf.id).2.vm = s.vm := gk20a_mm_pin_vm _ _ _
  generalize (gk20a_mm_pin s env dmabuf.id).2 = sp at hok hpv ⊢
  obtain ⟨_, hval, _, hpinned⟩ := gk20a_vm_map_pinned_inv g sp env dmabuf oa flags kind um rw bo ms hok
  have hval' := hval hfix
  rw [hpv] at hval'
  rw [hpinned] at hok ⊢
  simp only [hfix, if_true, Bool.not_true] at hok ⊢
  generalize (if ms ≠ 0 then ms else dmabuf.size) = msz at hok hval' ⊢
  generalize (setup_buffer_kind_and_compression g sp.vm
    (gk20a_vm_map_attrs g sp.vm dmabuf oa flags kind)
    (gk20a_vm_map_attrs g sp.vm dmabuf oa flags kind).pgsz_idx.toNat).2 = bfr at hok ⊢
  obtain ⟨hm, hptes⟩ := gk20a_vm_map_ptes_inv g sp env dmabuf flags kind um rw bo msz bfr false oa hok
  rw [hptes] at hok ⊢
  obtain ⟨_, hmv, _, _⟩ := gk20a_locked_gmmu_map_inv _ _ _ _ _ _ _ _ _ _ _ _ _ _ hm
  obtain ⟨hm1, hm2⟩ := hmv hO
  rw [(gk20a_vm_map_comptags_frame sp dmabuf bfr).1, hpv] at hm2
  generalize (gk20a_locked_gmmu_map g (gk20a_vm_map_comptags sp dmabuf bfr).2.2 env oa true bo msz
    (gk20a_vm_map_comptags sp dmabuf bfr).1.pgsz_idx.toNat
    (gk20a_vm_map_comptags sp dmabuf bfr).1.kind_v
    (gk20a_vm_map_comptags sp dmabuf bfr).1.ctag_offset flags rw
    (gk20a_vm_map_comptags sp dmabuf bfr).2.1 false) = m at hok hm1 hm2 ⊢
  obtain ⟨_, _, _, htrack⟩ := gk20a_vm_map_track_inv _ _ _ _ _ _ _ _ _ _ hok
  rw [htrack, hm1]
  refine ⟨rfl, hval', ?_⟩
  simp only [MmState.with_vm_vm, hm2, Bool.false_eq_true, if_false]
  exact ⟨_, _, rfl⟩

theorem VmGk20a.gmmu_page_sizes_pow (vm : VmGk20a) (hs : ∃ k < 32, vm.page_size_small = 2 ^ k)
    (hb : ∃ k < 32, vm.page_size_big = 2 ^ k) (i : Nat) :
    ∃ k < 32, vm.gmmu_page_sizes i = 2 ^ k := by
  unfold VmGk20a.gmmu_page_sizes
  split
  · exact hs
  · exact hb

/-- C5 (amended): in an address space whose page sizes are powers of two and
whose reservations lie below `2^63`, do not overlap one another and hold their
linked buffers, once a fixed-offset `gk20a_vm_map` of a buffer that was not
mapped before has succeeded at `O` (it returns `O`), every fixed-offset
`gk20a_vm_map` of a buffer that is not mapped yet and whose range has an
address in common with `[O, O + size)` returns 0 and leaves the address space
as it is: in Scenario A the second map at `O+0x10000` and the third at
`O+0x8000` both fail after the first covered the whole region. -/
theorem gk20a_vm_map_fixed_overlap_fails (g : Gk20a) (s1 : MmState) (env : Env) (dmabuf : DmaBuf)
    (O flags kind : Nat) (um : Bool) (rw bo ms : Nat)
    (hfix : flag_set flags g.NVGPU_AS_MAP_BUFFER_FLAGS_FIXED_OFFSET = true)
    (hnew : find_mapped_buffer_reverse_locked s1.vm.mapped_buffers dmabuf.id kind = none)
    (hO : O ≠ 0) (hOlt : O < U64) (hms : (if ms ≠ 0 then ms else dmabuf.size) < U64)
    (hs : ∃ k < 32, s1.vm.page_size_small = 2 ^ k) (hb : ∃ k < 32, s1.vm.page_size_big = 2 ^ k)
    (hres : ∀ r ∈ s1.vm.reserved_va_list, r.vaddr_start + r.size < 2 ^ 63 ∧
      ∀ b ∈ r.va_buffers_list, b.addr + b.size ≤ r.vaddr_start + r.size)
    (hdisj : s1.vm.reserved_va_list.Pairwise (fun r r' =>
      r.vaddr_start + r.size ≤ r'.vaddr_start ∨ r'.vaddr_start + r'.size ≤ r.vaddr_start))
    (hok : (gk20a_vm_map g s1 env dmabuf O flags kind um rw bo ms).1 ≠ 0) :
    (gk20a_vm_map g s1 env dmabuf O flags kind um rw bo ms).1 = O ∧
    ∀ (s : MmState) (env' : Env) (dmabuf' : DmaBuf) (oa flags' kind' : Nat) (um' : Bool)
      (rw' bo' ms' : Nat),
      s.vm = (gk20a_vm_map g s1 env dmabuf O flags kind um rw bo ms).2.vm →
      flag_set flags' g.NVGPU_AS_MAP_BUFFER_FLAGS_FIXED_OFFSET = true →
      find_mapped_buffer_reverse_locked s.vm.mapped_buffers dmabuf'.id kind' = none →
      oa < U64 → (if ms' ≠ 0 then ms' else dmabuf'.size) < U64 →
      ranges_overlap oa (if ms' ≠ 0 then ms' else dmabuf'.size) O
        (if ms ≠ 0 then ms else dmabuf.size) →
      (gk20a_vm_map g s env' dmabuf' oa flags' kind' um' rw' bo' ms').1 = 0 ∧
      (gk20a_vm_map g s env' dmabuf' oa flags' kind' um' rw' bo' ms').2.vm = s.vm := by
  obtain ⟨h1, hval, t, n, hvm⟩ :=
    gk20a_vm_map_fixed_success_vm g s1 env dmabuf O flags kind um rw bo ms hfix hnew hO hok
  generalize (if ms ≠ 0 then ms else dmabuf.size) = msz at hms hval hvm ⊢
  generalize (gk20a_vm_map g s1 env dmabuf O flags kind um rw bo ms).2.vm = vm2 at hvm ⊢
  refine ⟨h1, ?_⟩
  -- the first request passed the validation
  obtain ⟨k, hk, hpage⟩ := VmGk20a.gmmu_page_sizes_pow s1.vm hs hb
    (gk20a_vm_map_attrs g s1.vm dmabuf O flags kind).pgsz_idx.toNat
  obtain ⟨⟨hnw, hpos⟩, _, va, hva, hvac, hvae, _⟩ :=
    ((validate_fixed_buffer_spec s1.vm _ O msz k hOlt hms hpage hk hres hdisj).1).1 hval
  -- at most one reservation contains an address
  have hcont : ∀ a, ∀ r ∈ s1.vm.reserved_va_list, reservation_contains a r = true ↔
      r.vaddr_start ≤ a ∧ a < r.vaddr_start + r.size := by
    intro a r hr
    apply reservation_contains_iff
    have := (hres r hr).1
    unfold U64
    omega
  have hone : s1.vm.reserved_va_list.Pairwise (fun r r' =>
      ¬ (reservation_contains O r = true ∧ reservation_contains O r' = true)) := by
    refine hdisj.imp_of_mem ?_
    intro r r' hr hr' hd hc
    have c1 := (hcont O r hr).1 hc.1
    have c2 := (hcont O r' hr').1 hc.2
    omega
  have hlist : vm2.reserved_va_list = s1.vm.reserved_va_list.map (fun r =>
      if reservation_contains O r then
        { r with va_buffers_list := r.va_buffers_list ++ [{ addr := O, size := msz }] }
      else r) := by
    rw [hvm]
    exact update_reservation_eq_map O _ _ hone
  have hsmall : vm2.page_size_small = s1.vm.page_size_small := by rw [hvm]
  have hbig : vm2.page_size_big = s1.vm.page_size_big := by rw [hvm]
  have hmem2 : ∀ r' ∈ vm2.reserved_va_list, ∃ r ∈ s1.vm.reserved_va_list,
      r'.vaddr_start = r.vaddr_start ∧ r'.size = r.size ∧
      ((reservation_contains O r = true ∧
          r'.va_buffers_list = r.va_buffers_list ++ [{ addr := O, size := msz }]) ∨
        (¬ reservation_contains O r = true ∧ r'.va_buffers_list = r.va_buffers_list)) := by
    intro r' hr'
    rw [hlist] at hr'
    obtain ⟨r, hr, hrr⟩ := List.mem_map.1 hr'
    refine ⟨r, hr, ?_⟩
    by_cases hc : reservation_contains O r = true
    · rw [if_pos hc] at hrr
      subst hrr
      exact ⟨rfl, rfl, Or.inl ⟨hc, rfl⟩⟩
    · rw [if_neg hc] at hrr
      subst hrr
      exact ⟨rfl, rfl, Or.inr ⟨hc, rfl⟩⟩
  have hsame : ∀ r ∈ s1.vm.reserved_va_list, reservation_contains O r = true → r = va := by
    intro r hr hc
    by_contra hne
    have hd := hdisj.forall (fun x y hxy => Or.symm hxy) hr hva hne
    have c1 := (hcont O r hr).1 hc
    omega
  have hres2 : ∀ r ∈ vm2.reserved_va_list, r.vaddr_start + r.size < 2 ^ 63 ∧
      ∀ b ∈ r.va_buffers_list, b.addr + b.size ≤ r.vaddr_start + r.size := by
    intro r' hr'
    obtain ⟨r, hr, e1, e2, hcase⟩ := hmem2 r' hr'
    rw [e1, e2]
    refine ⟨(hres r hr).1, ?_⟩
    rcases hcase with ⟨hc, hl⟩ | ⟨_, hl⟩
    · rw [hl]
      intro b hb
      rcases List.mem_append.1 hb with hb | hb
      · exact (hres r hr).2 b hb
      · have := hsame r hr hc
        subst this
        have hb' : b = { addr := O, size := msz } := by simpa using hb
        subst hb'
        exact hvae
    · rw [hl]
      exact (hres r hr).2
  have hdisj2 : vm2.reserved_va_list.Pairwise (fun r r' =>
      r.vaddr_start + r.size ≤ r'.vaddr_start ∨ r'.vaddr_start + r'.size ≤ r.vaddr_start) := by
    rw [hlist, List.pairwise_map]
    refine hdisj.imp ?_
    intro r r' h
    by_cases hc : reservation_contains O r = true <;>
      by_cases hc' : reservation_contains O r' = true <;>
      simp only [hc, hc', if_true, if_false] <;> exact h
  intro s env' dmabuf' oa flags' kind' um' rw' bo' ms' hsvm hfix' hnew' hoa hms' hov
  apply gk20a_vm_map_fixed_invalid g s env' dmabuf' oa flags' kind' um' rw' bo' ms' hfix' hnew'
  generalize (if ms' ≠ 0 then ms' else dmabuf'.size) = msz' at hms' hov ⊢
  intro hz
  rw [hsvm] at hz
  obtain ⟨k', hk', hpage'⟩ := VmGk20a.gmmu_page_sizes_pow vm2 (by rw [hsmall]; exact hs)
    (by rw [hbig]; exact hb) (gk20a_vm_map_attrs g vm2 dmabuf' oa flags' kind').pgsz_idx.toNat
  obtain ⟨_, _, va', hva', hvac', hvae', hno⟩ :=
    ((validate_fixed_buffer_spec vm2 _ oa msz' k' hoa hms' hpage' hk' hres2 hdisj2).1).1 hz
  obtain ⟨r, hr, e1, e2, hcase⟩ := hmem2 va' hva'
  unfold ranges_overlap at hov
  rcases hcase with ⟨hc, hl⟩ | ⟨hc, _⟩
  · apply hno { addr := O, size := msz }
    · rw [hl]; simp
    · exact hov
  · have hne : r ≠ va := fun h => hc (by rw [h]; exact (hcont O va hva).2 hvac)
    have hd := hdisj.forall (fun x y hxy => Or.symm hxy) hr hva hne
    rw [e1, e2] at hvac' hvae'
    simp only [Nat.max_def, Nat.min_def] at hov
    split_ifs at hov <;> omega

theorem gk20a_vm_map_fixed_overlap_fails_witness :
    (gk20a_vm_alloc_space sample_g sample_state sample_env scenario_a_args).1 = 0 ∧
    (gk20a_vm_alloc_space sample_g sample_state sample_env scenario_a_args).2.1 = 0x400000000 ∧
    (gk20a_vm_map sample_g scenario_a_reserved sample_env sample_buf_a 0x400000000 1 0 true 0 0
      0x20000).1 = 0x400000000 ∧
    ((gk20a_vm_map sample_g scenario_a_mapped sample_env sample_buf_b 0x400010000 1 0 true 0 0
        0x10000).1 = 0 ∧
      (gk20a_vm_map sample_g scenario_a_mapped sample_env sample_buf_b 0x400010000 1 0 true 0 0
        0x10000).2.vm = scenario_a_mapped.vm) ∧
    ((gk20a_vm_map sample_g
        (gk20a_vm_map sample_g scenario_a_mapped sample_env sample_buf_b 0x400010000 1 0 true 0 0
          0x10000).2 sample_env sample_buf_c 0x400008000 1 0 true 0 0 0x10000).1 = 0 ∧
      (gk20a_vm_map sample_g
        (gk20a_vm_map sample_g scenario_a_mapped sample_env sample_buf_b 0x400010000 1 0 true 0 0
          0x10000).2 sample_env sample_buf_c 0x400008000 1 0 true 0 0 0x10000).2.vm =
        (gk20a_vm_map sample_g scenario_a_mapped sample_env sample_buf_b 0x400010000 1 0 true 0 0
          0x10000).2.vm) := by
  have h := gk20a_vm_map_fixed_overlap_fails sample_g scenario_a_reserved sample_env sample_buf_a
    0x400000000 1 0 true 0 0 0x20000 (by decide) (by decide) (by decide) (by decide) (by decide)
    ⟨12, by decide, by decide⟩ ⟨16, by decide, by decide⟩ (by decide) (by decide) (by decide)
  have h2 := h.2 scenario_a_mapped sample_env sample_buf_b 0x400010000 1 0 true 0 0 0x10000 rfl
    (by decide) (by decide) (by decide) (by decide) (by decide)
  have h3 := h.2 (gk20a_vm_map sample_g scenario_a_mapped sample_env sample_buf_b 0x400010000 1 0
    true 0 0 0x10000).2 sample_env sample_buf_c 0x400008000 1 0 true 0 0 0x10000 h2.2
    (by decide) (by decide) (by decide) (by decide) (by decide)
  exact ⟨by decide, by decide, h.1, h2, h3⟩

/-- C5 as stated fails at step (2): on the fresh sample address space (4 KiB
and 64 KiB pages) `gk20a_vm_alloc_space` reserves the two big pages at
`O = 0x400000000`, the fixed-offset map of `sample_buf_a` at `O` with size
`0x20000` succeeds and is linked in the reservation over its whole length, and
the fixed-offset map of `sample_buf_b` at `O + 0x10000` with size `0x10000`
returns 0: `validate_fixed_buffer` finds the first mapping in its way. -/
theorem scenario_a_second_map_fails :
    (gk20a_vm_alloc_space sample_g sample_state sample_env scenario_a_args).1 = 0 ∧
    (gk20a_vm_alloc_space sample_g sample_state sample_env scenario_a_args).2.1 = 0x400000000 ∧
    scenario_a_reserved.vm.page_size_small = 4096 ∧
    scenario_a_reserved.vm.page_size_big = 65536 ∧
    scenario_a_reserved.vm.reserved_va_list =
      [{ vaddr_start := 0x400000000, size := 0x20000, pgsz_idx := 1, sparse := false,
         va_buffers_list := [] }] ∧
    (gk20a_vm_map sample_g scenario_a_reserved sample_env sample_buf_a 0x400000000 1 0 true 0 0
      0x20000).1 = 0x400000000 ∧
    scenario_a_mapped.vm.reserved_va_list =
      [{ vaddr_start := 0x400000000, size := 0x20000, pgsz_idx := 1, sparse := false,
         va_buffers_list := [{ addr := 0x400000000, size := 0x20000 }] }] ∧
    validate_fixed_buffer scenario_a_mapped.vm
      (gk20a_vm_map_attrs sample_g scenario_a_mapped.vm sample_buf_b 0x400010000 1 0)
      0x400010000 0x10000 = -EINVAL ∧
    (gk20a_vm_map sample_g scenario_a_mapped sample_env sample_buf_b 0x400010000 1 0 true 0 0
      0x10000).1 = 0 := by
  decide

/-! ## Round trip of a mapping -/

/-- Releasing the run `gk20a_vm_alloc_va` has just recorded gives the address
space back: the unit counts of the two calls agree and the allocator drops the
run it inserted. -/
theorem gk20a_vm_alloc_va_free_va (vm : VmGk20a) (size i k : Nat)
    (hp : vm.gmmu_page_sizes i = 2 ^ k) (hk : k < 32) (hs : size + 2 ^ k - 1 < U64)
    (hwf : (vm.vma i).WF) (hlim : (vm.vma i).limit ≤ U32) :
    ((size + (2 ^ k - 1)) &&& not64 (2 ^ k - 1)) >>> k = (size + 2 ^ k - 1) >>> k ∧
    ((gk20a_vm_alloc_va vm size i).1 ≠ 0 →
      ∃ start,
        (gk20a_vm_alloc_va vm size i).2 = vm.set_vma i (Gk20aAllocator.mk (vm.vma i).base
          (vm.vma i).limit (Gk20aAllocator.insert_run
            (start, u32 ((size + 2 ^ k - 1) >>> k)) (vm.vma i).runs)) ∧
        (gk20a_vm_alloc_va vm size i).1 = start * 2 ^ k ∧
        (gk20a_vm_alloc_va vm size i).1 % 2 ^ k = 0 ∧
        gk20a_vm_free_va (gk20a_vm_alloc_va vm size i).2 (gk20a_vm_alloc_va vm size i).1 size i =
          (0, vm)) := by
  have hpos : 0 < 2 ^ k := Nat.two_pow_pos k
  have hsum : size + (2 ^ k - 1) = size + 2 ^ k - 1 := by omega
  refine ⟨by rw [hsum]; exact and_not_mask_shift _ k hs, ?_⟩
  have hfree := alloc_pages_eq_free_pages size k hk
  have hu32 := u32_two_pow k hk
  have hilog := ilog2_two_pow k (by omega)
  have hn : u32 (u64 (size + u32 (2 ^ k) + U64 - 1) >>> ilog2 (u32 (2 ^ k))) =
      u32 ((size + 2 ^ k - 1) >>> k) := by
    rw [hu32, hilog]
    have : size + 2 ^ k + U64 - 1 = (size + 2 ^ k - 1) + U64 := by omega
    unfold u64
    rw [this, Nat.add_mod_right, Nat.mod_eq_of_lt hs]
  have hfv : ∀ vm' o, gk20a_vm_free_va vm' o size i =
      (((vm'.vma i).free (u32 (o >>> ilog2 (u32 (vm'.gmmu_page_sizes i))))
        (u32 (u64 (size + u32 (vm'.gmmu_page_sizes i) + U64 - 1) >>>
          ilog2 (u32 (vm'.gmmu_page_sizes i))))).1,
       vm'.set_vma i ((vm'.vma i).free (u32 (o >>> ilog2 (u32 (vm'.gmmu_page_sizes i))))
        (u32 (u64 (size + u32 (vm'.gmmu_page_sizes i) + U64 - 1) >>>
          ilog2 (u32 (vm'.gmmu_page_sizes i))))).2) := fun _ _ => rfl
  rw [hfv]
  unfold gk20a_vm_alloc_va
  simp only []
  by_cases h1 : i ≥ gmmu_nr_page_sizes
  · rw [if_pos h1]; exact fun h0 => absurd rfl h0
  rw [if_neg h1]
  by_cases h2 : i = gmmu_page_size_big ∧ vm.big_pages = false
  · rw [if_pos h2]; exact fun h0 => absurd rfl h0
  rw [if_neg h2, hp, hfree, hn]
  have hn2 : u32 (u64 (size + 2 ^ k + U64 - 1) >>> k) = u32 ((size + 2 ^ k - 1) >>> k) := by
    rw [hu32, hilog] at hn; exact hn
  generalize u32 ((size + 2 ^ k - 1) >>> k) = n at hn2 ⊢
  rw [hilog]
  obtain ⟨hok, _⟩ := Gk20aAllocator.alloc_spec (vm.vma i) 0 n hwf
  by_cases h3 : ((vm.vma i).alloc 0 n).1 ≠ 0
  · rw [if_pos h3]; exact fun h0 => absurd rfl h0
  rw [if_neg h3]
  push_neg at h3
  obtain ⟨hlen, hb, hl, hfr, _, heq⟩ := hok h3
  have hsl : ((vm.vma i).alloc 0 n).2.1 < U32 := by omega
  obtain ⟨hc1, hc2⟩ := shl_shr_cancel _ k hsl hk
  intro _
  simp only []
  refine ⟨((vm.vma i).alloc 0 n).2.1, by rw [heq], hc2, ?_, ?_⟩
  · rw [hc2]; exact Nat.mul_mod_left _ _
  · have hv : (vm.set_vma i ((vm.vma i).alloc 0 n).2.2).vma i = ((vm.vma i).alloc 0 n).2.2 := by
      rw [VmGk20a.set_vma_vma]; simp
    rw [VmGk20a.set_vma_page, hp, hu32, hilog, hc1, hv, VmGk20a.set_vma_set_vma, hn2]
    have hnot : (((vm.vma i).alloc 0 n).2.1, n) ∉ (vm.vma i).runs := by
      intro hmem
      have := hfr _ hmem
      simp only [] at this
      omega
    have hmem : (((vm.vma i).alloc 0 n).2.1, n) ∈ ((vm.vma i).alloc 0 n).2.2.runs := by
      rw [heq]
      exact (Gk20aAllocator.insert_run_perm _ _).mem_iff.2 (List.mem_cons_self _ _)
    have hfe : ((vm.vma i).alloc 0 n).2.2.free ((vm.vma i).alloc 0 n).2.1 n = (0, vm.vma i) := by
      unfold Gk20aAllocator.free
      rw [if_pos hmem]
      congr 1
      rw [heq]
      simp only []
      rw [Gk20aAllocator.erase_insert_run _ _ hnot]
    rw [hfe]
    simp only []
    rw [VmGk20a.set_vma_self]

theorem rb_erase_absent (mb : MappedBuffer) (t : RbNode)
    (h : ∀ e ∈ t.toList, e.addr ≠ mb.addr) : rb_erase mb t = t := by
  induction t with
  | nil => rfl
  | node l e r ihl ihr =>
    have he : e.addr ≠ mb.addr := h e (by simp [RbNode.toList])
    rw [rb_erase, if_neg he, ihl (fun x hx => h x (by simp [RbNode.toList, hx])),
      ihr (fun x hx => h x (by simp [RbNode.toList, hx]))]

/-- Erasing the node that was just linked gives the tree back. -/
theorem rb_erase_link_descend (mb : MappedBuffer) :
    ∀ (t t' : RbNode), rb_link_descend t mb = some t' →
      (∀ e ∈ t.toList, e.addr ≠ mb.addr) → rb_erase mb t' = t := by
  intro t
  induction t with
  | nil =>
    intro t' h _
    simp only [rb_link_descend, Option.some.injEq] at h
    subst h
    simp [rb_erase, RbNode.join]
  | node l c r ihl ihr =>
    intro t' h habs
    have hc : c.addr ≠ mb.addr := habs c (by simp [RbNode.toList])
    have hl : ∀ e ∈ l.toList, e.addr ≠ mb.addr := fun x hx => habs x (by simp [RbNode.toList, hx])
    have hr : ∀ e ∈ r.toList, e.addr ≠ mb.addr := fun x hx => habs x (by simp [RbNode.toList, hx])
    rw [rb_link_descend] at h
    by_cases h1 : c.addr > mb.addr
    · rw [if_pos h1] at h
      obtain ⟨l', hl', rfl⟩ := Option.map_eq_some'.1 h
      rw [rb_erase, if_neg hc, ihl l' hl' hl, rb_erase_absent mb r hr]
    · rw [if_neg h1, if_pos hc] at h
      obtain ⟨r', hr', rfl⟩ := Option.map_eq_some'.1 h
      rw [rb_erase, if_neg hc, ihr r' hr' hr, rb_erase_absent mb l hl]

theorem rb_erase_insert_mapped_buffer (t : RbNode) (mb : MappedBuffer) (h : t.Ordered)
    (h0 : (insert_mapped_buffer t mb).1 = 0) : rb_erase mb (insert_mapped_buffer t mb).2 = t := by
  have habs : ∀ e ∈ t.toList, e.addr ≠ mb.addr := by
    intro e he hea
    have := ((insert_mapped_buffer_spec t mb h).1).2 ⟨e, he, hea⟩
    rw [h0] at this
    have hE : (0 : Int) ≠ -EINVAL := by decide
    exact absurd this hE
  unfold insert_mapped_buffer at h0 ⊢
  cases hd : rb_link_descend t mb with
  | none =>
    rw [hd] at h0
    have hE : (-EINVAL : Int) ≠ 0 := by decide
    exact absurd h0 hE
  | some t' =>
    simp only [rb_insert_color]
    exact rb_erase_link_descend mb t t' hd habs

theorem setup_buffer_kind_and_compression_pgsz (g : Gk20a) (vm : VmGk20a) (bfr : BufferAttrs)
    (i : Nat) : (setup_buffer_kind_and_compression g vm bfr i).2.pgsz_idx = bfr.pgsz_idx := by
  unfold setup_buffer_kind_and_compression
  simp only []
  split_ifs <;> rfl

/-- The address space after `gk20a_vm_unmap_locked`. -/
theorem gk20a_vm_unmap_locked_vm_eq (s : MmState) (env : Env) (mb : MappedBuffer) :
    (gk20a_vm_unmap_locked s env mb).vm =
      { (if mb.va_allocated then (gk20a_vm_free_va s.vm mb.addr mb.size mb.pgsz_idx).2
          else s.vm) with
        mapped_buffers := rb_erase mb s.vm.mapped_buffers
        reserved_va_list := s.vm.reserved_va_list.map (fun n =>
          { n with va_buffers_list := n.va_buffers_list.filter (fun b => b.addr ≠ mb.addr) })
        num_user_mapped_buffers := if mb.user_mapped ≠ 0 then s.vm.num_user_mapped_buffers - 1
          else s.vm.num_user_mapped_buffers } := by
  have key : ∀ (X : MmState) (b : Bool) (ev : HwEvent),
      (if b = true then X.emit ev else X).vm = X.vm := by
    intro X b ev; split <;> rfl
  unfold gk20a_vm_unmap_locked
  simp only []
  rw [key]
  by_cases hu : mb.user_mapped ≠ 0
  · rw [if_pos hu, if_pos hu]
    cases hva : mb.va_allocated <;>
      simp [gk20a_locked_gmmu_unmap_vm, hva]
  · rw [if_neg hu, if_neg hu]
    cases hva : mb.va_allocated <;>
      simp [gk20a_locked_gmmu_unmap_vm, hva]

/-- What a successful `gk20a_vm_map` without fixed offset of a buffer that was
not mapped yet has done to the address space: the returned address is the one
`gk20a_vm_alloc_va` gave for the mapping size in the chosen page-size class,
and a tracking node with one reference is in the registry. -/
theorem gk20a_vm_map_alloc_success_vm (g : Gk20a) (s : MmState) (env : Env) (dmabuf : DmaBuf)
    (oa flags kind : Nat) (um : Bool) (rw bo ms : Nat)
    (hfix : flag_set flags g.NVGPU_AS_MAP_BUFFER_FLAGS_FIXED_OFFSET = false)
    (hnew : find_mapped_buffer_reverse_locked s.vm.mapped_buffers dmabuf.id kind = none)
    (hok : (gk20a_vm_map g s env dmabuf oa flags kind um rw bo ms).1 ≠ 0) :
    ∃ nb : MappedBuffer,
      (gk20a_vm_map g s env dmabuf oa flags kind um rw bo ms).1 =
        (gk20a_vm_alloc_va s.vm (if ms ≠ 0 then ms else dmabuf.size)
          (gk20a_vm_map_attrs g s.vm dmabuf oa flags kind).pgsz_idx.toNat).1 ∧
      nb.addr = (gk20a_vm_map g s env dmabuf oa flags kind um rw bo ms).1 ∧
      nb.size = (if ms ≠ 0 then ms else dmabuf.size) ∧
      nb.pgsz_idx = (gk20a_vm_map_attrs g s.vm dmabuf oa flags kind).pgsz_idx.toNat ∧
      nb.va_allocated = true ∧ nb.ref = 1 ∧ nb.user_mapped = (if um then 1 else 0) ∧
      (insert_mapped_buffer s.vm.mapped_buffers nb).1 = 0 ∧
      (gk20a_vm_map g s env dmabuf oa flags kind um rw bo ms).2.vm =
        { (gk20a_vm_alloc_va s.vm (if ms ≠ 0 then ms else dmabuf.size)
            (gk20a_vm_map_attrs g s.vm dmabuf oa flags kind).pgsz_idx.toNat).2 with
          mapped_buffers := (insert_mapped_buffer s.vm.mapped_buffers nb).2
          num_user_mapped_buffers := if um then s.vm.num_user_mapped_buffers + 1
            else s.vm.num_user_mapped_buffers } := by
  have hd := gk20a_vm_map_duplicate_locked_miss g s dmabuf.id oa flags kind um hnew
  obtain ⟨_, hmap⟩ := gk20a_vm_map_inv g s env dmabuf oa flags kind um rw bo ms (by rw [hd]) hok
  rw [hd] at hmap
  simp only [] at hmap
  rw [hmap] at hok ⊢
  have hpv : (gk20a_mm_pin s env dmabuf.id).2.vm = s.vm := gk20a_mm_pin_vm _ _ _
  generalize (gk20a_mm_pin s env dmabuf.id).2 = sp at hok hpv ⊢
  obtain ⟨_, _, _, hpinned⟩ := gk20a_vm_map_pinned_inv g sp env dmabuf oa flags kind um rw bo ms hok
  rw [hpinned] at hok ⊢
  simp only [hfix, Bool.false_eq_true, if_false, Bool.not_false] at hok ⊢
  generalize (if ms ≠ 0 then ms else dmabuf.size) = msz at hok ⊢
  have hbp := setup_buffer_kind_and_compression_pgsz g sp.vm
    (gk20a_vm_map_attrs g sp.vm dmabuf oa flags kind)
    (gk20a_vm_map_attrs g sp.vm dmabuf oa flags kind).pgsz_idx.toNat
  generalize (setup_buffer_kind_and_compression g sp.vm
    (gk20a_vm_map_attrs g sp.vm dmabuf oa flags kind)
    (gk20a_vm_map_attrs g sp.vm dmabuf oa flags kind).pgsz_idx.toNat).2 = bfr at hok hbp ⊢
  rw [hpv] at hbp
  obtain ⟨hm, hptes⟩ := gk20a_vm_map_ptes_inv g sp env dmabuf flags kind um rw bo msz bfr true 0 hok
  rw [hptes] at hok ⊢
  obtain ⟨_, _, hmz, _⟩ := gk20a_locked_gmmu_map_inv _ _ _ _ _ _ _ _ _ _ _ _ _ _ hm
  obtain ⟨hm1, hm2⟩ := hmz rfl
  have hcb : (gk20a_vm_map_comptags sp dmabuf bfr).1.pgsz_idx =
      (gk20a_vm_map_attrs g s.vm dmabuf oa flags kind).pgsz_idx := by
    rw [(gk20a_vm_map_comptags_frame sp dmabuf bfr).2.2.1, hbp]
  have hcv : (gk20a_vm_map_comptags sp dmabuf bfr).2.2.vm = s.vm := by
    rw [(gk20a_vm_map_comptags_frame sp dmabuf bfr).1, hpv]
  generalize (gk20a_locked_gmmu_map g (gk20a_vm_map_comptags sp dmabuf bfr).2.2 env 0 true bo msz
    (gk20a_vm_map_comptags sp dmabuf bfr).1.pgsz_idx.toNat
    (gk20a_vm_map_comptags sp dmabuf bfr).1.kind_v
    (gk20a_vm_map_comptags sp dmabuf bfr).1.ctag_offset flags rw
    (gk20a_vm_map_comptags sp dmabuf bfr).2.1 false) = m at hok hm1 hm2 ⊢
  rw [hcv, hcb] at hm1 hm2
  generalize (gk20a_vm_map_comptags sp dmabuf bfr).1 = cb at hok hcb ⊢
  obtain ⟨_, _, hins, htrack⟩ := gk20a_vm_map_track_inv _ _ _ _ _ _ _ _ _ _ hok
  rw [htrack]
  rw [hm2, gk20a_vm_alloc_va_mapped_buffers] at hins
  refine ⟨new_mapped_buffer (gk20a_vm_alloc_va s.vm msz
      (gk20a_vm_map_attrs g s.vm dmabuf oa flags kind).pgsz_idx.toNat).2 dmabuf flags kind um msz
      cb true m.1, hm1, rfl, rfl, ?_, rfl, rfl, rfl, hins, ?_⟩
  · show cb.pgsz_idx.toNat = _
    rw [hcb]
  · simp only [MmState.with_vm_vm, hm2, if_true, gk20a_vm_alloc_va_mapped_buffers,
      gk20a_vm_alloc_va_num]

theorem VmGk20a.set_vma_fields (vm : VmGk20a) (i : Nat) (a : Gk20aAllocator) :
    (vm.set_vma i a).page_size_small = vm.page_size_small ∧
    (vm.set_vma i a).page_size_big = vm.page_size_big ∧
    (vm.set_vma i a).big_pages = vm.big_pages := by
  unfold VmGk20a.set_vma
  split <;> exact ⟨rfl, rfl, rfl⟩

theorem gk20a_vm_free_va_config (vm : VmGk20a) (o sz i : Nat) :
    (gk20a_vm_free_va vm o sz i).2.page_size_small = vm.page_size_small ∧
    (gk20a_vm_free_va vm o sz i).2.page_size_big = vm.page_size_big ∧
    (gk20a_vm_free_va vm o sz i).2.big_pages = vm.big_pages := by
  rw [gk20a_vm_free_va_eq]
  exact VmGk20a.set_vma_fields _ _ _

theorem gk20a_vm_alloc_va_config (vm : VmGk20a) (sz i : Nat) :
    (gk20a_vm_alloc_va vm sz i).2.page_size_small = vm.page_size_small ∧
    (gk20a_vm_alloc_va vm sz i).2.page_size_big = vm.page_size_big ∧
    (gk20a_vm_alloc_va vm sz i).2.big_pages = vm.big_pages := by
  unfold gk20a_vm_alloc_va
  simp only []
  split_ifs
  · exact ⟨rfl, rfl, rfl⟩
  · exact ⟨rfl, rfl, rfl⟩
  · exact VmGk20a.set_vma_fields _ _ _
  · exact VmGk20a.set_vma_fields _ _ _

/-- The offset `gk20a_vm_alloc_va` returns depends on the page sizes, the
`big_pages` switch and the allocators only. -/
theorem gk20a_vm_alloc_va_congr {vm vm' : VmGk20a}
    (h1 : vm'.page_size_small = vm.page_size_small) (h2 : vm'.page_size_big = vm.page_size_big)
    (h3 : vm'.big_pages = vm.big_pages) (h4 : ∀ j, vm'.vma j = vm.vma j) (sz i : Nat) :
    (gk20a_vm_alloc_va vm' sz i).1 = (gk20a_vm_alloc_va vm sz i).1 := by
  have hp : ∀ j, vm'.gmmu_page_sizes j = vm.gmmu_page_sizes j := by
    intro j
    unfold VmGk20a.gmmu_page_sizes
    rw [h1, h2]
  unfold gk20a_vm_alloc_va
  simp only [hp, h3, h4]
  split_ifs <;> rfl

/-- The allocators `gk20a_vm_free_va` leaves depend on the page sizes and the
allocators only. -/
theorem gk20a_vm_free_va_congr {vm vm' : VmGk20a}
    (h1 : vm'.page_size_small = vm.page_size_small) (h2 : vm'.page_size_big = vm.page_size_big)
    (h4 : ∀ j, vm'.vma j = vm.vma j) (o sz i j : Nat) :
    (gk20a_vm_free_va vm' o sz i).2.vma j = (gk20a_vm_free_va vm o sz i).2.vma j := by
  have hp : ∀ j, vm'.gmmu_page_sizes j = vm.gmmu_page_sizes j := by
    intro j
    unfold VmGk20a.gmmu_page_sizes
    rw [h1, h2]
  rw [gk20a_vm_free_va_eq, gk20a_vm_free_va_eq, VmGk20a.set_vma_vma, VmGk20a.set_vma_vma, hp, h4,
    h4]

/-- C6: in an address space whose registry is ordered by address, for a
buffer that is not mapped yet (no entry with its identity and kind), when the
page size of the chosen class is `2^k` (`k < 32`), the allocator of that class
is well formed with at most `2^32` units and the mapping size does not
overflow 64 bits when rounded up: after a successful `gk20a_vm_map` without
fixed offset and a `gk20a_vm_unmap` of the returned address, both VA
allocators, the registry and `num_user_mapped_buffers` are what they were
before the map, and `gk20a_vm_alloc_va` for the same size and class returns
the address the map returned. -/
theorem gk20a_vm_map_unmap_round_trip (g : Gk20a) (s : MmState) (env env' : Env)
    (dmabuf : DmaBuf) (oa flags kind : Nat) (um : Bool) (rw bo ms k : Nat)
    (hfix : flag_set flags g.NVGPU_AS_MAP_BUFFER_FLAGS_FIXED_OFFSET = false)
    (hnew : find_mapped_buffer_reverse_locked s.vm.mapped_buffers dmabuf.id kind = none)
    (hord : s.vm.mapped_buffers.Ordered)
    (hp : s.vm.gmmu_page_sizes (gk20a_vm_map_attrs g s.vm dmabuf oa flags kind).pgsz_idx.toNat =
      2 ^ k)
    (hk : k < 32)
    (hsz : (if ms ≠ 0 then ms else dmabuf.size) + 2 ^ k - 1 < U64)
    (hwf : (s.vm.vma (gk20a_vm_map_attrs g s.vm dmabuf oa flags kind).pgsz_idx.toNat).WF)
    (hlim : (s.vm.vma (gk20a_vm_map_attrs g s.vm dmabuf oa flags kind).pgsz_idx.toNat).limit ≤ U32)
    (hok : (gk20a_vm_map g s env dmabuf oa flags kind um rw bo ms).1 ≠ 0) :
    (∀ j, (gk20a_vm_unmap (gk20a_vm_map g s env dmabuf oa flags kind um rw bo ms).2 env'
        (gk20a_vm_map g s env dmabuf oa flags kind um rw bo ms).1).vm.vma j = s.vm.vma j) ∧
    (gk20a_vm_unmap (gk20a_vm_map g s env dmabuf oa flags kind um rw bo ms).2 env'
        (gk20a_vm_map g s env dmabuf oa flags kind um rw bo ms).1).vm.mapped_buffers =
      s.vm.mapped_buffers ∧
    (gk20a_vm_unmap (gk20a_vm_map g s env dmabuf oa flags kind um rw bo ms).2 env'
        (gk20a_vm_map g s env dmabuf oa flags kind um rw bo ms).1).vm.num_user_mapped_buffers =
      s.vm.num_user_mapped_buffers ∧
    (gk20a_vm_alloc_va
        (gk20a_vm_unmap (gk20a_vm_map g s env dmabuf oa flags kind um rw bo ms).2 env'
          (gk20a_vm_map g s env dmabuf oa flags kind um rw bo ms).1).vm
        (if ms ≠ 0 then ms else dmabuf.size)
        (gk20a_vm_map_attrs g s.vm dmabuf oa flags kind).pgsz_idx.toNat).1 =
      (gk20a_vm_map g s env dmabuf oa flags kind um rw bo ms).1 := by
  obtain ⟨nb, hv, hna, hns, hnp, hnva, hnr, hnu, hins, hvm⟩ :=
    gk20a_vm_map_alloc_success_vm g s env dmabuf oa flags kind um rw bo ms hfix hnew hok
  generalize (if ms ≠ 0 then ms else dmabuf.size) = msz at hsz hv hns hvm ⊢
  generalize (gk20a_vm_map_attrs g s.vm dmabuf oa flags kind).pgsz_idx.toNat = i
    at hp hwf hlim hv hnp hvm ⊢
  have hv0 : (gk20a_vm_alloc_va s.vm msz i).1 ≠ 0 := by rw [← hv]; exact hok
  obtain ⟨_, _, _, _, hfree⟩ := (gk20a_vm_alloc_va_free_va s.vm msz i k hp hk hsz hwf hlim).2 hv0
  rw [← hv] at hfree
  generalize (gk20a_vm_map g s env dmabuf oa flags kind um rw bo ms).1 = v at hok hv hna hfree ⊢
  generalize (gk20a_vm_map g s env dmabuf oa flags kind um rw bo ms).2 = s2 at hvm ⊢
  obtain ⟨c1, c2, c3⟩ := gk20a_vm_alloc_va_config s.vm msz i
  -- the new node is found at the returned address and holds the only reference
  have hreg2 : s2.vm.mapped_buffers = (insert_mapped_buffer s.vm.mapped_buffers nb).2 := by
    rw [hvm]
  have hfind : find_mapped_buffer_locked s2.vm.mapped_buffers v = some nb := by
    rw [hreg2, ← hna]
    exact find_mapped_buffer_locked_mem _ _ (insert_mapped_buffer_ok _ _ hord hins).2
      (insert_mapped_buffer_mem _ _ hins)
  have hun : gk20a_vm_unmap s2 env' v =
      gk20a_vm_unmap_locked s2 env' { nb with ref := nb.ref - 1 } := by
    rw [gk20a_vm_unmap_some s2 env' v nb hfind]
    unfold kref_put
    simp only []
    rw [if_pos (by rw [hnr])]
  rw [hun, gk20a_vm_unmap_locked_vm_eq]
  simp only [hnva, if_true, hna, hns, hnp]
  have hs2a : ∀ j, s2.vm.vma j = (gk20a_vm_alloc_va s.vm msz i).2.vma j := by
    intro j; rw [hvm]; rfl
  have hs2s : s2.vm.page_size_small = s.vm.page_size_small := by rw [hvm]; exact c1
  have hs2b : s2.vm.page_size_big = s.vm.page_size_big := by rw [hvm]; exact c2
  have hs2p : s2.vm.big_pages = s.vm.big_pages := by rw [hvm]; exact c3
  have hvma : ∀ j, (gk20a_vm_free_va s2.vm v msz i).2.vma j = s.vm.vma j := by
    intro j
    rw [gk20a_vm_free_va_congr (hs2s.trans c1.symm) (hs2b.trans c2.symm) hs2a v msz i j, hfree]
  obtain ⟨d1, d2, d3⟩ := gk20a_vm_free_va_config s2.vm v msz i
  refine ⟨?_, ?_, ?_, ?_⟩
  · intro j
    exact (VmGk20a.vma_congr rfl rfl j).trans (hvma j)
  · show rb_erase _ s2.vm.mapped_buffers = _
    rw [hreg2]
    refine (rb_erase_congr _ nb ?_ _).trans (rb_erase_insert_mapped_buffer _ _ hord hins)
    exact hna.symm
  · show (if nb.user_mapped ≠ 0 then s2.vm.num_user_mapped_buffers - 1
      else s2.vm.num_user_mapped_buffers) = _
    rw [hnu, hvm]
    cases um <;> simp
  · refine Eq.trans ?_ hv.symm
    apply gk20a_vm_alloc_va_congr
    · exact d1.trans hs2s
    · exact d2.trans hs2b
    · exact d3.trans hs2p
    · intro j
      exact (VmGk20a.vma_congr rfl rfl j).trans (hvma j)

theorem gk20a_vm_map_unmap_round_trip_witness :
    (gk20a_vm_map sample_g sample_state sample_env sample_buf_a 0 0 0 true 0 0 0).1 =
      0x400000000 ∧
    (gk20a_vm_unmap (gk20a_vm_map sample_g sample_state sample_env sample_buf_a 0 0 0 true 0 0 0).2
        sample_env
        (gk20a_vm_map sample_g sample_state sample_env sample_buf_a 0 0 0 true 0 0 0).1).vm.vma 1 =
      sample_state.vm.vma 1 ∧
    (gk20a_vm_unmap (gk20a_vm_map sample_g sample_state sample_env sample_buf_a 0 0 0 true 0 0 0).2
        sample_env
        (gk20a_vm_map sample_g sample_state sample_env sample_buf_a 0 0 0 true 0 0
          0).1).vm.mapped_buffers = sample_state.vm.mapped_buffers ∧
    (gk20a_vm_unmap (gk20a_vm_map sample_g sample_state sample_env sample_buf_a 0 0 0 true 0 0 0).2
        sample_env
        (gk20a_vm_map sample_g sample_state sample_env sample_buf_a 0 0 0 true 0 0
          0).1).vm.num_user_mapped_buffers = sample_state.vm.num_user_mapped_buffers ∧
    (gk20a_vm_alloc_va
        (gk20a_vm_unmap (gk20a_vm_map sample_g sample_state sample_env sample_buf_a 0 0 0 true 0 0
          0).2 sample_env
          (gk20a_vm_map sample_g sample_state sample_env sample_buf_a 0 0 0 true 0 0 0).1).vm
        0x20000 1).1 =
      (gk20a_vm_map sample_g sample_state sample_env sample_buf_a 0 0 0 true 0 0 0).1 := by
  have h := gk20a_vm_map_unmap_round_trip sample_g sample_state sample_env sample_env sample_buf_a
    0 0 0 true 0 0 0 16 (by decide) (by decide) (by decide) (by decide) (by decide) (by decide)
    (by decide) (by decide) (by decide)
  exact ⟨by decide, h.1 1, h.2.1, h.2.2.1, h.2.2.2⟩

/-! ## Disjointness of the mapped ranges -/

/-- C1 as stated fails: from the fresh sample address space, reserve two big
pages (`0x400000000`), map `sample_buf_b` twice at the fixed offset
`0x400010000` (one entry, two references), release the reservation with
`gk20a_vm_free_space` (it returns 0; the run goes back to the allocator, the
entry loses one reference and stays in the registry), then map `sample_buf_a`
without fixed offset: the allocator hands out the released run, the new entry
covers `[0x400000000, 0x400020000)` and the registry holds two distinct entries
whose ranges overlap. -/
theorem gk20a_vm_free_space_leaves_mapping_then_overlap :
    (gk20a_vm_alloc_space sample_g sample_state sample_env scenario_a_args).1 = 0 ∧
    (gk20a_vm_map sample_g scenario_a_reserved sample_env sample_buf_b 0x400010000 1 0 false 0 0
      0).1 = 0x400010000 ∧
    overlap_trace_mapped.vm.mapped_buffers.toList.map (fun e => (e.addr, e.size, e.ref)) =
      [(0x400010000, 0x10000, 2)] ∧
    (gk20a_vm_free_space overlap_trace_mapped sample_env
      { pages := 2, page_size := 0x10000, flags := 0, offset := 0x400000000 }).1 = 0 ∧
    overlap_trace_freed.vm.mapped_buffers.toList.map (fun e => (e.addr, e.size, e.ref)) =
      [(0x400010000, 0x10000, 1)] ∧
    overlap_trace_freed.vm.reserved_va_list = [] ∧
    (gk20a_vm_map sample_g overlap_trace_freed sample_env sample_buf_a 0 0 0 false 0 0 0).1 =
      0x400000000 ∧
    overlap_trace_end.vm.mapped_buffers.toList.map (fun e => (e.addr, e.size, e.ref)) =
      [(0x400000000, 0x20000, 1), (0x400010000, 0x10000, 1)] ∧
    ranges_overlap 0x400000000 0x20000 0x400010000 0x10000 ∧
    ¬ NoOverlap overlap_trace_end.vm := by
  refine ⟨by decide, by decide, by decide, by decide, by decide, by decide, by decide, by decide,
    by decide, ?_⟩
  unfold NoOverlap
  decide

/-- A `gk20a_vm_free_space` call that names the run of a mapping made without
a fixed offset succeeds and releases the run while the mapping stays in the
registry: after the neighbouring mapping is unmapped, a later mapping covers
the released run, and two entries overlap. -/
theorem gk20a_vm_free_space_unreserved_run_then_overlap :
    unreserved_trace_freed.vm.mapped_buffers.toList.map (fun e => (e.addr, e.size, e.ref)) =
      [(0x400000000, 0x10000, 1), (0x400010000, 0x20000, 1)] ∧
    unreserved_trace_freed.vm.vma_big.runs = [(0x40000, 1)] ∧
    unreserved_trace_end.vm.mapped_buffers.toList.map (fun e => (e.addr, e.size, e.ref)) =
      [(0x400000000, 0x30000, 1), (0x400010000, 0x20000, 1)] ∧
    ¬ NoOverlap unreserved_trace_end.vm := by
  refine ⟨by decide, by decide, by decide, ?_⟩
  unfold NoOverlap
  decide

/-- A map request whose size does not fit the 32-bit page count of
`gk20a_vm_alloc_va` gets a run of one page for an entry of `2^48 + 0x10000`
bytes; the next mapping lands inside that entry's range. -/
theorem gk20a_vm_map_oversize_then_overlap :
    oversize_trace_mapped.vm.mapped_buffers.toList.map (fun e => (e.addr, e.size, e.ref)) =
      [(0x400000000, 2 ^ 48 + 0x10000, 1)] ∧
    oversize_trace_mapped.vm.vma_big.runs = [(0x40000, 1)] ∧
    oversize_trace_end.vm.mapped_buffers.toList.map (fun e => (e.addr, e.size, e.ref)) =
      [(0x400000000, 2 ^ 48 + 0x10000, 1), (0x400010000, 0x20000, 1)] ∧
    ¬ NoOverlap oversize_trace_end.vm := by
  refine ⟨by decide, by decide, by decide, ?_⟩
  unfold NoOverlap
  decide

/-! ## Growing a well-formed address space -/

theorem buffer_run_same {vm vm' : VmGk20a} (hc : SameConfig vm vm') (e : MappedBuffer) :
    buffer_run vm' e = buffer_run vm e := buffer_run_congr hc e e rfl

/-- The runs that are held after new mappings and new reservations are added:
those of the new owners and those held before. -/
theorem va_claims_grow {vm vm' : VmGk20a} (hc : SameConfig vm vm') (j : Nat)
    (news : List MappedBuffer)
    (hperm : vm'.mapped_buffers.toList.Perm (news ++ vm.mapped_buffers.toList))
    (f : VmReservedVaNode → VmReservedVaNode)
    (hf : ∀ r, (f r).vaddr_start = r.vaddr_start ∧ (f r).size = r.size ∧
      (f r).pgsz_idx = r.pgsz_idx)
    (newr : List VmReservedVaNode)
    (hres : vm'.reserved_va_list = vm.reserved_va_list.map f ++ newr) :
    (va_claims vm' j).Perm
      (((news.filter (fun e => e.va_allocated && decide (e.pgsz_idx = j))).map (buffer_run vm) ++
        (newr.filter (fun r => decide (r.pgsz_idx = j))).map (reservation_run vm)) ++
        va_claims vm j) := by
  unfold va_claims
  have hb : buffer_run vm' = buffer_run vm := funext (buffer_run_same hc)
  have hr : reservation_run vm' = reservation_run vm :=
    funext (fun r => reservation_run_congr hc r r rfl rfl rfl)
  rw [hb, hr, hres, List.filter_append, List.map_append]
  have h1 : ((vm'.mapped_buffers.toList.filter
      (fun e => e.va_allocated && decide (e.pgsz_idx = j))).map (buffer_run vm)).Perm
      ((news.filter (fun e => e.va_allocated && decide (e.pgsz_idx = j))).map (buffer_run vm) ++
        (vm.mapped_buffers.toList.filter
          (fun e => e.va_allocated && decide (e.pgsz_idx = j))).map (buffer_run vm)) := by
    rw [← List.map_append, ← List.filter_append]
    exact (hperm.filter _).map _
  have h2 : ((vm.reserved_va_list.map f).filter (fun r => decide (r.pgsz_idx = j))).map
      (reservation_run vm) =
      (vm.reserved_va_list.filter (fun r => decide (r.pgsz_idx = j))).map (reservation_run vm) := by
    rw [List.filter_map, List.map_map]
    have hP : ((fun r : VmReservedVaNode => decide (r.pgsz_idx = j)) ∘ f) =
        (fun r : VmReservedVaNode => decide (r.pgsz_idx = j)) := by
      funext r
      simp [(hf r).2.2]
    rw [hP]
    apply List.map_congr_left
    intro r _
    exact reservation_run_congr (SameConfig.refl vm) r (f r) (hf r).1 (hf r).2.1 (hf r).2.2
  rw [h2]
  refine (List.Perm.append_right _ h1).trans ?_
  rw [List.perm_iff_count]
  intro a
  simp only [List.count_append]
  omega

/-- Adding mappings and reservations that hold live runs nobody held, with the
new fixed-offset mappings linked, inside their reservation and apart from the
buffers linked before, keeps the address space well formed. -/
theorem VmInv.grow {vm vm' : VmGk20a} (h : VmInv vm) (hc : SameConfig vm vm')
    (hs : vm'.vma_small = vm.vma_small) (hb : vm'.vma_big = vm.vma_big)
    (news : List MappedBuffer)
    (hperm : vm'.mapped_buffers.toList.Perm (news ++ vm.mapped_buffers.toList))
    (hord : vm'.mapped_buffers.Ordered)
    (f : VmReservedVaNode → VmReservedVaNode)
    (hf : ∀ r, (f r).vaddr_start = r.vaddr_start ∧ (f r).size = r.size ∧
      (f r).pgsz_idx = r.pgsz_idx)
    (newr : List VmReservedVaNode)
    (hres : vm'.reserved_va_list = vm.reserved_va_list.map f ++ newr)
    (hnb : ∀ e ∈ news, e.pgsz_idx ≤ 1 ∧ (e.va_allocated = true →
      e.addr = (buffer_run vm e).1 * vm.gmmu_page_sizes e.pgsz_idx ∧
      e.size ≤ (buffer_run vm e).2 * vm.gmmu_page_sizes e.pgsz_idx ∧
      buffer_run vm e ∈ (vm.vma e.pgsz_idx).runs))
    (hnr : ∀ r ∈ newr, r.pgsz_idx ≤ 1 ∧
      r.vaddr_start = (reservation_run vm r).1 * vm.gmmu_page_sizes r.pgsz_idx ∧
      r.size = (reservation_run vm r).2 * vm.gmmu_page_sizes r.pgsz_idx ∧
      reservation_run vm r ∈ (vm.vma r.pgsz_idx).runs ∧ r.va_buffers_list = [])
    (hnodup : ∀ j,
      (((news.filter (fun e => e.va_allocated && decide (e.pgsz_idx = j))).map (buffer_run vm) ++
        (newr.filter (fun r => decide (r.pgsz_idx = j))).map (reservation_run vm)) ++
        va_claims vm j).Nodup)
    (hlinked : ∀ e ∈ news, e.va_allocated = false →
      ∃ r ∈ vm.reserved_va_list,
        ({ addr := e.addr, size := e.size } : VaBuffer) ∈ (f r).va_buffers_list)
    (hgrow : ∀ r ∈ vm.reserved_va_list, ∀ b ∈ r.va_buffers_list, b ∈ (f r).va_buffers_list)
    (hlive : ∀ r ∈ vm.reserved_va_list, ∀ b ∈ (f r).va_buffers_list,
      b ∈ r.va_buffers_list ∨
        ∃ e ∈ news, e.va_allocated = false ∧ e.addr = b.addr ∧ e.size = b.size)
    (hlists : ∀ r ∈ vm.reserved_va_list,
      (f r).va_buffers_list.Pairwise
        (fun b b' => ¬ ranges_overlap b.addr b.size b'.addr b'.size) ∧
      ∀ b ∈ (f r).va_buffers_list,
        r.vaddr_start ≤ b.addr ∧ b.addr + b.size ≤ r.vaddr_start + r.size) :
    VmInv vm' := by
  have hcl := fun j => va_claims_grow hc j news hperm f hf newr hres
  have hmem : ∀ e, e ∈ vm'.mapped_buffers.toList ↔ e ∈ news ∨ e ∈ vm.mapped_buffers.toList := by
    intro e
    rw [hperm.mem_iff, List.mem_append]
  have hrmem : ∀ r', r' ∈ vm'.reserved_va_list ↔
      (∃ r ∈ vm.reserved_va_list, r' = f r) ∨ r' ∈ newr := by
    intro r'
    rw [hres, List.mem_append, List.mem_map]
    constructor
    · rintro (⟨r, hr, rfl⟩ | h2)
      · exact Or.inl ⟨r, hr, rfl⟩
      · exact Or.inr h2
    · rintro (⟨r, hr, rfl⟩ | h2)
      · exact Or.inl ⟨r, hr, rfl⟩
      · exact Or.inr h2
  have hvma : ∀ i, vm'.vma i = vm.vma i := VmGk20a.vma_congr hs hb
  refine ⟨⟨?_, ?_, hord, ?_, ?_, ?_, ?_, ?_, ?_⟩, ?_, ?_, ?_⟩
  · intro i; rw [hc.page]; exact h.pages i
  · intro i; rw [hc.page, hc.2.2]; exact h.aperture i
  · intro j
    exact (hcl j).nodup_iff.2 (hnodup j)
  · intro e he
    rw [buffer_run_same hc, hc.page]
    rcases (hmem e).1 he with hn | ho
    · obtain ⟨h1, h2⟩ := hnb e hn
      exact ⟨h1, fun hva => ⟨(h2 hva).1, (h2 hva).2.1⟩⟩
    · exact h.buf_geom e ho
  · intro r' hr'
    rcases (hrmem r').1 hr' with ⟨r, hr, rfl⟩ | hn
    · rw [reservation_run_congr hc r (f r) (hf r).1 (hf r).2.1 (hf r).2.2, (hf r).1, (hf r).2.1,
        (hf r).2.2, hc.page]
      exact h.res_geom r hr
    · rw [reservation_run_congr hc r' r' rfl rfl rfl, hc.page]
      obtain ⟨h1, h2, h3, _⟩ := hnr r' hn
      exact ⟨h1, h2, h3⟩
  · intro e he hva
    rcases (hmem e).1 he with hn | ho
    · obtain ⟨r, hr, hb'⟩ := hlinked e hn hva
      exact ⟨f r, (hrmem _).2 (Or.inl ⟨r, hr, rfl⟩), hb'⟩
    · obtain ⟨r, hr, hb'⟩ := h.fixed_linked e ho hva
      exact ⟨f r, (hrmem _).2 (Or.inl ⟨r, hr, rfl⟩), hgrow r hr _ hb'⟩
  · intro r' hr' b hb'
    rcases (hrmem r').1 hr' with ⟨r, hr, rfl⟩ | hn
    · rcases hlive r hr b hb' with hold | ⟨e, he, h1, h2, h3⟩
      · obtain ⟨e, he, h1, h2, h3⟩ := h.lists_live r hr b hold
        exact ⟨e, (hmem e).2 (Or.inr he), h1, h2, h3⟩
      · exact ⟨e, (hmem e).2 (Or.inl he), h1, h2, h3⟩
    · rw [(hnr r' hn).2.2.2.2] at hb'
      exact absurd hb' (List.not_mem_nil _)
  · intro r' hr'
    rcases (hrmem r').1 hr' with ⟨r, hr, rfl⟩ | hn
    · rw [(hf r).1, (hf r).2.1]
      exact hlists r hr
    · rw [(hnr r' hn).2.2.2.2]
      exact ⟨List.Pairwise.nil, fun b hb' => absurd hb' (List.not_mem_nil _)⟩
  · intro i; rw [hvma]; exact h.usable i
  · rw [hs, hb, hc.1, hc.2.1]; exact h.apart
  · intro j c hcm
    rw [hvma]
    have hc' := (hcl j).mem_iff.1 hcm
    rcases List.mem_append.1 hc' with hnew | hold
    · rcases List.mem_append.1 hnew with hn | hn
      · obtain ⟨e, he, rfl⟩ := List.mem_map.1 hn
        obtain ⟨he1, he2⟩ := List.mem_filter.1 he
        simp only [Bool.and_eq_true, decide_eq_true_eq] at he2
        have := ((hnb e he1).2 he2.1).2.2
        rw [he2.2] at this
        exact this
      · obtain ⟨r, hr, rfl⟩ := List.mem_map.1 hn
        obtain ⟨hr1, hr2⟩ := List.mem_filter.1 hr
        simp only [decide_eq_true_eq] at hr2
        have := (hnr r hr1).2.2.2.1
        rw [hr2] at this
        exact this
    · exact h.claims_live j c hold

theorem va_claims_set_vma (vm : VmGk20a) (i j : Nat) (a : Gk20aAllocator) :
    va_claims (vm.set_vma i a) j = va_claims vm j :=
  va_claims_congr (SameConfig.set_vma_config vm i a) j id (fun _ => rfl) id
    (fun _ => ⟨rfl, rfl, rfl⟩) (by simp) (by simp)

theorem determine_pgsz_idx_spec (vm : VmGk20a) (page_size : Nat)
    (h : ¬ determine_pgsz_idx vm page_size ≥ gmmu_nr_page_sizes) :
    determine_pgsz_idx vm page_size ≤ 1 ∧
    vm.gmmu_page_sizes (determine_pgsz_idx vm page_size) = page_size := by
  unfold determine_pgsz_idx at h ⊢
  unfold gmmu_nr_page_sizes gmmu_page_size_small gmmu_page_size_big at *
  split_ifs at h ⊢ with h1 h2
  · exact ⟨by omega, h1⟩
  · exact ⟨by omega, h2⟩
  · omega

/-- The allocator of class `i` after an `alloc` call, whatever its outcome. -/
theorem VmInv.vma_alloc {vm : VmGk20a} (h : VmInv vm) (i : Nat) (hi : i ≤ 1) (addr len : Nat) :
    VmInv (vm.set_vma i ((vm.vma i).alloc addr len).2.2) := by
  have hwf := (h.usable i).1
  obtain ⟨hok, hfail⟩ := Gk20aAllocator.alloc_spec (vm.vma i) addr len hwf
  obtain ⟨_, hbase, hlimit⟩ := Gk20aAllocator.alloc_wf (vm.vma i) addr len hwf
  refine h.set_vma i hi _ (Gk20aAllocator.alloc_usable _ _ _ (h.usable i)) hbase hlimit ?_
  intro c hc
  by_cases h0 : ((vm.vma i).alloc addr len).1 = 0
  · rw [(hok h0).2.2.2.2.2]
    exact (Gk20aAllocator.insert_run_perm _ _).mem_iff.2
      (List.mem_cons_of_mem _ (h.claims_live i c hc))
  · rw [hfail h0]
    exact h.claims_live i c hc

/-- Releasing a run that no mapping and no reservation holds. -/
theorem VmInv.vma_free {vm : VmGk20a} (h : VmInv vm) (i : Nat) (hi : i ≤ 1) (start len : Nat)
    (hun : ∀ c ∈ va_claims vm i, c ≠ (start, len)) :
    VmInv (vm.set_vma i ((vm.vma i).free start len).2) := by
  obtain ⟨hruns, hbase, hlimit⟩ := Gk20aAllocator.free_runs (vm.vma i) start len
  refine h.set_vma i hi _ (Gk20aAllocator.free_usable _ _ _ (h.usable i)) hbase hlimit ?_
  intro c hc
  rw [hruns]
  exact (List.mem_erase_of_ne (hun c hc)).2 (h.claims_live i c hc)

/-- A run the allocator has just handed out: it is live afterwards, nobody
holds it, and it starts above unit 0. -/
theorem VmInv.vma_alloc_fresh {vm : VmGk20a} (h : VmInv vm) (i : Nat) (addr len : Nat)
    (h0 : ((vm.vma i).alloc addr len).1 = 0) :
    (((vm.vma i).alloc addr len).2.1, len) ∈ ((vm.vma i).alloc addr len).2.2.runs ∧
    (((vm.vma i).alloc addr len).2.1, len) ∉ va_claims vm i ∧
    0 < ((vm.vma i).alloc addr len).2.1 ∧ 0 < len ∧
    ((vm.vma i).alloc addr len).2.1 + len ≤ U32 ∧
    (((vm.vma i).alloc addr len).2.2.free ((vm.vma i).alloc addr len).2.1 len).2 = vm.vma i := by
  have hwf := (h.usable i).1
  obtain ⟨hok, _⟩ := Gk20aAllocator.alloc_spec (vm.vma i) addr len hwf
  obtain ⟨hlen, hb, hl, hfr, _, heq⟩ := hok h0
  have hnot : (((vm.vma i).alloc addr len).2.1, len) ∉ (vm.vma i).runs := by
    intro hmem
    have := hfr _ hmem
    simp only [] at this
    omega
  have hmem : (((vm.vma i).alloc addr len).2.1, len) ∈ ((vm.vma i).alloc addr len).2.2.runs := by
    rw [heq]
    exact (Gk20aAllocator.insert_run_perm _ _).mem_iff.2 (List.mem_cons_self _ _)
  refine ⟨hmem, fun hc => hnot (h.claims_live i _ hc), ?_, hlen, ?_, ?_⟩
  · have := (h.usable i).2.2
    omega
  · have := (h.usable i).2.1
    omega
  · unfold Gk20aAllocator.free
    rw [if_pos hmem]
    simp only []
    rw [heq]
    simp only []
    rw [Gk20aAllocator.erase_insert_run _ _ hnot]

/-- Linking a new reservation that holds a live run nobody held. -/
theorem VmInv.add_reservation {vm : VmGk20a} (h : VmInv vm) (r : VmReservedVaNode)
    (hi : r.pgsz_idx ≤ 1)
    (hstart : r.vaddr_start = (reservation_run vm r).1 * vm.gmmu_page_sizes r.pgsz_idx)
    (hsize : r.size = (reservation_run vm r).2 * vm.gmmu_page_sizes r.pgsz_idx)
    (hrun : reservation_run vm r ∈ (vm.vma r.pgsz_idx).runs)
    (hnew : reservation_run vm r ∉ va_claims vm r.pgsz_idx)
    (hlist : r.va_buffers_list = []) :
    VmInv { vm with reserved_va_list := vm.reserved_va_list ++ [r] } := by
  refine h.grow ⟨rfl, rfl, rfl⟩ rfl rfl [] (List.Perm.refl _) h.ordered id
    (fun _ => ⟨rfl, rfl, rfl⟩) [r] (by simp) ?_ ?_ ?_ ?_ ?_ ?_ ?_
  · intro e he
    exact absurd he (List.not_mem_nil _)
  · intro r' hr'
    rw [List.mem_singleton] at hr'
    subst hr'
    exact ⟨hi, hstart, hsize, hrun, hlist⟩
  · intro j
    by_cases hj : r.pgsz_idx = j
    · subst hj
      simp only [List.filter_nil, List.map_nil, List.nil_append, List.filter_cons, decide_True,
        if_true, List.map_cons, List.singleton_append]
      exact List.nodup_cons.2 ⟨hnew, h.claims_nodup _⟩
    · simp only [List.filter_nil, List.map_nil, List.nil_append, List.filter_cons, hj,
        decide_False, Bool.false_eq_true, if_false]
      exact h.claims_nodup j
  · intro e he
    exact absurd he (List.not_mem_nil _)
  · intro r' _ b hb
    exact hb
  · intro r' _ b hb
    exact Or.inl hb
  · intro r' hr'
    exact h.lists r' hr'

/-- The reservation `gk20a_vm_alloc_space` builds for a run of `pages` units
starting at unit `start` of class `i`: its run is `(start, pages)`. -/
theorem reservation_run_of_units (vm : VmGk20a) (i k start pages : Nat) (sp : Bool)
    (hp : vm.gmmu_page_sizes i = 2 ^ k) (hk : k < 31) (hst : start < U32) :
    reservation_run vm
      { vaddr_start := u64 (start <<< ilog2 (vm.gmmu_page_sizes i)),
        size := vm.gmmu_page_sizes i * pages, pgsz_idx := i, sparse := sp,
        va_buffers_list := [] } = (start, pages) ∧
    u64 (start <<< ilog2 (vm.gmmu_page_sizes i)) = start * vm.gmmu_page_sizes i := by
  have hpos : 0 < 2 ^ k := Nat.two_pow_pos k
  obtain ⟨_, hc2⟩ := shl_shr_cancel start k hst (by omega)
  unfold reservation_run
  simp only []
  rw [hp, ilog2_two_pow k (by omega), hc2, Nat.mul_div_cancel _ hpos, Nat.mul_div_cancel_left _ hpos]
  exact ⟨rfl, rfl⟩

/-- `gk20a_vm_alloc_space` keeps the address space well formed, on every
path. -/
theorem VmInv.alloc_space (g : Gk20a) (s : MmState) (env : Env) (args : SpaceArgs)
    (h : VmInv s.vm) : VmInv (gk20a_vm_alloc_space g s env args).2.2.vm := by
  unfold gk20a_vm_alloc_space
  simp only []
  by_cases h1 : determine_pgsz_idx s.vm args.page_size ≥ gmmu_nr_page_sizes
  · rw [if_pos h1]; exact h
  rw [if_neg h1]
  obtain ⟨hi, hpage⟩ := determine_pgsz_idx_spec s.vm args.page_size h1
  generalize determine_pgsz_idx s.vm args.page_size = i at hi hpage ⊢
  by_cases h2 : env.kzalloc_ok = false
  · rw [if_pos h2]; exact h
  rw [if_neg h2]
  by_cases h3 : flag_set args.flags g.NVGPU_AS_ALLOC_SPACE_FLAGS_SPARSE = true ∧
      i ≠ gmmu_page_size_big
  · rw [if_pos h3]; exact h
  rw [if_neg h3]
  generalize (if flag_set args.flags g.NVGPU_AS_ALLOC_SPACE_FLAGS_FIXED_OFFSET = true
    then u32 (args.offset >>> ilog2 (s.vm.gmmu_page_sizes i)) else 0) = start0
  have hA := h.vma_alloc i hi start0 args.pages
  by_cases h4 : ((s.vm.vma i).alloc start0 args.pages).1 ≠ 0
  · rw [if_pos h4]; exact hA
  rw [if_neg h4]
  push_neg at h4
  obtain ⟨hmem, hnew, hpos, hlen, hle, hfree⟩ := h.vma_alloc_fresh i start0 args.pages h4
  generalize ((s.vm.vma i).alloc start0 args.pages).2.1 = start at hmem hnew hpos hle hfree ⊢
  generalize ((s.vm.vma i).alloc start0 args.pages).2.2 = A at hA hmem hfree ⊢
  obtain ⟨k, hk, hpk⟩ := h.pages i
  have hpA : (s.vm.set_vma i A).gmmu_page_sizes i = 2 ^ k := by
    rw [VmGk20a.set_vma_page_sizes]; exact hpk
  have hvmaA : (s.vm.set_vma i A).vma i = A := by
    rw [VmGk20a.set_vma_vma]; simp
  have hclA : va_claims (s.vm.set_vma i A) i = va_claims s.vm i := va_claims_set_vma _ _ _ _
  have hst32 : start < U32 := by omega
  simp only [hpage]
  have hadd : ∀ sp : Bool, VmInv { s.vm.set_vma i A with
      reserved_va_list := (s.vm.set_vma i A).reserved_va_list ++
        [{ vaddr_start := u64 (start <<< ilog2 args.page_size),
           size := args.page_size * args.pages, pgsz_idx := i, sparse := sp,
           va_buffers_list := [] }] } := by
    intro sp
    obtain ⟨hrun, hvs⟩ := reservation_run_of_units (s.vm.set_vma i A) i k start args.pages sp hpA
      hk hst32
    rw [VmGk20a.set_vma_page_sizes, hpage] at hrun hvs
    refine hA.add_reservation _ hi ?_ ?_ ?_ ?_ rfl
    · rw [hrun]
      simp only []
      rw [VmGk20a.set_vma_page_sizes, hvs, hpage]
    · rw [hrun]
      simp only []
      rw [VmGk20a.set_vma_page_sizes, hpage, Nat.mul_comm]
    · rw [hrun]
      simp only []
      rw [hvmaA]
      exact hmem
    · rw [hrun]
      simp only []
      rw [hclA]
      exact hnew
  by_cases h5 : flag_set args.flags g.NVGPU_AS_ALLOC_SPACE_FLAGS_SPARSE = true
  · rw [if_pos h5]
    have hne : u64 (start <<< ilog2 args.page_size) ≠ 0 := by
      obtain ⟨_, hvs⟩ := reservation_run_of_units (s.vm.set_vma i A) i k start args.pages true hpA
        hk hst32
      rw [VmGk20a.set_vma_page_sizes, hpage] at hvs
      rw [hvs, ← hpage, hpk]
      have := Nat.two_pow_pos k
      exact Nat.ne_of_gt (Nat.mul_pos hpos this)
    have hmv := ((gk20a_locked_gmmu_map_vm g (s.with_vm (s.vm.set_vma i A)) env
      (u64 (start <<< ilog2 args.page_size)) false 0 (args.page_size * args.pages) i 0 0
      args.flags gk20a_mem_flag_none false true).1 hne).1
    simp only [MmState.with_vm_vm] at hmv
    generalize (gk20a_locked_gmmu_map g (s.with_vm (s.vm.set_vma i A)) env
      (u64 (start <<< ilog2 args.page_size)) false 0 (args.page_size * args.pages) i 0 0
      args.flags gk20a_mem_flag_none false true) = m at hmv ⊢
    by_cases h6 : m.1 = 0
    · rw [if_pos h6]
      simp only [MmState.with_vm_vm, hmv]
      refine hA.vma_free i hi start args.pages ?_
      intro c hc hceq
      rw [hclA, hceq] at hc
      exact hnew hc
    · rw [if_neg h6]
      simp only [MmState.with_vm_vm, hmv]
      exact hadd true
  · rw [if_neg h5]
    simp only [MmState.with_vm_vm]
    exact hadd false

/-! ## Releasing a reservation keeps the address space well formed -/

theorem find?_perm_eraseP {α : Type} (p : α → Bool) :
    ∀ (l : List α) (a : α), l.find? p = some a → l.Perm (a :: l.eraseP p) := by
  intro l
  induction l with
  | nil => intro a h; simp at h
  | cons x rest ih =>
    intro a h
    by_cases hx : p x = true
    · rw [List.find?_cons_of_pos _ hx] at h
      have := Option.some.inj h
      subst this
      rw [List.eraseP_cons_of_pos hx]
    · rw [List.find?_cons_of_neg _ hx] at h
      rw [List.eraseP_cons_of_neg hx]
      exact ((ih a h).cons x).trans (List.Perm.swap a x _)

/-- The loop of `gk20a_vm_free_space` when every linked buffer is a
fixed-offset mapping with one reference: the nodes are taken out of the
registry and out of the buffer lists, the allocators stay. -/
theorem gk20a_vm_put_buffers_last_refs (env : Env) (L : List Nat) :
    ∀ s : MmState, s.vm.mapped_buffers.Ordered →
      (∀ a ∈ L, ∀ e ∈ s.vm.mapped_buffers.toList, e.addr = a →
        e.ref = 1 ∧ e.va_allocated = false) →
      (gk20a_vm_put_buffers s env L).vm.mapped_buffers.toList =
        s.vm.mapped_buffers.toList.filter (fun e => decide (e.addr ∉ L)) ∧
      (∃ q : VaBuffer → Bool,
        (gk20a_vm_put_buffers s env L).vm.reserved_va_list =
          s.vm.reserved_va_list.map (fun n =>
            { n with va_buffers_list := n.va_buffers_list.filter q }) ∧
        (∀ b, q b = false → b.addr ∈ L) ∧
        (∀ b, b.addr ∈ L → (∃ e ∈ s.vm.mapped_buffers.toList, e.addr = b.addr) → q b = false)) ∧
      (gk20a_vm_put_buffers s env L).vm.vma_small = s.vm.vma_small ∧
      (gk20a_vm_put_buffers s env L).vm.vma_big = s.vm.vma_big ∧
      SameConfig s.vm (gk20a_vm_put_buffers s env L).vm := by
  induction L with
  | nil =>
    intro s _ _
    refine ⟨by simp [gk20a_vm_put_buffers], ⟨fun _ => true, ?_, ?_, ?_⟩, rfl, rfl, ⟨rfl, rfl, rfl⟩⟩
    · simp only [gk20a_vm_put_buffers, VmReservedVaNode.filter_true, List.map_id']
    · intro b hb; exact absurd hb (by simp)
    · intro b hb; exact absurd hb (List.not_mem_nil _)
  | cons a rest ih =>
    intro s hord H
    rw [gk20a_vm_put_buffers]
    cases hf : find_mapped_buffer_locked s.vm.mapped_buffers a with
    | none =>
      simp only []
      have hno : ∀ e ∈ s.vm.mapped_buffers.toList, e.addr ≠ a := by
        intro e he hea
        have := find_mapped_buffer_locked_mem _ e hord he
        rw [hea, hf] at this
        exact Option.noConfusion this
      obtain ⟨h1, ⟨q, hq1, hq2, hq3⟩, h3, h4, h5⟩ :=
        ih s hord (fun a' ha' => H a' (List.mem_cons_of_mem _ ha'))
      refine ⟨?_, ⟨q, hq1, ?_, ?_⟩, h3, h4, h5⟩
      · rw [h1]
        apply List.filter_congr
        intro e he
        simp [hno e he]
      · intro b hb
        exact List.mem_cons_of_mem _ (hq2 b hb)
      · intro b hb hex
        rcases List.mem_cons.1 hb with hba | hbr
        · obtain ⟨e, he, hea⟩ := hex
          exact absurd (hea.trans hba) (hno e he)
        · exact hq3 b hbr hex
    | some mb =>
      simp only []
      obtain ⟨hmem, hadd⟩ := find_mapped_buffer_locked_some _ _ _ hf
      obtain ⟨hr1, hva⟩ := H a (List.mem_cons_self _ _) mb hmem hadd
      have hk : kref_put s env mb = gk20a_vm_unmap_locked s env { mb with ref := mb.ref - 1 } := by
        unfold kref_put
        simp only []
        rw [if_pos (by rw [hr1])]
      have hvm := gk20a_vm_unmap_locked_vm_eq s env { mb with ref := mb.ref - 1 }
      rw [← hk] at hvm
      simp only [hva, Bool.false_eq_true, if_false, hadd] at hvm
      have hreg : (kref_put s env mb).vm.mapped_buffers.toList =
          s.vm.mapped_buffers.toList.filter (fun e => decide (e.addr ≠ a)) := by
        rw [hvm]
        simp only []
        rw [rb_erase_toList]
      have hsub : ∀ e ∈ (kref_put s env mb).vm.mapped_buffers.toList,
          e ∈ s.vm.mapped_buffers.toList ∧ e.addr ≠ a := by
        intro e he
        rw [hreg] at he
        obtain ⟨he1, he2⟩ := List.mem_filter.1 he
        exact ⟨he1, by simpa using he2⟩
      obtain ⟨h1, ⟨q, hq1, hq2, hq3⟩, h3, h4, h5⟩ :=
        ih (kref_put s env mb) (kref_put_ordered s env mb hord)
          (fun a' ha' e he hea => H a' (List.mem_cons_of_mem _ ha') e (hsub e he).1 hea)
      refine ⟨?_, ⟨fun b => decide (b.addr ≠ a) && q b, ?_, ?_, ?_⟩, ?_, ?_, ?_⟩
      · rw [h1, hreg, List.filter_filter]
        apply List.filter_congr
        intro e _
        by_cases hea : e.addr = a <;> simp [hea]
      · rw [hq1, hvm]
        simp only [List.map_map]
        apply List.map_congr_left
        intro n _
        simp only [Function.comp, List.filter_filter]
        congr 1
        apply List.filter_congr
        intro b _
        exact Bool.and_comm _ _
      · intro b hb
        simp only [Bool.and_eq_false_iff, decide_eq_false_iff_not, not_not] at hb
        rcases hb with hb | hb
        · rw [hb]; exact List.mem_cons_self _ _
        · exact List.mem_cons_of_mem _ (hq2 b hb)
      · intro b hb hex
        by_cases hba : b.addr = a
        · simp [hba]
        · have hbr : b.addr ∈ rest := by
            rcases List.mem_cons.1 hb with h' | h'
            · exact absurd h' hba
            · exact h'
          obtain ⟨e, he, hea⟩ := hex
          have he' : e ∈ (kref_put s env mb).vm.mapped_buffers.toList := by
            rw [hreg]
            exact List.mem_filter.2 ⟨he, by simpa [hea] using hba⟩
          simp [hq3 b hbr ⟨e, he', hea⟩]
      · rw [h3, hvm]
      · rw [h4, hvm]
      · refine SameConfig.trans ?_ h5
        rw [hvm]
        exact ⟨rfl, rfl, rfl⟩

theorem find?_map_strip (q : VaBuffer → Bool) (P : VmReservedVaNode → Bool)
    (hP : ∀ r : VmReservedVaNode,
      P { r with va_buffers_list := r.va_buffers_list.filter q } = P r)
    (l : List VmReservedVaNode) (r0 : VmReservedVaNode) (hfind : l.find? P = some r0) :
    (l.map (fun n => { n with va_buffers_list := n.va_buffers_list.filter q })).find? P =
      some { r0 with va_buffers_list := r0.va_buffers_list.filter q } := by
  rw [List.find?_map]
  have : (P ∘ fun n : VmReservedVaNode =>
      { n with va_buffers_list := n.va_buffers_list.filter q }) = P := funext hP
  rw [this, hfind]
  rfl

/-- Once a reservation is unlinked, its run is held by nobody. -/
theorem va_claims_erase_reservation {vm vm' : VmGk20a} (hc : SameConfig vm vm')
    (p : MappedBuffer → Bool) (hl : vm'.mapped_buffers.toList = vm.mapped_buffers.toList.filter p)
    (q : VaBuffer → Bool) (P : VmReservedVaNode → Bool)
    (hP : ∀ r : VmReservedVaNode,
      P { r with va_buffers_list := r.va_buffers_list.filter q } = P r)
    (r0 : VmReservedVaNode) (hfind : vm.reserved_va_list.find? P = some r0)
    (hres : vm'.reserved_va_list = (vm.reserved_va_list.map (fun n =>
      { n with va_buffers_list := n.va_buffers_list.filter q })).eraseP P)
    (hn : (va_claims vm r0.pgsz_idx).Nodup) :
    reservation_run vm r0 ∉ va_claims vm' r0.pgsz_idx := by
  have hperm := find?_perm_eraseP P _ _ (find?_map_strip q P hP _ r0 hfind)
  rw [← hres] at hperm
  have hb : buffer_run vm' = buffer_run vm := funext (buffer_run_same hc)
  have hr : reservation_run vm' = reservation_run vm :=
    funext (fun r => reservation_run_congr hc r r rfl rfl rfl)
  have hR : ((vm.reserved_va_list.filter (fun r => decide (r.pgsz_idx = r0.pgsz_idx))).map
      (reservation_run vm)).Perm
      (reservation_run vm r0 ::
        (vm'.reserved_va_list.filter (fun r => decide (r.pgsz_idx = r0.pgsz_idx))).map
          (reservation_run vm)) := by
    have h1 := ((hperm.filter (fun r => decide (r.pgsz_idx = r0.pgsz_idx))).map
      (reservation_run vm))
    rw [List.filter_map, List.map_map] at h1
    have hP2 : ((fun r : VmReservedVaNode => decide (r.pgsz_idx = r0.pgsz_idx)) ∘
        fun n : VmReservedVaNode => { n with va_buffers_list := n.va_buffers_list.filter q }) =
        (fun r : VmReservedVaNode => decide (r.pgsz_idx = r0.pgsz_idx)) := rfl
    have hrr : (reservation_run vm ∘
        fun n : VmReservedVaNode => { n with va_buffers_list := n.va_buffers_list.filter q }) =
        reservation_run vm := rfl
    rw [hP2, hrr] at h1
    simpa [List.filter_cons, reservation_run] using h1
  unfold va_claims at hn ⊢
  rw [hb, hr, hl]
  have hsub : ((List.filter (fun e => e.va_allocated && decide (e.pgsz_idx = r0.pgsz_idx))
      (List.filter p vm.mapped_buffers.toList)).map (buffer_run vm)).Sublist
      ((List.filter (fun e => e.va_allocated && decide (e.pgsz_idx = r0.pgsz_idx))
        vm.mapped_buffers.toList).map (buffer_run vm)) :=
    (((List.filter_sublist _).filter _).map _)
  have hn2 := (List.Perm.append_left _ hR).nodup_iff.1 hn
  have hn3 := (List.perm_middle.nodup_iff).1 hn2
  obtain ⟨hnot, _⟩ := List.nodup_cons.1 hn3
  intro hmem
  apply hnot
  rcases List.mem_append.1 hmem with h1 | h1
  · exact List.mem_append_left _ (hsub.subset h1)
  · exact List.mem_append_right _ h1

theorem Gk20aAllocator.WF.nodup {a : Gk20aAllocator} (h : a.WF) : a.runs.Nodup := by
  refine (List.Pairwise.and_mem.1 h.2).imp ?_
  intro r r' hrr hne
  obtain ⟨hr, _, h1⟩ := hrr
  have := (h.1 r hr).1
  rw [hne] at h1 this
  omega

/-- The unit a page-aligned address of class `i` starts at. -/
theorem VmInv.start_unit {vm : VmGk20a} (h : VmInv vm) (i st : Nat) (hst : st < U32) :
    u32 ((st * vm.gmmu_page_sizes i) >>> ilog2 (u32 (vm.gmmu_page_sizes i))) = st ∧
    u32 ((st * vm.gmmu_page_sizes i) >>> ilog2 (vm.gmmu_page_sizes i)) = st := by
  obtain ⟨k, hk, hp⟩ := h.pages i
  have hpos : 0 < 2 ^ k := Nat.two_pow_pos k
  rw [hp, u32_two_pow k (by omega), ilog2_two_pow k (by omega), Nat.shiftRight_eq_div_pow,
    Nat.mul_div_cancel _ hpos]
  exact ⟨Nat.mod_eq_of_lt hst, Nat.mod_eq_of_lt hst⟩

/-- `gk20a_vm_free_space` on a reservation, with the reservation's own offset,
page size and page count, when no linked buffer has a reference besides the
one the call drops, keeps the address space well formed. -/
theorem VmInv.free_space (s : MmState) (env : Env) (args : SpaceArgs) (h : VmInv s.vm)
    (hrel : ReleasesReservation s args) : VmInv (gk20a_vm_free_space s env args).2.vm := by
  obtain ⟨r0, hfind, hoff, hdet, hsz, _, href⟩ := hrel
  obtain ⟨hr0, hcont⟩ := addr_to_reservation_some _ _ _ hfind
  obtain ⟨hi, hgs, hgz⟩ := h.res_geom r0 hr0
  have hclaim := mem_va_claims_reservation s.vm r0 hr0
  obtain ⟨hstpos, hnpos, hst32⟩ := h.claims_pos _ _ hclaim
  have hlive := h.claims_live _ _ hclaim
  have h1 : ¬ determine_pgsz_idx s.vm args.page_size ≥ gmmu_nr_page_sizes := by
    rw [hdet]; unfold gmmu_nr_page_sizes; omega
  obtain ⟨_, hpage⟩ := determine_pgsz_idx_spec s.vm args.page_size h1
  rw [hdet] at hpage
  have hppos := h.page_pos r0.pgsz_idx
  have hpages : args.pages = (reservation_run s.vm r0).2 := by
    have : s.vm.gmmu_page_sizes r0.pgsz_idx * args.pages =
        s.vm.gmmu_page_sizes r0.pgsz_idx * (reservation_run s.vm r0).2 := by
      rw [hpage, hsz, hgz, ← hpage, Nat.mul_comm]
    exact Nat.eq_of_mul_eq_mul_left hppos this
  obtain ⟨hu1, hu2⟩ := h.start_unit r0.pgsz_idx (reservation_run s.vm r0).1 (by omega)
  rw [← hgs] at hu1 hu2
  unfold gk20a_vm_free_space
  simp only []
  rw [hdet, if_neg (by unfold gmmu_nr_page_sizes; omega), hoff, hu2, hpages]
  generalize hrun : reservation_run s.vm r0 = run at hgs hgz hclaim hstpos hnpos hst32 hlive hu1 hu2
  have hfr : (s.vm.vma r0.pgsz_idx).free run.1 run.2 =
      (0, { s.vm.vma r0.pgsz_idx with runs := (s.vm.vma r0.pgsz_idx).runs.erase run }) := by
    unfold Gk20aAllocator.free
    rw [if_pos hlive]
  rw [hfr]
  simp only [ne_eq, not_true_eq_false, if_false]
  generalize hF : ({ s.vm.vma r0.pgsz_idx with
    runs := (s.vm.vma r0.pgsz_idx).runs.erase run } : Gk20aAllocator) = F
  have hfind1 : addr_to_reservation (s.with_vm (s.vm.set_vma r0.pgsz_idx F)).vm r0.vaddr_start =
      some r0 := by
    rw [← hoff]
    unfold addr_to_reservation at hfind ⊢
    simpa using hfind
  rw [hfind1]
  simp only []
  rw [put_va_buffers_eq]
  -- the loop takes every linked buffer out
  have hord1 : (s.with_vm (s.vm.set_vma r0.pgsz_idx F)).vm.mapped_buffers.Ordered := by
    simp only [MmState.with_vm_vm, VmGk20a.set_vma_mapped_buffers]
    exact h.ordered
  have H1 : ∀ a ∈ r0.va_buffers_list.map VaBuffer.addr,
      ∀ e ∈ (s.with_vm (s.vm.set_vma r0.pgsz_idx F)).vm.mapped_buffers.toList, e.addr = a →
        e.ref = 1 ∧ e.va_allocated = false := by
    intro a ha e he hea
    simp only [MmState.with_vm_vm, VmGk20a.set_vma_mapped_buffers] at he
    obtain ⟨b, hb, hba⟩ := List.mem_map.1 ha
    refine ⟨href b hb e he (hea.trans hba.symm), ?_⟩
    obtain ⟨e0, he0, hva0, ha0, _⟩ := h.lists_live r0 hr0 b hb
    have := ordered_addr_inj _ h.ordered e e0 he he0 (by rw [hea, ← hba, ha0])
    rw [this]; exact hva0
  obtain ⟨hl2, ⟨q, hq1, hq2, hq3⟩, hs2, hb2, hc2⟩ :=
    gk20a_vm_put_buffers_last_refs env (r0.va_buffers_list.map VaBuffer.addr)
      (s.with_vm (s.vm.set_vma r0.pgsz_idx F)) hord1 H1
  simp only [MmState.with_vm_vm, VmGk20a.set_vma_mapped_buffers, VmGk20a.set_vma_reserved]
    at hl2 hq1 hq3 hs2 hb2
  generalize gk20a_vm_put_buffers (s.with_vm (s.vm.set_vma r0.pgsz_idx F)) env
    (r0.va_buffers_list.map VaBuffer.addr) = s2 at hl2 hq1 hs2 hb2 hc2 ⊢
  have hcA := SameConfig.set_vma_config s.vm r0.pgsz_idx F
  have hc02 : SameConfig s.vm s2.vm := SameConfig.trans hcA hc2
  have hPc : ∀ r : VmReservedVaNode, reservation_contains r0.vaddr_start
      { r with va_buffers_list := r.va_buffers_list.filter q } =
      reservation_contains r0.vaddr_start r := fun _ => rfl
  have hfind0 : s.vm.reserved_va_list.find? (reservation_contains r0.vaddr_start) = some r0 := by
    rw [← hoff]; exact hfind
  -- the address space with the old allocators
  have hB : VmInv { s.vm with
      mapped_buffers := s2.vm.mapped_buffers
      reserved_va_list := s2.vm.reserved_va_list.eraseP (reservation_contains r0.vaddr_start) } := by
    refine h.shrink ⟨rfl, rfl, rfl⟩ rfl rfl
      (fun e => decide (e.addr ∉ r0.va_buffers_list.map VaBuffer.addr)) hl2 q ?_ ?_ ?_
    · show (s2.vm.reserved_va_list.eraseP _).Sublist _
      rw [hq1]
      exact List.eraseP_sublist _
    · intro e he hva
      have he' : e ∈ s.vm.mapped_buffers.toList ∧
          e.addr ∉ r0.va_buffers_list.map VaBuffer.addr := by
        have : e ∈ s2.vm.mapped_buffers.toList := he
        rw [hl2] at this
        obtain ⟨h1, h2⟩ := List.mem_filter.1 this
        exact ⟨h1, by simpa using h2⟩
      obtain ⟨r, hr, hbr⟩ := h.fixed_linked e he'.1 hva
      have hqb : q { addr := e.addr, size := e.size } = true := by
        by_contra hq
        have := hq2 _ (by simpa using hq)
        exact he'.2 this
      have hmem' : ({ addr := e.addr, size := e.size } : VaBuffer) ∈
          ({ r with va_buffers_list := r.va_buffers_list.filter q } :
            VmReservedVaNode).va_buffers_list := List.mem_filter.2 ⟨hbr, hqb⟩
      refine ⟨{ r with va_buffers_list := r.va_buffers_list.filter q }, ?_, hmem'⟩
      show _ ∈ s2.vm.reserved_va_list.eraseP _
      have hperm := find?_perm_eraseP (reservation_contains r0.vaddr_start) _ _
        (find?_map_strip q _ hPc _ r0 hfind0)
      rw [← hq1] at hperm
      have hin : ({ r with va_buffers_list := r.va_buffers_list.filter q } : VmReservedVaNode) ∈
          s2.vm.reserved_va_list := by
        rw [hq1]; exact List.mem_map.2 ⟨r, hr, rfl⟩
      rcases List.mem_cons.1 (hperm.mem_iff.1 hin) with heq | hin'
      · exfalso
        rw [heq] at hmem'
        have hb0 : ({ addr := e.addr, size := e.size } : VaBuffer) ∈ r0.va_buffers_list :=
          (List.mem_filter.1 hmem').1
        exact he'.2 (List.mem_map.2 ⟨_, hb0, rfl⟩)
      · exact hin'
    · intro e he b hqb hea
      simp only [decide_eq_true_eq]
      intro hin
      rw [hea] at hin
      have := hq3 b hin ⟨e, he, hea⟩
      rw [hqb] at this
      exact Bool.noConfusion this
  -- releasing the run of the reservation
  have hnot : run ∉ va_claims { s.vm with
      mapped_buffers := s2.vm.mapped_buffers
      reserved_va_list := s2.vm.reserved_va_list.eraseP (reservation_contains r0.vaddr_start) }
      r0.pgsz_idx := by
    rw [← hrun]
    exact @va_claims_erase_reservation s.vm { s.vm with
        mapped_buffers := s2.vm.mapped_buffers
        reserved_va_list := s2.vm.reserved_va_list.eraseP (reservation_contains r0.vaddr_start) }
      ⟨rfl, rfl, rfl⟩ _ hl2 q _ hPc r0 hfind0
      (by show List.eraseP _ _ = List.eraseP _ _; rw [hq1]) (h.claims_nodup _)
  have hB2 := hB.vma_free r0.pgsz_idx hi run.1 run.2 (fun c hc hceq => hnot (by have : c = run := hceq; rw [← this]; exact hc))
  have hvB : ({ s.vm with
      mapped_buffers := s2.vm.mapped_buffers
      reserved_va_list := s2.vm.reserved_va_list.eraseP
        (reservation_contains r0.vaddr_start) } : VmGk20a).vma r0.pgsz_idx =
      s.vm.vma r0.pgsz_idx := rfl
  rw [hvB, hfr] at hB2
  simp only [] at hB2
  rw [hF] at hB2
  have hcB := SameConfig.set_vma_config ({ s.vm with
      mapped_buffers := s2.vm.mapped_buffers
      reserved_va_list := s2.vm.reserved_va_list.eraseP
        (reservation_contains r0.vaddr_start) } : VmGk20a) r0.pgsz_idx F
  have h3 : VmInv (s2.with_vm { s2.vm with
      reserved_va_list := s2.vm.reserved_va_list.eraseP
        (reservation_contains r0.vaddr_start) }).vm := by
    refine hB2.modify_registry ?_ ?_ ?_ ?_ id (fun _ => rfl) ?_
    · exact ⟨hc02.1.trans hcB.1.symm, hc02.2.1.trans hcB.2.1.symm, hc02.2.2.trans hcB.2.2.symm⟩
    · show s2.vm.vma_small = _
      rw [hs2]
      unfold VmGk20a.set_vma
      split <;> rfl
    · show s2.vm.vma_big = _
      rw [hb2]
      unfold VmGk20a.set_vma
      split <;> rfl
    · simp only [MmState.with_vm_vm, VmGk20a.set_vma_reserved]
    · simp only [MmState.with_vm_vm, VmGk20a.set_vma_mapped_buffers, List.map_id]
  cases hsp : r0.sparse
  · simp only [Bool.false_eq_true, if_false]
    exact h3
  · simp only [if_true]
    rw [gk20a_locked_gmmu_unmap_vm, if_pos rfl]
    refine (h3.free_va_unclaimed r0.vaddr_start r0.size r0.pgsz_idx hi ?_).1
    intro c hc
    have hpg : (s2.with_vm { s2.vm with
        reserved_va_list := s2.vm.reserved_va_list.eraseP
          (reservation_contains r0.vaddr_start) }).vm.gmmu_page_sizes r0.pgsz_idx =
        s.vm.gmmu_page_sizes r0.pgsz_idx := by
      show VmGk20a.gmmu_page_sizes _ _ = _
      unfold VmGk20a.gmmu_page_sizes
      simp only [MmState.with_vm_vm]
      rw [hc02.1, hc02.2.1]
    rw [hpg, hu1]
    have hcl := h3.claims_live _ c hc
    have hv3 : (s2.with_vm { s2.vm with
        reserved_va_list := s2.vm.reserved_va_list.eraseP
          (reservation_contains r0.vaddr_start) }).vm.vma r0.pgsz_idx = F := by
      show VmGk20a.vma _ _ = _
      unfold VmGk20a.vma
      simp only [MmState.with_vm_vm]
      rw [hs2, hb2]
      have := VmGk20a.set_vma_vma s.vm r0.pgsz_idx r0.pgsz_idx F
      unfold VmGk20a.vma at this
      simpa using this
    rw [hv3, ← hF] at hcl
    simp only [] at hcl
    have hnd := Gk20aAllocator.WF.nodup (h.usable r0.pgsz_idx).1
    obtain ⟨hne, hcm⟩ := hnd.mem_erase_iff.1 hcl
    intro hst
    exact hne (Gk20aAllocator.Usable.start_inj _ (h.usable r0.pgsz_idx) c run hcm hlive hst)

/-! ## Mapping keeps the address space well formed -/

theorem ranges_overlap_comm (a n b m : Nat) : ranges_overlap a n b m ↔ ranges_overlap b m a n := by
  unfold ranges_overlap
  rw [Nat.max_comm, Nat.min_comm]

theorem pairwise_of_nodup_map_filter {α β : Type} (c : α → Nat) (f : α → β) :
    ∀ l : List α, (∀ i, ((l.filter (fun r => decide (c r = i))).map f).Nodup) →
      l.Pairwise (fun x y => c x = c y → f x ≠ f y) := by
  intro l
  induction l with
  | nil => intro _; exact List.Pairwise.nil
  | cons a rest ih =>
    intro h
    refine List.pairwise_cons.2 ⟨?_, ih ?_⟩
    · intro y hy hcy hfy
      have h1 := h (c a)
      rw [List.filter_cons_of_pos (by simp), List.map_cons] at h1
      have h2 := (List.nodup_cons.1 h1).1
      apply h2
      rw [hfy]
      exact List.mem_map.2 ⟨y, List.mem_filter.2 ⟨hy, by simp [hcy]⟩, rfl⟩
    · intro i
      have h1 := h i
      by_cases hc : c a = i
      · rw [List.filter_cons_of_pos (by simp [hc]), List.map_cons] at h1
        exact (List.nodup_cons.1 h1).2
      · rw [List.filter_cons_of_neg (by simp [hc])] at h1
        exact h1

/-- The reservations of a well-formed address space end below `2^62`, hold
their linked buffers, and are pairwise apart. -/
theorem VmInv.reservations_ok {vm : VmGk20a} (h : VmInv vm) :
    (∀ r ∈ vm.reserved_va_list, r.vaddr_start + r.size ≤ 2 ^ 62 ∧ 0 < r.vaddr_start ∧
      ∀ b ∈ r.va_buffers_list, b.addr + b.size ≤ r.vaddr_start + r.size) ∧
    vm.reserved_va_list.Pairwise (fun r r' =>
      r.vaddr_start + r.size ≤ r'.vaddr_start ∨ r'.vaddr_start + r'.size ≤ r.vaddr_start) := by
  have hgeo : ∀ r ∈ vm.reserved_va_list,
      r.vaddr_start + r.size =
        ((reservation_run vm r).1 + (reservation_run vm r).2) * vm.gmmu_page_sizes r.pgsz_idx := by
    intro r hr
    obtain ⟨_, h1, h2⟩ := h.res_geom r hr
    rw [Nat.add_mul, ← h1, ← h2]
  constructor
  · intro r hr
    obtain ⟨hi, h1, h2⟩ := h.res_geom r hr
    obtain ⟨hp1, hp2, hp3⟩ := h.claims_pos _ _ (mem_va_claims_reservation vm r hr)
    obtain ⟨k, hk, hpk⟩ := h.pages r.pgsz_idx
    refine ⟨?_, ?_, fun b hb => ((h.lists r hr).2 b hb).2⟩
    · rw [hgeo r hr, hpk]
      have h30 : 2 ^ k ≤ 2 ^ 30 := Nat.pow_le_pow_right (by norm_num) (by omega)
      calc ((reservation_run vm r).1 + (reservation_run vm r).2) * 2 ^ k
          ≤ U32 * 2 ^ 30 := Nat.mul_le_mul hp3 h30
        _ = 2 ^ 62 := by unfold U32; norm_num
    · rw [h1]
      exact Nat.mul_pos hp1 (h.page_pos _)
  · have hbase := pairwise_of_nodup_map_filter VmReservedVaNode.pgsz_idx (reservation_run vm)
      vm.reserved_va_list (fun i => by
        have := h.claims_nodup i
        unfold va_claims at this
        exact (List.nodup_append.1 this).2.1)
    refine (List.Pairwise.and_mem.1 hbase).imp ?_
    intro r r' hrr
    obtain ⟨hr, hr', hne⟩ := hrr
    obtain ⟨hi, _, _⟩ := h.res_geom r hr
    obtain ⟨hi', h1', _⟩ := h.res_geom r' hr'
    obtain ⟨_, h1, _⟩ := h.res_geom r hr
    have hc := h.claims_live _ _ (mem_va_claims_reservation vm r hr)
    have hc' := h.claims_live _ _ (mem_va_claims_reservation vm r' hr')
    have hap := h.claims_apart r.pgsz_idx r'.pgsz_idx hi hi' _ _ hc hc' (by
      by_cases hij : r.pgsz_idx = r'.pgsz_idx
      · exact Or.inr (hne hij)
      · exact Or.inl hij)
    rw [← hgeo r hr, ← hgeo r' hr', ← h1, ← h1'] at hap
    exact hap

theorem MmState.ite_emit_vm (c : Prop) [Decidable c] (s : MmState) (e : HwEvent) :
    (if c then s.emit e else s).vm = s.vm := by
  split <;> rfl

/-- The duplicate check keeps the address space well formed: a hit changes
counts only. -/
theorem VmInv.map_duplicate (g : Gk20a) (s : MmState) (dmabuf oa flags kind : Nat) (um : Bool)
    (h : VmInv s.vm) : VmInv (gk20a_vm_map_duplicate_locked g s dmabuf oa flags kind um).2.vm := by
  unfold gk20a_vm_map_duplicate_locked
  cases find_mapped_buffer_reverse_locked s.vm.mapped_buffers dmabuf kind with
  | none => exact h
  | some mb =>
    simp only []
    by_cases h1 : mb.flags ≠ flags
    · rw [if_pos h1]; exact h
    rw [if_neg h1]
    by_cases h2 : flag_set flags g.NVGPU_AS_MAP_BUFFER_FLAGS_FIXED_OFFSET = true ∧ mb.addr ≠ oa
    · rw [if_pos h2]; exact h
    rw [if_neg h2]
    simp only [MmState.with_vm_vm, MmState.ite_emit_vm]
    refine h.modify_registry ⟨rfl, rfl, rfl⟩ rfl rfl rfl
      (fun e => if e.addr = mb.addr then
        (if um = true then
          { e with user_mapped := u32 (e.user_mapped + 1), own_mem_ref := true, ref := e.ref + 1 }
        else { e with ref := e.ref + 1 }) else e) ?_ ?_
    · intro e
      simp only []
      by_cases hea : e.addr = mb.addr
      · rw [if_pos hea]
        cases um <;> rfl
      · rw [if_neg hea]
    · exact RbNode.modify_toList _ _ _

/-- The `clean_up:` path: a VA it releases is one nobody holds. -/
theorem VmInv.clean_up (s : MmState) (dmabuf : DmaBuf) (va : Bool) (mo : Nat)
    (bfr : BufferAttrs) (pinned : Bool) (h : VmInv s.vm)
    (hun : va = true → bfr.pgsz_idx.toNat ≤ 1 ∧ ∀ c ∈ va_claims s.vm bfr.pgsz_idx.toNat,
      c.1 ≠ u32 (mo >>> ilog2 (u32 (s.vm.gmmu_page_sizes bfr.pgsz_idx.toNat)))) :
    VmInv (gk20a_vm_map_clean_up s dmabuf va mo bfr pinned).2.vm := by
  unfold gk20a_vm_map_clean_up
  simp only []
  have key : ∀ X : MmState, (if pinned = true then gk20a_mm_unpin X dmabuf.id else X).vm = X.vm := by
    intro X; split
    · exact gk20a_mm_unpin_vm _ _
    · rfl
  rw [key]
  cases va
  · simp only [Bool.false_eq_true, if_false]
    exact h
  · simp only [if_true, MmState.with_vm_vm]
    obtain ⟨hi, hc⟩ := hun rfl
    exact (h.free_va_unclaimed mo bfr.size bfr.pgsz_idx.toNat hi hc).1

/-- The `clean_up:` path with `map_offset` 0. -/
theorem VmInv.clean_up_zero (s : MmState) (dmabuf : DmaBuf) (va : Bool)
    (bfr : BufferAttrs) (pinned : Bool) (h : VmInv s.vm) (hi : bfr.pgsz_idx.toNat ≤ 1) :
    VmInv (gk20a_vm_map_clean_up s dmabuf va 0 bfr pinned).2.vm := by
  refine VmInv.clean_up s dmabuf va 0 bfr pinned h (fun _ => ⟨hi, ?_⟩)
  intro c hc
  have := (h.claims_pos _ c hc).1
  simp only [Nat.zero_shiftRight]
  unfold u32
  simp only [Nat.zero_mod]
  omega

/-- At most one reservation contains an address. -/
theorem VmInv.contains_unique {vm : VmGk20a} (h : VmInv vm) (a : Nat) (r r' : VmReservedVaNode)
    (hr : r ∈ vm.reserved_va_list) (hr' : r' ∈ vm.reserved_va_list)
    (hc : reservation_contains a r = true) (hc' : reservation_contains a r' = true) : r = r' := by
  obtain ⟨hb, hd⟩ := h.reservations_ok
  by_contra hne
  have hap := hd.forall (fun x y hxy => Or.symm hxy) hr hr' hne
  have h1 := (reservation_contains_iff a r (by have := (hb r hr).1; unfold U64; omega)).1 hc
  have h2 := (reservation_contains_iff a r' (by have := (hb r' hr').1; unfold U64; omega)).1 hc'
  omega

theorem VmInv.update_reservation_eq {vm : VmGk20a} (h : VmInv vm) (a : Nat)
    (f : VmReservedVaNode → VmReservedVaNode) :
    update_reservation vm.reserved_va_list a f =
      vm.reserved_va_list.map (fun n => if reservation_contains a n then f n else n) := by
  apply update_reservation_eq_map
  obtain ⟨hb, hd⟩ := h.reservations_ok
  refine (List.Pairwise.and_mem.1 hd).imp ?_
  intro r r' hrr hc
  obtain ⟨hr, hr', hap⟩ := hrr
  have h1 := (reservation_contains_iff a r (by have := (hb r hr).1; unfold U64; omega)).1 hc.1
  have h2 := (reservation_contains_iff a r' (by have := (hb r' hr').1; unfold U64; omega)).1 hc.2
  omega

/-- The tracking part of `gk20a_vm_map` keeps the address space well formed:
for an allocated VA the run behind `map_offset` is live and held by nobody
yet; for a fixed offset the request has passed `validate_fixed_buffer`. -/
theorem VmInv.map_track (s : MmState) (env : Env) (dmabuf : DmaBuf) (flags kind : Nat)
    (um : Bool) (ms : Nat) (bfr : BufferAttrs) (va : Bool) (mo : Nat) (h : VmInv s.vm)
    (hi : bfr.pgsz_idx.toNat ≤ 1)
    (hva : va = true →
      (u32 (mo >>> ilog2 (u32 (s.vm.gmmu_page_sizes bfr.pgsz_idx.toNat))),
        u32 (u64 (ms + u32 (s.vm.gmmu_page_sizes bfr.pgsz_idx.toNat) + U64 - 1) >>>
          ilog2 (u32 (s.vm.gmmu_page_sizes bfr.pgsz_idx.toNat)))) ∈
        (s.vm.vma bfr.pgsz_idx.toNat).runs ∧
      (∀ c ∈ va_claims s.vm bfr.pgsz_idx.toNat,
        c.1 ≠ u32 (mo >>> ilog2 (u32 (s.vm.gmmu_page_sizes bfr.pgsz_idx.toNat)))) ∧
      mo = u32 (mo >>> ilog2 (u32 (s.vm.gmmu_page_sizes bfr.pgsz_idx.toNat))) *
        s.vm.gmmu_page_sizes bfr.pgsz_idx.toNat ∧
      ms ≤ u32 (u64 (ms + u32 (s.vm.gmmu_page_sizes bfr.pgsz_idx.toNat) + U64 - 1) >>>
          ilog2 (u32 (s.vm.gmmu_page_sizes bfr.pgsz_idx.toNat))) *
        s.vm.gmmu_page_sizes bfr.pgsz_idx.toNat)
    (hfx : va = false → ms < U64 ∧ ∃ bfr0, validate_fixed_buffer s.vm bfr0 mo ms = 0) :
    VmInv (gk20a_vm_map_track s env dmabuf flags kind um ms bfr va mo).2.vm := by
  have hclean : VmInv (gk20a_vm_map_clean_up s dmabuf va mo bfr true).2.vm :=
    VmInv.clean_up s dmabuf va mo bfr true h (fun hv => ⟨hi, (hva hv).2.1⟩)
  unfold gk20a_vm_map_track
  by_cases hk : env.kzalloc_ok = false
  · rw [if_pos hk]; exact hclean
  rw [if_neg hk]
  simp only []
  by_cases hins : (insert_mapped_buffer s.vm.mapped_buffers
      (new_mapped_buffer s.vm dmabuf flags kind um ms bfr va mo)).1 ≠ 0
  · rw [if_pos hins]; exact hclean
  rw [if_neg hins]
  push_neg at hins
  obtain ⟨hperm, hord⟩ := insert_mapped_buffer_ok _ _ h.ordered hins
  simp only [MmState.with_vm_vm]
  generalize hnb : new_mapped_buffer s.vm dmabuf flags kind um ms bfr va mo = nb at hperm hord hins ⊢
  have hna : nb.addr = mo := by rw [← hnb]; rfl
  have hns : nb.size = ms := by rw [← hnb]; rfl
  have hnp : nb.pgsz_idx = bfr.pgsz_idx.toNat := by rw [← hnb]; rfl
  have hnv : nb.va_allocated = va := by rw [← hnb]; rfl
  have hrunb : buffer_run s.vm nb =
      (u32 (mo >>> ilog2 (u32 (s.vm.gmmu_page_sizes bfr.pgsz_idx.toNat))),
        u32 (u64 (ms + u32 (s.vm.gmmu_page_sizes bfr.pgsz_idx.toNat) + U64 - 1) >>>
          ilog2 (u32 (s.vm.gmmu_page_sizes bfr.pgsz_idx.toNat)))) := by
    unfold buffer_run
    rw [hna, hns, hnp]
  cases va
  · -- fixed offset: the mapping is linked in the reservation of `map_offset`
    simp only [Bool.false_eq_true, if_false]
    obtain ⟨hms, bfr0, hval⟩ := hfx rfl
    obtain ⟨hb, hd⟩ := h.reservations_ok
    obtain ⟨_, _, va0, hva0, _, _⟩ := (validate_fixed_buffer_zero s.vm bfr0 mo ms).1 hval
    obtain ⟨hva0m, hva0c⟩ := addr_to_reservation_some _ _ _ hva0
    have hmo : mo < U64 := by
      have := (reservation_contains_iff mo va0
        (by have := (hb va0 hva0m).1; unfold U64; omega)).1 hva0c
      have := (hb va0 hva0m).1
      unfold U64; omega
    obtain ⟨k0, hk0, hp0⟩ := h.pages bfr0.pgsz_idx.toNat
    obtain ⟨⟨hnw, hpos⟩, _, r1, hr1, hr1c, hr1e, hr1n⟩ :=
      ((validate_fixed_buffer_spec s.vm bfr0 mo ms k0 hmo hms hp0 (by omega)
        (fun r hr => ⟨by have := (hb r hr).1; omega, (hb r hr).2.2⟩) hd).1).1 hval
    have hr1c' : reservation_contains mo r1 = true :=
      (reservation_contains_iff mo r1 (by have := (hb r1 hr1).1; unfold U64; omega)).2 hr1c
    rw [h.update_reservation_eq]
    refine h.grow ⟨rfl, rfl, rfl⟩ rfl rfl [nb] hperm hord
      (fun n => if reservation_contains mo n then
        { n with va_buffers_list := n.va_buffers_list ++ [{ addr := mo, size := ms }] } else n)
      ?_ [] (by simp) ?_ ?_ ?_ ?_ ?_ ?_ ?_
    · intro r
      simp only []
      split <;> exact ⟨rfl, rfl, rfl⟩
    · intro e he
      rw [List.mem_singleton] at he
      subst he
      rw [hnp]
      refine ⟨hi, fun hv => ?_⟩
      rw [hnv] at hv
      exact Bool.noConfusion hv
    · intro r hr
      exact absurd hr (List.not_mem_nil _)
    · intro j
      simp only [List.filter_cons, hnv, Bool.false_and, Bool.false_eq_true, if_false,
        List.filter_nil, List.map_nil, List.nil_append]
      exact h.claims_nodup j
    · intro e he _
      rw [List.mem_singleton] at he
      subst he
      refine ⟨r1, hr1, ?_⟩
      simp only []
      rw [if_pos hr1c', hna, hns]
      simp
    · intro r _ b hb'
      simp only []
      split
      · exact List.mem_append_left _ hb'
      · exact hb'
    · intro r _ b hb'
      simp only [] at hb'
      split at hb'
      · rcases List.mem_append.1 hb' with h1 | h1
        · exact Or.inl h1
        · refine Or.inr ⟨nb, List.mem_singleton.2 rfl, hnv, ?_, ?_⟩
          · rw [List.mem_singleton] at h1; rw [h1, hna]
          · rw [List.mem_singleton] at h1; rw [h1, hns]
      · exact Or.inl hb'
    · intro r hr
      simp only []
      by_cases hc : reservation_contains mo r = true
      · rw [if_pos hc]
        have hrr : r = r1 := h.contains_unique mo r r1 hr hr1 hc hr1c'
        subst hrr
        obtain ⟨hl1, hl2⟩ := h.lists r hr
        simp only []
        refine ⟨List.pairwise_append.2 ⟨hl1, List.pairwise_singleton _ _, ?_⟩, ?_⟩
        · intro b hb' b' hb''
          rw [List.mem_singleton] at hb''
          subst hb''
          rw [ranges_overlap_comm]
          exact hr1n b hb'
        · intro b hb'
          rcases List.mem_append.1 hb' with h1 | h1
          · exact hl2 b h1
          · rw [List.mem_singleton] at h1
            subst h1
            exact ⟨hr1c.1, hr1e⟩
      · rw [if_neg hc]
        exact h.lists r hr
  · -- allocated VA: the mapping holds the run behind `map_offset`
    simp only [if_true]
    obtain ⟨hrun, hfresh, hgeo1, hgeo2⟩ := hva rfl
    refine h.grow ⟨rfl, rfl, rfl⟩ rfl rfl [nb] hperm hord id (fun _ => ⟨rfl, rfl, rfl⟩) []
      (by simp) ?_ ?_ ?_ ?_ ?_ ?_ ?_
    · intro e he
      rw [List.mem_singleton] at he
      subst he
      rw [hnp, hrunb, hna, hns]
      exact ⟨hi, fun _ => ⟨hgeo1, hgeo2, hrun⟩⟩
    · intro r hr
      exact absurd hr (List.not_mem_nil _)
    · intro j
      by_cases hj : bfr.pgsz_idx.toNat = j
      · subst hj
        simp only [List.filter_cons, hnv, hnp, Bool.true_and, decide_True, if_true,
          List.filter_nil, List.map_cons, List.map_nil, List.append_nil, List.singleton_append]
        refine List.nodup_cons.2 ⟨?_, h.claims_nodup _⟩
        rw [hrunb]
        intro hmem
        exact hfresh _ hmem rfl
      · simp only [List.filter_cons, hnv, hnp, hj, Bool.true_and, decide_False,
          Bool.false_eq_true, if_false, List.filter_nil, List.map_nil, List.nil_append]
        exact h.claims_nodup j
    · intro e he hv
      rw [List.mem_singleton] at he
      subst he
      rw [hnv] at hv
      exact Bool.noConfusion hv
    · intro r _ b hb'
      exact hb'
    · intro r _ b hb'
      exact Or.inl hb'
    · intro r hr
      exact h.lists r hr

/-- The run behind an address `gk20a_vm_alloc_va` has just returned, in terms
of the address space after the call. -/
theorem VmInv.alloc_va_fresh {vm : VmGk20a} (h : VmInv vm) (size i : Nat)
    (hs : size ≤ vm.va_limit) (h0 : (gk20a_vm_alloc_va vm size i).1 ≠ 0) :
    i ≤ 1 ∧
    (u32 ((gk20a_vm_alloc_va vm size i).1 >>>
        ilog2 (u32 ((gk20a_vm_alloc_va vm size i).2.gmmu_page_sizes i))),
      u32 (u64 (size + u32 ((gk20a_vm_alloc_va vm size i).2.gmmu_page_sizes i) + U64 - 1) >>>
        ilog2 (u32 ((gk20a_vm_alloc_va vm size i).2.gmmu_page_sizes i)))) ∈
      ((gk20a_vm_alloc_va vm size i).2.vma i).runs ∧
    (∀ c ∈ va_claims (gk20a_vm_alloc_va vm size i).2 i,
      c.1 ≠ u32 ((gk20a_vm_alloc_va vm size i).1 >>>
        ilog2 (u32 ((gk20a_vm_alloc_va vm size i).2.gmmu_page_sizes i)))) ∧
    (gk20a_vm_alloc_va vm size i).1 =
      u32 ((gk20a_vm_alloc_va vm size i).1 >>>
        ilog2 (u32 ((gk20a_vm_alloc_va vm size i).2.gmmu_page_sizes i))) *
        (gk20a_vm_alloc_va vm size i).2.gmmu_page_sizes i ∧
    size ≤ u32 (u64 (size + u32 ((gk20a_vm_alloc_va vm size i).2.gmmu_page_sizes i) + U64 - 1) >>>
        ilog2 (u32 ((gk20a_vm_alloc_va vm size i).2.gmmu_page_sizes i))) *
      (gk20a_vm_alloc_va vm size i).2.gmmu_page_sizes i := by
  obtain ⟨_, hsucc⟩ := h.alloc_va size i hs
  obtain ⟨hi, heq, hfr, hg1, hg2⟩ := hsucc h0
  have hpg : (gk20a_vm_alloc_va vm size i).2.gmmu_page_sizes i = vm.gmmu_page_sizes i := by
    rw [heq, VmGk20a.set_vma_page_sizes]
  have hcl : va_claims (gk20a_vm_alloc_va vm size i).2 i = va_claims vm i := by
    rw [heq]; exact va_claims_set_vma _ _ _ _
  have hvma : ((gk20a_vm_alloc_va vm size i).2.vma i).runs = Gk20aAllocator.insert_run
      (u32 ((gk20a_vm_alloc_va vm size i).1 >>> ilog2 (u32 (vm.gmmu_page_sizes i))),
        u32 (u64 (size + u32 (vm.gmmu_page_sizes i) + U64 - 1) >>>
          ilog2 (u32 (vm.gmmu_page_sizes i)))) (vm.vma i).runs := by
    conv_lhs => rw [heq]
    rw [VmGk20a.set_vma_vma]
    simp
  rw [hpg, hcl, hvma]
  refine ⟨hi, ?_, ?_, hg1, hg2⟩
  · exact (Gk20aAllocator.insert_run_perm _ _).mem_iff.2 (List.mem_cons_self _ _)
  · intro c hc
    exact hfr c (h.claims_live i c hc)

theorem VmInv.size_lt {vm : VmGk20a} (h : VmInv vm) (ms : Nat) (hs : ms ≤ vm.va_limit) :
    ms < U64 := by
  obtain ⟨k, hk, hp⟩ := h.pages 0
  have := h.aperture 0
  rw [hp] at this
  have h30 : 2 ^ k ≤ 2 ^ 30 := Nat.pow_le_pow_right (by norm_num) (by omega)
  have h2 : U32 * 2 ^ k ≤ U32 * 2 ^ 30 := Nat.mul_le_mul_left _ h30
  unfold U32 at this h2
  unfold U64
  omega

/-- The page-table part of `gk20a_vm_map` with what follows keeps the address
space well formed. -/
theorem VmInv.map_ptes (g : Gk20a) (s : MmState) (env : Env) (dmabuf : DmaBuf)
    (flags kind : Nat) (um : Bool) (rw bo ms : Nat) (bfr : BufferAttrs) (va : Bool) (mo : Nat)
    (h : VmInv s.vm) (hi : bfr.pgsz_idx.toNat ≤ 1) (hsize : ms ≤ s.vm.va_limit)
    (hcase : (va = true ∧ mo = 0) ∨
      (va = false ∧ mo ≠ 0 ∧ ∃ bfr0, validate_fixed_buffer s.vm bfr0 mo ms = 0)) :
    VmInv (gk20a_vm_map_ptes g s env dmabuf flags kind um rw bo ms bfr va mo).2.vm := by
  unfold gk20a_vm_map_ptes
  simp only []
  obtain ⟨hcv, _, hcp, _⟩ := gk20a_vm_map_comptags_frame s dmabuf bfr
  have hmv := gk20a_locked_gmmu_map_vm g (gk20a_vm_map_comptags s dmabuf bfr).2.2 env mo true bo ms
    (gk20a_vm_map_comptags s dmabuf bfr).1.pgsz_idx.toNat
    (gk20a_vm_map_comptags s dmabuf bfr).1.kind_v
    (gk20a_vm_map_comptags s dmabuf bfr).1.ctag_offset flags rw
    (gk20a_vm_map_comptags s dmabuf bfr).2.1 false
  rw [hcv] at hmv
  generalize (gk20a_locked_gmmu_map g (gk20a_vm_map_comptags s dmabuf bfr).2.2 env mo true bo ms
    (gk20a_vm_map_comptags s dmabuf bfr).1.pgsz_idx.toNat
    (gk20a_vm_map_comptags s dmabuf bfr).1.kind_v
    (gk20a_vm_map_comptags s dmabuf bfr).1.ctag_offset flags rw
    (gk20a_vm_map_comptags s dmabuf bfr).2.1 false) = m at hmv ⊢
  generalize (gk20a_vm_map_comptags s dmabuf bfr).1 = cb at hcp hmv ⊢
  have hic : cb.pgsz_idx.toNat ≤ 1 := by rw [hcp]; exact hi
  rcases hcase with ⟨hva, hmo⟩ | ⟨hva, hmo, bfr0, hval⟩
  · subst hva hmo
    rcases hmv.2 rfl with ⟨hvm, hm1⟩ | ⟨hm1, hA0, hvm⟩
    · have hA := (h.alloc_va ms cb.pgsz_idx.toNat hsize).1
      rw [← hvm] at hA
      by_cases hz : m.1 = 0
      · rw [if_pos hz, hz]
        exact VmInv.clean_up_zero m.2 dmabuf true cb true hA hic
      · rw [if_neg hz]
        have hfresh := h.alloc_va_fresh ms cb.pgsz_idx.toNat hsize (by rw [← hm1]; exact hz)
        rw [← hvm, ← hm1] at hfresh
        refine VmInv.map_track m.2 env dmabuf flags kind um ms cb true m.1 hA hic
          (fun _ => hfresh.2) (fun hv => Bool.noConfusion hv)
    · have hA := (h.alloc_va ms cb.pgsz_idx.toNat hsize).1
      have hfresh := h.alloc_va_fresh ms cb.pgsz_idx.toNat hsize hA0
      have hF := (hA.free_va_unclaimed (gk20a_vm_alloc_va s.vm ms cb.pgsz_idx.toNat).1 ms
        cb.pgsz_idx.toNat hic hfresh.2.2.1).1
      rw [← hvm] at hF
      rw [if_pos hm1, hm1]
      exact VmInv.clean_up_zero m.2 dmabuf true cb true hF hic
  · subst hva
    obtain ⟨hvm, hm1⟩ := hmv.1 hmo
    have hA : VmInv m.2.vm := by rw [hvm]; exact h
    by_cases hz : m.1 = 0
    · rw [if_pos hz]
      exact VmInv.clean_up m.2 dmabuf false m.1 cb true hA (fun hv => Bool.noConfusion hv)
    · rw [if_neg hz]
      have hm : m.1 = mo := by
        rcases hm1 with h1 | h1
        · exact absurd h1 hz
        · exact h1
      refine VmInv.map_track m.2 env dmabuf flags kind um ms cb false m.1 hA hic
        (fun hv => Bool.noConfusion hv) (fun _ => ⟨h.size_lt ms hsize, bfr0, ?_⟩)
      rw [hvm, hm]
      exact hval

theorem gk20a_vm_map_duplicate_locked_va_limit (g : Gk20a) (s : MmState)
    (dmabuf oa flags kind : Nat) (um : Bool) :
    (gk20a_vm_map_duplicate_locked g s dmabuf oa flags kind um).2.vm.va_limit = s.vm.va_limit := by
  unfold gk20a_vm_map_duplicate_locked
  cases find_mapped_buffer_reverse_locked s.vm.mapped_buffers dmabuf kind with
  | none => rfl
  | some mb =>
    simp only []
    split_ifs <;> rfl

/-- The part of `gk20a_vm_map` after the pin keeps the address space well
formed. -/
theorem VmInv.map_pinned (g : Gk20a) (s : MmState) (env : Env) (dmabuf : DmaBuf)
    (oa flags kind : Nat) (um : Bool) (rw bo ms : Nat) (h : VmInv s.vm)
    (hsize : effective_size dmabuf ms ≤ s.vm.va_limit) :
    VmInv (gk20a_vm_map_pinned g s env dmabuf oa flags kind um rw bo ms).2.vm := by
  have hcl : ∀ b : BufferAttrs, VmInv (gk20a_vm_map_clean_up s dmabuf false 0 b true).2.vm :=
    fun b => VmInv.clean_up s dmabuf false 0 b true h (fun hv => Bool.noConfusion hv)
  unfold gk20a_vm_map_pinned
  simp only []
  have hbsz : (gk20a_vm_map_attrs g s.vm dmabuf oa flags kind).size = dmabuf.size := rfl
  rw [hbsz]
  have hms : (if ms ≠ 0 then ms else dmabuf.size) = effective_size dmabuf ms := rfl
  rw [hms]
  generalize effective_size dmabuf ms = msz at hsize ⊢
  generalize hbdef : gk20a_vm_map_attrs g s.vm dmabuf oa flags kind = bfr
  by_cases h1 : bfr.pgsz_idx = -1
  · rw [if_pos h1]; exact hcl _
  rw [if_neg h1]
  by_cases h2 : bfr.pgsz_idx < gmmu_page_size_small ∨ bfr.pgsz_idx > gmmu_page_size_big
  · rw [if_pos h2]; exact hcl _
  rw [if_neg h2]
  have hi : bfr.pgsz_idx.toNat ≤ 1 := by
    unfold gmmu_page_size_small gmmu_page_size_big at h2
    push_neg at h2
    omega
  by_cases h3 : flag_set flags g.NVGPU_AS_MAP_BUFFER_FLAGS_FIXED_OFFSET = true ∧
      validate_fixed_buffer s.vm bfr oa msz ≠ 0
  · rw [if_pos h3]; exact hcl _
  rw [if_neg h3]
  have hkp := setup_buffer_kind_and_compression_pgsz g s.vm bfr bfr.pgsz_idx.toNat
  generalize setup_buffer_kind_and_compression g s.vm bfr bfr.pgsz_idx.toNat = k at hkp ⊢
  have hik : k.2.pgsz_idx.toNat ≤ 1 := by rw [hkp]; exact hi
  cases hfix : flag_set flags g.NVGPU_AS_MAP_BUFFER_FLAGS_FIXED_OFFSET
  · simp only [Bool.false_eq_true, if_false, Bool.not_false]
    by_cases h4 : k.1 ≠ 0
    · rw [if_pos h4]
      exact VmInv.clean_up_zero s dmabuf true k.2 true h hik
    · rw [if_neg h4]
      exact VmInv.map_ptes g s env dmabuf flags kind um rw bo msz k.2 true 0 h hik hsize
        (Or.inl ⟨rfl, rfl⟩)
  · simp only [if_true, Bool.not_true]
    by_cases h4 : k.1 ≠ 0
    · rw [if_pos h4]
      exact VmInv.clean_up s dmabuf false oa k.2 true h (fun hv => Bool.noConfusion hv)
    · rw [if_neg h4]
      have hval : validate_fixed_buffer s.vm bfr oa msz = 0 := by
        by_contra hv
        exact h3 ⟨hfix, hv⟩
      have hoa : oa ≠ 0 := by
        obtain ⟨_, _, va0, hva0, _, _⟩ := (validate_fixed_buffer_zero s.vm bfr oa msz).1 hval
        obtain ⟨hm, hc⟩ := addr_to_reservation_some _ _ _ hva0
        obtain ⟨hb, _⟩ := h.reservations_ok
        have := (reservation_contains_iff oa va0
          (by have := (hb va0 hm).1; unfold U64; omega)).1 hc
        have := (hb va0 hm).2.1
        omega
      exact VmInv.map_ptes g s env dmabuf flags kind um rw bo msz k.2 false oa h hik hsize
        (Or.inr ⟨rfl, hoa, bfr, hval⟩)

/-- `gk20a_vm_map` keeps the address space well formed, on every path, when
the request is not larger than the aperture. -/
theorem VmInv.map (g : Gk20a) (s : MmState) (env : Env) (dmabuf : DmaBuf)
    (oa flags kind : Nat) (um : Bool) (rw bo ms : Nat) (h : VmInv s.vm)
    (hsize : effective_size dmabuf ms ≤ s.vm.va_limit) :
    VmInv (gk20a_vm_map g s env dmabuf oa flags kind um rw bo ms).2.vm := by
  have hd := VmInv.map_duplicate g s dmabuf.id oa flags kind um h
  have hl := gk20a_vm_map_duplicate_locked_va_limit g s dmabuf.id oa flags kind um
  unfold gk20a_vm_map
  simp only []
  generalize gk20a_vm_map_duplicate_locked g s dmabuf.id oa flags kind um = d at hd hl ⊢
  by_cases h1 : d.1 ≠ 0
  · rw [if_pos h1]; exact hd
  rw [if_neg h1]
  have hpv : (gk20a_mm_pin d.2 env dmabuf.id).2.vm = d.2.vm := gk20a_mm_pin_vm _ _ _
  generalize gk20a_mm_pin d.2 env dmabuf.id = pin at hpv ⊢
  have hp : VmInv pin.2.vm := by rw [hpv]; exact hd
  by_cases h2 : pin.1 = false
  · rw [if_pos h2]
    exact VmInv.clean_up pin.2 dmabuf false 0 _ false hp (fun hv => Bool.noConfusion hv)
  · rw [if_neg h2]
    exact VmInv.map_pinned g pin.2 env dmabuf oa flags kind um rw bo ms hp
      (by rw [hpv, hl]; exact hsize)

/-! ## The fresh address space -/

/-- The address space `gk20a_init_vm` sets up is well formed, for a big page
size `2^k` with `12 ≤ k < 31`, a low hole of at least one small page that ends
inside the small-page part, and an aperture of less than `2^44` bytes that,
with big pages enabled, reaches beyond the 16 GiB small-page part. -/
theorem gk20a_init_vm_inv (enable_ctag : Bool) (big_page_size low_hole aperture_size : Nat)
    (big_pages : Bool) (k : Nat) (hk : 12 ≤ k ∧ k < 31) (hbig : big_page_size = 2 ^ k)
    (hlow : 4096 ≤ low_hole)
    (hlow2 : low_hole ≤ (if big_pages then 16 <<< 30 else aperture_size))
    (haper : aperture_size + 4096 ≤ 2 ^ 44)
    (hap2 : big_pages = true → 16 <<< 30 ≤ aperture_size) :
    VmInv (gk20a_init_vm enable_ctag big_page_size low_hole aperture_size big_pages) := by
  have h12 : ilog2 4096 = 12 := ilog2_two_pow 12 (by norm_num)
  have hkk : ilog2 (2 ^ k) = k := ilog2_two_pow k (by omega)
  have hpk12 : 2 ^ 12 ≤ 2 ^ k := Nat.pow_le_pow_right (by norm_num) hk.1
  have hpk30 : 2 ^ k ≤ 2 ^ 30 := Nat.pow_le_pow_right (by norm_num) (by omega)
  have hkpos : 0 < 2 ^ k := Nat.two_pow_pos k
  subst hbig
  have h34 : (16 <<< 30 : Nat) = 2 ^ 34 := by decide
  have hdvd : 2 ^ k ∣ 2 ^ 34 := Nat.pow_dvd_pow 2 (by omega)
  have hbmul : 2 ^ 34 / 2 ^ k * 2 ^ k = 2 ^ 34 := Nat.div_mul_cancel hdvd
  have hbpos : 0 < 2 ^ 34 / 2 ^ k := Nat.div_pos (Nat.pow_le_pow_right (by norm_num) (by omega)) hkpos
  have hble : 2 ^ 34 / 2 ^ k ≤ 2 ^ 22 := by
    calc 2 ^ 34 / 2 ^ k ≤ 2 ^ 34 / 2 ^ 12 := Nat.div_le_div_left hpk12 (by norm_num)
      _ = 2 ^ 22 := by norm_num
  have hb32 : 2 ^ 34 / 2 ^ k < U32 := by unfold U32; omega
  have hb34 : u32 ((16 <<< 30) / 2 ^ k) = (2 ^ 34 / 2 ^ k) % U32 := by rw [h34]; rfl
  have hlarge : big_pages = true →
      u32 (u64 (aperture_size + U64 - 16 <<< 30) / 2 ^ k) = ((aperture_size - 2 ^ 34) / 2 ^ k) % U32 ∧
      (aperture_size - 2 ^ 34) / 2 ^ k ≤ 2 ^ 32 - 2 ^ 22 := by
    intro hbp
    have hap := hap2 hbp
    rw [h34] at hap ⊢
    have h1 : u64 (aperture_size + U64 - 2 ^ 34) = aperture_size - 2 ^ 34 := by
      unfold u64 U64; omega
    rw [h1]
    refine ⟨rfl, ?_⟩
    calc (aperture_size - 2 ^ 34) / 2 ^ k ≤ (aperture_size - 2 ^ 34) / 2 ^ 12 :=
          Nat.div_le_div_left hpk12 (by norm_num)
      _ ≤ 2 ^ 32 - 2 ^ 22 := by omega
  refine ⟨⟨?_, ?_, ?_, ?_, ?_, ?_, ?_, ?_, ?_⟩, ?_, ?_, ?_⟩
  · intro i
    unfold VmGk20a.gmmu_page_sizes gk20a_init_vm
    simp only []
    split
    · exact ⟨12, by norm_num, by norm_num⟩
    · exact ⟨k, hk.2, rfl⟩
  · intro i
    unfold VmGk20a.gmmu_page_sizes gk20a_init_vm
    simp only []
    split
    · unfold U32; omega
    · have : (2 ^ 32 - 1) * 2 ^ 12 ≤ (2 ^ 32 - 1) * 2 ^ k := Nat.mul_le_mul_left _ hpk12
      unfold U32
      omega
  · exact List.Pairwise.nil
  · intro i
    simp [va_claims, gk20a_init_vm, RbNode.toList]
  · intro e he
    simp [gk20a_init_vm, RbNode.toList] at he
  · intro r hr
    simp [gk20a_init_vm] at hr
  · intro e he
    simp [gk20a_init_vm, RbNode.toList] at he
  · intro r hr
    simp [gk20a_init_vm] at hr
  · intro r hr
    simp [gk20a_init_vm] at hr
  · intro i
    unfold VmGk20a.vma gk20a_init_vm
    simp only []
    rw [h12]
    split
    · -- the small-page allocator
      refine ⟨⟨fun r hr => absurd hr (List.not_mem_nil _), List.Pairwise.nil⟩, ?_, ?_⟩
      all_goals
        simp only [Gk20aAllocator.init, Nat.shiftRight_eq_div_pow]
        cases big_pages <;> simp only [Bool.false_eq_true, if_false, if_true] at hlow2 ⊢ <;>
          unfold u32 U32 <;> omega
    · cases big_pages
      · simp only [Bool.false_eq_true, if_false]
        refine ⟨⟨fun r hr => absurd hr (List.not_mem_nil _), List.Pairwise.nil⟩, ?_, ?_⟩
        · simp [Gk20aAllocator.init, U32]
        · right; simp [Gk20aAllocator.init]
      · simp only [if_true]
        rw [hkk]
        have hap := hap2 rfl
        refine ⟨⟨fun r hr => absurd hr (List.not_mem_nil _), List.Pairwise.nil⟩, ?_, ?_⟩
        · simp only [Gk20aAllocator.init, Nat.shiftRight_eq_div_pow]
          obtain ⟨hl1, hl2⟩ := hlarge rfl
          rw [hb34, Nat.mod_eq_of_lt hb32, hl1]
          have := Nat.mod_le ((aperture_size - 2 ^ 34) / 2 ^ k) U32
          unfold U32
          omega
        · left
          simp only [Gk20aAllocator.init, Nat.shiftRight_eq_div_pow]
          rw [hb34, Nat.mod_eq_of_lt hb32]
          exact hbpos
  · unfold gk20a_init_vm
    simp only []
    rw [h12]
    cases big_pages
    · right
      simp [Gk20aAllocator.init]
    · left
      simp only [if_true, Bool.false_eq_true, if_false] at hlow2 ⊢
      rw [hkk]
      simp only [Gk20aAllocator.init, Nat.shiftRight_eq_div_pow]
      rw [hb34, Nat.mod_eq_of_lt hb32, hbmul]
      unfold u32 U32
      omega
  · intro i c hc
    simp [va_claims, gk20a_init_vm, RbNode.toList] at hc

/-! ## Reachable states -/

/-- A `gk20a_vm_free_space` call that returns an error leaves the address
space as it was. -/
theorem gk20a_vm_free_space_error_vm (s : MmState) (env : Env) (args : SpaceArgs)
    (herr : (gk20a_vm_free_space s env args).1 ≠ 0) :
    (gk20a_vm_free_space s env args).2.vm = s.vm := by
  unfold gk20a_vm_free_space at herr ⊢
  simp only [] at herr ⊢
  generalize determine_pgsz_idx s.vm args.page_size = i at herr ⊢
  by_cases hi : i ≥ gmmu_nr_page_sizes
  · rw [if_pos hi]
  · rw [if_neg hi] at herr ⊢
    generalize u32 (args.offset >>> ilog2 (s.vm.gmmu_page_sizes i)) = st at herr ⊢
    have hfree : ((s.vm.vma i).free st args.pages).1 ≠ 0 →
        ((s.vm.vma i).free st args.pages).2 = s.vm.vma i := by
      unfold Gk20aAllocator.free
      split
      · intro h; exact absurd rfl h
      · intro _; rfl
    by_cases hr : ((s.vm.vma i).free st args.pages).1 ≠ 0
    · rw [if_pos hr, hfree hr, VmGk20a.set_vma_self]
      rfl
    · rw [if_neg hr] at herr
      exfalso
      revert herr
      cases addr_to_reservation (s.with_vm (s.vm.set_vma i ((s.vm.vma i).free st args.pages).2)).vm
        args.offset <;> exact fun h => hr h

/-- Every call of `MmStep` keeps the address space well formed. -/
theorem VmInv.step {g : Gk20a} {s s' : MmState} (h : VmInv s.vm) (hs : MmStep g s s') :
    VmInv s'.vm := by
  cases hs with
  | map env dmabuf oa flags kind um rw bo ms hsize =>
    exact VmInv.map g s env dmabuf oa flags kind um rw bo ms h hsize
  | unmap env offset => exact VmInv.unmap s env offset h
  | unmap_user env offset => exact VmInv.unmap_user g s env offset h
  | alloc_space env args hpages => exact VmInv.alloc_space g s env args h
  | free_space env args hrel =>
    rcases hrel with herr | hrel
    · rw [gk20a_vm_free_space_error_vm s env args herr]
      exact h
    · exact VmInv.free_space s env args h hrel

/-- The states reachable from a well-formed address space are well formed. -/
theorem VmInv.reachable {g : Gk20a} {s0 s : MmState} (h0 : VmInv s0.vm)
    (hr : MmReachable g s0 s) : VmInv s.vm := by
  induction hr with
  | init => exact h0
  | step s s' _ hs ih => exact ih.step hs

/-- C1 (amended): from an address space as `gk20a_init_vm` sets it up (big
page size `2^k` with `12 ≤ k < 31`, low hole of at least one small page inside
the small-page part, aperture below `2^44` bytes and, with big pages, beyond
the 16 GiB small-page part), every state reached by `gk20a_vm_map` calls whose
mapping size is at most the aperture, `gk20a_vm_unmap`, `gk20a_vm_unmap_user`,
`gk20a_vm_alloc_space`, and `gk20a_vm_free_space` calls that return an error
or release a reservation with its own offset, page size and page count while
no linked buffer has a reference besides the one the call drops, is a
well-formed address space, and any two distinct entries of its registry have
disjoint ranges. -/
theorem mm_reachable_no_overlap (g : Gk20a) (s0 s : MmState) (enable_ctag : Bool)
    (big_page_size low_hole aperture_size : Nat) (big_pages : Bool) (k : Nat)
    (hk : 12 ≤ k ∧ k < 31) (hbig : big_page_size = 2 ^ k) (hlow : 4096 ≤ low_hole)
    (hlow2 : low_hole ≤ (if big_pages then 16 <<< 30 else aperture_size))
    (haper : aperture_size + 4096 ≤ 2 ^ 44)
    (hap2 : big_pages = true → 16 <<< 30 ≤ aperture_size)
    (hinit : s0.vm = gk20a_init_vm enable_ctag big_page_size low_hole aperture_size big_pages)
    (hr : MmReachable g s0 s) :
    NoOverlap s.vm ∧ VmInv s.vm := by
  have h0 : VmInv s0.vm := by
    rw [hinit]
    exact gk20a_init_vm_inv enable_ctag big_page_size low_hole aperture_size big_pages k hk hbig
      hlow hlow2 haper hap2
  have h := VmInv.reachable h0 hr
  exact ⟨h.no_overlap, h⟩

/-- The fresh sample address space taken through eleven calls: a reservation,
a fixed-offset mapping into it, two mappings without fixed offset, a user
unmap, the release of the reservation together with its linked buffer, two
mappings that reuse the released addresses, a release that fails, an unmap and
a small-page mapping. The registry holds three entries at the end, two of them
adjacent, and no two of them overlap. -/
theorem mm_reachable_no_overlap_witness :
    MmReachable sample_g sample_state disjoint_trace_11 ∧
    disjoint_trace_4.vm.mapped_buffers.toList.map (fun e => (e.addr, e.size)) =
      [(0x400010000, 0x10000), (0x400020000, 0x20000), (0x400040000, 0x30000)] ∧
    ReleasesReservation disjoint_trace_5 (disjoint_trace_args 0x400000000) ∧
    disjoint_trace_6.vm.mapped_buffers.toList.map (fun e => (e.addr, e.size)) =
      [(0x400040000, 0x30000)] ∧
    (gk20a_vm_free_space disjoint_trace_8 sample_env (disjoint_trace_args 0x400040000)).1 ≠ 0 ∧
    disjoint_trace_11.vm.mapped_buffers.toList.map (fun e => (e.addr, e.size)) =
      [(0x4000000, 0x10000), (0x400000000, 0x20000), (0x400020000, 0x10000)] ∧
    NoOverlap disjoint_trace_11.vm := by
  have hrel : ReleasesReservation disjoint_trace_5 (disjoint_trace_args 0x400000000) :=
    ⟨{ vaddr_start := 0x400000000, size := 0x20000, pgsz_idx := 1, sparse := false,
       va_buffers_list := [{ addr := 0x400010000, size := 0x10000 }] },
      by decide, by decide, by decide, by decide, by decide, by decide⟩
  have herr : (gk20a_vm_free_space disjoint_trace_8 sample_env
      (disjoint_trace_args 0x400040000)).1 ≠ 0 := by decide
  have h1 : MmReachable sample_g sample_state disjoint_trace_1 :=
    .step _ _ .init (MmStep.alloc_space sample_state sample_env (disjoint_trace_args 0)
      (by decide))
  have h2 : MmReachable sample_g sample_state disjoint_trace_2 :=
    .step _ _ h1 (MmStep.map disjoint_trace_1 sample_env sample_buf_b 0x400010000 1 0 true 0 0 0
      (by decide))
  have h3 : MmReachable sample_g sample_state disjoint_trace_3 :=
    .step _ _ h2 (MmStep.map disjoint_trace_2 sample_env sample_buf_a 0 0 0 true 0 0 0
      (by decide))
  have h4 : MmReachable sample_g sample_state disjoint_trace_4 :=
    .step _ _ h3 (MmStep.map disjoint_trace_3 sample_env sample_buf_f 0 0 0 false 0 0 0
      (by decide))
  have h5 : MmReachable sample_g sample_state disjoint_trace_5 :=
    .step _ _ h4 (MmStep.unmap_user disjoint_trace_4 sample_env 0x400020000)
  have h6 : MmReachable sample_g sample_state disjoint_trace_6 :=
    .step _ _ h5 (MmStep.free_space disjoint_trace_5 sample_env (disjoint_trace_args 0x400000000)
      (Or.inr hrel))
  have h7 : MmReachable sample_g sample_state disjoint_trace_7 :=
    .step _ _ h6 (MmStep.map disjoint_trace_6 sample_env sample_buf_a 0 0 0 false 0 0 0
      (by decide))
  have h8 : MmReachable sample_g sample_state disjoint_trace_8 :=
    .step _ _ h7 (MmStep.map disjoint_trace_7 sample_env sample_buf_b 0 0 0 false 0 0 0
      (by decide))
  have h9 : MmReachable sample_g sample_state disjoint_trace_9 :=
    .step _ _ h8 (MmStep.free_space disjoint_trace_8 sample_env (disjoint_trace_args 0x400040000)
      (Or.inl herr))
  have h10 : MmReachable sample_g sample_state disjoint_trace_10 :=
    .step _ _ h9 (MmStep.unmap disjoint_trace_9 sample_env 0x400040000)
  have h11 : MmReachable sample_g sample_state disjoint_trace_11 :=
    .step _ _ h10 (MmStep.map disjoint_trace_10 sample_env sample_buf_c 0 0 0 false 0 0 0
      (by decide))
  exact ⟨h11, by decide, hrel, by decide, herr, by decide,
    (mm_reachable_no_overlap sample_g sample_state disjoint_trace_11 true 0x10000 (0x10000 <<< 10)
      (1 <<< 35) true 16 (by decide) (by decide) (by decide) (by decide) (by decide) (by decide)
      rfl h11).1⟩

end Gk20aMm
